import Mathlib

/-!
# LibBi: observation mask, ancestry algebra, stratified resampler, bridge particle filter

A shallow embedding of `bi::Mask` (`bi/buffer/Mask.hpp`), of `bi::Resampler`
(`bi/resampler/Resampler.hpp`), of `bi::StratifiedResampler`
(`bi/resampler/StratifiedResampler.hpp`), of `bi::BridgeParticleFilter`
(`bi/method/BridgeParticleFilter.hpp`) and of the wrapper `bi::Filter`
(`bi/method/Filter.hpp`), with the properties stated about them.

Conventions of the embedding

* C++ `int` values are `Int`.  The arithmetic on the `int` counters of the mask
  (`denseSize`, `sparseSize`, `size()`) is taken in 32-bit two's complement
  (`intWrap`); sizes and indices of vectors, which are bounded by the vectors
  themselves, are used as they are.
* Variable ids and matrix coordinates are `Nat`.  The source performs no bounds
  check of its own on `info(i, j)`; statements quantify over ids inside the
  matrix wherever the property depends on it.
* Reads of the coordinate vector `ixs` return `Option`: `none` is a read outside
  the vector.
* Vectors are lists; a vector passed for output is described by its content
  after the call.  Where the source reads one argument while it writes another
  (`Resampler::correct`), the embedding says whether the two share storage.
* Log-weights have a type `T`, weights a linearly ordered field `K` (exact
  arithmetic); the exponential and `logsumexp` are parameters.
* The assertions `BI_ASSERT` of the source are taken as checked; a call that
  throws, fails an assertion or leaves a vector is an `Outcome` of its own.
* Code of the repository that is not among the sources (the host implementations
  of the resampler, the vector primitives, the particle state) is modelled from
  the specification and marked so.
* The methods that the filter inherits, the model and the schedule are not among
  the sources: they are parameters of the filter (`Collaborators`, `Schedule`).
  A run of the filter records the calls it makes in a trace; its loops are given
  a number of steps (`fuel`), and a schedule with `k` points needs at most `k`.
-/

namespace bi

/-- Storage location of a container, the template parameter `L` of `Mask`. -/
inductive Location where
  | ON_HOST
  | ON_DEVICE
deriving DecidableEq, Repr

/-- Modelled from the spec: the integer matrix type behind `Mask::info`
(`loc_temp_matrix<L,int>::type`, declared in `math/loc_temp_matrix.hpp`, which is
not among the sources).  A `size1 × size2` table of integers; `elems i j` is the
entry `info(i, j)`. -/
structure Matrix where
  size1 : Nat
  size2 : Nat
  elems : Nat → Nat → Int

namespace Matrix

/-- Modelled from the spec: element read `info(i, j)`. -/
def get (m : Matrix) (i j : Nat) : Int :=
  m.elems i j

/-- Modelled from the spec: element write `info(i, j) = x`; every other entry
keeps its value. -/
def set (m : Matrix) (i j : Nat) (x : Int) : Matrix :=
  { m with elems := fun a b => if a = i ∧ b = j then x else m.elems a b }

/-- Modelled from the spec: `info.clear()` resets the matrix, every entry becomes
zero and the dimensions stay. -/
def clear (m : Matrix) : Matrix :=
  { m with elems := fun _ _ => 0 }

/-- Modelled from the spec: `info.resize(rows, cols, preserve)` gives the matrix
the requested dimensions.  The entries after a non-preserving resize are
unspecified; the model keeps the old table. -/
def resize (m : Matrix) (rows cols : Nat) (_preserve : Bool) : Matrix :=
  { m with size1 := rows, size2 := cols }

/-- Modelled from the spec: matrix assignment `info = o.info` copies the contents
element-wise.  The spec describes it after the target has been resized to the
source dimensions, so the copy is defined between matrices of equal dimensions
only; `none` is an assignment between matrices of different dimensions. -/
def assign (tgt src : Matrix) : Option Matrix :=
  if tgt.size1 = src.size1 ∧ tgt.size2 = src.size2 then
    some { tgt with elems := src.elems }
  else
    none

end Matrix

/-- Modelled from the spec: the integer vector type behind `Mask::ixs`
(`loc_temp_vector<L,int>::type`, not among the sources) is a list of integers. -/
abbrev Vector := List Int

namespace Vector

/-- Modelled from the spec: element read `x(i)` with a C++ `int` index; `none`
outside `[0, x.size())`. -/
def get? (x : Vector) (i : Int) : Option Int :=
  if 0 ≤ i then x[i.toNat]? else none

/-- Modelled from the spec: `x.resize(n, preserve)` gives the vector length `n`,
keeping the leading entries (new entries are unspecified, the model uses 0). -/
def resize (x : Vector) (n : Nat) (_preserve : Bool) : Vector :=
  x.take n ++ List.replicate (n - x.length) 0

/-- Modelled from the spec: `subrange(x, start, size)` read as a value, the
borrowed slice of length `size` starting at `start`; `none` when the range does
not lie inside the vector. -/
def subrange (x : Vector) (start size : Int) : Option Vector :=
  if 0 ≤ start ∧ 0 ≤ size ∧ start + size ≤ x.length then
    some ((x.drop start.toNat).take size.toNat)
  else
    none

/-- Modelled from the spec: `subrange(x, start, size) = ys`, the element-wise
copy of `ys` into the slice; `none` when the slice does not lie inside the
vector or its length differs from that of `ys`. -/
def assignSubrange (x : Vector) (start size : Nat) (ys : Vector) : Option Vector :=
  if start + size ≤ x.length ∧ ys.length = size then
    some (x.take start ++ ys ++ x.drop (start + size))
  else
    none

/-- Modelled from the spec: vector assignment `x = y` copies element-wise between
vectors of equal length; `none` when the lengths differ. -/
def assign (tgt src : Vector) : Option Vector :=
  if tgt.length = src.length then some src else none

end Vector

/-- Largest value of a C++ `int` on the targets of the library (32 bits). -/
def INT_MAX : Int := 2147483647

/-- Smallest value of a C++ `int` on the targets of the library (32 bits). -/
def INT_MIN : Int := -2147483648

/-- Value of an `int` computation whose exact result is `x`: the representative
of `x` modulo `2^32` in `[INT_MIN, INT_MAX]` (two's complement wrap-around on
overflow). -/
def intWrap (x : Int) : Int :=
  (x - INT_MIN) % 4294967296 + INT_MIN

/-- The class `Mask<L>`: the three-row matrix `info` (row 0 dense sizes, row 1
sparse sizes, row 2 offsets into `ixs`), the serialised coordinates `ixs`, and
the two counters. -/
structure Mask (L : Location) where
  info : Matrix
  ixs : Vector
  denseSize : Int
  sparseSize : Int

namespace Mask

/-- `Mask::getNumVars`: `info.size2()`. -/
def getNumVars {L : Location} (m : Mask L) : Nat :=
  m.info.size2

/-- `Mask::size`: `denseSize + sparseSize`, an addition of `int`s. -/
def size {L : Location} (m : Mask L) : Int :=
  intWrap (m.denseSize + m.sparseSize)

/-- `Mask::clear`. -/
def clear {L : Location} (m : Mask L) : Mask L :=
  { info := m.info.clear
    ixs := Vector.resize m.ixs 0 false
    denseSize := 0
    sparseSize := 0 }

/-- `Mask::init`. -/
def init {L : Location} (m : Mask L) (numVars : Nat) : Mask L :=
  clear { m with info := m.info.resize 3 numVars false
                 ixs := Vector.resize m.ixs 0 false }

/-- State of the members before the constructor body runs: default-constructed
(empty) containers.  The counters are not initialised by the source at this
point; both constructors overwrite them before any read. -/
def uninit (L : Location) : Mask L :=
  { info := { size1 := 0, size2 := 0, elems := fun _ _ => 0 }
    ixs := []
    denseSize := 0
    sparseSize := 0 }

/-- Constructor `Mask(numVars)`: `init(numVars); clear();`. -/
def mk0 (L : Location) (numVars : Nat) : Mask L :=
  clear (init (uninit L) numVars)

/-- `Mask::addDenseMask`.  The pre-condition `BI_ASSERT(L == ON_HOST)` is carried
by the type of the argument; `denseSize += size` is an addition of `int`s. -/
def addDenseMask (m : Mask Location.ON_HOST) (id : Nat) (size : Int) :
    Mask Location.ON_HOST :=
  { m with info := m.info.set 0 id size
           denseSize := intWrap (m.denseSize + size) }

/-- Body of the `for (id = 0; id < ids.size(); ++id)` loop of
`Mask::addSparseMask`: `info(2, id) = start; info(1, id) = size;` with `id` the
loop counter. -/
def addSparseMaskBody (start size : Int) (info : Matrix) (id : Nat) : Matrix :=
  (info.set 2 id start).set 1 id size

/-- `Mask::addSparseMask`.  The pre-condition `BI_ASSERT(L == ON_HOST)` is
carried by the type of the argument.  Of `ids` the source reads `ids.size()`
only. -/
def addSparseMask (m : Mask Location.ON_HOST) (ids : List Nat) (indices : Vector) :
    Option (Mask Location.ON_HOST) :=
  let start := m.ixs.length
  let size := indices.length
  let ixs1 := Vector.resize m.ixs (start + size) true
  match Vector.assignSubrange ixs1 start size indices with
  | none => none
  | some ixs2 =>
    some
      { info := (List.range ids.length).foldl
          (addSparseMaskBody (start : Int) (size : Int)) m.info
        ixs := ixs2
        denseSize := m.denseSize
        sparseSize := intWrap (m.sparseSize + (ids.length : Int) * (size : Int)) }

/-- `Mask::isDense`. -/
def isDense {L : Location} (m : Mask L) (id : Nat) : Bool :=
  decide (m.info.get 0 id > 0)

/-- `Mask::isSparse`. -/
def isSparse {L : Location} (m : Mask L) (id : Nat) : Bool :=
  decide (m.info.get 1 id > 0)

/-- `Mask::getSize`. -/
def getSize {L : Location} (m : Mask L) (id : Nat) : Int :=
  if isDense m id then
    m.info.get 0 id
  else if isSparse m id then
    m.info.get 1 id
  else
    0

/-- `Mask::getIndex`; `none` is a read outside `ixs`. -/
def getIndex {L : Location} (m : Mask L) (id : Nat) (i : Int) : Option Int :=
  if isSparse m id then
    Vector.get? m.ixs (m.info.get 2 id + i)
  else
    some i

/-- `Mask::getIndices`: the pointer arithmetic of the source reads `info(2, id)`
and `info(1, id)` directly; `none` is a slice that does not lie inside `ixs`. -/
def getIndices {L : Location} (m : Mask L) (id : Nat) : Option Vector :=
  let start := m.info.get 2 id
  let size := m.info.get 1 id
  Vector.subrange m.ixs start size

/-- Generic assignment `Mask<L>::operator=(const Mask<L2>&)`; the same-location
assignment has the same body. -/
def operatorAssign {L L2 : Location} (m : Mask L) (o : Mask L2) : Option (Mask L) :=
  let ixs1 := Vector.resize m.ixs o.ixs.length false
  match Matrix.assign m.info o.info with
  | none => none
  | some info1 =>
    match Vector.assign ixs1 o.ixs with
    | none => none
    | some ixs2 =>
      some { info := info1, ixs := ixs2, denseSize := o.denseSize, sparseSize := o.sparseSize }

/-- Generic copy constructor `Mask<L>::Mask(const Mask<L2>&)`:
`info.resize(o.info.size1(), o.info.size2()); operator=(o);`. -/
def copyFrom (L : Location) {L2 : Location} (o : Mask L2) : Option (Mask L) :=
  let m := uninit L
  operatorAssign
    { m with info := m.info.resize o.info.size1 o.info.size2 false } o

/-- Sum over all variables of the entries of row `r` of `info`. -/
def sumRow {L : Location} (m : Mask L) (r : Nat) : Int :=
  ((List.range m.getNumVars).map (fun v => m.info.get r v)).sum

/-- Sum over all variables `v` of `getSize(v)`. -/
def sumSizes {L : Location} (m : Mask L) : Int :=
  ((List.range m.getNumVars).map (fun v => getSize m v)).sum

/-- Masks reachable from a cleared mask by calls of `addDenseMask` and
`addSparseMask` whose variable ids lie inside the matrix. -/
inductive Reachable : Mask Location.ON_HOST → Prop where
  | cleared (m0 : Mask Location.ON_HOST) : Reachable (clear m0)
  | dense {m : Mask Location.ON_HOST} (id : Nat) (size : Int) :
      Reachable m → id < m.getNumVars → Reachable (addDenseMask m id size)
  | sparse {m m' : Mask Location.ON_HOST} (ids : List Nat) (indices : Vector) :
      Reachable m → (∀ id ∈ ids, id < m.getNumVars) → ids.length ≤ m.getNumVars →
      addSparseMask m ids indices = some m' → Reachable m'

/-- Result of `addSparseMask(ids, indices)` on a mask, read as a mask: the
call itself when it is defined, the unchanged mask otherwise. -/
def afterSparse (m : Mask Location.ON_HOST) (ids : List Nat) (indices : Vector) :
    Mask Location.ON_HOST :=
  (addSparseMask m ids indices).getD m

end Mask

namespace Resampler

/-- Read `x[a]` through a permutation iterator, `a` being a C++ `int`; `none`
outside `[0, x.size())`. -/
def read? {α : Type} (x : List α) (a : Int) : Option α :=
  if 0 ≤ a then x[a.toNat]? else none

/-- The `thrust::transform` of `Resampler::correct` over the two permutation
iterators, run for the output positions `i`, `i + 1`, ... in turn on the storage
`cur` of `lws` (an entry is `none` while its content is unspecified): position
`i` is set to `lws1[as[i]] - qlws[as[i]]`.  `lws1` is the copy of `lws` made
before the transform; `qlws` is read in place: from the list `qlws` when it has
storage of its own, from `cur` when it shares the storage of `lws` (`aliased`).
`none` is a read or a write outside a vector, or a read of an unspecified
entry. -/
def correctTransform {α : Type} [Sub α] (aliased : Bool) (lws1 qlws : List α) :
    List Int → Nat → List (Option α) → Option (List (Option α))
  | [], _, cur => some cur
  | a :: rest, i, cur =>
    match read? lws1 a, (if aliased then (read? cur a).join else read? qlws a) with
    | some x, some q =>
      if i < cur.length then
        correctTransform aliased lws1 qlws rest (i + 1) (cur.set i (some (x - q)))
      else none
    | _, _ => none

/-- Content of a storage all of whose entries have been written; `none` when an
entry is unspecified. -/
def contents {α : Type} : List (Option α) → Option (List α)
  | [] => some []
  | none :: _ => none
  | some x :: rest => (contents rest).map (fun xs => x :: xs)

/-- `Resampler::correct(as, qlws, lws)`, returning the new content of `lws`.
The vectors of the library are views of storage that several of them can share:
`aliased` says that the argument `qlws` is the vector `lws` itself (then the list
`qlws` is its content at the call).  The source copies `lws` to `lws1`, resizes
`lws` to `P = as.size()` (modelled from the spec: the content is kept when the
size is already `P` and unspecified otherwise) and lets the transform write the
`P` entries in place while it reads `lws1` and `qlws`.  `none` is a failed
pre-condition `BI_ASSERT(qlws.size() == lws.size())` or a read outside a vector
or of an unspecified entry. -/
def correct {α : Type} [Sub α] (aliased : Bool) (as : List Int) (qlws lws : List α) :
    Option (List α) :=
  if qlws.length = lws.length then
    let lws1 := lws
    let cur := if as.length = lws.length then lws.map some else List.replicate as.length none
    match correctTransform aliased lws1 qlws as 0 cur with
    | none => none
    | some out => contents out
  else
    none

end Resampler

namespace Resampler

/-- One iteration of the loop of `Resampler::copy(as, std::vector<T1*>&)`, for
slot `i`: `a = as(i); if (i != a) { v[i]->resize(v[a]->size()); *v[i] = *v[a]; }`.
`none` is an access outside `as` or `v`. -/
def copyStep {R : Type} (as : List Int) (v : List R) (i : Nat) : Option (List R) :=
  match as[i]? with
  | none => none
  | some a =>
    if (i : Int) ≠ a then
      match read? v a with
      | none => none
      | some row => if i < v.length then some (v.set i row) else none
    else
      some v

/-- The loop of `Resampler::copy(as, std::vector<T1*>&)` with its iterations run
in the order given by `order`.  The source loop `for (i = 0; i < as.size(); ++i)`
is an OpenMP `parallel for`, which fixes no order among the iterations; an
execution is described by a rearrangement `order` of `0, ..., as.size() - 1`.
The pre-condition `BI_ASSERT(!V1::on_device)` holds for the host vectors of the
model. -/
def copy {R : Type} (as : List Int) : List Nat → List R → Option (List R)
  | [], v => some v
  | i :: rest, v =>
    match copyStep as v i with
    | none => none
    | some v1 => copy as rest v1

/-- Modelled from the spec: `ResamplerHost::copy(as, X)` (`host/resampler`, not
among the sources), the in-place copy of the rows of the ensemble matrix,
`if as[i] ≠ i: row(X, i) ← row(X, as[i])`, with the slots taken in increasing
order. -/
def copyMatrix {R : Type} (as : List Int) (X : List R) : Option (List R) :=
  copy as (List.range as.length) X

/-- Modelled from the spec: `ResamplerHost::ancestorsToOffspring(as, os)` (not among
the sources).  The offspring count of particle `j` is the number of copies it
contributes, the number of slots `i` with `as[i] = j`; `P` is the size of the
output vector `os`. -/
def ancestorsToOffspring (as : List Int) (P : Nat) : List Int :=
  (List.range P).map (fun (j : Nat) => ((as.count (j : Int) : Nat) : Int))

/-- Auxiliary recursion of `offspringToAncestors`: particles `j, j + 1, ...` with
offspring counts `os`. -/
def offspringToAncestorsFrom : Nat → List Int → List Int
  | _, [] => []
  | j, o :: os => List.replicate o.toNat (j : Int) ++ offspringToAncestorsFrom (j + 1) os

/-- Modelled from the spec: `ResamplerHost::offspringToAncestors(os, as)` (not among
the sources): for each particle `j` with `os[j] > 0`, emit `j` exactly `os[j]`
times. -/
def offspringToAncestors (os : List Int) : List Int :=
  offspringToAncestorsFrom 0 os

/-- Modelled from the spec: `sum_inclusive_scan(os, Os)` (`primitive/vector_primitive.hpp`,
not among the sources), the inclusive prefix sum, started from `acc`. -/
def inclusiveScanFrom {α : Type} [Add α] : α → List α → List α
  | _, [] => []
  | acc, x :: xs => (acc + x) :: inclusiveScanFrom (acc + x) xs

/-- Modelled from the spec: `sum_inclusive_scan(os, Os)`, `Os[j] = os[0] + ... + os[j]`. -/
def sum_inclusive_scan {α : Type} [Add α] [Zero α] (xs : List α) : List α :=
  inclusiveScanFrom 0 xs

/-- Modelled from the spec: `ResamplerHost::cumulativeOffspringToAncestors(Os, as)`
(not among the sources): with `n = Os[P-1]`, for output slot `i` in `[0, n)` the
ancestor is the smallest `j` with `Os[j] > i`. -/
def cumulativeOffspringToAncestors (Os : List Int) : List Int :=
  (List.range (Os.getLast?.getD 0).toNat).map
    (fun (i : Nat) => ((Os.findIdx (fun O => decide ((i : Int) < O)) : Nat) : Int))

/-- Modelled from the spec: step 1 of the permutation algorithm for writer `i`,
on the pair of the claims recorded so far (`is[j] = some i` when slot `j` is
claimed by writer `i`) and the ancestors of the writers displaced so far.
Writer `i` claims slot `as[i]` if it is currently unclaimed; otherwise the
writer is unplaced. -/
def permuteClaim (as : List Int) (st : List (Option Nat) × List Int) (i : Nat) :
    List (Option Nat) × List Int :=
  match as[i]? with
  | none => st
  | some a =>
    match read? st.1 a with
    | some none => (st.1.set a.toNat (some i), st.2)
    | _ => (st.1, st.2 ++ [a])

/-- Modelled from the spec: step 1 of the permutation algorithm, for each slot
`i` in turn. -/
def permuteClaims (as : List Int) : List (Option Nat) × List Int :=
  (List.range as.length).foldl (permuteClaim as) (List.replicate as.length none, [])

/-- Modelled from the spec: steps 2 and 3 of the permutation algorithm.  A slot
claimed by writer `i` receives that writer's ancestor `as[i]` (the slot itself,
so it is self-fixed); the unplaced writers are distributed over the unclaimed
slots, here in increasing order of both.  `none` when the unplaced writers do
not suffice for the unclaimed slots. -/
def permutePlace (as : List Int) : List (Option Nat) → List Int → Option (List Int)
  | [], _ => some []
  | some i :: is, d =>
    match as[i]?, permutePlace as is d with
    | some a, some cs => some (a :: cs)
    | _, _ => none
  | none :: is, a :: d =>
    match permutePlace as is d with
    | some cs => some (a :: cs)
    | none => none
  | none :: _, [] => none

/-- Modelled from the spec: `ResamplerHost::permute(as)` (not among the sources),
the permutation algorithm of the ancestry algebra: claims, then placement. -/
def permuteHost (as : List Int) : Option (List Int) :=
  permutePlace as (permuteClaims as).1 (permuteClaims as).2

/-- `Resampler::permute`: dispatch to the implementation for the location of
`as`. -/
def permute (as : List Int) : Option (List Int) :=
  permuteHost as

/-- Modelled from the spec: `ResamplerHost::cumulativeOffspringToAncestorsPermute`
(not among the sources): the ancestry of the cumulative offspring, emitted
already permuted. -/
def cumulativeOffspringToAncestorsPermute (Os : List Int) : Option (List Int) :=
  permute (cumulativeOffspringToAncestors Os)

/-- Ancestors held by the claimed slots of a claim vector `is`: `as[i]` for every
recorded claim `some i`, in slot order. -/
def claimedAncestors (as : List Int) (is : List (Option Nat)) : List Int :=
  is.filterMap (fun o => o.bind (fun i => as[i]?))

end Resampler

/-- Result of a call that can throw `ParticleFilterDegeneratedException`: the
returned value with the state left to the caller, the state left to the caller
when the exception is thrown, a failed `BI_ASSERT`/`BI_ERROR` (the assertions of
the source are taken as checked), or an access outside a vector. -/
inductive Outcome (ρ σ : Type) where
  | ok : ρ → σ → Outcome ρ σ
  | degenerated : σ → Outcome ρ σ
  | assertion : Outcome ρ σ
  | undefined : Outcome ρ σ

/-- Modelled from the spec: the random number generator (`random/Random.hpp`, not
among the sources), a consumed collaborator that supplies uniform draws.
`uniforms k` is the outcome of the `k`-th draw, `pos` the number of draws
consumed so far. -/
structure Random (K : Type) where
  uniforms : Nat → K
  pos : Nat

/-- What a call of the resampler shares with its caller besides the vectors: the
random number generator, and a count of the calls of `op` made so far (a ghost
counter, used to state that `op` has not been called). -/
structure Env (K : Type) where
  rng : Random K
  opCalls : Nat

/-- Modelled from the spec: `seq_elements(x, first)` (`primitive/vector_primitive.hpp`,
not among the sources), `x[i] = first + i`. -/
def seq_elements (x : List Int) (first : Int) : List Int :=
  (List.range x.length).map (fun (i : Nat) => first + (i : Int))

/-- Modelled from the spec: `bi::sort_by_key(keys, values)` (not among the
sources): the keys are sorted ascending and the values permuted with them. -/
def sort_by_key {T : Type} [LinearOrder T] (keys : List T) (values : List Int) :
    List T × List Int :=
  ((keys.zip values).insertionSort (fun a b => a.1 ≤ b.1)).unzip

/-- Modelled from the spec: `sumexpu_inclusive_scan(lws, Ws)` (not among the
sources), the cumulative sum of the exponentiated log-weights; the exponential
`expu` is a parameter. -/
def sumexpu_inclusive_scan {T K : Type} [Add K] [Zero K] (expu : T → K) (lws : List T) :
    List K :=
  Resampler.sum_inclusive_scan (lws.map expu)

/-- Auxiliary recursion of `adjacent_difference`, `prev` being the element before
the list. -/
def adjacentDifferenceFrom : Int → List Int → List Int
  | _, [] => []
  | prev, x :: xs => (x - prev) :: adjacentDifferenceFrom x xs

/-- Modelled from the spec: `bi::adjacent_difference(Os, os)` (not among the sources):
`os[0] = Os[0]` and `os[i] = Os[i] - Os[i-1]`. -/
def adjacent_difference (Os : List Int) : List Int :=
  adjacentDifferenceFrom 0 Os

/-- Modelled from the spec: `bi::scatter(map, src, dst)` (not among the sources):
`dst[map[i]] = src[i]` for every `i`; `none` is an access outside a vector. -/
def scatter : List Int → List Int → List Int → Option (List Int)
  | [], _, dst => some dst
  | _ :: _, [], _ => none
  | p :: ps, x :: src, dst =>
    if 0 ≤ p ∧ p.toNat < dst.length then scatter ps src (dst.set p.toNat x) else none

/-- Modelled from the spec: `sum_reduce(os)` (not among the sources). -/
def sum_reduce (os : List Int) : Int :=
  os.sum

/-- Modelled from the spec: `addscal_elements(tail, 1, tail)` on
`tail = subrange(Os, a, Os.size() - a)`: every entry from index `a` on is
increased by one; `none` when the range does not lie inside `Os`. -/
def addscalTail (Os : List Int) (a : Int) : Option (List Int) :=
  if 0 ≤ a ∧ a ≤ (Os.length : Int) then
    some (Os.take a.toNat ++ (Os.drop a.toNat).map (fun O => O + 1))
  else
    none

/-- Modelled from the spec: the particle ensemble `State<B,L>` (`state/State.hpp`,
not among the sources).  `rows` are the trajectories of the buffer from
`start()` on, one row per particle, `size` is the number `P` of active ones. -/
structure State (R : Type) where
  rows : List R
  size : Nat

namespace State

/-- Modelled from the spec: `s.setRange(s.start(), P)`; `none` when the range does
not lie inside the buffer. -/
def setRange {R : Type} (s : State R) (P : Nat) : Option (State R) :=
  if P ≤ s.rows.length then some { s with size := P } else none

/-- Modelled from the spec: `s.getDyn()`, the rows of the active particles. -/
def getDyn {R : Type} (s : State R) : List R :=
  s.rows.take s.size

end State

namespace Resampler

/-- `Resampler::copy(as, State<B,L>& s)`:
`s.setRange(s.start(), max(s.size(), as.size())); copy(as, s.getDyn());
s.setRange(s.start(), as.size());`, where `copy(as, X)` checks
`BI_ASSERT(as.size() <= X.size1())` and runs the in-place copy on the rows of
`X`.  `none` is a failed assertion or an access outside the buffer. -/
def copyState {R : Type} (as : List Int) (s : State R) : Option (State R) :=
  match s.setRange (max s.size as.length) with
  | none => none
  | some s1 =>
    if as.length ≤ s1.getDyn.length then
      match copyMatrix as s1.getDyn with
      | none => none
      | some X => State.setRange { s1 with rows := X ++ s1.rows.drop s1.size } as.length
    else
      none

end Resampler

/-- Modelled from the spec: `StratifiedResamplerHost::op(rng, Ws, Os, n)`
(`host/resampler/StratifiedResamplerHost.hpp`, not among the sources), the
stratified offspring draw: with `W = Ws[P-1]` and `u_i = (i + U_i) / n` for `i`
in `[0, n)`, `Os[j]` is the number of `i` with `u_i · W ≤ Ws[j]`.  The draw
consumes `n` uniforms. -/
def StratifiedResamplerHost.op {K : Type} [LinearOrderedField K] (rng : Random K)
    (Ws : List K) (n : Int) : Random K × List Int :=
  let W := Ws.getLast?.getD 0
  ({ rng with pos := rng.pos + n.toNat },
    Ws.map (fun w =>
      (((List.range n.toNat).countP
        (fun (i : Nat) => decide ((((i : K) + rng.uniforms (rng.pos + i)) / (n : K)) * W ≤ w)) :
          Nat) :
          Int)))

/-- The class `StratifiedResampler`: the member `sort`, and as parameters the parts
it uses that are not among the sources: the trigger `isTriggered(lws)` (effective
sample size below the fraction `essRel` of `P`), the exponential `expu` behind
`sumexpu_inclusive_scan`, and `logsumexp` behind `normalise`. -/
structure StratifiedResampler (T K : Type) where
  sort : Bool
  isTriggered : List T → Bool
  expu : T → K
  logsumexp : List T → T

/-- State of the arguments of a `resample` call that the caller sees afterwards:
the random number generator (with the ghost counter), the log-weights `lws`,
the ancestry `as`, the particle state `s`. -/
structure ResampleState (T R K : Type) where
  env : Env K
  lws : List T
  as : List Int
  s : State R

namespace StratifiedResampler

/-- `StratifiedResampler::op`: dispatch to the implementation for the location of
the vectors (the pre-condition `V1::on_device == V2::on_device` holds for the
host vectors of the model).  The call is counted in `opCalls`. -/
def op {K : Type} [LinearOrderedField K] (env : Env K) (Ws : List K) (n : Int) :
    Env K × List Int :=
  ({ rng := (StratifiedResamplerHost.op env.rng Ws n).1, opCalls := env.opCalls + 1 },
    (StratifiedResamplerHost.op env.rng Ws n).2)

/-- `normalise(lws)` (not among the sources), modelled from the spec: subtract
`logsumexp(lws)` from every log-weight. -/
def normalise {T K : Type} [Sub T] (self : StratifiedResampler T K) (lws : List T) : List T :=
  lws.map (fun x => x - self.logsumexp lws)

/-- Modelled from the spec: `lws.clear()` (vector class, not among the sources)
sets every entry to zero and keeps the length. -/
def clearVector {T : Type} [Zero T] (lws : List T) : List T :=
  List.replicate lws.length 0

/-- The branch `if (sort) { ... }` of `offspring(rng, lws, os, n)`, which is also
what the call `offspring(rng, lws, os, n)` made by `cumulativeOffspring` runs
(`sort` is true there and `os` has the size of `lws`). -/
def offspringSortBranch {T K : Type} [LinearOrder T] [LinearOrderedField K]
    (self : StratifiedResampler T K) (env : Env K) (lws : List T) (os : List Int) (n : Int) :
    Outcome Unit (Env K × List Int) :=
  let lws1 := lws
  let ps := seq_elements (List.replicate lws.length 0) 0
  let sorted := sort_by_key lws1 ps
  let Ws := sumexpu_inclusive_scan self.expu sorted.1
  match Ws.getLast? with
  | none => Outcome.undefined
  | some W =>
    if W > 0 then
      let r := op env Ws n
      let temp := adjacent_difference r.2
      match scatter sorted.2 temp os with
      | none => Outcome.undefined
      | some os1 =>
        if sum_reduce os1 = n then Outcome.ok () (r.1, os1) else Outcome.assertion
    else
      Outcome.degenerated (env, os)

/-- `StratifiedResampler::cumulativeOffspring(rng, lws, Os, n)`. -/
def cumulativeOffspring {T K : Type} [LinearOrder T] [LinearOrderedField K]
    (self : StratifiedResampler T K) (env : Env K) (lws : List T) (Os : List Int) (n : Int) :
    Outcome Unit (Env K × List Int) :=
  if lws.length ≠ Os.length then Outcome.assertion
  else if self.sort then
    match offspringSortBranch self env lws (List.replicate lws.length 0) n with
    | Outcome.ok _ (env1, os1) => Outcome.ok () (env1, Resampler.sum_inclusive_scan os1)
    | Outcome.degenerated (env1, _) => Outcome.degenerated (env1, Os)
    | Outcome.assertion => Outcome.assertion
    | Outcome.undefined => Outcome.undefined
  else
    let Ws := sumexpu_inclusive_scan self.expu lws
    match Ws.getLast? with
    | none => Outcome.undefined
    | some W =>
      if W > 0 then
        let r := op env Ws n
        if r.2.getLast? = some n then Outcome.ok () r else Outcome.assertion
      else
        Outcome.degenerated (env, Os)

/-- `StratifiedResampler::offspring(rng, lws, os, n)`. -/
def offspring {T K : Type} [LinearOrder T] [LinearOrderedField K]
    (self : StratifiedResampler T K) (env : Env K) (lws : List T) (os : List Int) (n : Int) :
    Outcome Unit (Env K × List Int) :=
  if lws.length ≠ os.length then Outcome.assertion
  else if self.sort then
    offspringSortBranch self env lws os n
  else
    match cumulativeOffspring self env lws (List.replicate lws.length 0) n with
    | Outcome.ok _ (env1, Os1) => Outcome.ok () (env1, adjacent_difference Os1)
    | Outcome.degenerated (env1, _) => Outcome.degenerated (env1, os)
    | Outcome.assertion => Outcome.assertion
    | Outcome.undefined => Outcome.undefined

/-- The branch `if (sort) { ... }` of `offspring(rng, lws, os, n, ka, sorted, lws1,
ps, Ws)`; `lws1`, `ps`, `Ws` are the scratch vectors of the caller. -/
def offspringKaSortBranch {T K : Type} [LinearOrder T] [LinearOrderedField K]
    (self : StratifiedResampler T K) (env : Env K) (lws : List T) (os : List Int)
    (_n : Int) (_ka : Int) ( sorted : Bool) (lws1 : List T) (ps : List Int) (Ws : List K) :
    Outcome Unit (Env K × List Int) :=
  let scratch : Option (List K) :=
    if !sorted then
      if lws1.length = lws.length ∧ ps.length = lws.length ∧ Ws.length = lws.length then
        some (sumexpu_inclusive_scan self.expu (sort_by_key lws (seq_elements ps 0)).1)
      else
        none
    else
      some Ws
  match scratch with
  | none => Outcome.undefined
  | some Ws1 =>
    match Ws1.getLast? with
    | none => Outcome.undefined
    | some W =>
      if W > 0 then Outcome.assertion
      else Outcome.degenerated (env, os)

/-- `StratifiedResampler::cumulativeOffspring(rng, lws, Os, n, ka, sorted, lws1, ps,
Ws)`.  Both `W > 0` branches stop at "Not yet implemented". -/
def cumulativeOffspringKa {T K : Type} [LinearOrder T] [LinearOrderedField K]
    (self : StratifiedResampler T K) (env : Env K) (lws : List T) (Os : List Int)
    (n : Int) (ka : Int) ( sorted : Bool) (lws1 : List T) (ps : List Int) (Ws : List K) :
    Outcome Unit (Env K × List Int) :=
  if lws.length ≠ Os.length then Outcome.assertion
  else if ¬ (0 ≤ ka ∧ ka < (lws.length : Int)) then Outcome.assertion
  else if self.sort then
    match offspringKaSortBranch self env lws (List.replicate lws.length 0) n ka sorted lws1 ps
        Ws with
    | Outcome.ok _ (env1, os1) => Outcome.ok () (env1, Resampler.sum_inclusive_scan os1)
    | Outcome.degenerated (env1, _) => Outcome.degenerated (env1, Os)
    | Outcome.assertion => Outcome.assertion
    | Outcome.undefined => Outcome.undefined
  else if Ws.length ≠ lws.length then Outcome.undefined
  else
    match (sumexpu_inclusive_scan self.expu lws).getLast? with
    | none => Outcome.undefined
    | some W =>
      if W > 0 then Outcome.assertion
      else Outcome.degenerated (env, Os)

/-- `StratifiedResampler::offspring(rng, lws, os, n, ka, sorted, lws1, ps, Ws)`. -/
def offspringKa {T K : Type} [LinearOrder T] [LinearOrderedField K]
    (self : StratifiedResampler T K) (env : Env K) (lws : List T) (os : List Int)
    (n : Int) (ka : Int) ( sorted : Bool) (lws1 : List T) (ps : List Int) (Ws : List K) :
    Outcome Unit (Env K × List Int) :=
  if lws.length ≠ os.length then Outcome.assertion
  else if ¬ (0 ≤ ka ∧ ka < (lws.length : Int)) then Outcome.assertion
  else if self.sort then
    offspringKaSortBranch self env lws os n ka sorted lws1 ps Ws
  else
    match cumulativeOffspringKa self env lws (List.replicate lws.length 0) n ka sorted lws1 ps
        Ws with
    | Outcome.ok _ (env1, Os1) => Outcome.ok () (env1, adjacent_difference Os1)
    | Outcome.degenerated (env1, _) => Outcome.degenerated (env1, os)
    | Outcome.assertion => Outcome.assertion
    | Outcome.undefined => Outcome.undefined

/-- The branch `else { normalise(lws); seq_elements(as, 0); }` common to the
`resample` overloads and `cond_resample`. -/
def notTriggered {T R K : Type} [Sub T] (self : StratifiedResampler T K)
    (st : ResampleState T R K) : ResampleState T R K :=
  { st with lws := normalise self st.lws, as := seq_elements st.as 0 }

/-- `StratifiedResampler::resample(rng, lws, as, s)`. -/
def resample {T R K : Type} [LinearOrder T] [Sub T] [Zero T] [LinearOrderedField K]
    (self : StratifiedResampler T K) (st : ResampleState T R K) :
    Outcome Bool (ResampleState T R K) :=
  if st.lws.length ≠ st.as.length then Outcome.assertion
  else if self.isTriggered st.lws then
    match cumulativeOffspring self st.env st.lws (List.replicate st.lws.length 0)
        (st.lws.length : Int) with
    | Outcome.ok _ (env1, Os) =>
      match Resampler.cumulativeOffspringToAncestorsPermute Os with
      | none => Outcome.undefined
      | some as1 =>
        match Resampler.copyState as1 st.s with
        | none => Outcome.undefined
        | some s1 =>
          Outcome.ok true { env := env1, lws := clearVector st.lws, as := as1, s := s1 }
    | Outcome.degenerated (env1, _) => Outcome.degenerated { st with env := env1 }
    | Outcome.assertion => Outcome.assertion
    | Outcome.undefined => Outcome.undefined
  else
    Outcome.ok false (notTriggered self st)

/-- The steps `cumulativeOffspringToAncestorsPermute(Os, as); correct(as, qlws, lws);
normalise(lws); copy(as, s);` shared by the two proposal overloads of `resample`.
The proposal log-weights `qlws` are a vector with storage of its own. -/
def resampleProposalTail {T R K : Type} [Sub T] (self : StratifiedResampler T K)
    (qlws : List T) (st : ResampleState T R K) (env1 : Env K) (Os : List Int) :
    Outcome Bool (ResampleState T R K) :=
  match Resampler.cumulativeOffspringToAncestorsPermute Os with
  | none => Outcome.undefined
  | some as1 =>
    match Resampler.correct false as1 qlws st.lws with
    | none => Outcome.undefined
    | some lws1 =>
      match Resampler.copyState as1 st.s with
      | none => Outcome.undefined
      | some s1 =>
        Outcome.ok true { env := env1, lws := normalise self lws1, as := as1, s := s1 }

/-- `StratifiedResampler::resample(rng, qlws, lws, as, s)`, resampling with
proposal log-weights. -/
def resampleProposal {T R K : Type} [LinearOrder T] [Sub T] [LinearOrderedField K]
    (self : StratifiedResampler T K) (qlws : List T) (st : ResampleState T R K) :
    Outcome Bool (ResampleState T R K) :=
  if qlws.length ≠ st.lws.length then Outcome.assertion
  else if self.isTriggered st.lws then
    match cumulativeOffspring self st.env qlws (List.replicate st.lws.length 0)
        (st.lws.length : Int) with
    | Outcome.ok _ (env1, Os) => resampleProposalTail self qlws st env1 Os
    | Outcome.degenerated (env1, _) => Outcome.degenerated { st with env := env1 }
    | Outcome.assertion => Outcome.assertion
    | Outcome.undefined => Outcome.undefined
  else
    Outcome.ok false (notTriggered self st)

/-- `StratifiedResampler::resample(rng, a, qlws, lws, as, s)`, resampling with
proposal log-weights and the fixed ancestor `a`. -/
def resampleFixed {T R K : Type} [LinearOrder T] [Sub T] [LinearOrderedField K]
    (self : StratifiedResampler T K) (a : Int) (qlws : List T) (st : ResampleState T R K) :
    Outcome Bool (ResampleState T R K) :=
  if qlws.length ≠ st.lws.length then Outcome.assertion
  else if self.isTriggered st.lws then
    match cumulativeOffspring self st.env qlws (List.replicate st.lws.length 0)
        ((st.lws.length : Int) - 1) with
    | Outcome.ok _ (env1, Os) =>
      match addscalTail Os a with
      | none => Outcome.undefined
      | some Os1 => resampleProposalTail self qlws st env1 Os1
    | Outcome.degenerated (env1, _) => Outcome.degenerated { st with env := env1 }
    | Outcome.assertion => Outcome.assertion
    | Outcome.undefined => Outcome.undefined
  else
    Outcome.ok false (notTriggered self st)

/-- `StratifiedResampler::cond_resample(rng, ka, k, lws, as, s)`. -/
def cond_resample {T R K : Type} [LinearOrder T] [Sub T] [Zero T] [LinearOrderedField K]
    (self : StratifiedResampler T K) (ka k : Int) (st : ResampleState T R K) :
    Outcome Bool (ResampleState T R K) :=
  if st.lws.length ≠ st.as.length then Outcome.assertion
  else if ¬ (0 ≤ k ∧ k < (st.as.length : Int)) then Outcome.assertion
  else if ¬ (0 ≤ ka ∧ ka < (st.lws.length : Int)) then Outcome.assertion
  else if ¬ (k = 0 ∧ ka = 0) then Outcome.assertion
  else if self.isTriggered st.lws then
    let P2 : Nat := if !self.sort then 0 else st.s.size
    match cumulativeOffspringKa self st.env st.lws (List.replicate st.lws.length 0)
        (st.lws.length : Int) ka false
        (List.replicate P2 0) (List.replicate P2 0) (List.replicate P2 0) with
    | Outcome.ok _ (env1, Os) =>
      match Resampler.cumulativeOffspringToAncestorsPermute Os with
      | none => Outcome.undefined
      | some as1 =>
        if Resampler.read? as1 k ≠ some ka then Outcome.assertion
        else
          match Resampler.copyState as1 st.s with
          | none => Outcome.undefined
          | some s1 =>
            Outcome.ok true { env := env1, lws := clearVector st.lws, as := as1, s := s1 }
    | Outcome.degenerated (env1, _) => Outcome.degenerated { st with env := env1 }
    | Outcome.assertion => Outcome.assertion
    | Outcome.undefined => Outcome.undefined
  else
    Outcome.ok false (notTriggered self st)

/-- Total weight of the log-weights `lws`: the sum of their exponentials, which
is the last element of the cumulative sum when `lws` is not empty. -/
def totalWeight {T K : Type} [Add K] [Zero K] (self : StratifiedResampler T K)
    (lws : List T) : K :=
  (lws.map self.expu).sum

end StratifiedResampler

/-- A concrete exponential for the examples: base two over integer log-weights,
with underflow to zero below `-1074` as for a double. -/
def expu2 (x : Int) : ℚ :=
  if x < -1074 then 0 else (2 : ℚ) ^ x

/-- A stratified resampler for the examples: integer log-weights, rational
weights, trigger `trigger`, and the maximum standing for `logsumexp`. -/
def exampleResampler ( sort trigger : Bool) : StratifiedResampler Int ℚ :=
  { sort := sort
    isTriggered := fun _ => trigger
    expu := expu2
    logsumexp := fun lws => lws.foldl max 0 }

/-- A random number generator for the examples whose draws all are `1/2`, with
no call of `op` counted yet. -/
def exampleEnv : Env ℚ :=
  { rng := { uniforms := fun _ => 1 / 2, pos := 0 }, opCalls := 0 }

/-- A state of the arguments of `resample` for the examples: log-weights `lws`,
the ancestry `[7, 7]` left by an earlier call, two particles `a` and `b`. -/
def exampleState (lws : List Int) : ResampleState Int String ℚ :=
  { env := exampleEnv, lws := lws, as := [7, 7], s := { rows := ["a", "b"], size := 2 } }

/-- Modelled from the spec: a point of the time schedule (`ScheduleElement`,
`state/Schedule.hpp`, not among the sources): its time, the flags `hasOutput`,
`hasBridge`, `isObserved`, and the indices `indexOutput`, `indexObs`. -/
structure ScheduleElement where
  getTime : Int
  hasOutput : Bool
  hasBridge : Bool
  isObserved : Bool
  indexOutput : Int
  indexObs : Int
  deriving DecidableEq

/-- Modelled from the spec: the time schedule seen through its iterators
(`ScheduleIterator`, not among the sources).  An iterator is a position, `iter + 1`
is the next position, and `sched i` is the schedule point `*iter` designated by
the iterator at position `i`. -/
abbrev Schedule := Nat → ScheduleElement

/-- A call made by a filter run, recorded in the order of execution (a ghost
trace).  `pos` is the position of the iterator whose schedule point the call
receives; `correct` and `output` are recorded with the ensemble they are invoked
on, `correct` and `bridge` with the value they return, `output` and `resample`
with the resampling flag. -/
inductive Event (T S : Type) where
  | init (pos : Nat)
  | write (pos : Nat) (col : Int)
  | output0
  | correct (pos : Nat) (s : S) (ll : T)
  | output (pos : Nat) (s : S) (r : Bool)
  | step (pos : Nat)
  | bridge (pos : Nat) (ll : T)
  | bridgeLogDensities (indexObs : Int)
  | resample (pos : Nat) (r : Bool)
  | resampleFailed (pos : Nat)
  | predict (pos : Nat)
  | term
  | outputT (ll : T)

/-- Contribution of a recorded call to the log-likelihood: the value returned by
`bridge` and by `correct`, zero for every other call. -/
def Event.increment {T S : Type} [Zero T] : Event T S → T
  | Event.correct _ _ ll => ll
  | Event.bridge _ ll => ll
  | _ => 0

/-- Result of a run of the filter or of one of its parts: it returns a value, it
is left by `ParticleFilterDegeneratedException`, it fails an assertion, it
accesses a row or a column that does not exist, or the steps allowed to the run
(`fuel`) are used up.  Each case carries the state reached. -/
inductive Run (α σ : Type) where
  | done : α → σ → Run α σ
  | degenerated : σ → Run α σ
  | assertion : σ → Run α σ
  | undefined : σ → Run α σ
  | outOfFuel : σ → Run α σ

/-- State reached by a run, whatever its result. -/
def Run.state {α σ : Type} : Run α σ → σ
  | Run.done _ st => st
  | Run.degenerated st => st
  | Run.assertion st => st
  | Run.undefined st => st
  | Run.outOfFuel st => st

/-- What the filter holds during a run: the random number generator, the
particle state `s`, the log-weights `lws`, the bridge log-weights `blws` and the
ancestry `as`. -/
structure Particles (T R G : Type) where
  rng : G
  s : State R
  lws : List T
  blws : List T
  as : List Int

/-- State of a filter run: the particles and the calls made so far. -/
structure FilterState (T R G : Type) where
  p : Particles T R G
  trace : List (Event T (State R))

/-- The parts of the filter that are not among the sources, as parameters: the
methods inherited from `AuxiliaryParticleFilter` (`init` in its two forms,
`correct`, `resample`, `predict`; `output0`, `output`, `term` and `outputT` only
write to the output and appear in the trace), the model (`bridgeLogDensities`),
the observation masks of the simulator (`getMask`), and the functions
`logsumexp_reduce` and `bi::log`.  `correct` returns its value with the new
`lws` and `blws`; `resample` can throw. -/
structure Collaborators (T R G : Type) where
  init : ScheduleElement → Particles T R G → Particles T R G
  initTheta : ScheduleElement → Particles T R G → Particles T R G
  correct : ScheduleElement → State R → List T → List T → T × List T × List T
  resample : ScheduleElement → Particles T R G → Outcome Bool (Particles T R G)
  predict : G → ScheduleElement → State R → G × State R
  bridgeLogDensities : State R → Mask Location.ON_HOST → List T → List T
  getMask : Int → Mask Location.ON_HOST
  logsumexp_reduce : List T → T
  log : T → T

/-- Modelled from the spec: `axpy(a, x, y)` (`math/operation.hpp`, not among the
sources), `y ← a x + y`; `none` when the sizes differ. -/
def axpy {T : Type} [Mul T] [Add T] (a : T) (x y : List T) : Option (List T) :=
  if x.length = y.length then some (List.zipWith (fun xi yi => a * xi + yi) x y) else none

/-- Modelled from the spec: `column(X, j)` (matrix views, not among the sources);
the reference path `X` is the list of its columns, `none` outside the matrix. -/
def column {R : Type} (X : List R) (j : Int) : Option R :=
  Resampler.read? X j

/-- Modelled from the spec: `row(s.getDyn(), 0) = x`, the write of row `0` of the
active particles; `none` when there is no such row. -/
def State.setRow0 {R : Type} (s : State R) (x : R) : Option (State R) :=
  if 0 < s.size ∧ 0 < s.rows.length then some { s with rows := s.rows.set 0 x } else none

/-- The statement `row(s.getDyn(), 0) = column(X, j)` of the conditional
overloads. -/
def writeRow0 {R : Type} (s : State R) (X : List R) (j : Int) : Option (State R) :=
  match column X j with
  | none => none
  | some x => s.setRow0 x

namespace BridgeParticleFilter

/-- `BridgeParticleFilter::bridge(rng, iter, last, s, lws, blws)`.  The call of
the model is recorded in the trace. -/
def bridge {T R G : Type} [Ring T] (c : Collaborators T R G) (sched : Schedule)
    (iter last : Nat) (st : FilterState T R G) : Run T (FilterState T R G) :=
  if st.p.lws.length ≠ st.p.blws.length then Run.assertion st
  else if (sched iter).hasBridge && !(sched iter).isObserved
      && decide ((sched last).indexObs > (sched iter).indexObs) then
    match axpy (-1) st.p.blws st.p.lws with
    | none => Run.undefined st
    | some lws1 =>
      let blws1 := StratifiedResampler.clearVector st.p.blws
      let blws2 := c.bridgeLogDensities st.p.s (c.getMask (sched iter).indexObs) blws1
      match axpy 1 blws2 lws1 with
      | none => Run.undefined st
      | some lws2 =>
        Run.done (c.logsumexp_reduce lws2 - c.log ((st.p.s.size : Nat) : T))
          { p := { st.p with lws := lws2, blws := blws2 },
            trace := st.trace ++ [Event.bridgeLogDensities (sched iter).indexObs] }
  else Run.done 0 st

/-- The statement `if (iter->hasOutput()) { row(s.getDyn(), 0) = column(X,
iter->indexOutput()); }` of the conditional `step`; without a reference path
(`X = none`, the plain `step`) nothing is written. -/
def conditionalWrite {T R G : Type} (sched : Schedule) (X : Option (List R)) (iter : Nat)
    (st : FilterState T R G) : Option (FilterState T R G) :=
  match X with
  | none => some st
  | some X1 =>
    if (sched iter).hasOutput then
      match writeRow0 st.p.s X1 (sched iter).indexOutput with
      | none => none
      | some s1 =>
        some { p := { st.p with s := s1 },
               trace := st.trace ++ [Event.write iter (sched iter).indexOutput] }
    else some st

/-- One pass through the body of the loop `do { ... } while (...)` of
`BridgeParticleFilter::step`, in both overloads (the conditional one has the
reference path `X`), from the iterator position `iter`: `bridge`, `resample`,
`++iter`, `predict`, the conditional write, `correct`, `output`.  Returns the
values of `bridge` and of `correct`. -/
def stepBody {T R G : Type} [Ring T] (c : Collaborators T R G) (sched : Schedule)
    (last : Nat) (X : Option (List R)) (iter : Nat) (st : FilterState T R G) :
    Run (T × T) (FilterState T R G) :=
  match bridge c sched iter last st with
  | Run.done lb st1 =>
    let st2 : FilterState T R G := { st1 with trace := st1.trace ++ [Event.bridge iter lb] }
    match c.resample (sched iter) st2.p with
    | Outcome.ok r p3 =>
      let iter1 := iter + 1
      let pr := c.predict p3.rng (sched iter1) p3.s
      let st4 : FilterState T R G :=
        { p := { p3 with rng := pr.1, s := pr.2 },
          trace := st2.trace ++ [Event.resample iter r, Event.predict iter1] }
      match conditionalWrite sched X iter1 st4 with
      | none => Run.undefined st4
      | some st5 =>
        let cr := c.correct (sched iter1) st5.p.s st5.p.lws st5.p.blws
        Run.done (lb, cr.1)
          { p := { st5.p with lws := cr.2.1, blws := cr.2.2 },
            trace := st5.trace ++
              [Event.correct iter1 st5.p.s cr.1, Event.output iter1 st5.p.s r] }
    | Outcome.degenerated p3 =>
      Run.degenerated { p := p3, trace := st2.trace ++ [Event.resampleFailed iter] }
    | Outcome.assertion =>
      Run.assertion { st2 with trace := st2.trace ++ [Event.resampleFailed iter] }
    | Outcome.undefined =>
      Run.undefined { st2 with trace := st2.trace ++ [Event.resampleFailed iter] }
  | Run.degenerated st1 => Run.degenerated st1
  | Run.assertion st1 => Run.assertion st1
  | Run.undefined st1 => Run.undefined st1
  | Run.outOfFuel st1 => Run.outOfFuel st1

/-- The loop `do { ... } while (iter + 1 != last && !iter->isObserved())` of
`BridgeParticleFilter::step`; `ll` is the sum so far (`ll += bridge(...)`, then
`ll += correct(...)`).  Returns the advanced `iter` with the sum. -/
def stepLoop {T R G : Type} [Ring T] (c : Collaborators T R G) (sched : Schedule)
    (last : Nat) (X : Option (List R)) :
    Nat → Nat → T → FilterState T R G → Run (Nat × T) (FilterState T R G)
  | 0, _, _, st => Run.outOfFuel st
  | fuel + 1, iter, ll, st =>
    match stepBody c sched last X iter st with
    | Run.done r st1 =>
      if (iter + 1) + 1 ≠ last ∧ !(sched (iter + 1)).isObserved then
        stepLoop c sched last X fuel (iter + 1) (ll + r.1 + r.2) st1
      else
        Run.done (iter + 1, ll + r.1 + r.2) st1
    | Run.degenerated st1 => Run.degenerated st1
    | Run.assertion st1 => Run.assertion st1
    | Run.undefined st1 => Run.undefined st1
    | Run.outOfFuel st1 => Run.outOfFuel st1

/-- `BridgeParticleFilter::step(rng, iter, last, s, lws, blws, as)` and, with the
reference path `X`, `step(rng, iter, last, s, X, lws, blws, as)`: `real ll = 0.0`
and the loop.  The call is recorded in the trace. -/
def step {T R G : Type} [Ring T] (c : Collaborators T R G) (sched : Schedule)
    (X : Option (List R)) (fuel : Nat) (iter last : Nat) (st : FilterState T R G) :
    Run (Nat × T) (FilterState T R G) :=
  stepLoop c sched last X fuel iter 0 { st with trace := st.trace ++ [Event.step iter] }

/-- The loop `while (iter + 1 != last) { ll += step(...); }` of `filter`; every
call of `step` may take `n` iterations. -/
def filterLoop {T R G : Type} [Ring T] (c : Collaborators T R G) (sched : Schedule)
    (last : Nat) (X : Option (List R)) (n : Nat) :
    Nat → Nat → T → FilterState T R G → Run (Nat × T) (FilterState T R G)
  | 0, iter, ll, st => if iter + 1 ≠ last then Run.outOfFuel st else Run.done (iter, ll) st
  | fuel + 1, iter, ll, st =>
    if iter + 1 ≠ last then
      match step c sched X n iter last st with
      | Run.done r st1 => filterLoop c sched last X n fuel r.1 (ll + r.2) st1
      | Run.degenerated st1 => Run.degenerated st1
      | Run.assertion st1 => Run.assertion st1
      | Run.undefined st1 => Run.undefined st1
      | Run.outOfFuel st1 => Run.outOfFuel st1
    else Run.done (iter, ll) st

/-- The part of `BridgeParticleFilter::filter` from `this->output0(s)` on, common
to the three overloads: `output0`, the initial `correct`, `output`, the loop,
`term`, `outputT`. -/
def filterRest {T R G : Type} [Ring T] (c : Collaborators T R G) (sched : Schedule)
    (X : Option (List R)) (fuel : Nat) (first last : Nat) (st2 : FilterState T R G) :
    Run T (FilterState T R G) :=
  let r := false
  let iter := first
  let cr := c.correct (sched iter) st2.p.s st2.p.lws st2.p.blws
  let st3 : FilterState T R G :=
    { p := { st2.p with lws := cr.2.1, blws := cr.2.2 },
      trace := st2.trace ++
        [Event.output0, Event.correct iter st2.p.s cr.1, Event.output iter st2.p.s r] }
  match filterLoop c sched last X fuel fuel iter cr.1 st3 with
  | Run.done res st4 =>
    Run.done res.2 { st4 with trace := st4.trace ++ [Event.term, Event.outputT res.2] }
  | Run.degenerated st4 => Run.degenerated st4
  | Run.assertion st4 => Run.assertion st4
  | Run.undefined st4 => Run.undefined st4
  | Run.outOfFuel st4 => Run.outOfFuel st4

/-- The part of `BridgeParticleFilter::filter` after the call of `init`, which
has left the particles `p1`: with the reference path `X` (third overload) the
statement `row(s.getDyn(), 0) = column(X, 0)`, then the part from `output0` on,
with the conditional `step`. -/
def filterFrom {T R G : Type} [Ring T] (c : Collaborators T R G) (sched : Schedule)
    (X : Option (List R)) (fuel : Nat) (first last : Nat) (p1 : Particles T R G) :
    Run T (FilterState T R G) :=
  let iter := first
  let st1 : FilterState T R G := { p := p1, trace := [Event.init iter] }
  match X with
  | none => filterRest c sched X fuel first last st1
  | some X1 =>
    match writeRow0 st1.p.s X1 0 with
    | none => Run.undefined st1
    | some s1 =>
      filterRest c sched X fuel first last
        { p := { st1.p with s := s1 }, trace := st1.trace ++ [Event.write iter 0] }

/-- The body shared by the three overloads of `BridgeParticleFilter::filter`:
`theta` selects the form of `init`, and `X` is the reference path of the third
overload.  The temporaries `lws`, `blws`, `as` have `P = s.size()` entries, taken
as zero until `init` sets them. -/
def filterBody {T R G : Type} [Ring T] (c : Collaborators T R G) (sched : Schedule)
    (theta : Bool) (X : Option (List R)) (fuel : Nat) (first last : Nat) (rng : G)
    (s : State R) : Run T (FilterState T R G) :=
  let P := s.size
  let p0 : Particles T R G :=
    { rng := rng, s := s, lws := List.replicate P 0, blws := List.replicate P 0,
      as := List.replicate P 0 }
  let iter := first
  filterFrom c sched X fuel first last
    (if theta then c.initTheta (sched iter) p0 else c.init (sched iter) p0)

/-- `BridgeParticleFilter::filter(rng, first, last, s, inInit)`. -/
def filter {T R G : Type} [Ring T] (c : Collaborators T R G) (sched : Schedule)
    (fuel : Nat) (first last : Nat) (rng : G) (s : State R) : Run T (FilterState T R G) :=
  filterBody c sched false none fuel first last rng s

/-- `BridgeParticleFilter::filter(rng, first, last, theta, s)`. -/
def filterTheta {T R G : Type} [Ring T] (c : Collaborators T R G) (sched : Schedule)
    (fuel : Nat) (first last : Nat) (rng : G) (s : State R) : Run T (FilterState T R G) :=
  filterBody c sched true none fuel first last rng s

/-- `BridgeParticleFilter::filter(rng, first, last, theta, s, X)`, filtering
conditioned on the reference path `X`. -/
def filterConditional {T R G : Type} [Ring T] (c : Collaborators T R G) (sched : Schedule)
    (fuel : Nat) (first last : Nat) (rng : G) (s : State R) (X : List R) :
    Run T (FilterState T R G) :=
  filterBody c sched true (some X) fuel first last rng s

end BridgeParticleFilter

/-- The base filter `F` of the wrapper `Filter<F>` (a template parameter, not
among the sources), as parameters: its methods act on a state `σ` that stands for
the random number generator, the particle state `s`, the output buffer `out` and
the members of `F`.  `step` returns its value with the advanced `iter`, or
`none` when it throws. -/
structure BaseFilter (T σ : Type) where
  init : ScheduleElement → σ → σ
  initTheta : ScheduleElement → σ → σ
  output0 : σ → σ
  correct : ScheduleElement → σ → T × σ
  output : ScheduleElement → σ → σ
  step : Schedule → Nat → Nat → σ → Option (T × Nat × σ)
  term : σ → σ
  outputT : T → σ → σ

/-- State of a run of the wrapper `Filter<F>`: the state of the base filter and
the calls made so far. -/
structure WrapperState (T σ : Type) where
  st : σ
  trace : List (Event T σ)

namespace Filter

/-- The loop `while (iter + 1 != last) { ll += this->step(rng, iter, last, s,
out); }` of `Filter<F>::filter`. -/
def filterLoop {T σ : Type} [Add T] (f : BaseFilter T σ) (sched : Schedule) (last : Nat) :
    Nat → Nat → T → WrapperState T σ → Run (Nat × T) (WrapperState T σ)
  | 0, iter, ll, w => if iter + 1 ≠ last then Run.outOfFuel w else Run.done (iter, ll) w
  | fuel + 1, iter, ll, w =>
    if iter + 1 ≠ last then
      match f.step sched iter last w.st with
      | some r =>
        filterLoop f sched last fuel r.2.1 (ll + r.1)
          { st := r.2.2, trace := w.trace ++ [Event.step iter] }
      | none => Run.degenerated { w with trace := w.trace ++ [Event.step iter] }
    else Run.done (iter, ll) w

/-- The body shared by the two overloads of `Filter<F>::filter`; `theta` selects
the form of `init`. -/
def filterBody {T σ : Type} [Add T] (f : BaseFilter T σ) (sched : Schedule) (theta : Bool)
    (fuel : Nat) (first last : Nat) (st : σ) : Run T (WrapperState T σ) :=
  let iter := first
  let st1 := if theta then f.initTheta (sched iter) st else f.init (sched iter) st
  let st2 := f.output0 st1
  let cr := f.correct (sched iter) st2
  let st3 := f.output (sched iter) cr.2
  let w : WrapperState T σ :=
    { st := st3,
      trace := [Event.init iter, Event.output0, Event.correct iter st2 cr.1,
        Event.output iter cr.2 false] }
  match filterLoop f sched last fuel iter cr.1 w with
  | Run.done res w1 =>
    Run.done res.2
      { st := f.outputT res.2 (f.term w1.st),
        trace := w1.trace ++ [Event.term, Event.outputT res.2] }
  | Run.degenerated w1 => Run.degenerated w1
  | Run.assertion w1 => Run.assertion w1
  | Run.undefined w1 => Run.undefined w1
  | Run.outOfFuel w1 => Run.outOfFuel w1

/-- `Filter<F>::filter(rng, first, last, s, out, inInit)`. -/
def filter {T σ : Type} [Add T] (f : BaseFilter T σ) (sched : Schedule)
    (fuel : Nat) (first last : Nat) (st : σ) : Run T (WrapperState T σ) :=
  filterBody f sched false fuel first last st

/-- `Filter<F>::filter(rng, first, last, theta, s, out)`. -/
def filterTheta {T σ : Type} [Add T] (f : BaseFilter T σ) (sched : Schedule)
    (fuel : Nat) (first last : Nat) (st : σ) : Run T (WrapperState T σ) :=
  filterBody f sched true fuel first last st

end Filter

/-- A schedule for the examples: the point at position `i` has time `i` and
output index `i`, can be bridged, is observed when `i` is odd, and the index of
its observation is `i / 2`. -/
def exampleSchedule : Schedule := fun i =>
  { getTime := (i : Int), hasOutput := true, hasBridge := true, isObserved := i % 2 == 1,
    indexOutput := (i : Int), indexObs := ((i / 2 : Nat) : Int) }

/-- Collaborators for the examples, over integer log-weights, particles that are
strings and a counter for the random number generator: `init` sets the weights
to zero and the ancestry to the identity, `correct` adds `1` to every log-weight
and returns `2` at an observed point (`0` otherwise), `resample` never resamples,
`predict` advances the counter, the bridge log-density for the observation with
index `k` is `3 + k`, the maximum stands for `logsumexp_reduce` and the identity
for `bi::log`. -/
def exampleCollaborators : Collaborators Int String Nat :=
  { init := fun _ p =>
      { p with lws := StratifiedResampler.clearVector p.lws,
               blws := StratifiedResampler.clearVector p.blws, as := seq_elements p.as 0 }
    initTheta := fun _ p =>
      { p with lws := StratifiedResampler.clearVector p.lws,
               blws := StratifiedResampler.clearVector p.blws, as := seq_elements p.as 0 }
    correct := fun e _ lws blws =>
      (if e.isObserved then 2 else 0,
        if e.isObserved then lws.map (fun x => x + 1) else lws,
        if e.isObserved then StratifiedResampler.clearVector blws else blws)
    resample := fun _ p => Outcome.ok false { p with as := seq_elements p.as 0 }
    predict := fun g _ s => (g + 1, s)
    bridgeLogDensities := fun _ m z => z.map (fun x => x + 3 + (m.getNumVars : Int))
    getMask := fun k => Mask.mk0 Location.ON_HOST k.toNat
    logsumexp_reduce := fun lws => lws.foldl max 0
    log := fun x => x }

/-- A base filter for the examples of the wrapper: its state is a counter of the
calls made, `correct` returns `2`, and `step` advances `iter` by one and returns
`1`. -/
def exampleBaseFilter : BaseFilter Int Nat :=
  { init := fun _ n => n + 1
    initTheta := fun _ n => n + 1
    output0 := fun n => n + 1
    correct := fun _ n => (2, n + 1)
    output := fun _ n => n + 1
    step := fun _ iter _ n => some (1, iter + 1, n + 1)
    term := fun n => n + 1
    outputT := fun _ n => n + 1 }

/-- A state of a filter run for the examples: two particles `a`, `b` with
log-weights `[5, 7]`, bridge log-weights `blws`, and no call made yet. -/
def exampleFilterState (blws : List Int) : FilterState Int String Nat :=
  { p := { rng := 0, s := { rows := ["a", "b"], size := 2 }, lws := [5, 7], blws := blws,
           as := [0, 1] },
    trace := [] }

/-- Row `0` of the ensemble `s` is column `j` of the reference path, when there
is a reference path `X`. -/
def anchoredTo {R : Type} (X : Option (List R)) (j : Int) (s : State R) : Prop :=
  ∀ X1, X = some X1 → ∃ x, column X1 j = some x ∧ s.getDyn[0]? = some x

/-- What a recorded call of `correct` or `output` made by `step` satisfies: it is
for a point after `first`, and when that point has output, row `0` of the ensemble
it is invoked on is column `indexOutput` of the reference path. -/
def Event.Anchored {T R : Type} (sched : Schedule) (X : Option (List R)) (first : Nat) :
    Event T (State R) → Prop
  | Event.correct pos s _ =>
    first < pos ∧ ((sched pos).hasOutput = true → anchoredTo X (sched pos).indexOutput s)
  | Event.output pos s _ =>
    first < pos ∧ ((sched pos).hasOutput = true → anchoredTo X (sched pos).indexOutput s)
  | _ => True

/-- The vectors `lws` and `blws` of the particles have the same size and, when
there is a reference path, the ensemble has a row `0`. -/
def Particles.Sound {T R G : Type} (X : Option (List R)) (p : Particles T R G) : Prop :=
  p.lws.length = p.blws.length ∧ (X ≠ none → 0 < p.s.size ∧ 0 < p.s.rows.length)

/-- Collaborators that do not fail on a run over the schedule points from
`first` to `last`: the model writes one bridge log-density for each particle,
`init`, `correct`, `resample` and `predict` keep the sizes of the vectors (and row
`0` of the ensemble, when there is a reference path), `resample` does not throw,
and the reference path has column `0` and the column of every point with output
after `first`. -/
def Collaborators.Regular {T R G : Type} (c : Collaborators T R G) (sched : Schedule)
    (X : Option (List R)) (first last : Nat) : Prop :=
  (∀ s m z, (c.bridgeLogDensities s m z).length = z.length) ∧
  (∀ e p, Particles.Sound X p →
    Particles.Sound X (c.init e p) ∧ Particles.Sound X (c.initTheta e p)) ∧
  (∀ e p, Particles.Sound X p →
    ∃ r p1, c.resample e p = Outcome.ok r p1 ∧ Particles.Sound X p1) ∧
  (∀ g e s, (X ≠ none → 0 < s.size ∧ 0 < s.rows.length) →
    (X ≠ none → 0 < (c.predict g e s).2.size ∧ 0 < (c.predict g e s).2.rows.length)) ∧
  (∀ e s l b, l.length = b.length →
    (c.correct e s l b).2.1.length = (c.correct e s l b).2.2.length) ∧
  (∀ X1, X = some X1 → (∃ x, column X1 0 = some x) ∧
    ∀ pos, first < pos → pos < last → (sched pos).hasOutput = true →
      ∃ x, column X1 (sched pos).indexOutput = some x)

/-- A schedule for the examples whose times decrease: the example schedule with
the time of the point at position `i` replaced by `-i`. -/
def decreasingSchedule : Schedule := fun i =>
  { exampleSchedule i with getTime := -(i : Int) }

/-- The random number generator whose first `n` draws are `u 0, ..., u (n-1)`
(and `0` afterwards), with no draw consumed yet. -/
def Random.ofDraws {K : Type} [Zero K] (n : Nat) (u : Fin n → K) : Random K :=
  { uniforms := fun k => if h : k < n then u ⟨k, h⟩ else 0, pos := 0 }

/-- The functor `resample_error<T>` with its members `lW` and `P` (of type `T`,
not `int`, so that `o/P` is a division of reals) and its `operator()(lw, o)`.  A
log-weight is `some x` when it is finite and `none` otherwise (`bi::is_finite`
is not among the sources); the exponential `bi::exp` is a parameter. -/
def resample_error {L K : Type} [Sub L] [Field K] (exp : L → K) (lW : L) (P : K)
    (lw : Option L) (o : Int) : K :=
  match lw with
  | some x =>
    let eps := exp (x - lW) - (o : K) / P
    eps * eps
  | none => 0

/-- `Resampler::error(lws, os)`: `lW = logsumexp_reduce(lws)` and the inner
product of `lws` and `os` from `0.0` with `plus` and `resample_error(lW,
lws.size())`.  `logsumexp_reduce` is not among the sources and is a parameter;
`none` is a read outside `os`. -/
def Resampler.error {L K : Type} [Sub L] [Field K] (exp : L → K)
    (logsumexp_reduce : List (Option L) → L) (lws : List (Option L)) (os : List Int) :
    Option K :=
  let lW := logsumexp_reduce lws
  if lws.length ≤ os.length then
    some ((List.zipWith (resample_error exp lW (lws.length : K)) lws os).foldl
      (fun a b => a + b) 0)
  else
    none

/-- The weight of a log-weight: its exponential, `0` for minus infinity. -/
def weightOf {L K : Type} [Zero K] (exp : L → K) (lw : Option L) : K :=
  match lw with
  | some x => exp x
  | none => 0

/-- The formula in the documentation of `Resampler::error`: the sum over all `i`
of `(o_i / P - w_i / W)^2`, with `W` the sum of the weights. -/
def Resampler.documentedError {L K : Type} [Field K] (exp : L → K) (lws : List (Option L))
    (os : List Int) : K :=
  let W := (lws.map (weightOf exp)).sum
  (List.zipWith (fun lw (o : Int) => ((o : K) / (lws.length : K) - weightOf exp lw / W) ^ 2)
    lws os).sum

/-- A concrete exponential for the examples without underflow: base two over
integer log-weights. -/
def exp2 (x : Int) : ℚ :=
  (2 : ℚ) ^ x

/-- For the examples, `logsumexp_reduce` in base two: the logarithm of the sum of
the weights, exact when that sum is a power of two. -/
def logsumexp2 (lws : List (Option Int)) : Int :=
  Int.log 2 ((lws.map (weightOf exp2)).sum)

/-- The calls that `bridge` and its caller record for the schedule point at
`iter`: the call of the model when the guard of `bridge` holds, then the return of
`bridge` with its value `lb`. -/
def bridgeEvents {T S : Type} (sched : Schedule) (last iter : Nat) (lb : T) :
    List (Event T S) :=
  (if (sched iter).hasBridge && !(sched iter).isObserved
      && decide ((sched last).indexObs > (sched iter).indexObs) then
    [Event.bridgeLogDensities (sched iter).indexObs]
  else []) ++ [Event.bridge iter lb]

/-- The calls of one complete pass through the body of the loop of `step` from
the iterator position `iter`, in the order `bridge`, `resample`, `predict`, the
conditional write (with a reference path, at a point with output), `correct`,
`output`: `bridge` and `resample` are for the point at `iter`, the others for the
point at `iter + 1`; `lb` and `lc` are the values of `bridge` and `correct`, `r`
is the flag returned by `resample`, `s` the ensemble `correct` and `output` are
invoked on. -/
def passEvents {T S : Type} (sched : Schedule) (last : Nat) (conditional : Bool) (iter : Nat)
    (lb : T) (r : Bool) (s : S) (lc : T) : List (Event T S) :=
  bridgeEvents sched last iter lb ++ [Event.resample iter r, Event.predict (iter + 1)] ++
    (if conditional && (sched (iter + 1)).hasOutput then
      [Event.write (iter + 1) (sched (iter + 1)).indexOutput]
    else []) ++
    [Event.correct (iter + 1) s lc, Event.output (iter + 1) s r]

/-- The list `ev` consists of the calls of `n` complete passes through the body
of the loop of `step`, from the consecutive iterator positions `iter`,
`iter + 1`, ... -/
def IsPasses {T S : Type} (sched : Schedule) (last : Nat) (conditional : Bool) :
    Nat → Nat → List (Event T S) → Prop
  | _, 0, ev => ev = []
  | iter, n + 1, ev =>
    ∃ lb r s lc rest, ev = passEvents sched last conditional iter lb r s lc ++ rest ∧
      IsPasses sched last conditional (iter + 1) n rest

/-- The run `res` was ended by a call of `resample` for the schedule point at
`pos`, with the failure of that call: `ParticleFilterDegeneratedException` (and
then the run carries the particles that call left), a failed assertion, or an
access outside a vector. -/
def ResampleFailure {T R G α : Type} (c : Collaborators T R G) (sched : Schedule) (pos : Nat)
    (res : Run α (FilterState T R G)) : Prop :=
  ∃ p, (c.resample (sched pos) p = Outcome.degenerated res.state.p ∧
        res = Run.degenerated res.state) ∨
      (c.resample (sched pos) p = Outcome.assertion ∧ res = Run.assertion res.state) ∨
      (c.resample (sched pos) p = Outcome.undefined ∧ res = Run.undefined res.state)

/-- The calls of a pass through the body of the loop of `step` from `iter` that
does not complete, in the run `res`: none (`bridge` failed), or `bridge` and the
failed `resample`, or `bridge`, `resample` and `predict` (the conditional write
failed).  Only a failed `resample` can end the run by degeneracy. -/
def IsPartialPass {T R G α : Type} (c : Collaborators T R G) (sched : Schedule) (last : Nat)
    (iter : Nat) (ev : List (Event T (State R))) (res : Run α (FilterState T R G)) : Prop :=
  (ev = [] ∧ ∀ st, res ≠ Run.degenerated st) ∨
    (∃ lb, ev = bridgeEvents sched last iter lb ++ [Event.resampleFailed iter] ∧
      ResampleFailure c sched iter res) ∨
    (∃ lb r, ev = bridgeEvents sched last iter lb ++
        [Event.resample iter r, Event.predict (iter + 1)] ∧
      ∀ st, res ≠ Run.degenerated st)

/-- A failed `resample` is the last call of the calls `ev` made by the run `res`,
and it is what ended the run. -/
def FailsLast {T R G α : Type} (c : Collaborators T R G) (sched : Schedule)
    (ev : List (Event T (State R))) (res : Run α (FilterState T R G)) : Prop :=
  ∀ pos, Event.resampleFailed pos ∈ ev →
    (∃ pre, ev = pre ++ [Event.resampleFailed pos] ∧
      ∀ pos1, Event.resampleFailed pos1 ∉ pre) ∧
    ResampleFailure c sched pos res

/-- Position of the schedule point of a recorded call of `predict`. -/
def Event.predictPos {T S : Type} : Event T S → Option Nat
  | Event.predict pos => some pos
  | _ => none

/-- Position of the schedule point of a recorded call of `output`. -/
def Event.outputPos {T S : Type} : Event T S → Option Nat
  | Event.output pos _ _ => some pos
  | _ => none

/-- Collaborators for the examples that resample: as `exampleCollaborators`, but
`correct` lowers every log-weight by `2000` at an observed point (the weights
underflow), `resample` throws when every log-weight is below `-1074` (every
weight has underflowed to zero) and otherwise gives every offspring to particle
`1`, copying the ensemble in place with `Resampler::copy`, and `predict` appends
`+` to every trajectory. -/
def resamplingCollaborators : Collaborators Int String Nat :=
  { exampleCollaborators with
    correct := fun e _ lws blws =>
      (if e.isObserved then 2 else 0,
        if e.isObserved then lws.map (fun x => x - 2000) else lws, blws)
    resample := fun _ p =>
      if p.lws.all (fun x => decide (x < -1074)) then Outcome.degenerated p
      else
        match Resampler.copyState (List.replicate p.as.length 1) p.s with
        | some s1 =>
          Outcome.ok true
            { p with s := s1, lws := StratifiedResampler.clearVector p.lws,
                     as := List.replicate p.as.length 1 }
        | none => Outcome.undefined
    predict := fun g _ s => (g + 1, { s with rows := s.rows.map (fun x => x ++ "+") }) }

/-- The ensemble that one pass through the body of the loop of the conditional
`step` would leave if the ensemble were mutated in the order `predict`, then the
conditional-row write, then the in-place copy of `resample`; `none` when a call
does not return. -/
def ensembleInClaimedOrder {T R G : Type} (c : Collaborators T R G) (sched : Schedule)
    (X : List R) (iter : Nat) (p : Particles T R G) : Option (State R) :=
  let pr := c.predict p.rng (sched (iter + 1)) p.s
  match (if (sched (iter + 1)).hasOutput then
      writeRow0 pr.2 X (sched (iter + 1)).indexOutput else some pr.2) with
  | none => none
  | some s1 =>
    match c.resample (sched iter) { p with rng := pr.1, s := s1 } with
    | Outcome.ok _ p1 => some p1.s
    | _ => none

/-! ## Auxiliary facts about the embedding -/

theorem intWrap_of_range (x : Int) (h0 : INT_MIN ≤ x) (h1 : x ≤ INT_MAX) : intWrap x = x := by
  unfold intWrap INT_MIN INT_MAX at *
  omega

theorem Vector.assignSubrange_resize (x ys : Vector) :
    Vector.assignSubrange (Vector.resize x (x.length + ys.length) true)
      x.length ys.length ys = some (x ++ ys) := by
  have h1 : List.take (x.length + ys.length) x = x :=
    List.take_of_length_le (Nat.le_add_right _ _)
  have h2 : List.drop (x.length + ys.length) (x ++ List.replicate ys.length (0 : Int)) = [] :=
    List.drop_of_length_le (by simp)
  simp [Vector.assignSubrange, Vector.resize, h1, h2]

theorem Mask.addSparseMask_eq (m : Mask Location.ON_HOST) (ids : List Nat) (indices : Vector) :
    Mask.addSparseMask m ids indices = some
      { info := (List.range ids.length).foldl
          (Mask.addSparseMaskBody (m.ixs.length : Int) (indices.length : Int)) m.info
        ixs := m.ixs ++ indices
        denseSize := m.denseSize
        sparseSize := intWrap (m.sparseSize + (ids.length : Int) * (indices.length : Int)) } := by
  simp [Mask.addSparseMask, Vector.assignSubrange_resize]

theorem Mask.sparseLoop_elems (s k : Int) (n : Nat) (info : Matrix) (a b : Nat) :
    ((List.range n).foldl (Mask.addSparseMaskBody s k) info).elems a b =
      if b < n ∧ a = 1 then k else if b < n ∧ a = 2 then s else info.elems a b := by
  induction n with
  | zero => simp
  | succ n ih =>
    rw [List.range_succ, List.foldl_append]
    simp only [List.foldl_cons, List.foldl_nil, Mask.addSparseMaskBody, Matrix.set]
    rw [ih]
    by_cases h1 : a = 1 <;> by_cases h2 : a = 2 <;> by_cases hb : b = n <;>
      by_cases hlt : b < n <;> simp [h1, h2, hb, hlt] <;> omega

theorem Mask.sparseLoop_size2 (s k : Int) (n : Nat) (info : Matrix) :
    ((List.range n).foldl (Mask.addSparseMaskBody s k) info).size2 = info.size2 := by
  induction n with
  | zero => simp
  | succ n ih =>
    rw [List.range_succ, List.foldl_append]
    simpa [Mask.addSparseMaskBody, Matrix.set] using ih

theorem Mask.sparseLoop_size1 (s k : Int) (n : Nat) (info : Matrix) :
    ((List.range n).foldl (Mask.addSparseMaskBody s k) info).size1 = info.size1 := by
  induction n with
  | zero => simp
  | succ n ih =>
    rw [List.range_succ, List.foldl_append]
    simpa [Mask.addSparseMaskBody, Matrix.set] using ih

theorem Mask.addSparseMask_info (m m' : Mask Location.ON_HOST) (ids : List Nat)
    (indices : Vector) (h : Mask.addSparseMask m ids indices = some m') (v : Nat) :
    m'.info.get 0 v = m.info.get 0 v ∧
      m'.info.get 1 v = (if v < ids.length then (indices.length : Int) else m.info.get 1 v) ∧
      m'.info.get 2 v = (if v < ids.length then (m.ixs.length : Int) else m.info.get 2 v) := by
  rw [Mask.addSparseMask_eq] at h
  cases h
  simp [Matrix.get, Mask.sparseLoop_elems]

theorem Mask.reachable_mk0 (numVars : Nat) :
    Mask.Reachable (Mask.mk0 Location.ON_HOST numVars) :=
  Mask.Reachable.cleared (Mask.init (Mask.uninit Location.ON_HOST) numVars)

/-! ## Mask: recording variables -/

/-- C1 (sparse round trip `addSparseMask({v}, ixs) → getIndices(v) = ixs`),
evaluated on a fresh mask with 2 variables, `v = 1`, `ixs = [7]`: the loop of
`addSparseMask` writes column 0 (its counter) instead of column 1 (the named
id), so `getIndices(1)` is the empty slice and `[7]` is found under variable 0. -/
theorem addSparseMask_getIndices_named_id :
    (Mask.addSparseMask (Mask.mk0 Location.ON_HOST 2) [1] [7]).bind
        (fun m => m.getIndices 1) = some [] ∧
      (Mask.addSparseMask (Mask.mk0 Location.ON_HOST 2) [1] [7]).bind
        (fun m => m.getIndices 0) = some [7] := by
  decide

/-- C2 (`addSparseMask` records every named variable), evaluated on a fresh mask
with 2 variables, `ids = [1]`, `indices = [7]`: afterwards variable 1 is not
sparse and has size 0, while the unnamed variable 0 is sparse with size 1. -/
theorem addSparseMask_named_id_not_recorded :
    (Mask.addSparseMask (Mask.mk0 Location.ON_HOST 2) [1] [7]).map
        (fun m => (m.isSparse 1, m.getSize 1, m.getIndex 1 0)) = some (false, 0, some 0) ∧
      (Mask.addSparseMask (Mask.mk0 Location.ON_HOST 2) [1] [7]).map
        (fun m => (m.isSparse 0, m.getSize 0, m.getIndex 0 0)) = some (true, 1, some 7) := by
  decide

/-- C3 (dense/sparse exclusivity), evaluated on the mask reached from a fresh
mask with 2 variables by `addDenseMask(0, 3)` and then `addSparseMask({1}, [7])`,
where every id is recorded once: variable 0 is both dense and sparse. -/
theorem dense_and_sparse_after_distinct_ids :
    Mask.Reachable
        (Mask.afterSparse (Mask.addDenseMask (Mask.mk0 Location.ON_HOST 2) 0 3) [1] [7]) ∧
      (Mask.afterSparse (Mask.addDenseMask (Mask.mk0 Location.ON_HOST 2) 0 3) [1] [7]).isDense 0
        = true ∧
      (Mask.afterSparse (Mask.addDenseMask (Mask.mk0 Location.ON_HOST 2) 0 3) [1] [7]).isSparse 0
        = true := by
  refine ⟨?_, by decide, by decide⟩
  have h0 : Mask.Reachable (Mask.addDenseMask (Mask.mk0 Location.ON_HOST 2) 0 3) :=
    Mask.Reachable.dense 0 3 (Mask.reachable_mk0 2) (by decide)
  refine Mask.Reachable.sparse [1] [7] h0 (by decide) (by decide) ?_
  rw [Mask.afterSparse, Mask.addSparseMask_eq]
  rfl

/-- C4 (the counters track the per-variable sizes), evaluated on the mask reached
from a fresh mask with 3 variables by `addSparseMask({1}, [7])` and then
`addSparseMask({2}, [8, 9])`: `sparseSize` is 3 while row 1 of `info` sums to 2,
and `size()` is 3 while the sizes `getSize(v)` sum to 2. -/
theorem counters_differ_from_sizes :
    Mask.Reachable
        (Mask.afterSparse (Mask.afterSparse (Mask.mk0 Location.ON_HOST 3) [1] [7]) [2] [8, 9]) ∧
      (Mask.afterSparse (Mask.afterSparse (Mask.mk0 Location.ON_HOST 3) [1] [7]) [2] [8, 9]).sparseSize
        = 3 ∧
      Mask.sumRow
        (Mask.afterSparse (Mask.afterSparse (Mask.mk0 Location.ON_HOST 3) [1] [7]) [2] [8, 9]) 1
        = 2 ∧
      (Mask.afterSparse (Mask.afterSparse (Mask.mk0 Location.ON_HOST 3) [1] [7]) [2] [8, 9]).size
        = 3 ∧
      Mask.sumSizes
        (Mask.afterSparse (Mask.afterSparse (Mask.mk0 Location.ON_HOST 3) [1] [7]) [2] [8, 9])
        = 2 := by
  refine ⟨?_, by decide, by decide, by decide, by decide⟩
  have h1 : Mask.Reachable (Mask.afterSparse (Mask.mk0 Location.ON_HOST 3) [1] [7]) := by
    refine Mask.Reachable.sparse [1] [7] (Mask.reachable_mk0 3) (by decide) (by decide) ?_
    rw [Mask.afterSparse, Mask.addSparseMask_eq]
    rfl
  refine Mask.Reachable.sparse [2] [8, 9] h1 (by decide) (by decide) ?_
  rw [Mask.afterSparse, Mask.addSparseMask_eq]
  rfl

/-! ## Mask: queries -/

/-- C5: in a mask whose size rows are non-negative and in which no column has
both row 0 and row 1 non-zero, `getSize(v) = info(0,v) + info(1,v)` for every
variable `v`, and `getSize(v) = 0` exactly when `v` is neither dense nor
sparse. -/
theorem getSize_eq_row0_add_row1 {L : Location} (m : Mask L)
    (hnn : ∀ v, v < m.getNumVars → 0 ≤ m.info.get 0 v ∧ 0 ≤ m.info.get 1 v)
    (hex : ∀ v, v < m.getNumVars → ¬ (m.info.get 0 v ≠ 0 ∧ m.info.get 1 v ≠ 0))
    (v : Nat) (hv : v < m.getNumVars) :
    m.getSize v = m.info.get 0 v + m.info.get 1 v ∧
      (m.getSize v = 0 ↔ (m.isDense v = false ∧ m.isSparse v = false)) := by
  obtain ⟨h0, h1⟩ := hnn v hv
  have hx := hex v hv
  simp only [Mask.getSize, Mask.isDense, Mask.isSparse, decide_eq_true_eq, decide_eq_false_iff_not,
    gt_iff_lt] at *
  by_cases hd : 0 < m.info.get 0 v
  · have h10 : m.info.get 1 v = 0 := by
      by_contra hne
      exact hx ⟨by omega, hne⟩
    simp [hd, h10]
    omega
  · have h00 : m.info.get 0 v = 0 := by omega
    by_cases hs : 0 < m.info.get 1 v
    · simp [hd, hs, h00]
      omega
    · have h10 : m.info.get 1 v = 0 := by omega
      simp [h00, h10]

/-- Witness of C5 on a fresh mask with 2 variables to which variable 0 was added
as dense with size 3. -/
theorem getSize_eq_row0_add_row1_witness :
    (Mask.addDenseMask (Mask.mk0 Location.ON_HOST 2) 0 3).getSize 0 =
        (Mask.addDenseMask (Mask.mk0 Location.ON_HOST 2) 0 3).info.get 0 0 +
          (Mask.addDenseMask (Mask.mk0 Location.ON_HOST 2) 0 3).info.get 1 0 ∧
      ((Mask.addDenseMask (Mask.mk0 Location.ON_HOST 2) 0 3).getSize 0 = 0 ↔
        ((Mask.addDenseMask (Mask.mk0 Location.ON_HOST 2) 0 3).isDense 0 = false ∧
          (Mask.addDenseMask (Mask.mk0 Location.ON_HOST 2) 0 3).isSparse 0 = false)) :=
  getSize_eq_row0_add_row1 (Mask.addDenseMask (Mask.mk0 Location.ON_HOST 2) 0 3)
    (by decide) (by decide) 0 (by decide)

/-- C6 (counterexample): on a mask with 2 variables in which variable 0 is dense
with size `INT_MAX`, variable 1 is valid and not recorded; after
`addDenseMask(1, 1)` the `int` counter `denseSize` has wrapped to `INT_MIN` and so
has `size()`: neither has grown by `1`. -/
theorem addDenseMask_counter_overflow :
    ((Mask.mk0 Location.ON_HOST 2).addDenseMask 0 2147483647).isDense 1 = false ∧
      ((Mask.mk0 Location.ON_HOST 2).addDenseMask 0 2147483647).isSparse 1 = false ∧
      ((Mask.mk0 Location.ON_HOST 2).addDenseMask 0 2147483647).denseSize = 2147483647 ∧
      ((Mask.mk0 Location.ON_HOST 2).addDenseMask 0 2147483647).size = 2147483647 ∧
      (((Mask.mk0 Location.ON_HOST 2).addDenseMask 0 2147483647).addDenseMask 1 1).denseSize =
        -2147483648 ∧
      (((Mask.mk0 Location.ON_HOST 2).addDenseMask 0 2147483647).addDenseMask 1 1).size =
        -2147483648 := by
  decide

/-- C6 (amended): for a valid variable id that is not yet recorded and a size > 0
such that the `int` counters do not overflow (`denseSize + size` and
`denseSize + size + sparseSize` are at most `INT_MAX`, `denseSize` and `size()`
being values of an `int`), after `addDenseMask(id, size)` the variable is dense,
not sparse, has size `size`, `getIndex(id, i) = i` for every `i`, `denseSize` and
`size()` have grown by `size`, and `sparseSize` and `ixs` are unchanged. -/
theorem addDenseMask_post (m : Mask Location.ON_HOST) (id : Nat) (size : Int)
    (_hid : id < m.getNumVars)
    (hnew : m.isDense id = false ∧ m.isSparse id = false) (hsize : 0 < size)
    (hdense : INT_MIN ≤ m.denseSize ∧ m.denseSize + size ≤ INT_MAX)
    (htotal : INT_MIN ≤ m.denseSize + m.sparseSize ∧
      m.denseSize + size + m.sparseSize ≤ INT_MAX) :
    (m.addDenseMask id size).isDense id = true ∧
      (m.addDenseMask id size).isSparse id = false ∧
      (m.addDenseMask id size).getSize id = size ∧
      (∀ i : Int, (m.addDenseMask id size).getIndex id i = some i) ∧
      (m.addDenseMask id size).denseSize = m.denseSize + size ∧
      (m.addDenseMask id size).size = m.size + size ∧
      (m.addDenseMask id size).sparseSize = m.sparseSize ∧
      (m.addDenseMask id size).ixs = m.ixs := by
  obtain ⟨_, hs⟩ := hnew
  have hs' : ¬ 0 < m.info.elems 1 id := by
    simpa [Mask.isSparse, Matrix.get] using hs
  have hd : intWrap (m.denseSize + size) = m.denseSize + size :=
    intWrap_of_range _ (by omega) hdense.2
  refine ⟨?_, ?_, ?_, ?_, hd, ?_, rfl, rfl⟩
  · simp [Mask.isDense, Mask.addDenseMask, Matrix.set, Matrix.get, hsize]
  · simp [Mask.isSparse, Mask.addDenseMask, Matrix.set, Matrix.get, hs']
  · simp [Mask.getSize, Mask.isDense, Mask.addDenseMask, Matrix.set, Matrix.get, hsize]
  · intro i
    simp [Mask.getIndex, Mask.isSparse, Mask.addDenseMask, Matrix.set, Matrix.get, hs']
  · simp only [Mask.size, Mask.addDenseMask]
    rw [hd, intWrap_of_range _ (by omega) (by omega), intWrap_of_range _ htotal.1 (by omega)]
    ring

/-- Witness of C6 (amended): variable 1 with size 4 on a fresh mask with 2
variables. -/
theorem addDenseMask_post_witness :
    ((Mask.mk0 Location.ON_HOST 2).addDenseMask 1 4).isDense 1 = true ∧
      ((Mask.mk0 Location.ON_HOST 2).addDenseMask 1 4).isSparse 1 = false ∧
      ((Mask.mk0 Location.ON_HOST 2).addDenseMask 1 4).getSize 1 = 4 ∧
      (∀ i : Int, ((Mask.mk0 Location.ON_HOST 2).addDenseMask 1 4).getIndex 1 i = some i) ∧
      ((Mask.mk0 Location.ON_HOST 2).addDenseMask 1 4).denseSize =
        (Mask.mk0 Location.ON_HOST 2).denseSize + 4 ∧
      ((Mask.mk0 Location.ON_HOST 2).addDenseMask 1 4).size =
        (Mask.mk0 Location.ON_HOST 2).size + 4 ∧
      ((Mask.mk0 Location.ON_HOST 2).addDenseMask 1 4).sparseSize =
        (Mask.mk0 Location.ON_HOST 2).sparseSize ∧
      ((Mask.mk0 Location.ON_HOST 2).addDenseMask 1 4).ixs = (Mask.mk0 Location.ON_HOST 2).ixs :=
  addDenseMask_post (Mask.mk0 Location.ON_HOST 2) 1 4 (by decide) (by decide) (by decide)
    (by decide) (by decide)

/-! ## Mask: sparse ranges -/

theorem Mask.reachable_range {m : Mask Location.ON_HOST} (h : Mask.Reachable m) (v : Nat)
    (hk : 0 < m.info.elems 1 v) :
    0 ≤ m.info.elems 2 v ∧ m.info.elems 2 v + m.info.elems 1 v ≤ (m.ixs.length : Int) := by
  induction h generalizing v with
  | cleared m0 => simp [Mask.clear, Matrix.clear] at hk
  | dense id size _ _ ih =>
    simp only [Mask.addDenseMask, Matrix.set] at hk ⊢
    have hk' := ih v (by simpa using hk)
    simpa using hk'
  | sparse ids indices _ _ _ hadd ih =>
    rename_i m m'
    rw [Mask.addSparseMask_eq] at hadd
    cases hadd
    simp only [Mask.sparseLoop_elems] at hk ⊢
    by_cases hv : v < ids.length
    · simp only [hv, true_and, if_true] at hk ⊢
      simp
    · simp only [hv, false_and, if_false] at hk ⊢
      have := ih v hk
      simp only [List.length_append, Nat.cast_add]
      omega

/-- C7: in every mask reachable from a cleared mask by `addDenseMask` and
`addSparseMask` calls, every variable `v` with `info(1,v) = k > 0` and
`info(2,v) = s` has `0 ≤ s` and `s + k ≤ |ixs|`; `getIndices(v)` is a slice of
`ixs` of length `k` and `getIndex(v, i)` reads inside `ixs` for `0 ≤ i < k`. -/
theorem sparse_ranges_in_bounds (m : Mask Location.ON_HOST) (h : Mask.Reachable m) (v : Nat)
    (hk : 0 < m.info.get 1 v) :
    0 ≤ m.info.get 2 v ∧
      m.info.get 2 v + m.info.get 1 v ≤ (m.ixs.length : Int) ∧
      (∃ xs, m.getIndices v = some xs ∧ (xs.length : Int) = m.info.get 1 v) ∧
      (∀ i : Int, 0 ≤ i → i < m.info.get 1 v → ∃ x, m.getIndex v i = some x) := by
  obtain ⟨h2, h3⟩ := Mask.reachable_range h v hk
  simp only [Matrix.get] at hk ⊢
  refine ⟨h2, h3, ?_, ?_⟩
  · refine ⟨(m.ixs.drop (m.info.elems 2 v).toNat).take (m.info.elems 1 v).toNat, ?_, ?_⟩
    · simp only [Mask.getIndices, Vector.subrange, Matrix.get]
      rw [if_pos ⟨h2, le_of_lt hk, h3⟩]
    · rw [List.length_take, List.length_drop]
      omega
  · intro i hi0 hik
    have hlt : (m.info.elems 2 v + i).toNat < m.ixs.length := by omega
    refine ⟨m.ixs[(m.info.elems 2 v + i).toNat], ?_⟩
    simp only [Mask.getIndex, Mask.isSparse, Matrix.get, Vector.get?]
    rw [if_pos (by simpa using hk), if_pos (by omega)]
    exact List.getElem?_eq_getElem hlt

/-- Witness of C7: variable 0 of the mask obtained from a fresh mask with 2
variables by `addSparseMask({0}, [7, 8])`. -/
theorem sparse_ranges_in_bounds_witness :
    0 ≤ (Mask.afterSparse (Mask.mk0 Location.ON_HOST 2) [0] [7, 8]).info.get 2 0 ∧
      (Mask.afterSparse (Mask.mk0 Location.ON_HOST 2) [0] [7, 8]).info.get 2 0 +
          (Mask.afterSparse (Mask.mk0 Location.ON_HOST 2) [0] [7, 8]).info.get 1 0 ≤
        ((Mask.afterSparse (Mask.mk0 Location.ON_HOST 2) [0] [7, 8]).ixs.length : Int) ∧
      (∃ xs, (Mask.afterSparse (Mask.mk0 Location.ON_HOST 2) [0] [7, 8]).getIndices 0 = some xs ∧
        (xs.length : Int) =
          (Mask.afterSparse (Mask.mk0 Location.ON_HOST 2) [0] [7, 8]).info.get 1 0) ∧
      (∀ i : Int, 0 ≤ i →
        i < (Mask.afterSparse (Mask.mk0 Location.ON_HOST 2) [0] [7, 8]).info.get 1 0 →
        ∃ x, (Mask.afterSparse (Mask.mk0 Location.ON_HOST 2) [0] [7, 8]).getIndex 0 i = some x) :=
  sparse_ranges_in_bounds (Mask.afterSparse (Mask.mk0 Location.ON_HOST 2) [0] [7, 8])
    (Mask.Reachable.sparse [0] [7, 8] (Mask.reachable_mk0 2) (by decide) (by decide)
      (by rw [Mask.afterSparse, Mask.addSparseMask_eq]; rfl))
    0 (by decide)

/-! ## Mask: clearing and copying -/

/-- C8: after `clear()`, `size()`, `denseSize` and `sparseSize` are 0, `ixs` has
length 0, every variable is neither dense nor sparse and has size 0, and
`getNumVars()` is unchanged. -/
theorem clear_post {L : Location} (m : Mask L) :
    m.clear.size = 0 ∧ m.clear.denseSize = 0 ∧ m.clear.sparseSize = 0 ∧
      m.clear.ixs.length = 0 ∧
      (∀ v : Nat, m.clear.isDense v = false ∧ m.clear.isSparse v = false ∧
        m.clear.getSize v = 0) ∧
      m.clear.getNumVars = m.getNumVars := by
  refine ⟨rfl, rfl, rfl, by simp [Mask.clear, Vector.resize], ?_, rfl⟩
  intro v
  simp [Mask.isDense, Mask.isSparse, Mask.getSize, Mask.clear, Matrix.clear, Matrix.get]

/-- C9 as stated fails: assigning a mask with 1 variable to a target with 0
variables does not give the target the dimensions of the source; `operator=`
resizes `ixs` only, and the assignment of `info` has no defined result. -/
theorem operatorAssign_other_numVars :
    ¬ ∃ m' : Mask Location.ON_HOST,
        Mask.operatorAssign (Mask.mk0 Location.ON_HOST 0) (Mask.mk0 Location.ON_DEVICE 1)
          = some m' ∧
        m'.getNumVars = (Mask.mk0 Location.ON_DEVICE 1).getNumVars := by
  have h : Mask.operatorAssign (Mask.mk0 Location.ON_HOST 0) (Mask.mk0 Location.ON_DEVICE 1)
      = none := rfl
  rw [h]
  simp

/-- C9, amended: for every source mask `o` and every target mask `m` whose
`info` has the dimensions of `o.info` (any prior contents, any length of `ixs`),
the generic assignment `m = o` is a deep copy: `info`, `ixs`, `denseSize` and
`sparseSize` of the target equal those of `o`, and `getNumVars`, `size`,
`isDense`, `isSparse`, `getSize` and `getIndex` agree with `o` on every
argument. -/
theorem operatorAssign_deep_copy {L L2 : Location} (m : Mask L) (o : Mask L2)
    (h1 : m.info.size1 = o.info.size1) (h2 : m.info.size2 = o.info.size2) :
    ∃ m' : Mask L, Mask.operatorAssign m o = some m' ∧
      m'.info = o.info ∧ m'.ixs = o.ixs ∧
      m'.denseSize = o.denseSize ∧ m'.sparseSize = o.sparseSize ∧
      m'.getNumVars = o.getNumVars ∧ m'.size = o.size ∧
      (∀ id : Nat, m'.isDense id = o.isDense id ∧ m'.isSparse id = o.isSparse id ∧
        m'.getSize id = o.getSize id ∧ ∀ i : Int, m'.getIndex id i = o.getIndex id i) := by
  have hinfo : Matrix.assign m.info o.info = some o.info := by
    unfold Matrix.assign
    rw [if_pos ⟨h1, h2⟩]
    cases hm : m.info
    cases ho : o.info
    simp_all
  have hixs : Vector.assign (Vector.resize m.ixs o.ixs.length false) o.ixs = some o.ixs := by
    unfold Vector.assign
    rw [if_pos]
    simp only [Vector.resize, List.length_append, List.length_take, List.length_replicate]
    omega
  refine ⟨{ info := o.info, ixs := o.ixs, denseSize := o.denseSize,
            sparseSize := o.sparseSize }, ?_, rfl, rfl, rfl, rfl, rfl, rfl, ?_⟩
  · simp [Mask.operatorAssign, hinfo, hixs]
  · intro id
    exact ⟨rfl, rfl, rfl, fun _ => rfl⟩

/-- Witness of C9 amended: a device mask with 2 variables, one of them dense,
assigned to a fresh host mask with 2 variables. -/
theorem operatorAssign_deep_copy_witness :
    ∃ m' : Mask Location.ON_HOST,
      Mask.operatorAssign (Mask.mk0 Location.ON_HOST 2)
          ({ (Mask.mk0 Location.ON_DEVICE 2) with
              info := (Mask.mk0 Location.ON_DEVICE 2).info.set 0 1 5
              denseSize := 5 } : Mask Location.ON_DEVICE) = some m' ∧
      m'.getNumVars = 2 ∧ m'.size = 5 ∧ m'.isDense 1 = true ∧ m'.getSize 1 = 5 := by
  obtain ⟨m', h, hi, _, hd, hs, hn, hsz, hq⟩ :=
    operatorAssign_deep_copy (Mask.mk0 Location.ON_HOST 2)
      ({ (Mask.mk0 Location.ON_DEVICE 2) with
          info := (Mask.mk0 Location.ON_DEVICE 2).info.set 0 1 5
          denseSize := 5 } : Mask Location.ON_DEVICE) rfl rfl
  refine ⟨m', h, ?_, ?_, ?_, ?_⟩
  · rw [hn]; rfl
  · rw [hsz]; decide
  · rw [(hq 1).1]; decide
  · rw [(hq 1).2.2.1]; decide

theorem Mask.copyFrom_deep_copy (L : Location) {L2 : Location} (o : Mask L2) :
    Mask.copyFrom L o = some
      { info := o.info, ixs := o.ixs, denseSize := o.denseSize, sparseSize := o.sparseSize } := by
  have hinfo : Matrix.assign
      ((Mask.uninit L).info.resize o.info.size1 o.info.size2 false) o.info = some o.info := by
    simp [Matrix.assign, Matrix.resize]
  have hixs : Vector.assign (Vector.resize (Mask.uninit L).ixs o.ixs.length false) o.ixs
      = some o.ixs := by
    simp [Vector.assign, Vector.resize, Mask.uninit]
  simp [Mask.copyFrom, Mask.operatorAssign, hinfo, hixs]

/-! ## Resampler: weight correction -/

theorem Resampler.read?_isSome {α : Type} (x : List α) (a : Int) (h0 : 0 ≤ a)
    (h1 : a < (x.length : Int)) : ∃ y, Resampler.read? x a = some y ∧ x[a.toNat]? = some y := by
  have hlt : a.toNat < x.length := by omega
  refine ⟨x[a.toNat], ?_, List.getElem?_eq_getElem hlt⟩
  simp only [Resampler.read?]
  rw [if_pos h0]
  exact List.getElem?_eq_getElem hlt

theorem Resampler.contents_map_some {α : Type} (vals : List α) :
    Resampler.contents (vals.map some) = some vals := by
  induction vals with
  | nil => rfl
  | cons x xs ih => simp [Resampler.contents, ih]

theorem Resampler.correctTransform_own {α : Type} [Sub α] (lws1 qlws : List α)
    (hlen : qlws.length = lws1.length) :
    ∀ (as : List Int) (i : Nat) (cur : List (Option α)),
      (∀ a ∈ as, 0 ≤ a ∧ a < (lws1.length : Int)) → i + as.length = cur.length →
      ∃ vals : List α, Resampler.correctTransform false lws1 qlws as i cur =
          some (cur.take i ++ vals.map some) ∧
        vals.length = as.length ∧
        ∀ (j : Nat) (a : Int), as[j]? = some a →
          ∃ x q, lws1[a.toNat]? = some x ∧ qlws[a.toNat]? = some q ∧
            vals[j]? = some (x - q) := by
  intro as
  induction as with
  | nil =>
    intro i cur _ hi
    refine ⟨[], ?_, rfl, by simp⟩
    simp only [List.length_nil, Nat.add_zero] at hi
    simp [Resampler.correctTransform, hi]
  | cons a rest ih =>
    intro i cur has hi
    obtain ⟨ha0, ha1⟩ := has a (List.mem_cons_self _ _)
    obtain ⟨x, hx, hx'⟩ := Resampler.read?_isSome lws1 a ha0 ha1
    obtain ⟨q, hq, hq'⟩ := Resampler.read?_isSome qlws a ha0 (by omega)
    have hilt : i < cur.length := by
      simp only [List.length_cons] at hi
      omega
    obtain ⟨vals, hv, hl, hspec⟩ := ih (i + 1) (cur.set i (some (x - q)))
      (fun b hb => has b (List.mem_cons_of_mem _ hb))
      (by simp only [List.length_cons] at hi; simp only [List.length_set]; omega)
    refine ⟨(x - q) :: vals, ?_, by simp [hl], ?_⟩
    · simp only [Resampler.correctTransform, hx, hq, Bool.false_eq_true, if_false, hilt,
        if_true, hv]
      have ht : (cur.set i (some (x - q))).take (i + 1) = cur.take i ++ [some (x - q)] := by
        rw [List.set_eq_take_append_cons_drop, if_pos hilt]
        have hl : (List.take i cur).length = i := by
          rw [List.length_take]
          omega
        rw [show i + 1 = (List.take i cur).length + 1 by rw [hl], List.take_append]
        simp
      rw [ht]
      simp
    · intro j b hb
      cases j with
      | zero =>
        simp only [List.getElem?_cons_zero, Option.some.injEq] at hb
        subst hb
        exact ⟨x, q, hx', hq', by simp⟩
      | succ j =>
        simp only [List.getElem?_cons_succ] at hb ⊢
        exact hspec j b hb

theorem Resampler.correct_own_spec {α : Type} [Sub α] (as : List Int) (qlws lws : List α)
    (hlen : qlws.length = lws.length)
    (has : ∀ a ∈ as, 0 ≤ a ∧ a < (lws.length : Int)) :
    ∃ out, Resampler.correct false as qlws lws = some out ∧ out.length = as.length ∧
      ∀ (i : Nat) (a : Int), as[i]? = some a →
        ∃ x q, lws[a.toNat]? = some x ∧ qlws[a.toNat]? = some q ∧ out[i]? = some (x - q) := by
  have hcur : (0 : Nat) + as.length =
      (if as.length = lws.length then lws.map some
        else List.replicate as.length (none : Option α)).length := by
    split
    · rename_i h
      simp [h]
    · simp
  obtain ⟨vals, hv, hl, hspec⟩ := Resampler.correctTransform_own lws qlws hlen as 0 _ has hcur
  refine ⟨vals, ?_, hl, hspec⟩
  simp only [Resampler.correct]
  rw [if_pos hlen]
  simp only [hv, List.take_zero, List.nil_append, Resampler.contents_map_some]

/-- C10 (counterexample): `correct(as, x, x)` with `as = [1, 0]` and one vector
`x = [100, 200]` passed for `qlws` and for `lws`.  The transform writes `lws[0] =
lws1[1] - qlws[1] = 0` into the storage it reads `qlws` from, so that `lws[1] =
lws1[0] - qlws[0] = 100 - 0`: the result is `[0, 100]`, not `[x[1] - x[1], x[0] -
x[0]] = [0, 0]`, which is what the call returns when `qlws` is a vector of its own
with the same content. -/
theorem correct_shared_storage :
    Resampler.correct true [1, 0] [(100 : Int), 200] [100, 200] = some [0, 100] ∧
      Resampler.correct false [1, 0] [(100 : Int), 200] [100, 200] = some [0, 0] := by
  decide

/-- C10 (amended): for every ancestry `as` with entries in `[0, |lws|)` and
vectors `qlws`, `lws` of equal length that do not share storage,
`correct(as, qlws, lws)` returns a vector `lws'` of length `|as|` with
`lws'[i] = lws[as[i]] - qlws[as[i]]` for every `i`, `lws` on the right being the
vector before the call: the transform writes `lws` in place, reads `lws` from the
copy made before the first write, and never writes `qlws`. -/
theorem correct_spec {α : Type} [Sub α] (as : List Int) (qlws lws : List α)
    (hlen : qlws.length = lws.length)
    (has : ∀ a ∈ as, 0 ≤ a ∧ a < (lws.length : Int)) :
    ∃ lws', Resampler.correct false as qlws lws = some lws' ∧ lws'.length = as.length ∧
      ∀ (i : Nat) (a : Int), as[i]? = some a →
        ∃ x q, lws[a.toNat]? = some x ∧ qlws[a.toNat]? = some q ∧ lws'[i]? = some (x - q) :=
  Resampler.correct_own_spec as qlws lws hlen has

/-- Witness of C10 (amended): `as = [1, 1, 0]`, `qlws = [10, 20]`,
`lws = [100, 200]` over the integers. -/
theorem correct_spec_witness :
    ∃ lws', Resampler.correct false [1, 1, 0] [10, 20] [(100 : Int), 200] = some lws' ∧
      lws'.length = [(1 : Int), 1, 0].length ∧
      ∀ (i : Nat) (a : Int), [(1 : Int), 1, 0][i]? = some a →
        ∃ x q, [(100 : Int), 200][a.toNat]? = some x ∧ [(10 : Int), 20][a.toNat]? = some q ∧
          lws'[i]? = some (x - q) :=
  correct_spec [1, 1, 0] [10, 20] [(100 : Int), 200] rfl (by decide)

/-! ## Resampler: in-place copy -/

theorem Resampler.copy_invariant {R : Type} (as : List Int) (v0 : List R)
    (hlen : v0.length = as.length)
    (hself : ∀ (i : Nat) (a : Int), as[i]? = some a → 0 ≤ a ∧ as[a.toNat]? = some a)
    (order : List Nat) :
    ∀ (v : List R) (done : List Nat), (∀ j ∈ order, j < as.length) →
      v.length = v0.length →
      (∀ (j : Nat) (a : Int), as[j]? = some a →
        (j ∈ done → v[j]? = v0[a.toNat]?) ∧ (j ∉ done → v[j]? = v0[j]?)) →
      ∃ v', Resampler.copy as order v = some v' ∧ v'.length = v0.length ∧
        ∀ (j : Nat) (a : Int), as[j]? = some a →
          (j ∈ done ∨ j ∈ order → v'[j]? = v0[a.toNat]?) := by
  induction order with
  | nil =>
    intro v done _ hv hinv
    refine ⟨v, rfl, hv, ?_⟩
    intro j a hja hj
    rcases hj with hj | hj
    · exact (hinv j a hja).1 hj
    · simp at hj
  | cons i rest ih =>
    intro v done hord hv hinv
    have hi : i < as.length := hord i (List.mem_cons_self _ _)
    have hrest : ∀ j ∈ rest, j < as.length := fun j hj => hord j (List.mem_cons_of_mem _ hj)
    obtain ⟨a, hia⟩ : ∃ a, as[i]? = some a := ⟨as[i], List.getElem?_eq_getElem hi⟩
    obtain ⟨ha0, haa⟩ := hself i a hia
    have hat : a.toNat < as.length := by
      by_contra hc
      rw [List.getElem?_eq_none (by omega)] at haa
      cases haa
    -- the source slot holds its original row, whether processed or not
    have hsrc : v[a.toNat]? = v0[a.toNat]? := by
      by_cases hd : a.toNat ∈ done
      · exact (hinv a.toNat a haa).1 hd
      · exact (hinv a.toNat a haa).2 hd
    by_cases hne : (i : Int) = a
    · -- self-mapped slot: nothing is written
      have hstep : Resampler.copyStep as v i = some v := by
        simp [Resampler.copyStep, hia, hne]
      have hinv' : ∀ (j : Nat) (b : Int), as[j]? = some b →
          (j ∈ i :: done → v[j]? = v0[b.toNat]?) ∧ (j ∉ i :: done → v[j]? = v0[j]?) := by
        intro j b hjb
        refine ⟨fun hj => ?_, fun hj => ?_⟩
        · rcases List.mem_cons.1 hj with hji | hjd
          · subst hji
            have hb : b = a := by rw [hia] at hjb; exact (Option.some.inj hjb).symm
            subst hb
            have hia' : b.toNat = j := by omega
            rw [hia'] at hsrc ⊢
            exact hsrc
          · exact (hinv j b hjb).1 hjd
        · exact (hinv j b hjb).2 (fun hd => hj (List.mem_cons_of_mem _ hd))
      obtain ⟨v', hc, hl, hres⟩ := ih v (i :: done) hrest hv hinv'
      refine ⟨v', ?_, hl, ?_⟩
      · simp [Resampler.copy, hstep, hc]
      · intro j b hjb hj
        apply hres j b hjb
        rcases hj with hj | hj
        · exact Or.inl (List.mem_cons_of_mem _ hj)
        · rcases List.mem_cons.1 hj with hji | hjr
          · exact Or.inl (hji ▸ List.mem_cons_self _ _)
          · exact Or.inr hjr
    · -- displaced slot: row `a` is copied to slot `i`
      have hlt0 : a.toNat < v0.length := by omega
      have hrow : Resampler.read? v a = some v0[a.toNat] := by
        simp only [Resampler.read?]
        rw [if_pos ha0, hsrc]
        exact List.getElem?_eq_getElem hlt0
      have hiv : i < v.length := by omega
      have hstep : Resampler.copyStep as v i = some (v.set i v0[a.toNat]) := by
        simp [Resampler.copyStep, hia, hne, hrow, hiv]
      have hinv' : ∀ (j : Nat) (b : Int), as[j]? = some b →
          (j ∈ i :: done → (v.set i v0[a.toNat])[j]? = v0[b.toNat]?) ∧
          (j ∉ i :: done → (v.set i v0[a.toNat])[j]? = v0[j]?) := by
        intro j b hjb
        refine ⟨fun hj => ?_, fun hj => ?_⟩
        · by_cases hji : j = i
          · subst hji
            have hb : b = a := by rw [hia] at hjb; exact (Option.some.inj hjb).symm
            subst hb
            rw [List.getElem?_set_self hiv]
            exact (List.getElem?_eq_getElem hlt0).symm
          · rw [List.getElem?_set_ne (fun h => hji h.symm)]
            rcases List.mem_cons.1 hj with h | h
            · exact absurd h hji
            · exact (hinv j b hjb).1 h
        · have hji : j ≠ i := fun h => hj (h ▸ List.mem_cons_self _ _)
          rw [List.getElem?_set_ne (fun h => hji h.symm)]
          exact (hinv j b hjb).2 (fun hd => hj (List.mem_cons_of_mem _ hd))
      obtain ⟨v', hc, hl, hres⟩ :=
        ih (v.set i v0[a.toNat]) (i :: done) hrest (by simpa using hv) hinv'
      refine ⟨v', ?_, hl, ?_⟩
      · simp [Resampler.copy, hstep, hc]
      · intro j b hjb hj
        apply hres j b hjb
        rcases hj with hj | hj
        · exact Or.inl (List.mem_cons_of_mem _ hj)
        · rcases List.mem_cons.1 hj with hji | hjr
          · exact Or.inl (hji ▸ List.mem_cons_self _ _)
          · exact Or.inr hjr

/-- C11: for every ancestry `as` of length `P` in which every index that occurs is
self-mapped (`as[as[i]] = as[i]`), every ensemble `v` of `P` rows and every order
in which the slots are processed, the loop `if as[i] != i then v[i] <- v[as[i]]`
returns an ensemble whose row `i` is the original row `as[i]`, for every `i`. -/
theorem copy_any_order {R : Type} (as : List Int) (v : List R) (order : List Nat)
    (hlen : v.length = as.length)
    (hself : ∀ (i : Nat) (a : Int), as[i]? = some a → 0 ≤ a ∧ as[a.toNat]? = some a)
    (horder : order.Perm (List.range as.length)) :
    ∃ v', Resampler.copy as order v = some v' ∧ v'.length = v.length ∧
      ∀ (i : Nat) (a : Int), as[i]? = some a → v'[i]? = v[a.toNat]? := by
  have hord : ∀ j ∈ order, j < as.length := fun j hj =>
    List.mem_range.1 (horder.mem_iff.1 hj)
  obtain ⟨v', hc, hl, hres⟩ :=
    Resampler.copy_invariant as v hlen hself order v [] hord rfl
      (fun j a _ => ⟨fun h => by simp at h, fun _ => rfl⟩)
  refine ⟨v', hc, hl, ?_⟩
  intro i a hia
  apply hres i a hia
  right
  apply horder.mem_iff.2
  apply List.mem_range.2
  by_contra hc'
  rw [List.getElem?_eq_none (by omega)] at hia
  cases hia

/-- Witness of C11: ancestry `[0, 0, 2, 2]`, rows `a, b, c, d`, slots processed in
the order `3, 1, 0, 2`. -/
theorem copy_any_order_witness :
    ∃ v', Resampler.copy [0, 0, 2, 2] [3, 1, 0, 2] ["a", "b", "c", "d"] = some v' ∧
      v'.length = ["a", "b", "c", "d"].length ∧
      ∀ (i : Nat) (a : Int), [(0 : Int), 0, 2, 2][i]? = some a →
        v'[i]? = ["a", "b", "c", "d"][a.toNat]? :=
  copy_any_order [0, 0, 2, 2] ["a", "b", "c", "d"] [3, 1, 0, 2] rfl
    (by
      intro i a h
      have hi : i < 4 := by
        by_contra hc
        rw [List.getElem?_eq_none (by simpa using hc)] at h
        cases h
      interval_cases i <;> simp at h <;> subst h <;> decide)
    (by decide)

/-! ## Resampler: permutation of an ancestry -/

theorem Resampler.claimedAncestors_set (as : List Int) (i : Nat) (a : Int)
    (hia : as[i]? = some a) :
    ∀ (is : List (Option Nat)) (k : Nat), is[k]? = some none →
      (Resampler.claimedAncestors as (is.set k (some i))).Perm
        (a :: Resampler.claimedAncestors as is) := by
  intro is
  induction is with
  | nil => intro k hk; simp at hk
  | cons o is ih =>
    intro k hk
    cases k with
    | zero =>
      simp only [List.getElem?_cons_zero, Option.some.injEq] at hk
      subst hk
      simp [Resampler.claimedAncestors, hia]
    | succ k =>
      simp only [List.getElem?_cons_succ] at hk
      have h := ih k hk
      simp only [List.set_cons_succ]
      cases hb : o.bind (fun i => as[i]?) with
      | none =>
        simpa [Resampler.claimedAncestors, hb] using h
      | some b =>
        have h1 : Resampler.claimedAncestors as (o :: is.set k (some i)) =
            b :: Resampler.claimedAncestors as (is.set k (some i)) := by
          simp [Resampler.claimedAncestors, hb]
        have h2 : Resampler.claimedAncestors as (o :: is) =
            b :: Resampler.claimedAncestors as is := by
          simp [Resampler.claimedAncestors, hb]
        rw [h1, h2]
        exact (List.Perm.cons b h).trans (List.Perm.swap a b _)

theorem Resampler.permuteClaims_invariant (as : List Int)
    (hrange : ∀ a ∈ as, 0 ≤ a ∧ a < (as.length : Int)) (n : Nat) (hn : n ≤ as.length) :
    let st := (List.range n).foldl (Resampler.permuteClaim as)
      (List.replicate as.length none, [])
    st.1.length = as.length ∧
      (Resampler.claimedAncestors as st.1 ++ st.2).Perm (as.take n) ∧
      (∀ (j i : Nat), st.1[j]? = some (some i) → as[i]? = some (j : Int)) ∧
      (∀ (i : Nat) (a : Int), i < n → as[i]? = some a →
        ∃ w, st.1[a.toNat]? = some (some w)) := by
  induction n with
  | zero =>
    refine ⟨by simp, ?_, ?_, ?_⟩
    · have : Resampler.claimedAncestors as (List.replicate as.length none) = [] := by
        simp only [Resampler.claimedAncestors, List.filterMap_eq_nil_iff]
        intro o ho
        rw [List.eq_of_mem_replicate ho]
        rfl
      simp [this]
    · intro j i h
      simp only [List.range_zero, List.foldl_nil] at h
      rw [List.getElem?_replicate] at h
      split at h <;> simp at h
    · intro i a hi
      omega
  | succ n ih =>
    obtain ⟨hlen, hperm, hclaim, hall⟩ := ih (by omega)
    have hnlt : n < as.length := by omega
    rw [List.range_succ, List.foldl_append]
    simp only [List.foldl_cons, List.foldl_nil]
    generalize (List.range n).foldl (Resampler.permuteClaim as)
      (List.replicate as.length none, []) = st at hlen hperm hclaim hall ⊢
    have han : as[n]? = some as[n] := List.getElem?_eq_getElem hnlt
    obtain ⟨ha0, ha1⟩ := hrange as[n] (List.getElem_mem hnlt)
    have hat : as[n].toNat < st.1.length := by omega
    have htake : as.take (n + 1) = as.take n ++ [as[n]] := by
      rw [List.take_succ, han]
      rfl
    have hread : Resampler.read? st.1 as[n] = some st.1[as[n].toNat] := by
      simp only [Resampler.read?]
      rw [if_pos ha0]
      exact List.getElem?_eq_getElem hat
    cases ho : st.1[as[n].toNat] with
    | none =>
      have hstep : Resampler.permuteClaim as st n = (st.1.set as[n].toNat (some n), st.2) := by
        simp [Resampler.permuteClaim, han, hread, ho]
      rw [hstep]
      have hk : st.1[as[n].toNat]? = some none := by
        rw [List.getElem?_eq_getElem hat, ho]
      refine ⟨by simpa using hlen, ?_, ?_, ?_⟩
      · rw [htake]
        have h1 := Resampler.claimedAncestors_set as n as[n] han st.1 as[n].toNat hk
        have h2 : (Resampler.claimedAncestors as (st.1.set as[n].toNat (some n)) ++ st.2).Perm
            (as[n] :: (Resampler.claimedAncestors as st.1 ++ st.2)) :=
          List.Perm.append_right st.2 h1
        exact h2.trans ((List.Perm.cons _ hperm).trans (List.perm_append_singleton _ _).symm)
      · intro j i hji
        simp only at hji
        by_cases hj : as[n].toNat = j
        · subst hj
          rw [List.getElem?_set_self hat] at hji
          simp only [Option.some.injEq] at hji
          subst hji
          rw [han]
          congr 1
          omega
        · rw [List.getElem?_set_ne hj] at hji
          exact hclaim j i hji
      · intro i a hi hia
        simp only
        by_cases hj : as[n].toNat = a.toNat
        · refine ⟨n, ?_⟩
          rw [← hj]
          exact List.getElem?_set_self hat
        · rw [List.getElem?_set_ne hj]
          have hi' : i < n := by
            rcases Nat.lt_succ_iff_lt_or_eq.1 hi with h | h
            · exact h
            · exfalso
              subst h
              rw [han] at hia
              exact hj (by rw [Option.some.inj hia])
          exact hall i a hi' hia
    | some w =>
      have hstep : Resampler.permuteClaim as st n = (st.1, st.2 ++ [as[n]]) := by
        simp [Resampler.permuteClaim, han, hread, ho]
      rw [hstep]
      refine ⟨hlen, ?_, hclaim, ?_⟩
      · rw [htake, ← List.append_assoc]
        exact List.Perm.append_right _ hperm
      · intro i a hi hia
        rcases Nat.lt_succ_iff_lt_or_eq.1 hi with h | h
        · exact hall i a h hia
        · subst h
          rw [han] at hia
          have := Option.some.inj hia
          subst this
          exact ⟨w, by rw [List.getElem?_eq_getElem hat, ho]⟩

theorem Resampler.claimedAncestors_length (as : List Int) :
    ∀ (is : List (Option Nat)), (∀ i, some i ∈ is → ∃ a, as[i]? = some a) →
      (Resampler.claimedAncestors as is).length + is.count none = is.length := by
  intro is
  induction is with
  | nil => intro _; simp [Resampler.claimedAncestors]
  | cons o is ih =>
    intro h
    have ih' := ih (fun i hi => h i (List.mem_cons_of_mem _ hi))
    cases o with
    | none =>
      have h1 : Resampler.claimedAncestors as (none :: is) =
          Resampler.claimedAncestors as is := by
        simp [Resampler.claimedAncestors]
      rw [h1, List.count_cons_self, List.length_cons]
      omega
    | some i =>
      obtain ⟨a, ha⟩ := h i (List.mem_cons_self _ _)
      have h1 : Resampler.claimedAncestors as (some i :: is) =
          a :: Resampler.claimedAncestors as is := by
        simp [Resampler.claimedAncestors, ha]
      rw [h1, List.count_cons_of_ne (by simp), List.length_cons, List.length_cons]
      omega

theorem Resampler.permutePlace_spec (as : List Int) :
    ∀ (is : List (Option Nat)) (d : List Int),
      (∀ i, some i ∈ is → ∃ a, as[i]? = some a) → is.count none = d.length →
      ∃ cs, Resampler.permutePlace as is d = some cs ∧
        cs.Perm (Resampler.claimedAncestors as is ++ d) ∧
        ∀ (k i : Nat), is[k]? = some (some i) → cs[k]? = as[i]? := by
  intro is
  induction is with
  | nil =>
    intro d _ hd
    have hd' : d = [] := by
      cases d with
      | nil => rfl
      | cons _ _ => simp at hd
    subst hd'
    exact ⟨[], rfl, by simp [Resampler.claimedAncestors], by simp⟩
  | cons o is ih =>
    intro d h hd
    have h' : ∀ i, some i ∈ is → ∃ a, as[i]? = some a :=
      fun i hi => h i (List.mem_cons_of_mem _ hi)
    cases o with
    | some i =>
      obtain ⟨a, ha⟩ := h i (List.mem_cons_self _ _)
      rw [List.count_cons_of_ne (by simp)] at hd
      obtain ⟨cs, hcs, hperm, hpos⟩ := ih d h' hd
      refine ⟨a :: cs, by simp [Resampler.permutePlace, ha, hcs], ?_, ?_⟩
      · have h1 : Resampler.claimedAncestors as (some i :: is) =
            a :: Resampler.claimedAncestors as is := by
          simp [Resampler.claimedAncestors, ha]
        rw [h1]
        exact List.Perm.cons a hperm
      · intro k j hk
        cases k with
        | zero =>
          simp only [List.getElem?_cons_zero, Option.some.injEq] at hk
          subst hk
          simp [ha]
        | succ k =>
          simp only [List.getElem?_cons_succ] at hk ⊢
          exact hpos k j hk
    | none =>
      rw [List.count_cons_self] at hd
      cases d with
      | nil => simp at hd
      | cons a d =>
        simp only [List.length_cons, Nat.add_right_cancel_iff] at hd
        obtain ⟨cs, hcs, hperm, hpos⟩ := ih d h' hd
        refine ⟨a :: cs, by simp [Resampler.permutePlace, hcs], ?_, ?_⟩
        · have h1 : Resampler.claimedAncestors as (none :: is) =
              Resampler.claimedAncestors as is := by
            simp [Resampler.claimedAncestors]
          rw [h1]
          exact (List.Perm.cons a hperm).trans List.perm_middle.symm
        · intro k j hk
          cases k with
          | zero => simp at hk
          | succ k =>
            simp only [List.getElem?_cons_succ] at hk ⊢
            exact hpos k j hk

theorem Resampler.permutePlace_claims_spec (as : List Int)
    (hrange : ∀ a ∈ as, 0 ≤ a ∧ a < (as.length : Int)) (d : List Int)
    (hd : d.Perm (Resampler.permuteClaims as).2) :
    ∃ cs, Resampler.permutePlace as (Resampler.permuteClaims as).1 d = some cs ∧ cs.Perm as ∧
      ∀ i : Nat, i < as.length → cs[i]? = some (i : Int) ∨ (i : Int) ∉ cs := by
  obtain ⟨hlen, hperm, hclaim, hall⟩ :=
    Resampler.permuteClaims_invariant as hrange as.length (le_refl _)
  simp only [List.take_length] at hperm
  change (Resampler.permuteClaims as).1.length = as.length at hlen
  change (Resampler.claimedAncestors as (Resampler.permuteClaims as).1 ++
    (Resampler.permuteClaims as).2).Perm as at hperm
  change ∀ (j i : Nat), (Resampler.permuteClaims as).1[j]? = some (some i) →
    as[i]? = some (j : Int) at hclaim
  change ∀ (i : Nat) (a : Int), i < as.length → as[i]? = some a →
    ∃ w, (Resampler.permuteClaims as).1[a.toNat]? = some (some w) at hall
  have hmem : ∀ i, some i ∈ (Resampler.permuteClaims as).1 → ∃ a, as[i]? = some a := by
    intro i hi
    obtain ⟨j, hj⟩ := List.getElem?_of_mem hi
    exact ⟨_, hclaim j i hj⟩
  have hcount : (Resampler.permuteClaims as).1.count none = d.length := by
    have h1 := Resampler.claimedAncestors_length as _ hmem
    have h2 := hperm.length_eq
    have h3 := hd.length_eq
    rw [List.length_append] at h2
    omega
  obtain ⟨cs, hcs, hp0, hpos⟩ := Resampler.permutePlace_spec as _ d hmem hcount
  have hp : cs.Perm (Resampler.claimedAncestors as (Resampler.permuteClaims as).1 ++
      (Resampler.permuteClaims as).2) := hp0.trans (List.Perm.append_left _ hd)
  refine ⟨cs, hcs, hp.trans hperm, ?_⟩
  intro i hi
  have hilt : i < (Resampler.permuteClaims as).1.length := by omega
  cases ho : (Resampler.permuteClaims as).1[i] with
  | some w =>
    left
    have hk : (Resampler.permuteClaims as).1[i]? = some (some w) := by
      rw [List.getElem?_eq_getElem hilt, ho]
    rw [hpos i w hk]
    exact hclaim i w hk
  | none =>
    right
    intro hmemcs
    have hin : (i : Int) ∈ as := (hp.trans hperm).mem_iff.1 hmemcs
    obtain ⟨k, hk⟩ := List.getElem?_of_mem hin
    have hklt : k < as.length := by
      by_contra hc
      rw [List.getElem?_eq_none (by omega)] at hk
      cases hk
    obtain ⟨w, hw⟩ := hall k (i : Int) hklt hk
    simp only [Int.toNat_ofNat] at hw
    rw [List.getElem?_eq_getElem hilt, ho] at hw
    cases hw

/-- C12: for every ancestor vector `as` of length `P` with entries in `[0, P)`,
`permute(as)` returns a vector `as'` with the same multiset of entries as `as`
in which, for every slot `i`, either `as'[i] = i` or `i` does not occur
anywhere in `as'`; the same holds however the unplaced writers are distributed
over the unclaimed slots. -/
theorem permute_in_place_copyable (as : List Int)
    (hrange : ∀ a ∈ as, 0 ≤ a ∧ a < (as.length : Int)) :
    (∃ as', Resampler.permute as = some as' ∧ as'.Perm as ∧
      ∀ i : Nat, i < as.length → as'[i]? = some (i : Int) ∨ (i : Int) ∉ as') ∧
    (∀ d : List Int, d.Perm (Resampler.permuteClaims as).2 →
      ∃ as', Resampler.permutePlace as (Resampler.permuteClaims as).1 d = some as' ∧
        as'.Perm as ∧
        ∀ i : Nat, i < as.length → as'[i]? = some (i : Int) ∨ (i : Int) ∉ as') :=
  ⟨Resampler.permutePlace_claims_spec as hrange _ (List.Perm.refl _),
    fun d hd => Resampler.permutePlace_claims_spec as hrange d hd⟩

/-- Witness of C12: the ancestry `[3, 3, 3, 0]`. -/
theorem permute_in_place_copyable_witness :
    ∃ as', Resampler.permute [3, 3, 3, 0] = some as' ∧ as'.Perm [3, 3, 3, 0] ∧
      ∀ i : Nat, i < [(3 : Int), 3, 3, 0].length →
        as'[i]? = some (i : Int) ∨ (i : Int) ∉ as' :=
  (permute_in_place_copyable [3, 3, 3, 0] (by decide)).1

/-! ## Resampler: offspring and ancestors -/

theorem Resampler.count_offspringToAncestorsFrom (a : Int) :
    ∀ (os : List Int) (b : Nat),
      (Resampler.offspringToAncestorsFrom b os).count a =
        if (b : Int) ≤ a ∧ a < (b : Int) + os.length then (os.getD (a - b).toNat 0).toNat
        else 0 := by
  intro os
  induction os with
  | nil =>
    intro b
    simp only [Resampler.offspringToAncestorsFrom, List.count_nil, List.length_nil,
      Nat.cast_zero, add_zero]
    split
    · omega
    · rfl
  | cons o os ih =>
    intro b
    simp only [Resampler.offspringToAncestorsFrom, List.count_append, List.count_replicate, ih,
      List.length_cons, Nat.cast_add, Nat.cast_one, beq_iff_eq]
    by_cases hab : (b : Int) = a
    · subst hab
      simp
    · by_cases hlt : (b : Int) < a
      · have h1 : (a - (b : Int)).toNat = (a - ((b : Int) + 1)).toNat + 1 := by omega
        rw [h1, List.getD_cons_succ]
        simp only [hab, if_false, zero_add]
        by_cases hup : a < (b : Int) + 1 + os.length
        · rw [if_pos ⟨by omega, hup⟩, if_pos ⟨by omega, by omega⟩]
        · rw [if_neg (fun h => hup h.2), if_neg (fun h => hup (by omega))]
      · simp only [hab, if_false, zero_add]
        rw [if_neg (fun h => by omega), if_neg (fun h => by omega)]

/-- C13: for every offspring vector `os` (of length `P`, with non-negative
entries), `ancestorsToOffspring(offspringToAncestors(os)) = os`, the offspring
being counted into a vector of the length `P` of `os`. -/
theorem ancestorsToOffspring_offspringToAncestors (os : List Int)
    (hnn : ∀ o ∈ os, 0 ≤ o) :
    Resampler.ancestorsToOffspring (Resampler.offspringToAncestors os) os.length = os := by
  apply List.ext_getElem
  · simp [Resampler.ancestorsToOffspring]
  · intro j h1 h2
    simp only [Resampler.ancestorsToOffspring, Resampler.offspringToAncestors, List.getElem_map,
      List.getElem_range, Resampler.count_offspringToAncestorsFrom]
    rw [if_pos ⟨by omega, by omega⟩]
    have hj : ((j : Int) - ((0 : Nat) : Int)).toNat = j := by omega
    rw [hj, List.getD_eq_getElem _ _ h2]
    have := hnn os[j] (List.getElem_mem h2)
    omega

/-- Witness of C13: the offspring vector `[2, 0, 1]`. -/
theorem ancestorsToOffspring_offspringToAncestors_witness :
    Resampler.ancestorsToOffspring (Resampler.offspringToAncestors [2, 0, 1])
      [(2 : Int), 0, 1].length = [2, 0, 1] :=
  ancestorsToOffspring_offspringToAncestors [2, 0, 1] (by decide)

/-- C14: for every ancestor vector `as` of length `P` with entries in `[0, P)`,
`offspringToAncestors(ancestorsToOffspring(as))` has the length of `as` and is a
rearrangement of it. -/
theorem offspringToAncestors_ancestorsToOffspring (as : List Int)
    (hrange : ∀ a ∈ as, 0 ≤ a ∧ a < (as.length : Int)) :
    (Resampler.offspringToAncestors
        (Resampler.ancestorsToOffspring as as.length)).length = as.length ∧
      (Resampler.offspringToAncestors (Resampler.ancestorsToOffspring as as.length)).Perm as := by
  have hperm : (Resampler.offspringToAncestors
      (Resampler.ancestorsToOffspring as as.length)).Perm as := by
    rw [List.perm_iff_count]
    intro a
    simp only [Resampler.offspringToAncestors, Resampler.count_offspringToAncestorsFrom,
      Resampler.ancestorsToOffspring, List.length_map, List.length_range]
    by_cases h : ((0 : Nat) : Int) ≤ a ∧ a < ((0 : Nat) : Int) + (as.length : Int)
    · rw [if_pos h]
      have hlt : (a - ((0 : Nat) : Int)).toNat < as.length := by omega
      rw [List.getD_eq_getElem _ _ (by simpa using hlt)]
      simp only [List.getElem_map, List.getElem_range, Int.toNat_ofNat]
      congr 1
      omega
    · rw [if_neg h]
      symm
      apply List.count_eq_zero.2
      intro hmem
      have := hrange a hmem
      omega
  exact ⟨hperm.length_eq, hperm⟩

/-- Witness of C14: the ancestry `[2, 0, 2]`. -/
theorem offspringToAncestors_ancestorsToOffspring_witness :
    (Resampler.offspringToAncestors
        (Resampler.ancestorsToOffspring [2, 0, 2] [(2 : Int), 0, 2].length)).length =
          [(2 : Int), 0, 2].length ∧
      (Resampler.offspringToAncestors
        (Resampler.ancestorsToOffspring [2, 0, 2] [(2 : Int), 0, 2].length)).Perm [2, 0, 2] :=
  offspringToAncestors_ancestorsToOffspring [2, 0, 2] (by decide)

theorem Resampler.getLast?_inclusiveScanFrom :
    ∀ (os : List Int) (acc : Int), os ≠ [] →
      (Resampler.inclusiveScanFrom acc os).getLast? = some (acc + os.sum) := by
  intro os
  induction os with
  | nil => intro acc h; exact absurd rfl h
  | cons o os ih =>
    intro acc _
    cases os with
    | nil => simp [Resampler.inclusiveScanFrom]
    | cons o2 os =>
      have h := ih (acc + o) (by simp)
      simp only [Resampler.inclusiveScanFrom] at h ⊢
      rw [List.getLast?_cons_cons, h]
      simp only [List.sum_cons]
      congr 1
      ring

theorem Resampler.map_findIdx_inclusiveScanFrom :
    ∀ (os : List Int) (acc : Int) (b : Nat), (∀ o ∈ os, 0 ≤ o) → 0 ≤ acc →
      (List.range' acc.toNat os.sum.toNat).map
          (fun (i : Nat) =>
            (((Resampler.inclusiveScanFrom acc os).findIdx
              (fun O => decide ((i : Int) < O)) + b : Nat) : Int)) =
        Resampler.offspringToAncestorsFrom b os := by
  intro os
  induction os with
  | nil =>
    intro acc b _ _
    simp [Resampler.offspringToAncestorsFrom]
  | cons o os ih =>
    intro acc b hnn hacc
    have ho : 0 ≤ o := hnn o (List.mem_cons_self _ _)
    have hos : ∀ x ∈ os, 0 ≤ x := fun x hx => hnn x (List.mem_cons_of_mem _ hx)
    have hsum : 0 ≤ os.sum := List.sum_nonneg hos
    have hsplit : (o :: os).sum.toNat = os.sum.toNat + o.toNat := by
      simp only [List.sum_cons]
      omega
    rw [hsplit, ← List.range'_append_1, List.map_append]
    simp only [Resampler.offspringToAncestorsFrom, Resampler.inclusiveScanFrom]
    congr 1
    · rw [List.eq_replicate_iff]
      refine ⟨by simp, ?_⟩
      intro x hx
      simp only [List.mem_map, List.mem_range'_1] at hx
      obtain ⟨i, ⟨hi1, hi2⟩, rfl⟩ := hx
      have hlt : (i : Int) < acc + o := by omega
      simp [List.findIdx_cons, hlt]
    · have hacc' : (acc + o).toNat = acc.toNat + o.toNat := by omega
      rw [← ih (acc + o) (b + 1) hos (by omega), hacc']
      apply List.map_congr_left
      intro i hi
      simp only [List.mem_range'_1] at hi
      have hge : ¬ (i : Int) < acc + o := by omega
      simp only [List.findIdx_cons, hge, decide_False, cond_false]
      congr 1
      omega

/-- C15: for every offspring vector `os` with non-negative entries, with `Os` its
inclusive prefix sum and `n = Os[P-1]`, `cumulativeOffspringToAncestors(Os)` has
length `n`, its entry `i` is the smallest `j` such that `Os[j] > i`, and it
equals `offspringToAncestors(os)`. -/
theorem cumulativeOffspringToAncestors_eq (os : List Int) (hnn : ∀ o ∈ os, 0 ≤ o) :
    (Resampler.cumulativeOffspringToAncestors (Resampler.sum_inclusive_scan os)).length =
        ((Resampler.sum_inclusive_scan os).getLast?.getD 0).toNat ∧
      (∀ (i : Nat), (i : Int) < (Resampler.sum_inclusive_scan os).getLast?.getD 0 →
        ∃ j : Nat,
          (Resampler.cumulativeOffspringToAncestors (Resampler.sum_inclusive_scan os))[i]? =
            some (j : Int) ∧
          (∃ O, (Resampler.sum_inclusive_scan os)[j]? = some O ∧ (i : Int) < O) ∧
          ∀ (j' : Nat) (O : Int), j' < j →
            (Resampler.sum_inclusive_scan os)[j']? = some O → O ≤ (i : Int)) ∧
      Resampler.cumulativeOffspringToAncestors (Resampler.sum_inclusive_scan os) =
        Resampler.offspringToAncestors os := by
  refine ⟨by simp [Resampler.cumulativeOffspringToAncestors], ?_, ?_⟩
  · intro i hi
    generalize Resampler.sum_inclusive_scan os = Os at hi ⊢
    have hne : Os ≠ [] := by
      intro h
      subst h
      simp at hi
      omega
    have hlast : Os.getLast?.getD 0 = Os.getLast hne := by
      rw [List.getLast?_eq_getLast _ hne]
      rfl
    have hex : ∃ x ∈ Os, (fun O => decide ((i : Int) < O)) x = true :=
      ⟨Os.getLast hne, List.getLast_mem hne, by simpa [hlast] using hi⟩
    have hlt : Os.findIdx (fun O => decide ((i : Int) < O)) < Os.length :=
      List.findIdx_lt_length_of_exists hex
    refine ⟨Os.findIdx (fun O => decide ((i : Int) < O)), ?_, ?_, ?_⟩
    · simp only [Resampler.cumulativeOffspringToAncestors]
      have hir : i < (List.range (Os.getLast?.getD 0).toNat).length := by
        simp only [List.length_range]
        omega
      rw [List.getElem?_map, List.getElem?_eq_getElem hir]
      simp
    · refine ⟨Os[Os.findIdx (fun O => decide ((i : Int) < O))],
        List.getElem?_eq_getElem hlt, ?_⟩
      have := @List.findIdx_getElem _ (fun O => decide ((i : Int) < O)) Os hlt
      simpa using this
    · intro j' O hj' hO
      have hj'lt : j' < Os.length := by omega
      have := @List.not_of_lt_findIdx _ (fun O => decide ((i : Int) < O)) Os j' hj'
      rw [List.getElem?_eq_getElem hj'lt] at hO
      cases hO
      simpa using this
  · cases hos : os with
    | nil => rfl
    | cons o os' =>
      have hne : os ≠ [] := by simp [hos]
      have hl := Resampler.getLast?_inclusiveScanFrom os 0 hne
      have hm := Resampler.map_findIdx_inclusiveScanFrom os 0 0 hnn (le_refl _)
      rw [← hos]
      simp only [Resampler.cumulativeOffspringToAncestors, Resampler.sum_inclusive_scan,
        Resampler.offspringToAncestors, hl, Option.getD_some, zero_add, List.range_eq_range']
      simpa using hm

/-- Witness of C15: the offspring vector `[2, 0, 1]`, with `Os = [2, 2, 3]`. -/
theorem cumulativeOffspringToAncestors_eq_witness :
    Resampler.cumulativeOffspringToAncestors (Resampler.sum_inclusive_scan [2, 0, 1]) =
      Resampler.offspringToAncestors [2, 0, 1] :=
  (cumulativeOffspringToAncestors_eq [2, 0, 1] (by decide)).2.2

/-! ## Stratified resampler: auxiliary facts -/

theorem Resampler.length_inclusiveScanFrom {α : Type} [Add α] :
    ∀ (xs : List α) (acc : α), (Resampler.inclusiveScanFrom acc xs).length = xs.length := by
  intro xs
  induction xs with
  | nil => intro acc; rfl
  | cons x xs ih => intro acc; simp [Resampler.inclusiveScanFrom, ih]

theorem Resampler.getLast?_inclusiveScanFrom_sum {α : Type} [AddCommMonoid α] :
    ∀ (xs : List α) (acc : α), xs ≠ [] →
      (Resampler.inclusiveScanFrom acc xs).getLast? = some (acc + xs.sum) := by
  intro xs
  induction xs with
  | nil => intro acc h; exact absurd rfl h
  | cons x xs ih =>
    intro acc _
    cases xs with
    | nil => simp [Resampler.inclusiveScanFrom]
    | cons x2 xs =>
      have h := ih (acc + x) (by simp)
      simp only [Resampler.inclusiveScanFrom] at h ⊢
      rw [List.getLast?_cons_cons, h]
      simp only [List.sum_cons]
      rw [add_assoc]

theorem Resampler.inclusiveScanFrom_monotone {α : Type} [OrderedAddCommMonoid α] :
    ∀ (xs : List α) (acc : α), (∀ x ∈ xs, 0 ≤ x) →
      (∀ y ∈ Resampler.inclusiveScanFrom acc xs, acc ≤ y) ∧
        (Resampler.inclusiveScanFrom acc xs).Pairwise (fun a b => a ≤ b) := by
  intro xs
  induction xs with
  | nil => intro acc _; simp [Resampler.inclusiveScanFrom]
  | cons x xs ih =>
    intro acc hnn
    have hx : 0 ≤ x := hnn x (List.mem_cons_self _ _)
    obtain ⟨h1, h2⟩ := ih (acc + x) (fun y hy => hnn y (List.mem_cons_of_mem _ hy))
    have hacc : acc ≤ acc + x := le_add_of_nonneg_right hx
    simp only [Resampler.inclusiveScanFrom]
    refine ⟨?_, List.pairwise_cons.2 ⟨h1, h2⟩⟩
    intro y hy
    rcases List.mem_cons.1 hy with h | h
    · rw [h]; exact hacc
    · exact le_trans hacc (h1 y h)

theorem length_adjacentDifferenceFrom :
    ∀ (xs : List Int) (prev : Int), (adjacentDifferenceFrom prev xs).length = xs.length := by
  intro xs
  induction xs with
  | nil => intro prev; rfl
  | cons x xs ih => intro prev; simp [adjacentDifferenceFrom, ih]

theorem sum_adjacentDifferenceFrom :
    ∀ (xs : List Int) (prev : Int),
      (adjacentDifferenceFrom prev xs).sum = xs.getLast?.getD prev - prev := by
  intro xs
  induction xs with
  | nil => intro prev; simp [adjacentDifferenceFrom]
  | cons x xs ih =>
    intro prev
    simp only [adjacentDifferenceFrom, List.sum_cons, ih, List.getLast?_cons]
    simp only [Option.getD_some]
    ring

theorem adjacentDifferenceFrom_nonneg :
    ∀ (xs : List Int) (prev : Int), (∀ x ∈ xs, prev ≤ x) → xs.Pairwise (fun a b => a ≤ b) →
      ∀ d ∈ adjacentDifferenceFrom prev xs, 0 ≤ d := by
  intro xs
  induction xs with
  | nil => intro prev _ _ d hd; simp [adjacentDifferenceFrom] at hd
  | cons x xs ih =>
    intro prev hprev hpw d hd
    simp only [adjacentDifferenceFrom, List.mem_cons] at hd
    rcases hd with h | h
    · have := hprev x (List.mem_cons_self _ _)
      omega
    · exact ih x (List.pairwise_cons.1 hpw).1 (List.pairwise_cons.1 hpw).2 d h

theorem scatter_spec :
    ∀ (ps src dst : List Int), ps.Nodup → (∀ p ∈ ps, 0 ≤ p ∧ p.toNat < dst.length) →
      src.length = ps.length →
      ∃ r, scatter ps src dst = some r ∧ r.length = dst.length ∧
        (∀ (i : Nat) (p x : Int), ps[i]? = some p → src[i]? = some x →
          r[p.toNat]? = some x) ∧
        (∀ q : Nat, (q : Int) ∉ ps → r[q]? = dst[q]?) := by
  intro ps
  induction ps with
  | nil =>
    intro src dst _ _ _
    exact ⟨dst, rfl, rfl, by simp, fun _ _ => rfl⟩
  | cons p ps ih =>
    intro src dst hnd hr hlen
    cases src with
    | nil => simp at hlen
    | cons x src =>
      obtain ⟨hp0, hp1⟩ := hr p (List.mem_cons_self _ _)
      have hnd' := List.nodup_cons.1 hnd
      obtain ⟨r, hs, hl, h3, h4⟩ := ih src (dst.set p.toNat x) hnd'.2
        (fun q hq => by simpa using hr q (List.mem_cons_of_mem _ hq))
        (by simpa using hlen)
      refine ⟨r, ?_, by simpa using hl, ?_, ?_⟩
      · simp [scatter, hp0, hp1, hs]
      · intro i q y hq hy
        cases i with
        | zero =>
          simp only [List.getElem?_cons_zero, Option.some.injEq] at hq hy
          subst hq hy
          have hnot : ((p.toNat : Nat) : Int) ∉ ps := by
            rw [Int.toNat_of_nonneg hp0]
            exact hnd'.1
          rw [h4 p.toNat hnot]
          exact List.getElem?_set_self hp1
        | succ i =>
          simp only [List.getElem?_cons_succ] at hq hy
          exact h3 i q y hq hy
      · intro q hq
        have hq1 : (q : Int) ≠ p := fun h => hq (h ▸ List.mem_cons_self _ _)
        have hq2 : (q : Int) ∉ ps := fun h => hq (List.mem_cons_of_mem _ h)
        rw [h4 q hq2]
        apply List.getElem?_set_ne
        omega

theorem scatter_perm (ps src dst : List Int) (P : Nat)
    (hps : ps.Perm ((List.range P).map (fun (i : Nat) => (i : Int))))
    (hsrc : src.length = P) (hdst : dst.length = P) :
    ∃ r, scatter ps src dst = some r ∧ r.length = P ∧ r.Perm src := by
  have hnd : ps.Nodup := by
    apply hps.nodup_iff.2
    apply List.Nodup.map
    · intro a b h
      exact Int.ofNat.inj h
    · exact List.nodup_range P
  have hr : ∀ p ∈ ps, 0 ≤ p ∧ p.toNat < dst.length := by
    intro p hp
    obtain ⟨q, hq, rfl⟩ := List.mem_map.1 (hps.mem_iff.1 hp)
    have := List.mem_range.1 hq
    constructor
    · omega
    · simp only [Int.toNat_ofNat]; omega
  have hlen : src.length = ps.length := by
    rw [hsrc, hps.length_eq]
    simp
  obtain ⟨r, hs, hl, h3, _⟩ := scatter_spec ps src dst hnd hr hlen
  refine ⟨r, hs, by omega, ?_⟩
  have h1 : ps.map (fun p => r.getD p.toNat 0) = src := by
    apply List.ext_getElem
    · simp [hlen]
    · intro i hi1 hi2
      have hi3 : i < ps.length := by simpa using hi1
      have := h3 i ps[i] src[i] (List.getElem?_eq_getElem hi3) (List.getElem?_eq_getElem hi2)
      simp only [List.getElem_map, List.getD_eq_getElem?_getD, this, Option.getD_some]
  have h2 : ((List.range P).map (fun (i : Nat) => (i : Int))).map
      (fun p => r.getD p.toNat 0) = r := by
    apply List.ext_getElem
    · simp; omega
    · intro i hi1 hi2
      simp [List.getD_eq_getElem?_getD, List.getElem?_eq_getElem hi2]
  rw [← h1]
  nth_rewrite 1 [← h2]
  exact (hps.map _).symm

theorem seq_elements_zero (x : List Int) :
    seq_elements x 0 = (List.range x.length).map (fun (i : Nat) => (i : Int)) := by
  simp [seq_elements]

theorem sort_by_key_perm {T : Type} [LinearOrder T] (keys : List T) (values : List Int)
    (hlen : keys.length = values.length) :
    (sort_by_key keys values).1.Perm keys ∧ (sort_by_key keys values).2.Perm values := by
  have hp := List.perm_insertionSort (fun (a b : T × Int) => a.1 ≤ b.1) (keys.zip values)
  simp only [sort_by_key, List.unzip_eq_map]
  constructor
  · have := hp.map Prod.fst
    rwa [List.map_fst_zip _ _ (by omega)] at this
  · have := hp.map Prod.snd
    rwa [List.map_snd_zip _ _ (by omega)] at this

theorem StratifiedResamplerHost.op_length {K : Type} [LinearOrderedField K] (rng : Random K)
    (Ws : List K) (n : Int) : (StratifiedResamplerHost.op rng Ws n).2.length = Ws.length := by
  simp [StratifiedResamplerHost.op]

theorem StratifiedResamplerHost.op_nonneg {K : Type} [LinearOrderedField K] (rng : Random K)
    (Ws : List K) (n : Int) : ∀ O ∈ (StratifiedResamplerHost.op rng Ws n).2, 0 ≤ O := by
  intro O hO
  simp only [StratifiedResamplerHost.op, List.mem_map] at hO
  obtain ⟨w, _, rfl⟩ := hO
  exact Int.natCast_nonneg _

theorem StratifiedResamplerHost.op_monotone {K : Type} [LinearOrderedField K] (rng : Random K)
    (Ws : List K) (n : Int) (hWs : Ws.Pairwise (fun a b => a ≤ b)) :
    (StratifiedResamplerHost.op rng Ws n).2.Pairwise (fun a b => a ≤ b) := by
  simp only [StratifiedResamplerHost.op]
  apply List.Pairwise.map _ _ hWs
  intro a b hab
  apply Int.ofNat_le.2
  apply List.countP_mono_left
  intro i _ hi
  simp only [decide_eq_true_eq] at hi ⊢
  exact le_trans hi hab

theorem StratifiedResamplerHost.op_last {K : Type} [LinearOrderedField K] (rng : Random K)
    (Ws : List K) (n : Int) (W : K) (hlast : Ws.getLast? = some W) (hW : 0 < W) (hn : 0 ≤ n)
    (hU : ∀ k, 0 ≤ rng.uniforms k ∧ rng.uniforms k < 1) :
    (StratifiedResamplerHost.op rng Ws n).2.getLast? = some n := by
  simp only [StratifiedResamplerHost.op, List.getLast?_map, hlast, Option.map_some',
    Option.getD_some, Option.some.injEq]
  have hall : (List.range n.toNat).countP
      (fun (i : Nat) => decide ((((i : K) + rng.uniforms (rng.pos + i)) / (n : K)) * W ≤ W)) =
      (List.range n.toNat).length := by
    apply List.countP_eq_length.2
    intro i hi
    have hi' : i < n.toNat := List.mem_range.1 hi
    simp only [decide_eq_true_eq]
    have hnK : (n : K) = ((n.toNat : Nat) : K) := by
      have h1 : ((n.toNat : Nat) : Int) = n := Int.toNat_of_nonneg hn
      rw [← Int.cast_natCast, h1]
    have hnpos : (0 : K) < (n : K) := by
      rw [hnK]
      exact Nat.cast_pos.2 (by omega)
    have hle : (i : K) + rng.uniforms (rng.pos + i) ≤ (n : K) := by
      have h1 : ((i + 1 : Nat) : K) ≤ ((n.toNat : Nat) : K) := Nat.cast_le.2 (by omega)
      rw [hnK]
      have h2 := (hU (rng.pos + i)).2
      push_cast at h1
      linarith
    have hdiv : ((i : K) + rng.uniforms (rng.pos + i)) / (n : K) ≤ 1 :=
      (div_le_one hnpos).2 hle
    calc ((i : K) + rng.uniforms (rng.pos + i)) / (n : K) * W ≤ 1 * W :=
          mul_le_mul_of_nonneg_right hdiv (le_of_lt hW)
      _ = W := one_mul W
  rw [hall, List.length_range]
  exact Int.toNat_of_nonneg hn

theorem sumexpu_inclusive_scan_spec {T K : Type} [LinearOrderedField K] (expu : T → K)
    (lws : List T) (hne : lws ≠ []) (hexp : ∀ x, 0 ≤ expu x) :
    (sumexpu_inclusive_scan expu lws).getLast? = some ((lws.map expu).sum) ∧
      (sumexpu_inclusive_scan expu lws).Pairwise (fun a b => a ≤ b) ∧
      (sumexpu_inclusive_scan expu lws).length = lws.length := by
  have hne' : lws.map expu ≠ [] := by simpa using hne
  refine ⟨?_, ?_, ?_⟩
  · have := Resampler.getLast?_inclusiveScanFrom_sum (lws.map expu) 0 hne'
    simpa [sumexpu_inclusive_scan, Resampler.sum_inclusive_scan] using this
  · have := Resampler.inclusiveScanFrom_monotone (lws.map expu) 0
      (by intro x hx; obtain ⟨t, _, rfl⟩ := List.mem_map.1 hx; exact hexp t)
    exact this.2
  · simp [sumexpu_inclusive_scan, Resampler.sum_inclusive_scan,
      Resampler.length_inclusiveScanFrom]

theorem StratifiedResampler.op_spec {K : Type} [LinearOrderedField K] (env : Env K)
    (Ws : List K) (n : Int) (W : K) (hlast : Ws.getLast? = some W) (hW : 0 < W) (hn : 0 ≤ n)
    (hWs : Ws.Pairwise (fun a b => a ≤ b))
    (hU : ∀ k, 0 ≤ env.rng.uniforms k ∧ env.rng.uniforms k < 1) :
    (StratifiedResampler.op env Ws n).2.length = Ws.length ∧
      (∀ O ∈ (StratifiedResampler.op env Ws n).2, 0 ≤ O) ∧
      (StratifiedResampler.op env Ws n).2.Pairwise (fun a b => a ≤ b) ∧
      (StratifiedResampler.op env Ws n).2.getLast? = some n :=
  ⟨StratifiedResamplerHost.op_length env.rng Ws n,
    StratifiedResamplerHost.op_nonneg env.rng Ws n,
    StratifiedResamplerHost.op_monotone env.rng Ws n hWs,
    StratifiedResamplerHost.op_last env.rng Ws n W hlast hW hn hU⟩

theorem StratifiedResampler.cumulativeOffspring_plain {T K : Type} [LinearOrder T]
    [LinearOrderedField K] (self : StratifiedResampler T K) (env : Env K) (lws : List T)
    (Os : List Int) (n : Int) (hsort : self.sort = false) (hne : lws ≠ [])
    (hOs : Os.length = lws.length) (hexp : ∀ x, 0 ≤ self.expu x)
    (hW : 0 < StratifiedResampler.totalWeight self lws) (hn : 0 ≤ n)
    (hU : ∀ k, 0 ≤ env.rng.uniforms k ∧ env.rng.uniforms k < 1) :
    ∃ env1 Os1, StratifiedResampler.cumulativeOffspring self env lws Os n =
        Outcome.ok () (env1, Os1) ∧
      Os1.length = lws.length ∧ (∀ O ∈ Os1, 0 ≤ O) ∧
      Os1.Pairwise (fun a b => a ≤ b) ∧ Os1.getLast? = some n := by
  obtain ⟨hlast, hmono, hlen⟩ := sumexpu_inclusive_scan_spec self.expu lws hne hexp
  obtain ⟨h1, h2, h3, h4⟩ := StratifiedResampler.op_spec env
    (sumexpu_inclusive_scan self.expu lws) n _ hlast hW hn hmono hU
  refine ⟨(StratifiedResampler.op env (sumexpu_inclusive_scan self.expu lws) n).1,
    (StratifiedResampler.op env (sumexpu_inclusive_scan self.expu lws) n).2, ?_,
    by rw [h1, hlen], h2, h3, h4⟩
  have hW' : (lws.map self.expu).sum > 0 := hW
  simp only [StratifiedResampler.cumulativeOffspring, hsort, hOs, ne_eq, not_true_eq_false,
    if_false, Bool.false_eq_true, hlast, hW', if_true, h4]

theorem StratifiedResampler.offspringSortBranch_spec {T K : Type} [LinearOrder T]
    [LinearOrderedField K] (self : StratifiedResampler T K) (env : Env K) (lws : List T)
    (os : List Int) (n : Int) (hne : lws ≠ [])
    (hos : os.length = lws.length) (hexp : ∀ x, 0 ≤ self.expu x)
    (hW : 0 < StratifiedResampler.totalWeight self lws) (hn : 0 ≤ n)
    (hU : ∀ k, 0 ≤ env.rng.uniforms k ∧ env.rng.uniforms k < 1) :
    ∃ env1 os1, StratifiedResampler.offspringSortBranch self env lws os n =
        Outcome.ok () (env1, os1) ∧
      os1.length = lws.length ∧ (∀ o ∈ os1, 0 ≤ o) ∧ os1.sum = n := by
  have hseq : (seq_elements (List.replicate lws.length 0) 0).length = lws.length := by
    simp [seq_elements]
  obtain ⟨hk, hv⟩ := sort_by_key_perm lws (seq_elements (List.replicate lws.length 0) 0)
    hseq.symm
  generalize hsorted : sort_by_key lws (seq_elements (List.replicate lws.length 0) 0) = sorted
    at hk hv
  have hne1 : sorted.1 ≠ [] := by
    intro h
    have := hk.length_eq
    rw [h] at this
    exact hne (List.length_eq_zero.1 this.symm)
  obtain ⟨hlast, hmono, hlen⟩ := sumexpu_inclusive_scan_spec self.expu sorted.1 hne1 hexp
  have hsum : (sorted.1.map self.expu).sum = (lws.map self.expu).sum :=
    (hk.map self.expu).sum_eq
  have hW' : (sorted.1.map self.expu).sum > 0 := by rw [hsum]; exact hW
  obtain ⟨h1, h2, h3, h4⟩ := StratifiedResampler.op_spec env
    (sumexpu_inclusive_scan self.expu sorted.1) n _ hlast hW' hn hmono hU
  generalize hr : StratifiedResampler.op env (sumexpu_inclusive_scan self.expu sorted.1) n = r
    at h1 h2 h3 h4
  have hPlen : sorted.1.length = lws.length := hk.length_eq
  have htemp : (adjacent_difference r.2).length = lws.length := by
    rw [adjacent_difference, length_adjacentDifferenceFrom, h1, hlen, hPlen]
  have hps : sorted.2.Perm ((List.range lws.length).map (fun (i : Nat) => (i : Int))) := by
    have := hv
    rwa [seq_elements_zero, List.length_replicate] at this
  obtain ⟨os1, hsc, hl1, hperm⟩ := scatter_perm sorted.2 (adjacent_difference r.2) os
    lws.length hps htemp hos
  have hsumtemp : (adjacent_difference r.2).sum = n := by
    rw [adjacent_difference, sum_adjacentDifferenceFrom, h4]
    simp
  have hnn : ∀ d ∈ adjacent_difference r.2, 0 ≤ d :=
    adjacentDifferenceFrom_nonneg r.2 0 h2 h3
  refine ⟨r.1, os1, ?_, hl1, fun o ho => hnn o (hperm.mem_iff.1 ho), ?_⟩
  · have hs1 : sum_reduce os1 = n := by
      rw [sum_reduce, hperm.sum_eq, hsumtemp]
    simp only [StratifiedResampler.offspringSortBranch, hsorted, hlast, hW', if_true, hr, hsc,
      hs1]
  · rw [hperm.sum_eq, hsumtemp]

theorem expu2_nonneg (x : Int) : 0 ≤ expu2 x := by
  unfold expu2
  split
  · exact le_refl _
  · exact zpow_nonneg (by norm_num) x

/-! ## Stratified resampler: offspring -/

/-- C16: for every log-weight vector `lws` of length `P ≥ 1` with total weight
`W > 0`, every target `n ≥ 0` and every outcome of the uniform draws in `[0, 1)`,
`cumulativeOffspring(rng, lws, Os, n)` returns `Os` monotone non-decreasing with
`Os[P-1] = n`, with `sort = false` and with `sort = true`. -/
theorem cumulativeOffspring_exact_total {T K : Type} [LinearOrder T] [LinearOrderedField K]
    (self : StratifiedResampler T K) (env : Env K) (lws : List T) (Os : List Int) (n : Int)
    (hne : lws ≠ []) (hOs : Os.length = lws.length) (hexp : ∀ x, 0 ≤ self.expu x)
    (hW : 0 < StratifiedResampler.totalWeight self lws) (hn : 0 ≤ n)
    (hU : ∀ k, 0 ≤ env.rng.uniforms k ∧ env.rng.uniforms k < 1) :
    ∃ env1 Os1, StratifiedResampler.cumulativeOffspring self env lws Os n =
        Outcome.ok () (env1, Os1) ∧
      Os1.length = lws.length ∧ Os1.Pairwise (fun a b => a ≤ b) ∧ Os1.getLast? = some n := by
  cases hsort : self.sort with
  | false =>
    obtain ⟨env1, Os1, h, hl, _, hm, hlast⟩ :=
      StratifiedResampler.cumulativeOffspring_plain self env lws Os n hsort hne hOs hexp hW hn hU
    exact ⟨env1, Os1, h, hl, hm, hlast⟩
  | true =>
    obtain ⟨env1, os1, h, hl, hnn, hsum⟩ :=
      StratifiedResampler.offspringSortBranch_spec self env lws (List.replicate lws.length 0) n
        hne (by simp) hexp hW hn hU
    have hne1 : os1 ≠ [] := by
      intro h0
      rw [h0] at hl
      exact hne (List.length_eq_zero.1 hl.symm)
    refine ⟨env1, Resampler.sum_inclusive_scan os1, ?_, ?_, ?_, ?_⟩
    · simp only [StratifiedResampler.cumulativeOffspring, hOs, ne_eq, not_true_eq_false,
        if_false, hsort, if_true, h]
    · rw [Resampler.sum_inclusive_scan, Resampler.length_inclusiveScanFrom, hl]
    · exact (Resampler.inclusiveScanFrom_monotone os1 0 hnn).2
    · rw [Resampler.sum_inclusive_scan, Resampler.getLast?_inclusiveScanFrom_sum os1 0 hne1,
        hsum, zero_add]

/-- Witness of C16: log-weights `[0, 0, 1, -3]` (weights `1, 1, 2, 1/8`), `n = 4`,
`sort = true`, all draws `1/2`. -/
theorem cumulativeOffspring_exact_total_witness :
    ∃ env1 Os1, StratifiedResampler.cumulativeOffspring (exampleResampler true true)
        exampleEnv [0, 0, 1, -3] [0, 0, 0, 0] 4 = Outcome.ok () (env1, Os1) ∧
      Os1.length = [(0 : Int), 0, 1, -3].length ∧ Os1.Pairwise (fun a b => a ≤ b) ∧
      Os1.getLast? = some 4 :=
  cumulativeOffspring_exact_total (exampleResampler true true) exampleEnv [0, 0, 1, -3]
    [0, 0, 0, 0] 4 (by decide) rfl expu2_nonneg
    (by norm_num [StratifiedResampler.totalWeight, exampleResampler, expu2]) (by decide)
    (fun k => by norm_num [exampleEnv])

/-- C17: for every `lws` of length `P ≥ 1` with total weight `W > 0`, every `n ≥ 0`
and every outcome of the uniform draws in `[0, 1)`, `offspring(rng, lws, os, n)`
returns `os` with every entry `≥ 0` and sum `n`, with `sort = false` and with
`sort = true`. -/
theorem offspring_exact_total {T K : Type} [LinearOrder T] [LinearOrderedField K]
    (self : StratifiedResampler T K) (env : Env K) (lws : List T) (os : List Int) (n : Int)
    (hne : lws ≠ []) (hos : os.length = lws.length) (hexp : ∀ x, 0 ≤ self.expu x)
    (hW : 0 < StratifiedResampler.totalWeight self lws) (hn : 0 ≤ n)
    (hU : ∀ k, 0 ≤ env.rng.uniforms k ∧ env.rng.uniforms k < 1) :
    ∃ env1 os1, StratifiedResampler.offspring self env lws os n =
        Outcome.ok () (env1, os1) ∧
      os1.length = lws.length ∧ (∀ o ∈ os1, 0 ≤ o) ∧ os1.sum = n := by
  cases hsort : self.sort with
  | true =>
    obtain ⟨env1, os1, h, hl, hnn, hsum⟩ :=
      StratifiedResampler.offspringSortBranch_spec self env lws os n hne hos hexp hW hn hU
    refine ⟨env1, os1, ?_, hl, hnn, hsum⟩
    simp only [StratifiedResampler.offspring, hos, ne_eq, not_true_eq_false, if_false, hsort,
      if_true, h]
  | false =>
    obtain ⟨env1, Os1, h, hl, hnn, hm, hlast⟩ :=
      StratifiedResampler.cumulativeOffspring_plain self env lws
        (List.replicate lws.length 0) n hsort hne (by simp) hexp hW hn hU
    refine ⟨env1, adjacent_difference Os1, ?_, ?_, ?_, ?_⟩
    · simp only [StratifiedResampler.offspring, hos, ne_eq, not_true_eq_false, if_false, hsort,
        Bool.false_eq_true, h]
    · rw [adjacent_difference, length_adjacentDifferenceFrom, hl]
    · exact adjacentDifferenceFrom_nonneg Os1 0 hnn hm
    · rw [adjacent_difference, sum_adjacentDifferenceFrom, hlast]
      simp

/-- Witness of C17: log-weights `[0, 0, 1, -3]`, `n = 4`, `sort = false`, all draws
`1/2`. -/
theorem offspring_exact_total_witness :
    ∃ env1 os1, StratifiedResampler.offspring (exampleResampler false true)
        exampleEnv [0, 0, 1, -3] [0, 0, 0, 0] 4 = Outcome.ok () (env1, os1) ∧
      os1.length = [(0 : Int), 0, 1, -3].length ∧ (∀ o ∈ os1, 0 ≤ o) ∧ os1.sum = 4 :=
  offspring_exact_total (exampleResampler false true) exampleEnv [0, 0, 1, -3]
    [0, 0, 0, 0] 4 (by decide) rfl expu2_nonneg
    (by norm_num [StratifiedResampler.totalWeight, exampleResampler, expu2]) (by decide)
    (fun k => by norm_num [exampleEnv])

theorem StratifiedResampler.offspringSortBranch_degenerated {T K : Type} [LinearOrder T]
    [LinearOrderedField K] (self : StratifiedResampler T K) (env : Env K) (lws : List T)
    (os : List Int) (n : Int) (W : K)
    (hlast : (sumexpu_inclusive_scan self.expu lws).getLast? = some W) :
    (¬ 0 < W → StratifiedResampler.offspringSortBranch self env lws os n =
        Outcome.degenerated (env, os)) ∧
      (0 < W → ∀ st, StratifiedResampler.offspringSortBranch self env lws os n ≠
        Outcome.degenerated st) := by
  have hne : lws ≠ [] := by
    intro h
    subst h
    simp [sumexpu_inclusive_scan, Resampler.sum_inclusive_scan,
      Resampler.inclusiveScanFrom] at hlast
  have hW : W = (lws.map self.expu).sum := by
    have h := Resampler.getLast?_inclusiveScanFrom_sum (lws.map self.expu) 0 (by simpa using hne)
    simp only [sumexpu_inclusive_scan, Resampler.sum_inclusive_scan] at hlast
    rw [h] at hlast
    simpa using hlast.symm
  have hseq : (seq_elements (List.replicate lws.length 0) 0).length = lws.length := by
    simp [seq_elements]
  obtain ⟨hk, _⟩ := sort_by_key_perm lws (seq_elements (List.replicate lws.length 0) 0)
    hseq.symm
  generalize hsorted : sort_by_key lws (seq_elements (List.replicate lws.length 0) 0) = sorted
    at hk
  have hne1 : sorted.1.map self.expu ≠ [] := by
    intro h
    have h1 := hk.length_eq
    have h2 : sorted.1 = [] := by simpa using h
    rw [h2] at h1
    exact hne (List.length_eq_zero.1 h1.symm)
  have hlast1 : (sumexpu_inclusive_scan self.expu sorted.1).getLast? = some W := by
    have h := Resampler.getLast?_inclusiveScanFrom_sum (sorted.1.map self.expu) 0 hne1
    simp only [sumexpu_inclusive_scan, Resampler.sum_inclusive_scan]
    rw [h, hW, (hk.map self.expu).sum_eq, zero_add]
  constructor
  · intro hnot
    have hnot' : ¬ W > 0 := hnot
    simp only [StratifiedResampler.offspringSortBranch, hsorted, hlast1, hnot', if_false]
  · intro hpos st
    have hpos' : W > 0 := hpos
    simp only [StratifiedResampler.offspringSortBranch, hsorted, hlast1, hpos', if_true]
    split
    · exact fun h => by cases h
    · split
      · exact fun h => by cases h
      · exact fun h => by cases h

theorem StratifiedResampler.cumulativeOffspring_degenerated {T K : Type} [LinearOrder T]
    [LinearOrderedField K] (self : StratifiedResampler T K) (env : Env K) (lws : List T)
    (Os : List Int) (n : Int) (W : K) (hOs : Os.length = lws.length)
    (hlast : (sumexpu_inclusive_scan self.expu lws).getLast? = some W) :
    (¬ 0 < W → StratifiedResampler.cumulativeOffspring self env lws Os n =
        Outcome.degenerated (env, Os)) ∧
      (0 < W → ∀ st, StratifiedResampler.cumulativeOffspring self env lws Os n ≠
        Outcome.degenerated st) := by
  cases hsort : self.sort with
  | true =>
    obtain ⟨h1, h2⟩ := StratifiedResampler.offspringSortBranch_degenerated self env lws
      (List.replicate lws.length 0) n W hlast
    constructor
    · intro hnot
      simp only [StratifiedResampler.cumulativeOffspring, hOs, ne_eq, not_true_eq_false,
        if_false, hsort, if_true, h1 hnot]
    · intro hpos st
      have h := h2 hpos
      simp only [StratifiedResampler.cumulativeOffspring, hOs, ne_eq, not_true_eq_false,
        if_false, hsort, if_true]
      split
      · exact fun h => by cases h
      · rename_i env1 os1 heq
        exact absurd heq (h (env1, os1))
      · exact fun h => by cases h
      · exact fun h => by cases h
  | false =>
    constructor
    · intro hnot
      have hnot' : ¬ W > 0 := hnot
      simp only [StratifiedResampler.cumulativeOffspring, hOs, ne_eq, not_true_eq_false,
        if_false, hsort, Bool.false_eq_true, hlast, hnot']
    · intro hpos st
      have hpos' : W > 0 := hpos
      simp only [StratifiedResampler.cumulativeOffspring, hOs, ne_eq, not_true_eq_false,
        if_false, hsort, Bool.false_eq_true, hlast, hpos', if_true]
      split
      · exact fun h => by cases h
      · exact fun h => by cases h

theorem StratifiedResampler.offspring_degenerated {T K : Type} [LinearOrder T]
    [LinearOrderedField K] (self : StratifiedResampler T K) (env : Env K) (lws : List T)
    (os : List Int) (n : Int) (W : K) (hos : os.length = lws.length)
    (hlast : (sumexpu_inclusive_scan self.expu lws).getLast? = some W) :
    (¬ 0 < W → StratifiedResampler.offspring self env lws os n =
        Outcome.degenerated (env, os)) ∧
      (0 < W → ∀ st, StratifiedResampler.offspring self env lws os n ≠
        Outcome.degenerated st) := by
  cases hsort : self.sort with
  | true =>
    obtain ⟨h1, h2⟩ := StratifiedResampler.offspringSortBranch_degenerated self env lws os n W
      hlast
    constructor
    · intro hnot
      simp only [StratifiedResampler.offspring, hos, ne_eq, not_true_eq_false, if_false, hsort,
        if_true, h1 hnot]
    · intro hpos st
      simp only [StratifiedResampler.offspring, hos, ne_eq, not_true_eq_false, if_false, hsort,
        if_true]
      exact h2 hpos st
  | false =>
    obtain ⟨h1, h2⟩ := StratifiedResampler.cumulativeOffspring_degenerated self env lws
      (List.replicate lws.length 0) n W (by simp) hlast
    constructor
    · intro hnot
      simp only [StratifiedResampler.offspring, hos, ne_eq, not_true_eq_false, if_false, hsort,
        Bool.false_eq_true, h1 hnot]
    · intro hpos st
      have h := h2 hpos
      simp only [StratifiedResampler.offspring, hos, ne_eq, not_true_eq_false, if_false, hsort,
        Bool.false_eq_true]
      split
      · exact fun h => by cases h
      · rename_i env1 Os1 heq
        exact absurd heq (h (env1, Os1))
      · exact fun h => by cases h
      · exact fun h => by cases h

/-- C18: for every `lws` and `n`, with `W` the last element of the cumulative sum
of the exponentiated `lws` and an output vector of the size of `lws`,
`cumulativeOffspring` and `offspring` (with `sort = true` and with `sort = false`)
fail with `ParticleFilterDegenerated` if and only if `W > 0` is false; when they
fail the output vector is as before the call, no draw has been consumed and `op`
has not been called. -/
theorem degenerated_iff_not_positive {T K : Type} [LinearOrder T] [LinearOrderedField K]
    (self : StratifiedResampler T K) (env : Env K) (lws : List T) (out : List Int) (n : Int)
    (W : K) (hout : out.length = lws.length)
    (hlast : (sumexpu_inclusive_scan self.expu lws).getLast? = some W) :
    ((∃ st, StratifiedResampler.cumulativeOffspring self env lws out n =
        Outcome.degenerated st) ↔ ¬ 0 < W) ∧
      ((∃ st, StratifiedResampler.offspring self env lws out n =
        Outcome.degenerated st) ↔ ¬ 0 < W) ∧
      (∀ st, StratifiedResampler.cumulativeOffspring self env lws out n =
        Outcome.degenerated st → st = (env, out)) ∧
      (∀ st, StratifiedResampler.offspring self env lws out n =
        Outcome.degenerated st → st = (env, out)) := by
  obtain ⟨c1, c2⟩ := StratifiedResampler.cumulativeOffspring_degenerated self env lws out n W
    hout hlast
  obtain ⟨o1, o2⟩ := StratifiedResampler.offspring_degenerated self env lws out n W hout hlast
  refine ⟨⟨?_, fun h => ⟨_, c1 h⟩⟩, ⟨?_, fun h => ⟨_, o1 h⟩⟩, ?_, ?_⟩
  · rintro ⟨st, hst⟩ hpos
    exact c2 hpos st hst
  · rintro ⟨st, hst⟩ hpos
    exact o2 hpos st hst
  · intro st hst
    by_cases hpos : 0 < W
    · exact absurd hst (c2 hpos st)
    · rw [c1 hpos] at hst
      cases hst
      rfl
  · intro st hst
    by_cases hpos : 0 < W
    · exact absurd hst (o2 hpos st)
    · rw [o1 hpos] at hst
      cases hst
      rfl

/-- Witness of C18: log-weights `[-2000, -3000]`, whose weights underflow to zero,
`sort = true`, output vector `[5, 6]`. -/
theorem degenerated_iff_not_positive_witness :
    ((∃ st, StratifiedResampler.cumulativeOffspring (exampleResampler true true) exampleEnv
        [-2000, -3000] [5, 6] 2 = Outcome.degenerated st) ↔ ¬ (0 : ℚ) < 0) ∧
      ((∃ st, StratifiedResampler.offspring (exampleResampler true true) exampleEnv
        [-2000, -3000] [5, 6] 2 = Outcome.degenerated st) ↔ ¬ (0 : ℚ) < 0) ∧
      (∀ st, StratifiedResampler.cumulativeOffspring (exampleResampler true true) exampleEnv
        [-2000, -3000] [5, 6] 2 = Outcome.degenerated st → st = (exampleEnv, [5, 6])) ∧
      (∀ st, StratifiedResampler.offspring (exampleResampler true true) exampleEnv
        [-2000, -3000] [5, 6] 2 = Outcome.degenerated st → st = (exampleEnv, [5, 6])) :=
  degenerated_iff_not_positive (exampleResampler true true) exampleEnv [-2000, -3000] [5, 6] 2
    0 rfl
    (by norm_num [sumexpu_inclusive_scan, Resampler.sum_inclusive_scan,
      Resampler.inclusiveScanFrom, exampleResampler, expu2])

/-! ## Stratified resampler: resampling -/

theorem StratifiedResampler.cumulativeOffspring_degenerated_state_aux {T K : Type}
    [LinearOrder T] [LinearOrderedField K] (self : StratifiedResampler T K) (env : Env K)
    (lws : List T) (Os : List Int) (n : Int) (W : K) (hOs : Os.length = lws.length)
    (hlast : (sumexpu_inclusive_scan self.expu lws).getLast? = some W)
    (st : Env K × List Int)
    (h : StratifiedResampler.cumulativeOffspring self env lws Os n = Outcome.degenerated st) :
    st = (env, Os) := by
  obtain ⟨c1, c2⟩ := StratifiedResampler.cumulativeOffspring_degenerated self env lws Os n W
    hOs hlast
  by_cases hpos : 0 < W
  · exact absurd h (c2 hpos st)
  · rw [c1 hpos] at h
    cases h
    rfl

theorem StratifiedResampler.cumulativeOffspring_degenerated_state {T K : Type} [LinearOrder T]
    [LinearOrderedField K] (self : StratifiedResampler T K) (env : Env K) (lws : List T)
    (Os : List Int) (n : Int) (st : Env K × List Int)
    (h : StratifiedResampler.cumulativeOffspring self env lws Os n = Outcome.degenerated st) :
    st = (env, Os) := by
  by_cases hOs : Os.length = lws.length
  · cases hl : (sumexpu_inclusive_scan self.expu lws).getLast? with
    | some W =>
      exact StratifiedResampler.cumulativeOffspring_degenerated_state_aux self env lws Os n W hOs hl
        st h
    | none =>
      exfalso
      have hnil : lws = [] := by
        by_contra hne
        have := Resampler.getLast?_inclusiveScanFrom_sum (lws.map self.expu) 0
          (by simpa using hne)
        simp only [sumexpu_inclusive_scan, Resampler.sum_inclusive_scan] at hl
        rw [this] at hl
        cases hl
      subst hnil
      cases hsort : self.sort <;>
        simp [StratifiedResampler.cumulativeOffspring, StratifiedResampler.offspringSortBranch,
          hsort, sumexpu_inclusive_scan, Resampler.sum_inclusive_scan,
          Resampler.inclusiveScanFrom, sort_by_key, seq_elements] at h <;>
        (split at h <;> cases h)
  · exfalso
    have hne : lws.length ≠ Os.length := fun h' => hOs h'.symm
    simp [StratifiedResampler.cumulativeOffspring, hne] at h

/-- C19: on every input on which `resample(rng, lws, as, s)` fails with
`ParticleFilterDegenerated`, the log-weights `lws`, the ancestry `as` and the
particle state `s` are as they were before the call (and so is the random
number generator). -/
theorem resample_degenerated_atomic {T R K : Type} [LinearOrder T] [Sub T] [Zero T]
    [LinearOrderedField K] (self : StratifiedResampler T K) (st st' : ResampleState T R K)
    (h : StratifiedResampler.resample self st = Outcome.degenerated st') :
    st'.lws = st.lws ∧ st'.as = st.as ∧ st'.s = st.s ∧ st'.env = st.env := by
  simp only [StratifiedResampler.resample] at h
  split at h
  · cases h
  · split at h
    · split at h
      · split at h
        · cases h
        · split at h
          · cases h
          · cases h
      · rename_i env1 x heq
        have := StratifiedResampler.cumulativeOffspring_degenerated_state self st.env st.lws _ _
          (env1, x) heq
        cases h
        simp only [Prod.mk.injEq] at this
        exact ⟨rfl, rfl, rfl, this.1⟩
      · cases h
      · cases h
    · cases h

theorem exampleResampler_degenerated ( sort : Bool) :
    StratifiedResampler.resample (exampleResampler sort true) (exampleState [-2000, -3000]) =
      Outcome.degenerated (exampleState [-2000, -3000]) := by
  have hlast : (sumexpu_inclusive_scan (exampleResampler sort true).expu
      [-2000, -3000]).getLast? = some 0 := by
    norm_num [sumexpu_inclusive_scan, Resampler.sum_inclusive_scan,
      Resampler.inclusiveScanFrom, exampleResampler, expu2]
  have h := (StratifiedResampler.cumulativeOffspring_degenerated (exampleResampler sort true)
    exampleEnv [-2000, -3000] [0, 0] 2 0 rfl hlast).1 (lt_irrefl 0)
  simp only [StratifiedResampler.resample, exampleState, exampleResampler, List.length_cons,
    List.length_nil] at h ⊢
  simp [h]

/-- Witness of C19: log-weights `[-2000, -3000]`, whose weights underflow to zero,
with the trigger on. -/
theorem resample_degenerated_atomic_witness :
    StratifiedResampler.resample (exampleResampler false true) (exampleState [-2000, -3000]) =
        Outcome.degenerated (exampleState [-2000, -3000]) ∧
      (exampleState [-2000, -3000]).lws = (exampleState [-2000, -3000]).lws ∧
      (exampleState [-2000, -3000]).as = (exampleState [-2000, -3000]).as ∧
      (exampleState [-2000, -3000]).s = (exampleState [-2000, -3000]).s ∧
      (exampleState [-2000, -3000]).env = (exampleState [-2000, -3000]).env :=
  ⟨exampleResampler_degenerated false,
    resample_degenerated_atomic (exampleResampler false true) (exampleState [-2000, -3000])
      (exampleState [-2000, -3000]) (exampleResampler_degenerated false)⟩

/-- C20 as stated fails: with the trigger off and `|lws| = |as| = 2`,
`cond_resample` with `(ka, k) = (1, 0)` stops at its assertion
`k == 0 && ka == 0`, and `resample` with proposal log-weights `qlws` of another
length stops at its assertion `qlws.size() == lws.size()`; neither returns
false. -/
theorem no_resample_needs_preconditions :
    StratifiedResampler.cond_resample (exampleResampler false false) 1 0 (exampleState [0, 0]) =
        Outcome.assertion ∧
      StratifiedResampler.resampleProposal (exampleResampler false false) [0]
        (exampleState [0, 0]) = Outcome.assertion ∧
      (¬ ∃ st', StratifiedResampler.cond_resample (exampleResampler false false) 1 0
        (exampleState [0, 0]) = Outcome.ok false st') := by
  have h1 : StratifiedResampler.cond_resample (exampleResampler false false) 1 0
      (exampleState [0, 0]) = Outcome.assertion := by
    simp [StratifiedResampler.cond_resample, exampleState]
  refine ⟨h1, by simp [StratifiedResampler.resampleProposal, exampleState], ?_⟩
  rw [h1]
  rintro ⟨st', h⟩
  cases h

/-- C20, amended: for every `lws` and `as` with `|lws| = |as|` on which the trigger
is false, each of the calls whose asserted pre-conditions hold (`resample`;
`resample` with proposal weights `qlws` and `resample` with a fixed ancestor `a`
when `|qlws| = |lws|`; `cond_resample` when `ka = 0`, `k = 0` and `lws` is not
empty) returns false, sets `as[i] = i` for every `i`, replaces `lws` by
`lws - logsumexp(lws)`, and leaves the particle state `s` and the random number
generator untouched. -/
theorem no_resample_branch {T R K : Type} [LinearOrder T] [Sub T] [Zero T]
    [LinearOrderedField K] (self : StratifiedResampler T K) (st : ResampleState T R K)
    (hlen : st.lws.length = st.as.length) (htrig : self.isTriggered st.lws = false) :
    StratifiedResampler.resample self st =
        Outcome.ok false (StratifiedResampler.notTriggered self st) ∧
      (∀ qlws : List T, qlws.length = st.lws.length →
        StratifiedResampler.resampleProposal self qlws st =
          Outcome.ok false (StratifiedResampler.notTriggered self st)) ∧
      (∀ (a : Int) (qlws : List T), qlws.length = st.lws.length →
        StratifiedResampler.resampleFixed self a qlws st =
          Outcome.ok false (StratifiedResampler.notTriggered self st)) ∧
      (st.lws ≠ [] → StratifiedResampler.cond_resample self 0 0 st =
          Outcome.ok false (StratifiedResampler.notTriggered self st)) ∧
      (StratifiedResampler.notTriggered self st).as.length = st.as.length ∧
      (∀ i : Nat, i < st.as.length →
        (StratifiedResampler.notTriggered self st).as[i]? = some (i : Int)) ∧
      (StratifiedResampler.notTriggered self st).lws =
        st.lws.map (fun x => x - self.logsumexp st.lws) ∧
      (StratifiedResampler.notTriggered self st).s = st.s ∧
      (StratifiedResampler.notTriggered self st).env = st.env := by
  refine ⟨?_, ?_, ?_, ?_, ?_, ?_, rfl, rfl, rfl⟩
  · simp [StratifiedResampler.resample, hlen, htrig]
  · intro qlws hq
    simp [StratifiedResampler.resampleProposal, hq, htrig]
  · intro a qlws hq
    simp [StratifiedResampler.resampleFixed, hq, htrig]
  · intro hne
    have hpos : 0 < st.lws.length := List.length_pos.2 hne
    have hpos' : 0 < st.as.length := by omega
    simp [StratifiedResampler.cond_resample, hlen, htrig, hpos']
  · simp [StratifiedResampler.notTriggered, seq_elements]
  · intro i hi
    simp [StratifiedResampler.notTriggered, seq_elements, hi]

/-- Witness of C20 amended: log-weights `[0, 0]` with the trigger off. -/
theorem no_resample_branch_witness :
    StratifiedResampler.resample (exampleResampler true false) (exampleState [0, 0]) =
        Outcome.ok false
          (StratifiedResampler.notTriggered (exampleResampler true false) (exampleState [0, 0])) ∧
      (StratifiedResampler.notTriggered (exampleResampler true false)
        (exampleState [0, 0])).as = [0, 1] ∧
      (StratifiedResampler.notTriggered (exampleResampler true false)
        (exampleState [0, 0])).lws = [0, 0] :=
  ⟨(no_resample_branch (exampleResampler true false) (exampleState [0, 0]) rfl rfl).1,
    by decide, by decide⟩

theorem StratifiedResampler.offspring_of_sort {T K : Type} [LinearOrder T]
    [LinearOrderedField K] (self : StratifiedResampler T K) (env : Env K) (lws : List T)
    (os : List Int) (n : Int) (hsort : self.sort = true) (hos : os.length = lws.length) :
    StratifiedResampler.offspring self env lws os n =
      StratifiedResampler.offspringSortBranch self env lws os n := by
  simp [StratifiedResampler.offspring, hsort, hos]

theorem StratifiedResampler.offspringKa_of_sort {T K : Type} [LinearOrder T]
    [LinearOrderedField K] (self : StratifiedResampler T K) (env : Env K) (lws : List T)
    (os : List Int) (n ka : Int) ( sorted : Bool) (lws1 : List T) (ps : List Int) (Ws : List K)
    (hsort : self.sort = true) (hos : os.length = lws.length)
    (hka : 0 ≤ ka ∧ ka < (lws.length : Int)) :
    StratifiedResampler.offspringKa self env lws os n ka sorted lws1 ps Ws =
      StratifiedResampler.offspringKaSortBranch self env lws os n ka sorted lws1 ps Ws := by
  simp [StratifiedResampler.offspringKa, hsort, hos, hka]

/-! ## Stratified draw: special weight vectors -/

theorem StratifiedResamplerHost.op_getElem? {K : Type} [LinearOrderedField K] (rng : Random K)
    (Ws : List K) (n : Int) (j : Nat) :
    (StratifiedResamplerHost.op rng Ws n).2[j]? =
      (Ws[j]?).map (fun w =>
        (((List.range n.toNat).countP
          (fun (i : Nat) => decide ((((i : K) + rng.uniforms (rng.pos + i)) / (n : K)) *
            (Ws.getLast?.getD 0) ≤ w)) : Nat) : Int)) := by
  simp [StratifiedResamplerHost.op]

theorem StratifiedResamplerHost.op_draw_pos {K : Type} [LinearOrderedField K] (rng : Random K)
    (n : Int) (W : K) (hW : 0 < W)
    (hU : ∀ k, 0 ≤ rng.uniforms k ∧ rng.uniforms k < 1)
    (hU0 : rng.uniforms rng.pos ≠ 0) (i : Nat) (hi : i < n.toNat) :
    0 < (((i : K) + rng.uniforms (rng.pos + i)) / (n : K)) * W := by
  have hn : 0 < n := by omega
  have hnK : (0 : K) < (n : K) := Int.cast_pos.2 hn
  have hnum : (0 : K) < (i : K) + rng.uniforms (rng.pos + i) := by
    rcases Nat.eq_zero_or_pos i with h0 | hpos
    · subst h0
      have h1 := (hU rng.pos).1
      have h2 : 0 < rng.uniforms rng.pos := lt_of_le_of_ne h1 (Ne.symm hU0)
      simpa using h2
    · have h1 : (1 : K) ≤ (i : K) := by exact_mod_cast hpos
      have h2 := (hU (rng.pos + i)).1
      linarith
  exact mul_pos (div_pos hnum hnK) hW

theorem StratifiedResamplerHost.op_zero_weight {K : Type} [LinearOrderedField K]
    (rng : Random K) (n : Int) (W w : K) (hW : 0 < W) (hw : w ≤ 0)
    (hU : ∀ k, 0 ≤ rng.uniforms k ∧ rng.uniforms k < 1)
    (hU0 : rng.uniforms rng.pos ≠ 0) :
    (List.range n.toNat).countP
      (fun (i : Nat) => decide ((((i : K) + rng.uniforms (rng.pos + i)) / (n : K)) * W ≤ w)) =
      0 := by
  apply List.countP_eq_zero.2
  intro i hi
  have hi' : i < n.toNat := List.mem_range.1 hi
  have hpos := StratifiedResamplerHost.op_draw_pos rng n W hW hU hU0 i hi'
  simp only [decide_eq_true_eq, not_le]
  exact lt_of_le_of_lt hw hpos

/-- C22 (counterexample): with `P = 2`, all weight on particle `k = 1`
(`Ws = [0, 1]`, `W = 1`), `n = 1` and the draw `U_0 = 0`, which lies in `[0, 1)`,
the draw `u_0 · W = 0 ≤ Ws[0]` is counted for particle `0`: `Os = [1, 1]`, so
`Os[0]` is `1`, not `0`. -/
theorem op_one_hot_zero_draw :
    (0 : ℚ) ≤ 0 ∧ (0 : ℚ) < 1 ∧
    (StratifiedResamplerHost.op ({ uniforms := fun _ => 0, pos := 0 } : Random ℚ) [0, 1] 1).2 =
      [1, 1] := by
  refine ⟨le_refl _, by norm_num, ?_⟩
  simp [StratifiedResamplerHost.op, List.range_succ]

/-- C22 (amended): for every `P ≥ 1`, `k < P`, `n ≥ 1`, `W > 0` and every choice of
the draws `U_i` in `[0, 1)` whose first draw `U_0` is not `0`, if `Ws[j] = 0` for
`j < k` and `Ws[j] = W` for `j ≥ k` then `op` gives `Os[j] = 0` for every `j < k`
and `Os[j] = n` for every `j ≥ k`. -/
theorem op_one_hot {K : Type} [LinearOrderedField K] (rng : Random K) (Ws : List K)
    (k : Nat) (n : Int) (W : K) (hk : k < Ws.length) (hn : 1 ≤ n) (hW : 0 < W)
    (hlo : ∀ j, j < k → Ws[j]? = some 0)
    (hhi : ∀ j, k ≤ j → j < Ws.length → Ws[j]? = some W)
    (hU : ∀ i, 0 ≤ rng.uniforms i ∧ rng.uniforms i < 1)
    (hU0 : rng.uniforms rng.pos ≠ 0) :
    (∀ j, j < k → (StratifiedResamplerHost.op rng Ws n).2[j]? = some 0) ∧
      (∀ j, k ≤ j → j < Ws.length →
        (StratifiedResamplerHost.op rng Ws n).2[j]? = some n) := by
  have hlast : Ws.getLast? = some W := by
    rw [List.getLast?_eq_getElem?]
    exact hhi (Ws.length - 1) (by omega) (by omega)
  constructor
  · intro j hj
    rw [StratifiedResamplerHost.op_getElem?, hlo j hj, hlast]
    simp only [Option.getD_some, Option.map_some', Option.some.injEq]
    exact_mod_cast StratifiedResamplerHost.op_zero_weight rng n W 0 hW (le_refl _) hU hU0
  · intro j hkj hj
    have hl := StratifiedResamplerHost.op_last rng Ws n W hlast hW (by omega) hU
    simp only [StratifiedResamplerHost.op, List.getLast?_map, hlast, Option.map_some',
      Option.getD_some, Option.some.injEq] at hl
    rw [StratifiedResamplerHost.op_getElem?, hhi j hkj hj, hlast]
    simp only [Option.getD_some, Option.map_some', Option.some.injEq]
    exact hl

/-- Witness of C22: `P = 3`, all weight `W = 2` on particle `k = 1`, `n = 4`, all
draws `1/2`. -/
theorem op_one_hot_witness :
    (∀ j, j < 1 → (StratifiedResamplerHost.op exampleEnv.rng [0, 2, 2] 4).2[j]? = some 0) ∧
      (∀ j, 1 ≤ j → j < [(0 : ℚ), 2, 2].length →
        (StratifiedResamplerHost.op exampleEnv.rng [0, 2, 2] 4).2[j]? = some 4) :=
  op_one_hot exampleEnv.rng [0, 2, 2] 1 4 2 (by decide) (by decide) (by norm_num)
    (by intro j hj; interval_cases j; rfl)
    (by
      intro j h1 h2
      have h3 : j < 3 := h2
      interval_cases j <;> rfl)
    (fun i => by norm_num [exampleEnv]) (by norm_num [exampleEnv])

theorem countP_le_range (j : Nat) :
    ∀ P : Nat, (List.range P).countP (fun (i : Nat) => decide (i ≤ j)) = min P (j + 1) := by
  intro P
  induction P with
  | zero => simp
  | succ P ih =>
    rw [List.range_succ, List.countP_append, ih]
    by_cases h : P ≤ j
    · simp [List.countP_cons, h]; omega
    · simp [List.countP_cons, h]; omega

theorem adjacentDifferenceFrom_succ :
    ∀ (m b : Nat), adjacentDifferenceFrom (b : Int)
        ((List.range' b m).map (fun (j : Nat) => (j : Int) + 1)) = List.replicate m 1 := by
  intro m
  induction m with
  | zero => intro b; rfl
  | succ m ih =>
    intro b
    have h := ih (b + 1)
    simp only [List.range'_succ, List.map_cons, adjacentDifferenceFrom, List.replicate_succ]
    push_cast at h
    rw [h]
    simp

theorem findIdx_succ_range (P i : Nat) (hi : i < P) :
    ((List.range P).map (fun (j : Nat) => (j : Int) + 1)).findIdx
      (fun O => decide ((i : Int) < O)) = i := by
  set xs := (List.range P).map (fun (j : Nat) => (j : Int) + 1) with hxs
  have hlen : xs.length = P := by simp [hxs]
  have hex : ∃ x ∈ xs, decide ((i : Int) < x) = true := by
    refine ⟨(i : Int) + 1, ?_, by simp⟩
    simp only [hxs, List.mem_map, List.mem_range]
    exact ⟨i, hi, rfl⟩
  have hlt := List.findIdx_lt_length_of_exists hex
  have hp := List.findIdx_getElem (w := hlt)
  have hget : ∀ (a : Nat) (h : a < xs.length), xs[a] = (a : Int) + 1 := by
    intro a h
    simp [hxs]
  rw [hget _ hlt] at hp
  simp only [decide_eq_true_eq] at hp
  by_contra hne
  have hgt : i < xs.findIdx (fun O => decide ((i : Int) < O)) := by omega
  have hnot := List.not_of_lt_findIdx hgt
  rw [hget i (by omega)] at hnot
  simp at hnot

/-- C23 (counterexample): with `P = 2`, equal weights `Ws = [1, 2]` (`W = 2`),
`n = 2` and all draws `0`, which lie in `[0, 1)`, the draw `u_1 · W = 1 ≤ Ws[0]` is
counted for particle `0`: `Os = [2, 2]`, the offspring are `[2, 0]` and the
ancestry is `[0, 0]`; the same happens for `lws = [0, 0]` in `offspring`. -/
theorem op_equal_weights_zero_draw :
    (StratifiedResamplerHost.op ({ uniforms := fun _ => 0, pos := 0 } : Random ℚ) [1, 2] 2).2 =
      [2, 2] ∧
    adjacent_difference [2, 2] = [2, 0] ∧
    Resampler.cumulativeOffspringToAncestors [2, 2] = [0, 0] ∧
    (∃ env1, StratifiedResampler.offspring (exampleResampler false true)
      { rng := { uniforms := fun _ => 0, pos := 0 }, opCalls := 0 } [0, 0] [0, 0] 2 =
        Outcome.ok () (env1, [2, 0])) := by
  have h : (StratifiedResamplerHost.op ({ uniforms := fun _ => 0, pos := 0 } : Random ℚ)
      [1, 2] 2).2 = [2, 2] := by
    simp [StratifiedResamplerHost.op, List.range_succ, List.countP_cons]
  refine ⟨h, by decide, by decide, ?_⟩
  refine ⟨{ rng := { uniforms := fun _ => 0, pos := 2 }, opCalls := 1 }, ?_⟩
  simp [StratifiedResampler.offspring, StratifiedResampler.cumulativeOffspring, exampleResampler,
    sumexpu_inclusive_scan, Resampler.sum_inclusive_scan, Resampler.inclusiveScanFrom, expu2,
    StratifiedResampler.op, StratifiedResamplerHost.op, List.range_succ, List.countP_cons,
    adjacent_difference, adjacentDifferenceFrom]
  have h1 : (2 : ℚ)⁻¹ ≤ 1 := by norm_num
  have h2 : (2 : ℚ)⁻¹ * (1 + 1) ≤ 1 := by norm_num
  simp [h1, h2, adjacentDifferenceFrom]


/-- C23 (amended): for every `P ≥ 1`, equal weights (`Ws[j] = (j+1) · W / P`),
`n = P` and every choice of the draws `U_i` in `[0, 1)` with `U_i ≠ 0` for every
`i ≥ 1`, `op` gives `Os[j] = j + 1` for every `j`, hence `os[j] = 1` for every `j`
and the ancestry is the identity. -/
theorem op_equal_weights {K : Type} [LinearOrderedField K] (rng : Random K) (P : Nat) (W : K)
    (Os : List Int) (hP : 1 ≤ P) (hW : 0 < W)
    (hU : ∀ i, 0 ≤ rng.uniforms i ∧ rng.uniforms i < 1)
    (hU1 : ∀ i, 1 ≤ i → rng.uniforms (rng.pos + i) ≠ 0)
    (hOs : Os = (StratifiedResamplerHost.op rng
      ((List.range P).map (fun (j : Nat) => ((j : K) + 1) * W / (P : K))) (P : Int)).2) :
    Os = (List.range P).map (fun (j : Nat) => (j : Int) + 1) ∧
      adjacent_difference Os = List.replicate P 1 ∧
      Resampler.cumulativeOffspringToAncestors Os =
        (List.range P).map (fun (i : Nat) => (i : Int)) := by
  have hPK : (0 : K) < (P : K) := Nat.cast_pos.2 (by omega)
  have hlast : (((List.range P).map (fun (j : Nat) => ((j : K) + 1) * W / (P : K))).getLast?).getD
      0 = W := by
    rw [List.getLast?_map, List.getLast?_range]
    have hP0 : P ≠ 0 := by omega
    simp only [hP0, if_false, Option.map_some', Option.getD_some]
    have h1 : ((P - 1 : Nat) : K) + 1 = (P : K) := by
      have : ((P - 1 + 1 : Nat) : K) = (P : K) := by
        congr 1
        omega
      push_cast at this
      exact this
    rw [h1]
    field_simp
  have hmain : Os = (List.range P).map (fun (j : Nat) => (j : Int) + 1) := by
    rw [hOs]
    simp only [StratifiedResamplerHost.op, List.map_map, hlast]
    apply List.map_congr_left
    intro j hj
    have hjP : j < P := List.mem_range.1 hj
    simp only [Function.comp, Int.toNat_ofNat, Int.cast_natCast]
    have hcount : (List.range P).countP
        (fun (i : Nat) => decide (((i : K) + rng.uniforms (rng.pos + i)) / (P : K) * W ≤
          ((j : K) + 1) * W / (P : K))) =
        (List.range P).countP (fun (i : Nat) => decide (i ≤ j)) := by
      apply List.countP_congr
      intro i _
      simp only [decide_eq_true_eq]
      rw [div_mul_eq_mul_div, div_le_div_iff_of_pos_right hPK, mul_le_mul_right hW]
      have hu := hU (rng.pos + i)
      constructor
      · intro h
        by_contra hij
        have hij' : j + 1 ≤ i := by omega
        have h1 : ((j + 1 : Nat) : K) ≤ (i : K) := Nat.cast_le.2 hij'
        push_cast at h1
        have h2 : 0 < rng.uniforms (rng.pos + i) :=
          lt_of_le_of_ne hu.1 (Ne.symm (hU1 i (by omega)))
        linarith
      · intro h
        have h1 : (i : K) ≤ (j : K) := Nat.cast_le.2 h
        linarith [hu.2]
    rw [hcount, countP_le_range j P]
    have : min P (j + 1) = j + 1 := by omega
    rw [this]
    push_cast
    rfl
  refine ⟨hmain, ?_, ?_⟩
  · rw [hmain, adjacent_difference, List.range_eq_range']
    exact_mod_cast adjacentDifferenceFrom_succ P 0
  · rw [hmain, Resampler.cumulativeOffspringToAncestors]
    have hl : (((List.range P).map (fun (j : Nat) => (j : Int) + 1)).getLast?.getD 0).toNat =
        P := by
      rw [List.getLast?_map, List.getLast?_range]
      have hP0 : P ≠ 0 := by omega
      simp only [hP0, if_false, Option.map_some', Option.getD_some]
      omega
    rw [hl]
    apply List.map_congr_left
    intro i hi
    rw [findIdx_succ_range P i (List.mem_range.1 hi)]

/-- Witness of C23: `P = 2`, `W = 2` (`Ws = [1, 2]`, the cumulative weights of
`lws = [0, 0]`), all draws `1/2`: `Os = [1, 2]`, `os = [1, 1]`, `as = [0, 1]`. -/
theorem op_equal_weights_witness :
    [(1 : Int), 2] = (List.range 2).map (fun (j : Nat) => (j : Int) + 1) ∧
      adjacent_difference [1, 2] = List.replicate 2 1 ∧
      Resampler.cumulativeOffspringToAncestors [1, 2] =
        (List.range 2).map (fun (i : Nat) => (i : Int)) :=
  op_equal_weights exampleEnv.rng 2 2 [1, 2] (by decide) (by norm_num)
    (fun i => by norm_num [exampleEnv]) (fun i _ => by norm_num [exampleEnv])
    (by
      simp [StratifiedResamplerHost.op, List.range_succ, List.countP_cons, exampleEnv]
      norm_num)

/-! ## Stratified resampler: the ancestors of a resampling -/

theorem getElem?_adjacentDifferenceFrom :
    ∀ (xs : List Int) (prev : Int) (j : Nat) (x : Int), xs[j]? = some x →
      (adjacentDifferenceFrom prev xs)[j]? =
        some (x - (if j = 0 then prev else (xs[j - 1]?).getD 0)) := by
  intro xs
  induction xs with
  | nil => intro prev j x h; simp at h
  | cons y ys ih =>
    intro prev j x h
    cases j with
    | zero =>
      simp only [List.getElem?_cons_zero, Option.some.injEq] at h
      simp [adjacentDifferenceFrom, h]
    | succ j =>
      simp only [List.getElem?_cons_succ] at h
      have h1 := ih y j x h
      simp only [adjacentDifferenceFrom, List.getElem?_cons_succ, h1]
      cases j with
      | zero => simp
      | succ k => simp

theorem adjacentDifferenceFrom_inclusiveScanFrom :
    ∀ (os : List Int) (acc : Int),
      adjacentDifferenceFrom acc (Resampler.inclusiveScanFrom acc os) = os := by
  intro os
  induction os with
  | nil => intro acc; rfl
  | cons o os ih =>
    intro acc
    simp [Resampler.inclusiveScanFrom, adjacentDifferenceFrom, ih]

theorem adjacentDifferenceFrom_map_scan {T K : Type} [AddMonoid K] (f : K → Int) (e : T → K) :
    ∀ (xs : List T) (acc : K) (q : Nat) (d : Int),
      (adjacentDifferenceFrom (f acc)
        ((Resampler.inclusiveScanFrom acc (xs.map e)).map f))[q]? = some d → d ≠ 0 →
      ∃ x, xs[q]? = some x ∧ e x ≠ 0 := by
  intro xs
  induction xs with
  | nil => intro acc q d h; simp [Resampler.inclusiveScanFrom, adjacentDifferenceFrom] at h
  | cons y ys ih =>
    intro acc q d h hd
    simp only [List.map_cons, Resampler.inclusiveScanFrom, adjacentDifferenceFrom] at h
    cases q with
    | zero =>
      simp only [List.getElem?_cons_zero, Option.some.injEq] at h
      refine ⟨y, by simp, ?_⟩
      intro h0
      rw [h0, add_zero, sub_self] at h
      exact hd h.symm
    | succ q =>
      simp only [List.getElem?_cons_succ] at h ⊢
      exact ih (acc + e y) q d h hd

theorem Resampler.mem_cumulativeOffspringToAncestors (Os : List Int) (a : Int)
    (ha : a ∈ Resampler.cumulativeOffspringToAncestors Os) :
    ∃ j : Nat, a = (j : Int) ∧ j < Os.length ∧
      ∃ d, (adjacent_difference Os)[j]? = some d ∧ 0 < d := by
  simp only [Resampler.cumulativeOffspringToAncestors, List.mem_map, List.mem_range] at ha
  obtain ⟨i, hi, rfl⟩ := ha
  have hex : ∃ x ∈ Os, decide ((i : Int) < x) = true := by
    cases hl : Os.getLast? with
    | none => rw [hl] at hi; simp at hi
    | some L =>
      rw [hl] at hi
      simp only [Option.getD_some] at hi
      refine ⟨L, List.mem_of_getLast?_eq_some hl, ?_⟩
      simp only [decide_eq_true_eq]
      omega
  have hlt := List.findIdx_lt_length_of_exists hex
  have hp := List.findIdx_getElem (w := hlt)
  simp only [decide_eq_true_eq] at hp
  refine ⟨_, rfl, hlt, ?_⟩
  have hget := getElem?_adjacentDifferenceFrom Os 0 _ _ (List.getElem?_eq_getElem hlt)
  refine ⟨_, hget, ?_⟩
  generalize hj : Os.findIdx (fun O => decide ((i : Int) < O)) = j at hlt hp
  cases j with
  | zero =>
    simp only [if_true]
    omega
  | succ k =>
    have hk : k < Os.findIdx (fun O => decide ((i : Int) < O)) := by omega
    have hnot := List.not_of_lt_findIdx hk
    simp only [decide_eq_false_iff_not, not_lt] at hnot
    have hkl : k < Os.length := by omega
    simp only [Nat.succ_ne_zero, if_false, Nat.add_sub_cancel, List.getElem?_eq_getElem hkl,
      Option.getD_some]
    omega

theorem Resampler.cumulativeOffspringToAncestors_length (Os : List Int) :
    (Resampler.cumulativeOffspringToAncestors Os).length = (Os.getLast?.getD 0).toNat := by
  simp [Resampler.cumulativeOffspringToAncestors]

theorem StratifiedResamplerHost.op_support {T K : Type} [LinearOrderedField K]
    (rng : Random K) (e : T → K) (xs : List T) (n : Int) (hexp : ∀ x, 0 ≤ e x)
    (hW : 0 < (xs.map e).sum)
    (hU : ∀ k, 0 ≤ rng.uniforms k ∧ rng.uniforms k < 1)
    (hU0 : rng.uniforms rng.pos ≠ 0) (q : Nat) (d : Int)
    (hq : (adjacent_difference
      (StratifiedResamplerHost.op rng (sumexpu_inclusive_scan e xs) n).2)[q]? = some d)
    (hd : d ≠ 0) :
    ∃ x, xs[q]? = some x ∧ e x ≠ 0 := by
  have hne : xs ≠ [] := by
    intro h
    rw [h] at hW
    simp at hW
  obtain ⟨hlast, _, _⟩ := sumexpu_inclusive_scan_spec e xs hne hexp
  have hf0 := StratifiedResamplerHost.op_zero_weight rng n _ 0 hW (le_refl _) hU hU0
  simp only [sumexpu_inclusive_scan, Resampler.sum_inclusive_scan] at hlast
  simp only [StratifiedResamplerHost.op, adjacent_difference,
    sumexpu_inclusive_scan, Resampler.sum_inclusive_scan, hlast, Option.getD_some] at hq
  have h0 : (0 : Int) = (fun w => (((List.range n.toNat).countP
      (fun (i : Nat) => decide ((((i : K) + rng.uniforms (rng.pos + i)) / (n : K)) *
        (xs.map e).sum ≤ w)) : Nat) : Int)) 0 := by
    simp only [hf0]
    rfl
  rw [h0] at hq
  exact adjacentDifferenceFrom_map_scan (fun w => (((List.range n.toNat).countP
      (fun (i : Nat) => decide ((((i : K) + rng.uniforms (rng.pos + i)) / (n : K)) *
        (xs.map e).sum ≤ w)) : Nat) : Int)) e xs 0 q d hq hd

theorem sort_by_key_pairs {T : Type} [LinearOrder T] (keys : List T) (values : List Int)
    (q : Nat) (y : T) (p : Int)
    (h1 : (sort_by_key keys values).1[q]? = some y)
    (h2 : (sort_by_key keys values).2[q]? = some p) :
    ∃ idx : Nat, keys[idx]? = some y ∧ values[idx]? = some p := by
  simp only [sort_by_key, List.unzip_eq_map, List.getElem?_map] at h1 h2
  cases hq : ((keys.zip values).insertionSort (fun a b => a.1 ≤ b.1))[q]? with
  | none => rw [hq] at h1; simp at h1
  | some z =>
    rw [hq] at h1 h2
    simp only [Option.map_some', Option.some.injEq] at h1 h2
    have hmem : z ∈ (keys.zip values).insertionSort (fun a b => a.1 ≤ b.1) :=
      List.getElem?_mem hq
    have hmem2 : z ∈ keys.zip values :=
      (List.perm_insertionSort _ _).mem_iff.1 hmem
    obtain ⟨idx, hidx⟩ := List.getElem?_of_mem hmem2
    obtain ⟨h3, h4⟩ := List.getElem?_zip_eq_some.1 hidx
    exact ⟨idx, h1 ▸ h3, h2 ▸ h4⟩

theorem StratifiedResampler.offspringSortBranch_support {T K : Type} [LinearOrder T]
    [LinearOrderedField K] (self : StratifiedResampler T K) (env : Env K) (lws : List T)
    (os : List Int) (n : Int) (hne : lws ≠ [])
    (hos : os.length = lws.length) (hexp : ∀ x, 0 ≤ self.expu x)
    (hW : 0 < StratifiedResampler.totalWeight self lws)
    (hU : ∀ k, 0 ≤ env.rng.uniforms k ∧ env.rng.uniforms k < 1)
    (hU0 : env.rng.uniforms env.rng.pos ≠ 0) (env1 : Env K) (os1 : List Int)
    (h : StratifiedResampler.offspringSortBranch self env lws os n =
      Outcome.ok () (env1, os1))
    (j : Nat) (d : Int) (hj : os1[j]? = some d) (hd : d ≠ 0) :
    ∃ x, lws[j]? = some x ∧ self.expu x ≠ 0 := by
  have hseq : (seq_elements (List.replicate lws.length 0) 0).length = lws.length := by
    simp [seq_elements]
  obtain ⟨hk, hv⟩ := sort_by_key_perm lws (seq_elements (List.replicate lws.length 0) 0)
    hseq.symm
  have hpairs := sort_by_key_pairs lws (seq_elements (List.replicate lws.length 0) 0)
  generalize hsorted : sort_by_key lws (seq_elements (List.replicate lws.length 0) 0) = sorted
    at hk hv hpairs
  have hne1 : sorted.1 ≠ [] := by
    intro h
    have := hk.length_eq
    rw [h] at this
    exact hne (List.length_eq_zero.1 this.symm)
  obtain ⟨hlast, hmono, hlen⟩ := sumexpu_inclusive_scan_spec self.expu sorted.1 hne1 hexp
  have hsum : (sorted.1.map self.expu).sum = (lws.map self.expu).sum :=
    (hk.map self.expu).sum_eq
  have hW' : (sorted.1.map self.expu).sum > 0 := by rw [hsum]; exact hW
  have h1 := StratifiedResamplerHost.op_length env.rng
    (sumexpu_inclusive_scan self.expu sorted.1) n
  have hsup := StratifiedResamplerHost.op_support env.rng self.expu sorted.1 n hexp hW' hU hU0
  have hr2 : (StratifiedResampler.op env (sumexpu_inclusive_scan self.expu sorted.1) n).2 =
      (StratifiedResamplerHost.op env.rng (sumexpu_inclusive_scan self.expu sorted.1) n).2 :=
    rfl
  rw [← hr2] at h1 hsup
  generalize hr : StratifiedResampler.op env (sumexpu_inclusive_scan self.expu sorted.1) n = r
    at h1 hsup
  have hPlen : sorted.1.length = lws.length := hk.length_eq
  have htemp : (adjacent_difference r.2).length = lws.length := by
    rw [adjacent_difference, length_adjacentDifferenceFrom, h1, hlen, hPlen]
  have hps : sorted.2.Perm ((List.range lws.length).map (fun (i : Nat) => (i : Int))) := by
    have := hv
    rwa [seq_elements_zero, List.length_replicate] at this
  have hnd : sorted.2.Nodup := by
    apply hps.nodup_iff.2
    apply List.Nodup.map
    · intro a b h
      exact Int.ofNat.inj h
    · exact List.nodup_range lws.length
  have hrange : ∀ p ∈ sorted.2, 0 ≤ p ∧ p.toNat < os.length := by
    intro p hp
    obtain ⟨q, hq, rfl⟩ := List.mem_map.1 (hps.mem_iff.1 hp)
    have := List.mem_range.1 hq
    constructor
    · omega
    · simp only [Int.toNat_ofNat]; omega
  have hlen2 : (adjacent_difference r.2).length = sorted.2.length := by
    rw [htemp, hps.length_eq]
    simp
  obtain ⟨res, hs, hl, h3, _⟩ :=
    scatter_spec sorted.2 (adjacent_difference r.2) os hnd hrange hlen2
  simp only [StratifiedResampler.offspringSortBranch, hsorted, hlast, hW', if_true, hr, hs]
    at h
  split at h
  · simp only [Outcome.ok.injEq, Prod.mk.injEq, true_and] at h
    obtain ⟨_, rfl⟩ := h
    have hjlt : j < lws.length := by
      have := (List.getElem?_eq_some_iff.1 hj).1
      omega
    have hmem : (j : Int) ∈ sorted.2 := by
      apply hps.mem_iff.2
      exact List.mem_map.2 ⟨j, List.mem_range.2 hjlt, rfl⟩
    obtain ⟨q, hq⟩ := List.getElem?_of_mem hmem
    have hqlt : q < (adjacent_difference r.2).length := by
      have := (List.getElem?_eq_some_iff.1 hq).1
      omega
    have h4 := h3 q (j : Int) _ hq (List.getElem?_eq_getElem hqlt)
    simp only [Int.toNat_ofNat] at h4
    rw [hj] at h4
    have h5 : (adjacent_difference r.2)[q]? = some d := by
      rw [List.getElem?_eq_getElem hqlt]
      exact h4.symm
    obtain ⟨y, hy, hey⟩ := hsup q d h5 hd
    obtain ⟨idx, hi1, hi2⟩ := hpairs q y (j : Int) hy hq
    rw [seq_elements_zero, List.getElem?_map] at hi2
    have hidx : idx = j := by
      cases hx : (List.range (List.replicate lws.length (0 : Int)).length)[idx]? with
      | none => rw [hx] at hi2; simp at hi2
      | some v =>
        rw [hx] at hi2
        have hv1 := (List.getElem?_eq_some_iff.1 hx)
        obtain ⟨hv2, hv3⟩ := hv1
        simp only [List.getElem_range] at hv3
        simp only [Option.map_some', Option.some.injEq] at hi2
        omega
    subst hidx
    exact ⟨y, hi1, hey⟩
  · cases h

theorem StratifiedResampler.cumulativeOffspring_spec {T K : Type} [LinearOrder T]
    [LinearOrderedField K] (self : StratifiedResampler T K) (env : Env K) (lws : List T)
    (Os : List Int) (n : Int) (hne : lws ≠ []) (hOs : Os.length = lws.length)
    (hexp : ∀ x, 0 ≤ self.expu x)
    (hW : 0 < StratifiedResampler.totalWeight self lws) (hn : 0 ≤ n)
    (hU : ∀ k, 0 ≤ env.rng.uniforms k ∧ env.rng.uniforms k < 1) :
    ∃ env1 Os1, StratifiedResampler.cumulativeOffspring self env lws Os n =
        Outcome.ok () (env1, Os1) ∧
      Os1.length = lws.length ∧ Os1.getLast? = some n ∧
      (env.rng.uniforms env.rng.pos ≠ 0 → ∀ (j : Nat) (d : Int),
        (adjacent_difference Os1)[j]? = some d → d ≠ 0 →
          ∃ x, lws[j]? = some x ∧ self.expu x ≠ 0) := by
  cases hsort : self.sort with
  | false =>
    obtain ⟨env1, Os1, h, hl, _, _, hlast⟩ :=
      StratifiedResampler.cumulativeOffspring_plain self env lws Os n hsort hne hOs hexp hW hn hU
    refine ⟨env1, Os1, h, hl, hlast, ?_⟩
    intro hU0 j d hj hd
    obtain ⟨hlast1, _, _⟩ := sumexpu_inclusive_scan_spec self.expu lws hne hexp
    have hW' : (lws.map self.expu).sum > 0 := hW
    simp only [StratifiedResampler.cumulativeOffspring, hsort, hOs, ne_eq, not_true_eq_false,
      if_false, Bool.false_eq_true, hlast1, hW', if_true] at h
    split at h
    · simp only [Outcome.ok.injEq, true_and] at h
      have h2 : Os1 = (StratifiedResamplerHost.op env.rng
          (sumexpu_inclusive_scan self.expu lws) n).2 :=
        (congrArg Prod.snd h).symm
      rw [h2] at hj
      exact StratifiedResamplerHost.op_support env.rng self.expu lws n hexp hW hU hU0 j d hj hd
    · cases h
  | true =>
    obtain ⟨env1, os1, h, hl, hnn, hsum⟩ :=
      StratifiedResampler.offspringSortBranch_spec self env lws (List.replicate lws.length 0) n
        hne (by simp) hexp hW hn hU
    have hne1 : os1 ≠ [] := by
      intro h0
      rw [h0] at hl
      exact hne (List.length_eq_zero.1 hl.symm)
    refine ⟨env1, Resampler.sum_inclusive_scan os1, ?_, ?_, ?_, ?_⟩
    · simp only [StratifiedResampler.cumulativeOffspring, hOs, ne_eq, not_true_eq_false,
        if_false, hsort, if_true, h]
    · rw [Resampler.sum_inclusive_scan, Resampler.length_inclusiveScanFrom, hl]
    · rw [Resampler.sum_inclusive_scan, Resampler.getLast?_inclusiveScanFrom_sum os1 0 hne1,
        hsum, zero_add]
    · intro hU0 j d hj hd
      rw [adjacent_difference, Resampler.sum_inclusive_scan,
        adjacentDifferenceFrom_inclusiveScanFrom] at hj
      exact StratifiedResampler.offspringSortBranch_support self env lws
        (List.replicate lws.length 0) n hne (by simp) hexp hW hU hU0 env1 os1 h j d hj hd

theorem Resampler.copyState_spec {R : Type} (as : List Int) (s : State R)
    (hsize : s.size = as.length) (hbuf : s.size ≤ s.rows.length)
    (hself : ∀ (i : Nat) (a : Int), as[i]? = some a → 0 ≤ a ∧ as[a.toNat]? = some a) :
    ∃ s1, Resampler.copyState as s = some s1 ∧ s1.size = as.length ∧
      s1.getDyn.length = as.length ∧
      ∀ (i : Nat) (a : Int), as[i]? = some a → s1.getDyn[i]? = s.getDyn[a.toNat]? := by
  have hdyn : s.getDyn.length = as.length := by
    simp only [State.getDyn, List.length_take]
    omega
  obtain ⟨v, hc, hl, hres⟩ :=
    Resampler.copy_invariant as s.getDyn hdyn hself (List.range as.length) s.getDyn []
      (fun j hj => List.mem_range.1 hj) rfl
      (fun j a _ => ⟨fun h => by simp at h, fun _ => rfl⟩)
  have hmax : max s.size as.length = s.size := by omega
  refine ⟨{ rows := v ++ s.rows.drop s.size, size := as.length }, ?_, rfl, ?_, ?_⟩
  · have h1 : s.setRange s.size = some s := by
      simp [State.setRange, hbuf]
    have h2 : as.length ≤ s.getDyn.length := by omega
    have h3 : as.length ≤ (v ++ s.rows.drop s.size).length := by
      simp only [List.length_append, List.length_drop]
      omega
    unfold Resampler.copyState
    rw [hmax, h1]
    simp only [h2, if_true, Resampler.copyMatrix, hc]
    simp only [State.setRange]
    rw [if_pos h3]
  · simp only [State.getDyn, List.length_take, List.length_append, List.length_drop]
    omega
  · intro i a hia
    have hv : v.length = as.length := by omega
    have : (State.getDyn { rows := v ++ s.rows.drop s.size, size := as.length }) = v := by
      simp only [State.getDyn]
      rw [← hv, List.take_left]
    rw [this]
    apply hres i a hia
    right
    apply List.mem_range.2
    by_contra hc'
    rw [List.getElem?_eq_none (by omega)] at hia
    cases hia

/-! ## Stratified resampler: the resampling branch -/

/-- C21 (counterexample): two particles `a`, `b` with all weight on particle
`k = 1` (`lws = [-2000, 0]`, weights `0` and `1`), trigger true, all draws `0`,
which lie in `[0, 1)`.  `resample` returns true with ancestry `[0, 1]`, and row `0`
of the ensemble still is the original row `0`, not the original row `1`. -/
theorem resample_one_hot_zero_draw :
    expu2 (-2000) = 0 ∧ 0 < expu2 0 ∧
    ∃ env1, StratifiedResampler.resample (exampleResampler false true)
        ({ env := { rng := { uniforms := fun _ => 0, pos := 0 }, opCalls := 0 },
           lws := [-2000, 0], as := [0, 0], s := { rows := ["a", "b"], size := 2 } } :
          ResampleState Int String ℚ) =
      Outcome.ok true
        { env := env1, lws := [0, 0], as := [0, 1], s := { rows := ["a", "b"], size := 2 } } := by
  refine ⟨by norm_num [expu2], by norm_num [expu2],
    { rng := { uniforms := fun _ => 0, pos := 2 }, opCalls := 1 }, ?_⟩
  have h1 : (2 : ℚ)⁻¹ ≤ 1 := by norm_num
  have hco : StratifiedResampler.cumulativeOffspring (exampleResampler false true)
      { rng := { uniforms := fun _ => 0, pos := 0 }, opCalls := 0 } [-2000, 0] [0, 0] 2 =
      Outcome.ok () ({ rng := { uniforms := fun _ => 0, pos := 2 }, opCalls := 1 }, [1, 2]) := by
    simp [StratifiedResampler.cumulativeOffspring, exampleResampler,
      sumexpu_inclusive_scan, Resampler.sum_inclusive_scan, Resampler.inclusiveScanFrom, expu2,
      StratifiedResampler.op, StratifiedResamplerHost.op, List.range_succ, List.countP_cons, h1]
  have hp : Resampler.cumulativeOffspringToAncestorsPermute [1, 2] = some [0, 1] := by decide
  have hc : Resampler.copyState [0, 1] ({ rows := ["a", "b"], size := 2 } : State String) =
      some { rows := ["a", "b"], size := 2 } := rfl
  simp only [StratifiedResampler.resample]
  simp only [List.length_cons, List.length_nil, ne_eq, not_true_eq_false, if_false]
  have ht : (exampleResampler false true).isTriggered [-2000, 0] = true := rfl
  simp only [ht, if_true]
  have hco2 : StratifiedResampler.cumulativeOffspring (exampleResampler false true)
      { rng := { uniforms := fun _ => 0, pos := 0 }, opCalls := 0 } [-2000, 0]
      (List.replicate (0 + 1 + 1) 0) ((0 + 1 + 1 : Nat) : Int) =
      Outcome.ok () ({ rng := { uniforms := fun _ => 0, pos := 2 }, opCalls := 1 }, [1, 2]) :=
    hco
  rw [hco2]
  simp only [hp, hc]
  rfl


/-- C21 (amended): for every `lws` of length `P` with total weight `W > 0` on which
the trigger is true, an ensemble of `P` particles and every outcome of the draws
in `[0, 1)`, `resample(rng, lws, as, s)` returns true, leaves every entry of `lws`
equal to `0`, produces an ancestry `as` of length `P` with entries in `[0, P)` in
which every index that occurs is self-mapped, and leaves row `i` of the ensemble
equal to the original row `as[i]` for every `i`; when moreover the first draw is
not `0`, with all weight on one particle `k` every ancestor is `k` and every row
equals the original row `k`. -/
theorem resample_branch {T R K : Type} [LinearOrder T] [Sub T] [Zero T] [LinearOrderedField K]
    (self : StratifiedResampler T K) (st : ResampleState T R K)
    (has : st.as.length = st.lws.length)
    (hsize : st.s.size = st.lws.length) (hbuf : st.s.size ≤ st.s.rows.length)
    (htrig : self.isTriggered st.lws = true)
    (hexp : ∀ x, 0 ≤ self.expu x)
    (hW : 0 < StratifiedResampler.totalWeight self st.lws)
    (hU : ∀ k, 0 ≤ st.env.rng.uniforms k ∧ st.env.rng.uniforms k < 1) :
    ∃ st1, StratifiedResampler.resample self st = Outcome.ok true st1 ∧
      st1.lws = List.replicate st.lws.length 0 ∧
      st1.as.length = st.lws.length ∧
      (∀ a ∈ st1.as, 0 ≤ a ∧ a < (st.lws.length : Int)) ∧
      (∀ (i : Nat) (a : Int), st1.as[i]? = some a → st1.as[a.toNat]? = some a) ∧
      st1.s.getDyn.length = st.lws.length ∧
      (∀ (i : Nat) (a : Int), st1.as[i]? = some a →
        st1.s.getDyn[i]? = st.s.getDyn[a.toNat]?) ∧
      (st.env.rng.uniforms st.env.rng.pos ≠ 0 → ∀ k : Nat,
        (∀ (j : Nat) (x : T), st.lws[j]? = some x → j ≠ k → self.expu x = 0) →
        ∀ i : Nat, i < st.lws.length →
          st1.as[i]? = some (k : Int) ∧ st1.s.getDyn[i]? = st.s.getDyn[k]?) := by
  have hne : st.lws ≠ [] := by
    intro h
    rw [h] at hW
    simp [StratifiedResampler.totalWeight] at hW
  obtain ⟨env1, Os1, hco, hlen, hlast, hsup⟩ :=
    StratifiedResampler.cumulativeOffspring_spec self st.env st.lws
      (List.replicate st.lws.length 0) (st.lws.length : Int) hne (by simp) hexp hW
      (by omega) hU
  have hl0 : (Resampler.cumulativeOffspringToAncestors Os1).length = st.lws.length := by
    rw [Resampler.cumulativeOffspringToAncestors_length, hlast]
    simp
  have hmem := Resampler.mem_cumulativeOffspringToAncestors Os1
  have hrange : ∀ a ∈ Resampler.cumulativeOffspringToAncestors Os1,
      0 ≤ a ∧ a < ((Resampler.cumulativeOffspringToAncestors Os1).length : Int) := by
    intro a ha
    obtain ⟨j, rfl, hj, _⟩ := hmem a ha
    rw [hl0]
    constructor
    · omega
    · omega
  obtain ⟨as1, hp1, hperm, hslot⟩ :=
    Resampler.permutePlace_claims_spec (Resampler.cumulativeOffspringToAncestors Os1) hrange _
      (List.Perm.refl _)
  have hl1 : as1.length = st.lws.length := by rw [hperm.length_eq, hl0]
  have hin : ∀ a ∈ as1, 0 ≤ a ∧ a < (st.lws.length : Int) := by
    intro a ha
    have := hrange a (hperm.mem_iff.1 ha)
    rw [hl0] at this
    exact this
  have hself : ∀ (i : Nat) (a : Int), as1[i]? = some a → 0 ≤ a ∧ as1[a.toNat]? = some a := by
    intro i a hia
    have ha : a ∈ as1 := List.getElem?_mem hia
    obtain ⟨h0, h1⟩ := hin a ha
    refine ⟨h0, ?_⟩
    have h2 : a.toNat < (Resampler.cumulativeOffspringToAncestors Os1).length := by
      rw [hl0]
      omega
    rcases hslot a.toNat h2 with h3 | h3
    · rw [h3, Int.toNat_of_nonneg h0]
    · rw [Int.toNat_of_nonneg h0] at h3
      exact absurd ha h3
  obtain ⟨s1, hcopy, _, hdl, hrows⟩ :=
    Resampler.copyState_spec as1 st.s (by omega) hbuf hself
  have hperm1 : Resampler.cumulativeOffspringToAncestorsPermute Os1 = some as1 := hp1
  refine ⟨{ env := env1, lws := StratifiedResampler.clearVector st.lws, as := as1, s := s1 },
    ?_, rfl, hl1, hin, fun i a h => (hself i a h).2, hdl.trans hl1, hrows, ?_⟩
  · have has' : ¬ st.lws.length ≠ st.as.length := by omega
    simp only [StratifiedResampler.resample, has', if_false, htrig, if_true, hco, hperm1,
      hcopy]
  · intro hU0 k hk i hi
    have hilt : i < as1.length := by omega
    have hia : as1[i]? = some as1[i] := List.getElem?_eq_getElem hilt
    have hak : as1[i] = (k : Int) := by
      have ha0 := hperm.mem_iff.1 (List.getElem?_mem hia)
      obtain ⟨j, hj1, _, d, hd1, hd2⟩ := hmem _ ha0
      obtain ⟨x, hx1, hx2⟩ := hsup hU0 j d hd1 (by omega)
      have hjk : j = k := by
        by_contra hne'
        exact hx2 (hk j x hx1 hne')
      rw [hj1, hjk]
    rw [hak] at hia
    refine ⟨hia, ?_⟩
    have := hrows i (k : Int) hia
    simpa using this

/-- Witness of C21: the particles `a`, `b` with all weight on particle `1`
(log-weights `[-2000, 0]`), trigger true, all draws `1/2`. -/
theorem resample_branch_witness :
    ∃ st1, StratifiedResampler.resample (exampleResampler false true) (exampleState [-2000, 0]) =
        Outcome.ok true st1 ∧
      st1.lws = List.replicate (exampleState [-2000, 0]).lws.length 0 ∧
      st1.as.length = (exampleState [-2000, 0]).lws.length ∧
      (∀ a ∈ st1.as, 0 ≤ a ∧ a < ((exampleState [-2000, 0]).lws.length : Int)) ∧
      (∀ (i : Nat) (a : Int), st1.as[i]? = some a → st1.as[a.toNat]? = some a) ∧
      st1.s.getDyn.length = (exampleState [-2000, 0]).lws.length ∧
      (∀ (i : Nat) (a : Int), st1.as[i]? = some a →
        st1.s.getDyn[i]? = (exampleState [-2000, 0]).s.getDyn[a.toNat]?) ∧
      ((exampleState [-2000, 0]).env.rng.uniforms (exampleState [-2000, 0]).env.rng.pos ≠ 0 →
        ∀ k : Nat,
        (∀ (j : Nat) (x : Int), (exampleState [-2000, 0]).lws[j]? = some x → j ≠ k →
          (exampleResampler false true).expu x = 0) →
        ∀ i : Nat, i < (exampleState [-2000, 0]).lws.length →
          st1.as[i]? = some (k : Int) ∧
            st1.s.getDyn[i]? = (exampleState [-2000, 0]).s.getDyn[k]?) :=
  resample_branch (exampleResampler false true) (exampleState [-2000, 0]) rfl rfl (by decide) rfl
    expu2_nonneg
    (by norm_num [StratifiedResampler.totalWeight, exampleResampler, expu2, exampleState])
    (fun k => by norm_num [exampleState, exampleEnv])

/-! ## Bridge particle filter: the bridge step -/

theorem axpy_spec {T : Type} [Mul T] [Add T] (a : T) (x y : List T)
    (h : x.length = y.length) :
    ∃ r, axpy a x y = some r ∧ r.length = y.length ∧
      ∀ (i : Nat) (xi yi : T), x[i]? = some xi → y[i]? = some yi →
        r[i]? = some (a * xi + yi) := by
  refine ⟨List.zipWith (fun xi yi => a * xi + yi) x y, by simp [axpy, h], by simp [h], ?_⟩
  intro i xi yi hx hy
  simp [List.getElem?_zipWith, hx, hy]


theorem BridgeParticleFilter.bridge_guarded {T R G : Type} [Ring T] (c : Collaborators T R G)
    (sched : Schedule) (iter last : Nat) (st : FilterState T R G)
    (hlen : st.p.lws.length = st.p.blws.length)
    (hb : (c.bridgeLogDensities st.p.s (c.getMask (sched iter).indexObs)
      (List.replicate st.p.blws.length 0)).length = st.p.blws.length)
    (h1 : (sched iter).hasBridge = true) (h2 : (sched iter).isObserved = false)
    (h3 : (sched last).indexObs > (sched iter).indexObs) :
    ∃ lws1, BridgeParticleFilter.bridge c sched iter last st =
        Run.done (c.logsumexp_reduce lws1 - c.log ((st.p.s.size : Nat) : T))
          { p := { st.p with
                   lws := lws1
                   blws := c.bridgeLogDensities st.p.s (c.getMask (sched iter).indexObs)
                     (List.replicate st.p.blws.length 0) },
            trace := st.trace ++ [Event.bridgeLogDensities (sched iter).indexObs] } ∧
      lws1.length = st.p.lws.length ∧
      ∀ (i : Nat) (x y z : T), st.p.lws[i]? = some x → st.p.blws[i]? = some y →
        (c.bridgeLogDensities st.p.s (c.getMask (sched iter).indexObs)
          (List.replicate st.p.blws.length 0))[i]? = some z →
        lws1[i]? = some (x - y + z) := by
  obtain ⟨l1, ha1, hl1, he1⟩ := axpy_spec (-1 : T) st.p.blws st.p.lws hlen.symm
  obtain ⟨l2, ha2, hl2, he2⟩ := axpy_spec (1 : T)
    (c.bridgeLogDensities st.p.s (c.getMask (sched iter).indexObs)
      (List.replicate st.p.blws.length 0)) l1 (by rw [hb, hl1, hlen])
  refine ⟨l2, ?_, by rw [hl2, hl1], ?_⟩
  · have hl : ¬ st.p.lws.length ≠ st.p.blws.length := by simp [hlen]
    simp only [BridgeParticleFilter.bridge, hl, if_false, h1, h2, h3, Bool.not_false,
      Bool.and_self, decide_True, if_true, ha1, StratifiedResampler.clearVector, ha2]
  · intro i x y z hx hy hz
    have h4 := he1 i y x hy hx
    have h5 := he2 i z _ hz h4
    rw [h5]
    congr 1
    noncomm_ring

theorem BridgeParticleFilter.bridge_unguarded {T R G : Type} [Ring T]
    (c : Collaborators T R G) (sched : Schedule) (iter last : Nat) (st : FilterState T R G)
    (hlen : st.p.lws.length = st.p.blws.length)
    (h : ¬ ((sched iter).hasBridge = true ∧ (sched iter).isObserved = false ∧
      (sched last).indexObs > (sched iter).indexObs)) :
    BridgeParticleFilter.bridge c sched iter last st = Run.done 0 st := by
  have hl : ¬ st.p.lws.length ≠ st.p.blws.length := by simp [hlen]
  have hg : ((sched iter).hasBridge && !(sched iter).isObserved
      && decide ((sched last).indexObs > (sched iter).indexObs)) = false := by
    rw [Bool.eq_false_iff]
    intro hg
    simp only [Bool.and_eq_true, Bool.not_eq_true', decide_eq_true_eq] at hg
    exact h ⟨hg.1.1, hg.1.2, hg.2⟩
  simp only [BridgeParticleFilter.bridge, hl, if_false, hg, Bool.false_eq_true]

theorem writeRow0_spec {R : Type} (s s1 : State R) (X : List R) (j : Int)
    (h : writeRow0 s X j = some s1) :
    ∃ x, column X j = some x ∧ s1.getDyn[0]? = some x := by
  unfold writeRow0 at h
  cases hc : column X j with
  | none => rw [hc] at h; cases h
  | some x =>
    rw [hc] at h
    simp only [State.setRow0] at h
    split at h
    · rename_i hpos
      simp only [Option.some.injEq] at h
      subst h
      refine ⟨x, rfl, ?_⟩
      simp only [State.getDyn, List.getElem?_take]
      have h0 : 0 < s.size := hpos.1
      simp [h0, hpos.2]
    · cases h

theorem BridgeParticleFilter.bridge_cases {T R G : Type} [Ring T] (c : Collaborators T R G)
    (sched : Schedule) (iter last : Nat) (st : FilterState T R G) :
    (∃ ll st1 evb, BridgeParticleFilter.bridge c sched iter last st = Run.done ll st1 ∧
        st1.trace = st.trace ++ evb ∧
        (evb = [] ∨ evb = [Event.bridgeLogDensities (sched iter).indexObs])) ∨
      BridgeParticleFilter.bridge c sched iter last st = Run.assertion st ∨
      BridgeParticleFilter.bridge c sched iter last st = Run.undefined st := by
  unfold BridgeParticleFilter.bridge
  split
  · exact Or.inr (Or.inl rfl)
  · split
    · split
      · exact Or.inr (Or.inr rfl)
      · simp only
        split
        · exact Or.inr (Or.inr rfl)
        · exact Or.inl ⟨_, _, _, rfl, rfl, Or.inr rfl⟩
    · exact Or.inl ⟨_, _, [], rfl, by simp, Or.inl rfl⟩

theorem BridgeParticleFilter.conditionalWrite_spec {T R G : Type} (sched : Schedule)
    (X : Option (List R)) (iter : Nat) (st st1 : FilterState T R G)
    (h : BridgeParticleFilter.conditionalWrite sched X iter st = some st1) :
    ∃ evw, st1.trace = st.trace ++ evw ∧
      (evw = [] ∨ evw = [Event.write iter (sched iter).indexOutput]) ∧
      st1.p.lws = st.p.lws ∧ st1.p.blws = st.p.blws ∧
      ((sched iter).hasOutput = true → anchoredTo X (sched iter).indexOutput st1.p.s) := by
  unfold BridgeParticleFilter.conditionalWrite at h
  cases X with
  | none =>
    simp only [Option.some.injEq] at h
    subst h
    exact ⟨[], by simp, Or.inl rfl, rfl, rfl, fun _ X1 hX => by cases hX⟩
  | some X1 =>
    simp only at h
    split at h
    · rename_i ho
      cases hw : writeRow0 st.p.s X1 (sched iter).indexOutput with
      | none => rw [hw] at h; cases h
      | some s1 =>
        rw [hw] at h
        simp only [Option.some.injEq] at h
        subst h
        refine ⟨_, rfl, Or.inr rfl, rfl, rfl, ?_⟩
        intro _ X2 hX
        cases hX
        exact writeRow0_spec _ _ _ _ hw
    · rename_i ho
      simp only [Option.some.injEq] at h
      subst h
      exact ⟨[], by simp, Or.inl rfl, rfl, rfl, fun h1 => absurd h1 ho⟩

theorem BridgeParticleFilter.stepBody_events {T R G : Type} [Ring T]
    (c : Collaborators T R G) (sched : Schedule) (last : Nat) (X : Option (List R))
    (first iter : Nat) (st : FilterState T R G) (hfi : first ≤ iter) :
    ∃ ev, (BridgeParticleFilter.stepBody c sched last X iter st).state.trace = st.trace ++ ev ∧
      (∀ e ∈ ev, Event.Anchored sched X first e) ∧
      (∀ r st1, BridgeParticleFilter.stepBody c sched last X iter st = Run.done r st1 →
        (ev.map Event.increment).sum = r.1 + r.2) ∧
      (∀ st1, BridgeParticleFilter.stepBody c sched last X iter st ≠ Run.outOfFuel st1) := by
  rcases BridgeParticleFilter.bridge_cases c sched iter last st with
    ⟨lb, st1, evb, hb, htr, hevb⟩ | hb | hb
  · have hevb1 : ∀ e ∈ evb, Event.Anchored sched X first e := by
      intro e he
      rcases hevb with h | h
      · rw [h] at he; cases he
      · rw [h] at he
        simp only [List.mem_singleton] at he
        subst he
        trivial
    have hevb2 : (evb.map (Event.increment (T := T) (S := State R))).sum = 0 := by
      rcases hevb with h | h
      · rw [h]; rfl
      · rw [h]; simp [Event.increment]
    unfold BridgeParticleFilter.stepBody
    rw [hb]
    simp only
    cases hr : c.resample (sched iter) st1.p with
    | ok r p3 =>
      simp only
      cases hw : BridgeParticleFilter.conditionalWrite sched X (iter + 1)
          ({ p := { p3 with rng := (c.predict p3.rng (sched (iter + 1)) p3.s).1,
                            s := (c.predict p3.rng (sched (iter + 1)) p3.s).2 },
             trace := st1.trace ++ [Event.bridge iter lb] ++
              [Event.resample iter r, Event.predict (iter + 1)] } : FilterState T R G) with
      | none =>
        refine ⟨evb ++ [Event.bridge iter lb, Event.resample iter r, Event.predict (iter + 1)],
          ?_, ?_, ?_, ?_⟩
        · simp [Run.state, htr]
        · intro e he
          rcases List.mem_append.1 he with h | h
          · exact hevb1 e h
          · simp only [List.mem_cons, List.mem_singleton, List.not_mem_nil, or_false] at h
            rcases h with h | h | h <;> subst h <;> trivial
        · intro r1 st2 h
          cases h
        · intro st2 h
          cases h
      | some st5 =>
        obtain ⟨evw, htw, hevw, _, _, hanch⟩ :=
          BridgeParticleFilter.conditionalWrite_spec sched X (iter + 1) _ st5 hw
        refine ⟨evb ++ [Event.bridge iter lb, Event.resample iter r, Event.predict (iter + 1)]
          ++ evw ++ [Event.correct (iter + 1) st5.p.s
              (c.correct (sched (iter + 1)) st5.p.s st5.p.lws st5.p.blws).1,
            Event.output (iter + 1) st5.p.s r], ?_, ?_, ?_, ?_⟩
        · simp [Run.state, htw, htr]
        · intro e he
          simp only [List.mem_append, List.mem_cons, List.mem_singleton, List.not_mem_nil,
            or_false] at he
          rcases he with ((h | h | h | h) | h) | h | h
          · exact hevb1 e h
          · subst h; trivial
          · subst h; trivial
          · subst h; trivial
          · rcases hevw with h1 | h1
            · rw [h1] at h; cases h
            · rw [h1] at h
              simp only [List.mem_singleton] at h
              subst h
              trivial
          · subst h
            exact ⟨by omega, hanch⟩
          · subst h
            exact ⟨by omega, hanch⟩
        · intro r1 st2 h
          simp only [Run.done.injEq] at h
          obtain ⟨h1, _⟩ := h
          subst h1
          have hevw2 : (evw.map (Event.increment (T := T) (S := State R))).sum = 0 := by
            rcases hevw with h | h
            · rw [h]; rfl
            · rw [h]; simp [Event.increment]
          simp only [List.map_append, List.sum_append, hevb2, hevw2]
          simp [Event.increment]
        · intro st2 h
          cases h
    | degenerated p3 =>
      refine ⟨evb ++ [Event.bridge iter lb, Event.resampleFailed iter], ?_, ?_, ?_, ?_⟩
      · simp [Run.state, htr]
      · intro e he
        rcases List.mem_append.1 he with h | h
        · exact hevb1 e h
        · simp only [List.mem_cons, List.mem_singleton, List.not_mem_nil, or_false] at h
          rcases h with h | h <;> subst h <;> trivial
      · intro r1 st2 h
        cases h
      · intro st2 h
        cases h
    | assertion =>
      refine ⟨evb ++ [Event.bridge iter lb, Event.resampleFailed iter], ?_, ?_, ?_, ?_⟩
      · simp [Run.state, htr]
      · intro e he
        rcases List.mem_append.1 he with h | h
        · exact hevb1 e h
        · simp only [List.mem_cons, List.mem_singleton, List.not_mem_nil, or_false] at h
          rcases h with h | h <;> subst h <;> trivial
      · intro r1 st2 h
        cases h
      · intro st2 h
        cases h
    | undefined =>
      refine ⟨evb ++ [Event.bridge iter lb, Event.resampleFailed iter], ?_, ?_, ?_, ?_⟩
      · simp [Run.state, htr]
      · intro e he
        rcases List.mem_append.1 he with h | h
        · exact hevb1 e h
        · simp only [List.mem_cons, List.mem_singleton, List.not_mem_nil, or_false] at h
          rcases h with h | h <;> subst h <;> trivial
      · intro r1 st2 h
        cases h
      · intro st2 h
        cases h
  · unfold BridgeParticleFilter.stepBody
    rw [hb]
    simp only
    exact ⟨[], by simp [Run.state], fun e he => (by cases he), fun r st1 h => (by cases h),
      fun st1 h => (by cases h)⟩
  · unfold BridgeParticleFilter.stepBody
    rw [hb]
    simp only
    exact ⟨[], by simp [Run.state], fun e he => (by cases he), fun r st1 h => (by cases h),
      fun st1 h => (by cases h)⟩

theorem BridgeParticleFilter.stepLoop_events {T R G : Type} [Ring T]
    (c : Collaborators T R G) (sched : Schedule) (last : Nat) (X : Option (List R))
    (first : Nat) :
    ∀ (fuel iter : Nat) (ll : T) (st : FilterState T R G), first ≤ iter →
      ∃ ev, (BridgeParticleFilter.stepLoop c sched last X fuel iter ll st).state.trace =
          st.trace ++ ev ∧
        (∀ e ∈ ev, Event.Anchored sched X first e) ∧
        (∀ r st1, BridgeParticleFilter.stepLoop c sched last X fuel iter ll st = Run.done r st1 →
          r.2 = ll + (ev.map Event.increment).sum ∧ iter < r.1) := by
  intro fuel
  induction fuel with
  | zero =>
    intro iter ll st _
    exact ⟨[], by simp [BridgeParticleFilter.stepLoop, Run.state], fun e he => (by cases he),
      fun r st1 h => (by cases h)⟩
  | succ fuel ih =>
    intro iter ll st hfi
    obtain ⟨ev1, h1, hA1, hS1, _⟩ :=
      BridgeParticleFilter.stepBody_events c sched last X first iter st hfi
    cases hsb : BridgeParticleFilter.stepBody c sched last X iter st with
    | done r st1 =>
      rw [hsb] at h1
      simp only [Run.state] at h1
      have hsum := hS1 r st1 hsb
      simp only [BridgeParticleFilter.stepLoop, hsb]
      split
      · obtain ⟨ev2, h2, hA2, hS2⟩ := ih (iter + 1) (ll + r.1 + r.2) st1 (by omega)
        refine ⟨ev1 ++ ev2, ?_, ?_, ?_⟩
        · rw [h2, h1, List.append_assoc]
        · intro e he
          rcases List.mem_append.1 he with h | h
          · exact hA1 e h
          · exact hA2 e h
        · intro r1 st2 h
          obtain ⟨h3, h4⟩ := hS2 r1 st2 h
          refine ⟨?_, by omega⟩
          rw [h3, List.map_append, List.sum_append, hsum]
          abel
      · refine ⟨ev1, by simp [Run.state, h1], hA1, ?_⟩
        intro r1 st2 h
        simp only [Run.done.injEq] at h
        obtain ⟨h3, _⟩ := h
        subst h3
        refine ⟨?_, by simp⟩
        simp only [hsum]
        abel
    | degenerated st1 =>
      rw [hsb] at h1
      simp only [BridgeParticleFilter.stepLoop, hsb]
      exact ⟨ev1, h1, hA1, fun r st2 h => (by cases h)⟩
    | assertion st1 =>
      rw [hsb] at h1
      simp only [BridgeParticleFilter.stepLoop, hsb]
      exact ⟨ev1, h1, hA1, fun r st2 h => (by cases h)⟩
    | undefined st1 =>
      rw [hsb] at h1
      simp only [BridgeParticleFilter.stepLoop, hsb]
      exact ⟨ev1, h1, hA1, fun r st2 h => (by cases h)⟩
    | outOfFuel st1 =>
      rw [hsb] at h1
      simp only [BridgeParticleFilter.stepLoop, hsb]
      exact ⟨ev1, h1, hA1, fun r st2 h => (by cases h)⟩

theorem BridgeParticleFilter.step_events {T R G : Type} [Ring T]
    (c : Collaborators T R G) (sched : Schedule) (last : Nat) (X : Option (List R))
    (first fuel iter : Nat) (st : FilterState T R G) (hfi : first ≤ iter) :
    ∃ ev, (BridgeParticleFilter.step c sched X fuel iter last st).state.trace =
        st.trace ++ ev ∧
      (∀ e ∈ ev, Event.Anchored sched X first e) ∧
      (∀ r st1, BridgeParticleFilter.step c sched X fuel iter last st = Run.done r st1 →
        r.2 = (ev.map Event.increment).sum ∧ iter < r.1) := by
  obtain ⟨ev, h1, hA, hS⟩ := BridgeParticleFilter.stepLoop_events c sched last X first fuel
    iter 0 { st with trace := st.trace ++ [Event.step iter] } hfi
  refine ⟨Event.step iter :: ev, ?_, ?_, ?_⟩
  · simp only [BridgeParticleFilter.step, h1]
    simp
  · intro e he
    rcases List.mem_cons.1 he with h | h
    · subst h; trivial
    · exact hA e h
  · intro r st1 h
    obtain ⟨h2, h3⟩ := hS r st1 h
    refine ⟨?_, h3⟩
    rw [h2]
    simp [Event.increment]

theorem BridgeParticleFilter.filterLoop_events {T R G : Type} [Ring T]
    (c : Collaborators T R G) (sched : Schedule) (last : Nat) (X : Option (List R))
    (first n : Nat) :
    ∀ (fuel iter : Nat) (ll : T) (st : FilterState T R G), first ≤ iter →
      ∃ ev, (BridgeParticleFilter.filterLoop c sched last X n fuel iter ll st).state.trace =
          st.trace ++ ev ∧
        (∀ e ∈ ev, Event.Anchored sched X first e) ∧
        (∀ r st1, BridgeParticleFilter.filterLoop c sched last X n fuel iter ll st =
            Run.done r st1 →
          r.2 = ll + (ev.map Event.increment).sum) := by
  intro fuel
  induction fuel with
  | zero =>
    intro iter ll st _
    refine ⟨[], ?_, fun e he => (by cases he), ?_⟩
    · simp only [BridgeParticleFilter.filterLoop]
      split <;> simp [Run.state]
    · intro r st1 h
      simp only [BridgeParticleFilter.filterLoop] at h
      split at h
      · cases h
      · simp only [Run.done.injEq] at h
        rw [← h.1]
        simp
  | succ fuel ih =>
    intro iter ll st hfi
    simp only [BridgeParticleFilter.filterLoop]
    split
    · obtain ⟨ev1, h1, hA1, hS1⟩ :=
        BridgeParticleFilter.step_events c sched last X first n iter st hfi
      cases hst : BridgeParticleFilter.step c sched X n iter last st with
      | done r st1 =>
        rw [hst] at h1
        simp only [Run.state] at h1
        obtain ⟨hsum, hlt⟩ := hS1 r st1 hst
        obtain ⟨ev2, h2, hA2, hS2⟩ := ih r.1 (ll + r.2) st1 (by omega)
        refine ⟨ev1 ++ ev2, ?_, ?_, ?_⟩
        · simp only [h2, h1, List.append_assoc]
        · intro e he
          rcases List.mem_append.1 he with h | h
          · exact hA1 e h
          · exact hA2 e h
        · intro r1 st2 h
          rw [hS2 r1 st2 h, List.map_append, List.sum_append, hsum]
          abel
      | degenerated st1 =>
        rw [hst] at h1
        exact ⟨ev1, h1, hA1, fun r st2 h => (by cases h)⟩
      | assertion st1 =>
        rw [hst] at h1
        exact ⟨ev1, h1, hA1, fun r st2 h => (by cases h)⟩
      | undefined st1 =>
        rw [hst] at h1
        exact ⟨ev1, h1, hA1, fun r st2 h => (by cases h)⟩
      | outOfFuel st1 =>
        rw [hst] at h1
        exact ⟨ev1, h1, hA1, fun r st2 h => (by cases h)⟩
    · refine ⟨[], by simp [Run.state], fun e he => (by cases he), ?_⟩
      intro r st1 h
      simp only [Run.done.injEq] at h
      rw [← h.1]
      simp

theorem BridgeParticleFilter.stepLoop_fuel {T R G : Type} [Ring T]
    (c : Collaborators T R G) (sched : Schedule) (last : Nat) (X : Option (List R)) :
    ∀ (fuel iter : Nat) (ll : T) (st : FilterState T R G), iter + 1 < last →
      last ≤ fuel + iter + 1 →
      (∀ st1, BridgeParticleFilter.stepLoop c sched last X fuel iter ll st ≠ Run.outOfFuel st1) ∧
        (∀ r st1, BridgeParticleFilter.stepLoop c sched last X fuel iter ll st = Run.done r st1 →
          iter < r.1 ∧ r.1 < last ∧ (r.1 + 1 = last ∨ (sched r.1).isObserved = true)) := by
  intro fuel
  induction fuel with
  | zero =>
    intro iter ll st h1 h2
    omega
  | succ fuel ih =>
    intro iter ll st h1 h2
    obtain ⟨_, _, _, _, hno⟩ :=
      BridgeParticleFilter.stepBody_events c sched last X iter iter st (le_refl _)
    cases hsb : BridgeParticleFilter.stepBody c sched last X iter st with
    | done r st1 =>
      simp only [BridgeParticleFilter.stepLoop, hsb]
      split
      · rename_i hc
        obtain ⟨h3, h4⟩ := ih (iter + 1) (ll + r.1 + r.2) st1 (by omega) (by omega)
        refine ⟨h3, ?_⟩
        intro r1 st2 h
        obtain ⟨h5, h6, h7⟩ := h4 r1 st2 h
        exact ⟨by omega, h6, h7⟩
      · rename_i hc
        refine ⟨fun st2 h => (by cases h), ?_⟩
        intro r1 st2 h
        simp only [Run.done.injEq] at h
        obtain ⟨h3, _⟩ := h
        subst h3
        refine ⟨by simp, by simp; omega, ?_⟩
        simp only [not_and_or, ne_eq, not_not, Bool.not_eq_true', Bool.not_eq_false] at hc
        rcases hc with hc | hc
        · exact Or.inl hc
        · right
          simpa using hc
    | degenerated st1 =>
      simp only [BridgeParticleFilter.stepLoop, hsb]
      exact ⟨fun st2 h => (by cases h), fun r st2 h => (by cases h)⟩
    | assertion st1 =>
      simp only [BridgeParticleFilter.stepLoop, hsb]
      exact ⟨fun st2 h => (by cases h), fun r st2 h => (by cases h)⟩
    | undefined st1 =>
      simp only [BridgeParticleFilter.stepLoop, hsb]
      exact ⟨fun st2 h => (by cases h), fun r st2 h => (by cases h)⟩
    | outOfFuel st1 =>
      exact absurd hsb (hno st1)

theorem BridgeParticleFilter.filterLoop_fuel {T R G : Type} [Ring T]
    (c : Collaborators T R G) (sched : Schedule) (last : Nat) (X : Option (List R))
    (n : Nat) :
    ∀ (fuel iter : Nat) (ll : T) (st : FilterState T R G), iter < last →
      last ≤ fuel + iter + 1 → last ≤ n + iter + 1 →
      ∀ st1, BridgeParticleFilter.filterLoop c sched last X n fuel iter ll st ≠
        Run.outOfFuel st1 := by
  intro fuel
  induction fuel with
  | zero =>
    intro iter ll st h1 h2 _ st1
    have : iter + 1 = last := by omega
    simp [BridgeParticleFilter.filterLoop, this]
  | succ fuel ih =>
    intro iter ll st h1 h2 h3 st1
    simp only [BridgeParticleFilter.filterLoop]
    split
    · rename_i hne
      obtain ⟨h4, h5⟩ := BridgeParticleFilter.stepLoop_fuel c sched last X n iter 0
        { st with trace := st.trace ++ [Event.step iter] } (by omega) (by omega)
      cases hst : BridgeParticleFilter.step c sched X n iter last st with
      | done r st2 =>
        obtain ⟨h6, h7, _⟩ := h5 r st2 hst
        exact ih r.1 (ll + r.2) st2 h7 (by omega) (by omega) st1
      | degenerated st2 => exact fun h => (by cases h)
      | assertion st2 => exact fun h => (by cases h)
      | undefined st2 => exact fun h => (by cases h)
      | outOfFuel st2 => exact absurd hst (h4 st2)
    · exact fun h => (by cases h)

theorem BridgeParticleFilter.filterRest_events {T R G : Type} [Ring T]
    (c : Collaborators T R G) (sched : Schedule) (X : Option (List R))
    (fuel first last : Nat) (st2 : FilterState T R G) :
    ∃ ev fin, (BridgeParticleFilter.filterRest c sched X fuel first last st2).state.trace =
        st2.trace ++ [Event.output0,
          Event.correct first st2.p.s (c.correct (sched first) st2.p.s st2.p.lws st2.p.blws).1,
          Event.output first st2.p.s false] ++ ev ++ fin ∧
      (∀ e ∈ ev, Event.Anchored sched X first e) ∧
      ((fin = [] ∧ ∀ ll st, BridgeParticleFilter.filterRest c sched X fuel first last st2 ≠
          Run.done ll st) ∨
        (fin = [Event.term, Event.outputT
            ((c.correct (sched first) st2.p.s st2.p.lws st2.p.blws).1 +
              (ev.map Event.increment).sum)] ∧
          ∃ st, BridgeParticleFilter.filterRest c sched X fuel first last st2 =
            Run.done ((c.correct (sched first) st2.p.s st2.p.lws st2.p.blws).1 +
              (ev.map Event.increment).sum) st)) := by
  obtain ⟨ev, h1, hA, hS⟩ := BridgeParticleFilter.filterLoop_events c sched last X first fuel
    fuel first (c.correct (sched first) st2.p.s st2.p.lws st2.p.blws).1
    { p := { st2.p with
             lws := (c.correct (sched first) st2.p.s st2.p.lws st2.p.blws).2.1
             blws := (c.correct (sched first) st2.p.s st2.p.lws st2.p.blws).2.2 },
      trace := st2.trace ++ [Event.output0,
        Event.correct first st2.p.s (c.correct (sched first) st2.p.s st2.p.lws st2.p.blws).1,
        Event.output first st2.p.s false] } (le_refl _)
  unfold BridgeParticleFilter.filterRest
  simp only
  cases hfl : BridgeParticleFilter.filterLoop c sched last X fuel fuel first
      (c.correct (sched first) st2.p.s st2.p.lws st2.p.blws).1
      { p := { st2.p with
               lws := (c.correct (sched first) st2.p.s st2.p.lws st2.p.blws).2.1
               blws := (c.correct (sched first) st2.p.s st2.p.lws st2.p.blws).2.2 },
        trace := st2.trace ++ [Event.output0,
          Event.correct first st2.p.s (c.correct (sched first) st2.p.s st2.p.lws st2.p.blws).1,
          Event.output first st2.p.s false] } with
  | done res st4 =>
    rw [hfl] at h1
    simp only [Run.state] at h1
    have hsum := hS res st4 hfl
    refine ⟨ev, [Event.term, Event.outputT
      ((c.correct (sched first) st2.p.s st2.p.lws st2.p.blws).1 +
        (ev.map Event.increment).sum)], ?_, hA, Or.inr ⟨rfl, ?_⟩⟩
    · simp only [Run.state, h1, hsum]
    · simp only [hsum]
      exact ⟨_, rfl⟩
  | degenerated st4 =>
    rw [hfl] at h1
    exact ⟨ev, [], by simpa [Run.state] using h1, hA, Or.inl ⟨rfl, fun ll st h => (by cases h)⟩⟩
  | assertion st4 =>
    rw [hfl] at h1
    exact ⟨ev, [], by simpa [Run.state] using h1, hA, Or.inl ⟨rfl, fun ll st h => (by cases h)⟩⟩
  | undefined st4 =>
    rw [hfl] at h1
    exact ⟨ev, [], by simpa [Run.state] using h1, hA, Or.inl ⟨rfl, fun ll st h => (by cases h)⟩⟩
  | outOfFuel st4 =>
    rw [hfl] at h1
    exact ⟨ev, [], by simpa [Run.state] using h1, hA, Or.inl ⟨rfl, fun ll st h => (by cases h)⟩⟩

theorem BridgeParticleFilter.filterRest_fuel {T R G : Type} [Ring T]
    (c : Collaborators T R G) (sched : Schedule) (X : Option (List R))
    (fuel first k : Nat) (st2 : FilterState T R G) (hk : 1 ≤ k) (hfuel : k ≤ fuel) :
    ∀ st, BridgeParticleFilter.filterRest c sched X fuel first (first + k) st2 ≠
      Run.outOfFuel st := by
  intro st
  have h := BridgeParticleFilter.filterLoop_fuel c sched (first + k) X fuel fuel first
    (c.correct (sched first) st2.p.s st2.p.lws st2.p.blws).1
    { p := { st2.p with
             lws := (c.correct (sched first) st2.p.s st2.p.lws st2.p.blws).2.1
             blws := (c.correct (sched first) st2.p.s st2.p.lws st2.p.blws).2.2 },
      trace := st2.trace ++ [Event.output0,
        Event.correct first st2.p.s (c.correct (sched first) st2.p.s st2.p.lws st2.p.blws).1,
        Event.output first st2.p.s false] } (by omega) (by omega) (by omega)
  unfold BridgeParticleFilter.filterRest
  simp only
  split
  · exact fun h1 => (by cases h1)
  · exact fun h1 => (by cases h1)
  · exact fun h1 => (by cases h1)
  · exact fun h1 => (by cases h1)
  · rename_i st4 heq
    exact absurd heq (h st4)

theorem BridgeParticleFilter.filterFrom_events {T R G : Type} [Ring T]
    (c : Collaborators T R G) (sched : Schedule) (X : Option (List R))
    (fuel first last : Nat) (p1 : Particles T R G) :
    ∃ evw tail,
      (BridgeParticleFilter.filterFrom c sched X fuel first last p1).state.trace =
        Event.init first :: (evw ++ tail) ∧
      (evw = [] ∨ evw = [Event.write first 0]) ∧ (X = none → evw = []) ∧
      ((tail = [] ∧ X ≠ none ∧
          ∀ ll st, BridgeParticleFilter.filterFrom c sched X fuel first last p1 ≠
            Run.done ll st) ∨
        ∃ s2 c0 ev fin,
          tail = [Event.output0, Event.correct first s2 c0, Event.output first s2 false] ++
            ev ++ fin ∧
          anchoredTo X 0 s2 ∧ (∀ e ∈ ev, Event.Anchored sched X first e) ∧
          ((fin = [] ∧
              ∀ ll st, BridgeParticleFilter.filterFrom c sched X fuel first last p1 ≠
                Run.done ll st) ∨
            (fin = [Event.term, Event.outputT (c0 + (ev.map Event.increment).sum)] ∧
              ∃ st, BridgeParticleFilter.filterFrom c sched X fuel first last p1 =
                Run.done (c0 + (ev.map Event.increment).sum) st))) := by
  unfold BridgeParticleFilter.filterFrom
  cases X with
  | none =>
    simp only
    obtain ⟨ev, fin, h1, hA, hfin⟩ :=
      BridgeParticleFilter.filterRest_events c sched none fuel first last
        { p := p1, trace := [Event.init first] }
    refine ⟨[], _, ?_, Or.inl rfl, fun _ => rfl, Or.inr ⟨p1.s, _, ev, fin, rfl, ?_, hA, hfin⟩⟩
    · rw [h1]
      simp
    · intro X1 hX
      cases hX
  | some X1 =>
    simp only
    cases hw : writeRow0 p1.s X1 0 with
    | none =>
      refine ⟨[], [], ?_, Or.inl rfl, fun h => (by cases h), Or.inl ⟨rfl, by simp, ?_⟩⟩
      · simp [Run.state]
      · intro ll st h
        cases h
    | some s1 =>
      simp only
      obtain ⟨ev, fin, h1, hA, hfin⟩ :=
        BridgeParticleFilter.filterRest_events c sched (some X1) fuel first last
          { p := { p1 with s := s1 }, trace := [Event.init first] ++ [Event.write first 0] }
      refine ⟨[Event.write first 0], _, ?_, Or.inr rfl, fun h => (by cases h),
        Or.inr ⟨s1, _, ev, fin, rfl, ?_, hA, hfin⟩⟩
      · rw [h1]
        simp
      · intro X2 hX
        cases hX
        exact writeRow0_spec _ _ _ _ hw

theorem BridgeParticleFilter.filterFrom_fuel {T R G : Type} [Ring T]
    (c : Collaborators T R G) (sched : Schedule) (X : Option (List R))
    (fuel first k : Nat) (p1 : Particles T R G) (hk : 1 ≤ k) (hfuel : k ≤ fuel) :
    ∀ st, BridgeParticleFilter.filterFrom c sched X fuel first (first + k) p1 ≠
      Run.outOfFuel st := by
  intro st
  unfold BridgeParticleFilter.filterFrom
  cases X with
  | none =>
    exact BridgeParticleFilter.filterRest_fuel c sched none fuel first k _ hk hfuel st
  | some X1 =>
    simp only
    cases hw : writeRow0 p1.s X1 0 with
    | none => exact fun h => (by cases h)
    | some s1 =>
      exact BridgeParticleFilter.filterRest_fuel c sched (some X1) fuel first k _ hk hfuel st

/-! ## Bridge particle filter: runs that do not fail -/

theorem writeRow0_ok {R : Type} (s : State R) (X : List R) (j : Int) (x : R)
    (hs : 0 < s.size ∧ 0 < s.rows.length) (hx : column X j = some x) :
    ∃ s1, writeRow0 s X j = some s1 ∧ 0 < s1.size ∧ 0 < s1.rows.length := by
  refine ⟨{ s with rows := s.rows.set 0 x }, ?_, hs.1, by simpa using hs.2⟩
  simp [writeRow0, hx, State.setRow0, hs]

theorem BridgeParticleFilter.bridge_ok {T R G : Type} [Ring T] (c : Collaborators T R G)
    (sched : Schedule) (X : Option (List R)) (iter last : Nat) (st : FilterState T R G)
    (hb : ∀ s m z, (c.bridgeLogDensities s m z).length = z.length)
    (hs : Particles.Sound X st.p) :
    ∃ lb st1, BridgeParticleFilter.bridge c sched iter last st = Run.done lb st1 ∧
      Particles.Sound X st1.p := by
  by_cases hg : (sched iter).hasBridge = true ∧ (sched iter).isObserved = false ∧
      (sched last).indexObs > (sched iter).indexObs
  · have hblen : (c.bridgeLogDensities st.p.s (c.getMask (sched iter).indexObs)
        (List.replicate st.p.blws.length 0)).length = st.p.blws.length := by
      rw [hb]
      simp
    obtain ⟨lws1, h, hl, _⟩ :=
      BridgeParticleFilter.bridge_guarded c sched iter last st hs.1 hblen hg.1 hg.2.1 hg.2.2
    refine ⟨_, _, h, ?_, hs.2⟩
    change lws1.length = _
    rw [hl, hblen, hs.1]
  · exact ⟨0, st, BridgeParticleFilter.bridge_unguarded c sched iter last st hs.1 hg, hs⟩

theorem BridgeParticleFilter.conditionalWrite_ok {T R G : Type} (sched : Schedule)
    (X : Option (List R)) (iter : Nat) (st : FilterState T R G)
    (hs : Particles.Sound X st.p)
    (hcol : ∀ X1, X = some X1 → (sched iter).hasOutput = true →
      ∃ x, column X1 (sched iter).indexOutput = some x) :
    ∃ st1, BridgeParticleFilter.conditionalWrite sched X iter st = some st1 ∧
      Particles.Sound X st1.p := by
  unfold BridgeParticleFilter.conditionalWrite
  cases X with
  | none => exact ⟨st, rfl, hs⟩
  | some X1 =>
    simp only
    split
    · rename_i ho
      obtain ⟨x, hx⟩ := hcol X1 rfl ho
      obtain ⟨s1, hw, hne⟩ := writeRow0_ok st.p.s X1 _ x (hs.2 (by simp)) hx
      rw [hw]
      exact ⟨_, rfl, hs.1, fun _ => hne⟩
    · exact ⟨st, rfl, hs⟩

theorem BridgeParticleFilter.stepBody_ok {T R G : Type} [Ring T]
    (c : Collaborators T R G) (sched : Schedule) (last : Nat) (X : Option (List R))
    (first iter : Nat) (st : FilterState T R G)
    (hreg : Collaborators.Regular c sched X first last)
    (hfi : first ≤ iter) (hil : iter + 1 < last) (hs : Particles.Sound X st.p) :
    ∃ r st1, BridgeParticleFilter.stepBody c sched last X iter st = Run.done r st1 ∧
      Particles.Sound X st1.p := by
  obtain ⟨hb, _, hres, hpred, hcor, hcol⟩ := hreg
  obtain ⟨lb, st1, hbr, hs1⟩ := BridgeParticleFilter.bridge_ok c sched X iter last st hb hs
  obtain ⟨r, p3, hr, hs3⟩ := hres (sched iter) st1.p hs1
  have hs4 : Particles.Sound X ({ p3 with
      rng := (c.predict p3.rng (sched (iter + 1)) p3.s).1,
      s := (c.predict p3.rng (sched (iter + 1)) p3.s).2 } : Particles T R G) :=
    ⟨hs3.1, hpred p3.rng (sched (iter + 1)) p3.s hs3.2⟩
  obtain ⟨st5, hw, hs5⟩ := BridgeParticleFilter.conditionalWrite_ok sched X (iter + 1)
    ({ p := { p3 with rng := (c.predict p3.rng (sched (iter + 1)) p3.s).1,
                      s := (c.predict p3.rng (sched (iter + 1)) p3.s).2 },
       trace := st1.trace ++ [Event.bridge iter lb] ++
        [Event.resample iter r, Event.predict (iter + 1)] } : FilterState T R G) hs4
    (fun X1 hX ho => (hcol X1 hX).2 (iter + 1) (by omega) hil ho)
  refine ⟨(lb, (c.correct (sched (iter + 1)) st5.p.s st5.p.lws st5.p.blws).1),
    { p := { st5.p with
             lws := (c.correct (sched (iter + 1)) st5.p.s st5.p.lws st5.p.blws).2.1
             blws := (c.correct (sched (iter + 1)) st5.p.s st5.p.lws st5.p.blws).2.2 },
      trace := st5.trace ++
        [Event.correct (iter + 1) st5.p.s
            (c.correct (sched (iter + 1)) st5.p.s st5.p.lws st5.p.blws).1,
          Event.output (iter + 1) st5.p.s r] }, ?_, ?_⟩
  · unfold BridgeParticleFilter.stepBody
    rw [hbr]
    simp only [hr, hw]
  · exact ⟨hcor _ _ _ _ hs5.1, hs5.2⟩

theorem BridgeParticleFilter.stepLoop_ok {T R G : Type} [Ring T]
    (c : Collaborators T R G) (sched : Schedule) (last : Nat) (X : Option (List R))
    (first : Nat) (hreg : Collaborators.Regular c sched X first last) :
    ∀ (fuel iter : Nat) (ll : T) (st : FilterState T R G), first ≤ iter → iter + 1 < last →
      last ≤ fuel + iter + 1 → Particles.Sound X st.p →
      ∃ r st1, BridgeParticleFilter.stepLoop c sched last X fuel iter ll st = Run.done r st1 ∧
        Particles.Sound X st1.p ∧ iter < r.1 ∧ r.1 < last := by
  intro fuel
  induction fuel with
  | zero =>
    intro iter ll st _ h1 h2
    omega
  | succ fuel ih =>
    intro iter ll st hfi h1 h2 hs
    obtain ⟨r, st1, hsb, hs1⟩ :=
      BridgeParticleFilter.stepBody_ok c sched last X first iter st hreg hfi h1 hs
    simp only [BridgeParticleFilter.stepLoop, hsb]
    split
    · obtain ⟨r1, st2, h3, hs2, h4, h5⟩ :=
        ih (iter + 1) (ll + r.1 + r.2) st1 (by omega) (by omega) (by omega) hs1
      exact ⟨r1, st2, h3, hs2, by omega, h5⟩
    · exact ⟨_, _, rfl, hs1, by simp, h1⟩

theorem BridgeParticleFilter.filterLoop_ok {T R G : Type} [Ring T]
    (c : Collaborators T R G) (sched : Schedule) (last : Nat) (X : Option (List R))
    (first n : Nat) (hreg : Collaborators.Regular c sched X first last) :
    ∀ (fuel iter : Nat) (ll : T) (st : FilterState T R G), first ≤ iter → iter < last →
      last ≤ fuel + iter + 1 → last ≤ n + iter + 1 → Particles.Sound X st.p →
      ∃ r st1, BridgeParticleFilter.filterLoop c sched last X n fuel iter ll st =
        Run.done r st1 := by
  intro fuel
  induction fuel with
  | zero =>
    intro iter ll st _ h1 h2 _ _
    have : iter + 1 = last := by omega
    exact ⟨(iter, ll), st, by simp [BridgeParticleFilter.filterLoop, this]⟩
  | succ fuel ih =>
    intro iter ll st hfi h1 h2 h3 hs
    simp only [BridgeParticleFilter.filterLoop]
    split
    · obtain ⟨r, st1, hst, hs1, h4, h5⟩ :=
        BridgeParticleFilter.stepLoop_ok c sched last X first hreg n iter 0
          { st with trace := st.trace ++ [Event.step iter] } hfi (by omega) (by omega) hs
      have hstep : BridgeParticleFilter.step c sched X n iter last st = Run.done r st1 := hst
      rw [hstep]
      exact ih r.1 (ll + r.2) st1 (by omega) h5 (by omega) (by omega) hs1
    · exact ⟨_, _, rfl⟩

theorem BridgeParticleFilter.filterBody_ok {T R G : Type} [Ring T]
    (c : Collaborators T R G) (sched : Schedule) (theta : Bool) (X : Option (List R))
    (fuel first k : Nat) (rng : G) (s : State R) (hk : 1 ≤ k) (hfuel : k ≤ fuel)
    (hreg : Collaborators.Regular c sched X first (first + k))
    (hs : X ≠ none → 0 < s.size ∧ 0 < s.rows.length) :
    ∃ ll st, BridgeParticleFilter.filterBody c sched theta X fuel first (first + k) rng s =
      Run.done ll st := by
  have hp0 : Particles.Sound X
      (⟨rng, s, List.replicate s.size 0, List.replicate s.size 0, List.replicate s.size 0⟩ :
        Particles T R G) :=
    ⟨by simp, hs⟩
  obtain ⟨hb, hinit, hres, hpred, hcor, hcol⟩ := hreg
  have hreg : Collaborators.Regular c sched X first (first + k) :=
    ⟨hb, hinit, hres, hpred, hcor, hcol⟩
  obtain ⟨hi1, hi2⟩ := hinit (sched first) _ hp0
  have key : ∀ p1 : Particles T R G, Particles.Sound X p1 →
      ∃ ll st, BridgeParticleFilter.filterFrom c sched X fuel first (first + k) p1 =
        Run.done ll st := by
    intro p1 hp1
    have rest : ∀ st2 : FilterState T R G, Particles.Sound X st2.p →
        ∃ ll st, BridgeParticleFilter.filterRest c sched X fuel first (first + k) st2 =
          Run.done ll st := by
      intro st2 hs2
      obtain ⟨r, st4, h⟩ := BridgeParticleFilter.filterLoop_ok c sched (first + k) X first fuel
        hreg fuel first (c.correct (sched first) st2.p.s st2.p.lws st2.p.blws).1
        { p := { st2.p with
                 lws := (c.correct (sched first) st2.p.s st2.p.lws st2.p.blws).2.1
                 blws := (c.correct (sched first) st2.p.s st2.p.lws st2.p.blws).2.2 },
          trace := st2.trace ++ [Event.output0,
            Event.correct first st2.p.s
              (c.correct (sched first) st2.p.s st2.p.lws st2.p.blws).1,
            Event.output first st2.p.s false] }
        (le_refl _) (by omega) (by omega) (by omega) ⟨hcor _ _ _ _ hs2.1, hs2.2⟩
      unfold BridgeParticleFilter.filterRest
      simp only [h]
      exact ⟨_, _, rfl⟩
    unfold BridgeParticleFilter.filterFrom
    cases X with
    | none => exact rest _ hp1
    | some X1 =>
      simp only
      obtain ⟨x, hx⟩ := (hcol X1 rfl).1
      obtain ⟨s1, hw, hne⟩ := writeRow0_ok p1.s X1 0 x (hp1.2 (by simp)) hx
      rw [hw]
      exact rest _ ⟨hp1.1, fun _ => hne⟩
  unfold BridgeParticleFilter.filterBody
  simp only
  cases theta with
  | true => exact key _ hi2
  | false => exact key _ hi1

/-! ## Bridge particle filter: the filter -/

theorem exampleCollaborators_regular (first last : Nat) :
    Collaborators.Regular exampleCollaborators exampleSchedule (none : Option (List String))
      first last := by
  refine ⟨?_, ?_, ?_, ?_, ?_, ?_⟩
  · intro s m z
    simp [exampleCollaborators]
  · intro e p hp
    exact ⟨⟨by simp [exampleCollaborators, StratifiedResampler.clearVector, hp.1],
        fun h => absurd rfl h⟩,
      ⟨by simp [exampleCollaborators, StratifiedResampler.clearVector, hp.1],
        fun h => absurd rfl h⟩⟩
  · intro e p hp
    exact ⟨false, _, rfl, hp.1, fun h => absurd rfl h⟩
  · intro g e s _ h
    exact absurd rfl h
  · intro e s l b h
    simp only [exampleCollaborators]
    split <;> simp [StratifiedResampler.clearVector, h]
  · intro X1 h
    cases h

/-- C27: for every schedule with `k ≥ 1` points (`last = first + k`) and every
behaviour of the collaborators, each overload of `filter` (the form of `init`
given by `theta`, the reference path by `X`), run with at least `k` steps allowed,
does not use them up; when it returns, the value `ll` returned is `c0` plus the
sum of the values returned by `bridge` and by `correct` in the loop, where `c0` is
the value of the initial `correct`, and the last call is `outputT(ll)`; and it
does return when the collaborators do not fail. -/
theorem filter_returns_sum {T R G : Type} [Ring T] (c : Collaborators T R G)
    (sched : Schedule) (theta : Bool) (X : Option (List R)) (fuel first k : Nat) (rng : G)
    (s : State R) (hk : 1 ≤ k) (hfuel : k ≤ fuel) :
    (∀ st, BridgeParticleFilter.filterBody c sched theta X fuel first (first + k) rng s ≠
        Run.outOfFuel st) ∧
    (∀ ll st, BridgeParticleFilter.filterBody c sched theta X fuel first (first + k) rng s =
        Run.done ll st →
      ∃ evw s2 c0 ev, st.trace = Event.init first :: (evw ++
          ([Event.output0, Event.correct first s2 c0, Event.output first s2 false] ++ ev ++
            [Event.term, Event.outputT ll])) ∧
        (evw = [] ∨ evw = [Event.write first 0]) ∧
        ll = c0 + (ev.map Event.increment).sum) ∧
    (Collaborators.Regular c sched X first (first + k) →
      (X ≠ none → 0 < s.size ∧ 0 < s.rows.length) →
      ∃ ll st, BridgeParticleFilter.filterBody c sched theta X fuel first (first + k) rng s =
        Run.done ll st) := by
  refine ⟨?_, ?_, ?_⟩
  · intro st
    unfold BridgeParticleFilter.filterBody
    exact BridgeParticleFilter.filterFrom_fuel c sched X fuel first k _ hk hfuel st
  · intro ll st h
    have hev : ∀ p1 : Particles T R G,
        BridgeParticleFilter.filterFrom c sched X fuel first (first + k) p1 = Run.done ll st →
        ∃ evw s2 c0 ev, st.trace = Event.init first :: (evw ++
          ([Event.output0, Event.correct first s2 c0, Event.output first s2 false] ++ ev ++
            [Event.term, Event.outputT ll])) ∧
        (evw = [] ∨ evw = [Event.write first 0]) ∧
        ll = c0 + (ev.map Event.increment).sum := by
      intro p1 h1
      obtain ⟨evw, tail, htr, hevw, _, hcase⟩ :=
        BridgeParticleFilter.filterFrom_events c sched X fuel first (first + k) p1
      rw [h1] at htr
      simp only [Run.state] at htr
      rcases hcase with ⟨_, _, hno⟩ | ⟨s2, c0, ev, fin, htail, _, _, hfin⟩
      · exact absurd h1 (hno ll st)
      · rcases hfin with ⟨_, hno⟩ | ⟨hfin, st', hdone⟩
        · exact absurd h1 (hno ll st)
        · rw [h1] at hdone
          simp only [Run.done.injEq] at hdone
          obtain ⟨hll, _⟩ := hdone
          refine ⟨evw, s2, c0, ev, ?_, hevw, hll⟩
          rw [htr, htail, hfin, ← hll]
    unfold BridgeParticleFilter.filterBody at h
    exact hev _ h
  · intro hreg hs
    exact BridgeParticleFilter.filterBody_ok c sched theta X fuel first k rng s hk hfuel hreg hs

/-- Witness of C27: the plain overload on the four points at positions `0` to `3`
of the example schedule, two particles, four steps allowed. -/
theorem filter_returns_sum_witness :
    (∀ st, BridgeParticleFilter.filterBody exampleCollaborators exampleSchedule false none 4 0
        (0 + 4) 0 ({ rows := ["a", "b"], size := 2 } : State String) ≠ Run.outOfFuel st) ∧
    (∀ ll st, BridgeParticleFilter.filterBody exampleCollaborators exampleSchedule false none 4
        0 (0 + 4) 0 ({ rows := ["a", "b"], size := 2 } : State String) = Run.done ll st →
      ∃ evw s2 c0 ev, st.trace = Event.init 0 :: (evw ++
          ([Event.output0, Event.correct 0 s2 c0, Event.output 0 s2 false] ++ ev ++
            [Event.term, Event.outputT ll])) ∧
        (evw = [] ∨ evw = [Event.write 0 0]) ∧
        ll = c0 + (ev.map Event.increment).sum) ∧
    (Collaborators.Regular exampleCollaborators exampleSchedule none 0 (0 + 4) →
      ((none : Option (List String)) ≠ none →
        0 < ({ rows := ["a", "b"], size := 2 } : State String).size ∧
        0 < ({ rows := ["a", "b"], size := 2 } : State String).rows.length) →
      ∃ ll st, BridgeParticleFilter.filterBody exampleCollaborators exampleSchedule false none 4
        0 (0 + 4) 0 ({ rows := ["a", "b"], size := 2 } : State String) = Run.done ll st) :=
  filter_returns_sum exampleCollaborators exampleSchedule false none 4 0 4 0
    { rows := ["a", "b"], size := 2 } (by decide) (by decide)

/-- C28 (counterexample): `filter` called with `first == last` (both at position
`0` of the example schedule) is not rejected: it calls `init`, `output0`,
`correct` and `output` and enters the loop, and with one step allowed it is still
running after `predict`, `correct` and `output` for position `1`; the wrapper
`Filter<F>::filter` does the same.  On a schedule whose times decrease from `0`
to `-1`, `filter` runs as on any other and returns. -/
theorem filter_accepts_invalid_schedule :
    BridgeParticleFilter.filter exampleCollaborators exampleSchedule 1 0 0 0
        { rows := ["a", "b"], size := 2 } =
      Run.outOfFuel
        { p := { rng := 1, s := { rows := ["a", "b"], size := 2 }, lws := [1, 1],
                 blws := [0, 0], as := [0, 1] },
          trace := [Event.init 0, Event.output0,
            Event.correct 0 { rows := ["a", "b"], size := 2 } 0,
            Event.output 0 { rows := ["a", "b"], size := 2 } false,
            Event.step 0, Event.bridge 0 0, Event.resample 0 false, Event.predict 1,
            Event.correct 1 { rows := ["a", "b"], size := 2 } 2,
            Event.output 1 { rows := ["a", "b"], size := 2 } false] } ∧
    Filter.filter exampleBaseFilter exampleSchedule 1 0 0 0 =
      Run.outOfFuel
        { st := 5,
          trace := [Event.init 0, Event.output0, Event.correct 0 2 2, Event.output 0 3 false,
            Event.step 0] } ∧
    (decreasingSchedule 1).getTime < (decreasingSchedule 0).getTime ∧
    BridgeParticleFilter.filter exampleCollaborators decreasingSchedule 2 0 2 0
        { rows := ["a", "b"], size := 2 } =
      Run.done 3
        { p := { rng := 1, s := { rows := ["a", "b"], size := 2 }, lws := [4, 4],
                 blws := [0, 0], as := [0, 1] },
          trace := [Event.init 0, Event.output0,
            Event.correct 0 { rows := ["a", "b"], size := 2 } 0,
            Event.output 0 { rows := ["a", "b"], size := 2 } false,
            Event.step 0, Event.bridgeLogDensities 0, Event.bridge 0 1,
            Event.resample 0 false, Event.predict 1,
            Event.correct 1 { rows := ["a", "b"], size := 2 } 2,
            Event.output 1 { rows := ["a", "b"], size := 2 } false,
            Event.term, Event.outputT 3] } :=
  ⟨rfl, rfl, by decide, rfl⟩

theorem Filter.filterLoop_trace {T σ : Type} [Add T] (f : BaseFilter T σ) (sched : Schedule)
    (last : Nat) :
    ∀ (fuel iter : Nat) (ll : T) (w : WrapperState T σ),
      ∃ ev, (Filter.filterLoop f sched last fuel iter ll w).state.trace = w.trace ++ ev := by
  intro fuel
  induction fuel with
  | zero =>
    intro iter ll w
    refine ⟨[], ?_⟩
    simp only [Filter.filterLoop]
    split <;> simp [Run.state]
  | succ fuel ih =>
    intro iter ll w
    simp only [Filter.filterLoop]
    split
    · cases hst : f.step sched iter last w.st with
      | none => exact ⟨[Event.step iter], by simp [Run.state]⟩
      | some r =>
        obtain ⟨ev, h⟩ := ih r.2.1 (ll + r.1)
          { st := r.2.2, trace := w.trace ++ [Event.step iter] }
        exact ⟨Event.step iter :: ev, by simp [h]⟩
    · exact ⟨[], by simp [Run.state]⟩

theorem Filter.filterBody_trace {T σ : Type} [Add T] (f : BaseFilter T σ) (sched : Schedule)
    (theta : Bool) (fuel first last : Nat) (st : σ) :
    ∃ s2 c0 s3 rest, (Filter.filterBody f sched theta fuel first last st).state.trace =
      [Event.init first, Event.output0, Event.correct first s2 c0,
        Event.output first s3 false] ++ rest := by
  unfold Filter.filterBody
  simp only
  generalize (if theta = true then f.initTheta (sched first) st else f.init (sched first) st) =
    st1
  obtain ⟨ev, h⟩ := Filter.filterLoop_trace f sched last fuel first
    (f.correct (sched first) (f.output0 st1)).1
    { st := f.output (sched first) (f.correct (sched first) (f.output0 st1)).2,
      trace := [Event.init first, Event.output0,
        Event.correct first (f.output0 st1) (f.correct (sched first) (f.output0 st1)).1,
        Event.output first (f.correct (sched first) (f.output0 st1)).2 false] }
  cases hfl : Filter.filterLoop f sched last fuel first
      (f.correct (sched first) (f.output0 st1)).1
      { st := f.output (sched first) (f.correct (sched first) (f.output0 st1)).2,
        trace := [Event.init first, Event.output0,
          Event.correct first (f.output0 st1) (f.correct (sched first) (f.output0 st1)).1,
          Event.output first (f.correct (sched first) (f.output0 st1)).2 false] } with
  | done res w1 =>
    rw [hfl] at h
    simp only [Run.state] at h
    exact ⟨f.output0 st1, (f.correct (sched first) (f.output0 st1)).1,
      (f.correct (sched first) (f.output0 st1)).2, ev ++ [Event.term, Event.outputT res.2],
      by simp [Run.state, h]⟩
  | degenerated w1 =>
    rw [hfl] at h
    exact ⟨_, _, _, ev, h⟩
  | assertion w1 =>
    rw [hfl] at h
    exact ⟨_, _, _, ev, h⟩
  | undefined w1 =>
    rw [hfl] at h
    exact ⟨_, _, _, ev, h⟩
  | outOfFuel w1 =>
    rw [hfl] at h
    exact ⟨_, _, _, ev, h⟩

/-- C28 (amended): `filter` makes no check of the schedule.  For every call of an
overload of `BridgeParticleFilter::filter`, whatever `first`, `last` and the times
of the schedule (so also with `first == last` and with times that are not
monotonically non-decreasing), the first call made is `init` for the point at
`first`, and without a reference path it is followed by `output0`, `correct` and
`output` for that point; every call of `Filter<F>::filter` starts with `init`,
`output0`, `correct` and `output` for the point at `first`. -/
theorem filter_starts_with_init {T R G σ : Type} [Ring T] (c : Collaborators T R G)
    (f : BaseFilter T σ) (sched : Schedule) (theta : Bool) (X : Option (List R))
    (fuel first last : Nat) (rng : G) (s : State R) (st : σ) :
    (∃ rest, (BridgeParticleFilter.filterBody c sched theta X fuel first last rng s).state.trace =
        Event.init first :: rest) ∧
    (X = none → ∃ s2 c0 rest,
      (BridgeParticleFilter.filterBody c sched theta X fuel first last rng s).state.trace =
        [Event.init first, Event.output0, Event.correct first s2 c0,
          Event.output first s2 false] ++ rest) ∧
    (∃ s2 c0 s3 rest, (Filter.filterBody f sched theta fuel first last st).state.trace =
      [Event.init first, Event.output0, Event.correct first s2 c0,
        Event.output first s3 false] ++ rest) := by
  have hev : ∀ p1 : Particles T R G,
      (∃ rest, (BridgeParticleFilter.filterFrom c sched X fuel first last p1).state.trace =
        Event.init first :: rest) ∧
      (X = none → ∃ s2 c0 rest,
        (BridgeParticleFilter.filterFrom c sched X fuel first last p1).state.trace =
          [Event.init first, Event.output0, Event.correct first s2 c0,
            Event.output first s2 false] ++ rest) := by
    intro p1
    obtain ⟨evw, tail, htr, _, hnone, hcase⟩ :=
      BridgeParticleFilter.filterFrom_events c sched X fuel first last p1
    refine ⟨⟨_, htr⟩, ?_⟩
    intro hX
    rcases hcase with ⟨_, hne, _⟩ | ⟨s2, c0, ev, fin, htail, _, _, _⟩
    · exact absurd hX hne
    · refine ⟨s2, c0, ev ++ fin, ?_⟩
      rw [htr, hnone hX, htail]
      simp
  refine ⟨?_, ?_, Filter.filterBody_trace f sched theta fuel first last st⟩
  · unfold BridgeParticleFilter.filterBody
    exact (hev _).1
  · unfold BridgeParticleFilter.filterBody
    exact (hev _).2

theorem BridgeParticleFilter.filterLoop_never_done {T R G : Type} [Ring T]
    (c : Collaborators T R G) (sched : Schedule) (last : Nat) (X : Option (List R))
    (n : Nat) :
    ∀ (fuel iter : Nat) (ll : T) (st : FilterState T R G), last ≤ iter →
      ∀ r st1, BridgeParticleFilter.filterLoop c sched last X n fuel iter ll st ≠
        Run.done r st1 := by
  intro fuel
  induction fuel with
  | zero =>
    intro iter ll st h r st1
    have : iter + 1 ≠ last := by omega
    simp [BridgeParticleFilter.filterLoop, this]
  | succ fuel ih =>
    intro iter ll st h r st1
    have hne : iter + 1 ≠ last := by omega
    simp only [BridgeParticleFilter.filterLoop, hne, ne_eq, not_false_eq_true, if_true]
    obtain ⟨_, _, _, hS⟩ := BridgeParticleFilter.step_events c sched last X iter n iter st
      (le_refl _)
    cases hst : BridgeParticleFilter.step c sched X n iter last st with
    | done r1 st2 =>
      have := (hS r1 st2 hst).2
      exact ih r1.1 (ll + r1.2) st2 (by omega) r st1
    | degenerated st2 => exact fun h1 => (by cases h1)
    | assertion st2 => exact fun h1 => (by cases h1)
    | undefined st2 => exact fun h1 => (by cases h1)
    | outOfFuel st2 => exact fun h1 => (by cases h1)

theorem BridgeParticleFilter.filterBody_never_done {T R G : Type} [Ring T]
    (c : Collaborators T R G) (sched : Schedule) (theta : Bool) (X : Option (List R))
    (fuel first last : Nat) (rng : G) (s : State R) (h : last ≤ first) :
    ∀ ll st, BridgeParticleFilter.filterBody c sched theta X fuel first last rng s ≠
      Run.done ll st := by
  intro ll st
  have rest : ∀ st2 : FilterState T R G,
      BridgeParticleFilter.filterRest c sched X fuel first last st2 ≠ Run.done ll st := by
    intro st2
    unfold BridgeParticleFilter.filterRest
    simp only
    split
    · rename_i res st4 heq
      exact absurd heq (BridgeParticleFilter.filterLoop_never_done c sched last X fuel fuel
        first _ _ h res st4)
    · exact fun h1 => (by cases h1)
    · exact fun h1 => (by cases h1)
    · exact fun h1 => (by cases h1)
    · exact fun h1 => (by cases h1)
  unfold BridgeParticleFilter.filterBody BridgeParticleFilter.filterFrom
  simp only
  cases X with
  | none => exact rest _
  | some X1 =>
    simp only
    split
    · exact fun h1 => (by cases h1)
    · exact rest _

/-- C29 (counterexample): on an empty schedule (`first == last`, both at position
`0` of the example schedule) `filter` does not stop after the initial `correct`
and `output`: with one step allowed it goes on with `step`, `bridge`, `resample`
and `predict`, and however many steps are allowed it does not return. -/
theorem filter_empty_schedule_runs_on :
    (BridgeParticleFilter.filter exampleCollaborators exampleSchedule 1 0 0 0
        { rows := ["a", "b"], size := 2 }).state.trace.drop 4 =
      [Event.step 0, Event.bridge 0 0, Event.resample 0 false, Event.predict 1,
        Event.correct 1 { rows := ["a", "b"], size := 2 } 2,
        Event.output 1 { rows := ["a", "b"], size := 2 } false] ∧
    ∀ fuel ll st, BridgeParticleFilter.filter exampleCollaborators exampleSchedule fuel 0 0 0
      { rows := ["a", "b"], size := 2 } ≠ Run.done ll st :=
  ⟨rfl, fun fuel ll st =>
    BridgeParticleFilter.filterBody_never_done exampleCollaborators exampleSchedule false none
      fuel 0 0 0 { rows := ["a", "b"], size := 2 } (le_refl _) ll st⟩

/-- C29 (amended): for every schedule that has a single point (`last = first + 1`),
each overload of `filter` calls `init`, `output0`, the initial `correct`, `output`,
`term` and `outputT` in that order, never calls `step`, `bridge`, `resample` or
`predict`, and returns exactly the value of the initial `correct`; with a
reference path the write of row `0` follows `init`, and the run stops there when
the row or the column does not exist.  The same holds for `Filter<F>::filter`. -/
theorem filter_single_point {T R G σ : Type} [Ring T] (c : Collaborators T R G)
    (f : BaseFilter T σ) (sched : Schedule) (theta : Bool) (fuel first last : Nat) (rng : G)
    (s : State R) (st : σ) (hlast : last = first + 1) :
    (∃ s2 c0 p, BridgeParticleFilter.filterBody c sched theta none fuel first last rng s =
      Run.done c0
        { p := p,
          trace := [Event.init first, Event.output0, Event.correct first s2 c0,
            Event.output first s2 false, Event.term, Event.outputT c0] }) ∧
    (∀ X1 : List R,
      (∃ p, BridgeParticleFilter.filterBody c sched theta (some X1) fuel first last rng s =
        Run.undefined { p := p, trace := [Event.init first] }) ∨
      ∃ s2 c0 p, BridgeParticleFilter.filterBody c sched theta (some X1) fuel first last rng s =
        Run.done c0
          { p := p,
            trace := [Event.init first, Event.write first 0, Event.output0,
              Event.correct first s2 c0, Event.output first s2 false, Event.term,
              Event.outputT c0] }) ∧
    (∃ s2 c0 s3 s4, Filter.filterBody f sched theta fuel first last st =
      Run.done c0
        { st := s4,
          trace := [Event.init first, Event.output0, Event.correct first s2 c0,
            Event.output first s3 false, Event.term, Event.outputT c0] }) := by
  subst hlast
  have hloop : ∀ (X : Option (List R)) (ll : T) (st2 : FilterState T R G),
      BridgeParticleFilter.filterLoop c sched (first + 1) X fuel fuel first ll st2 =
        Run.done (first, ll) st2 := by
    intro X ll st2
    cases fuel <;> simp [BridgeParticleFilter.filterLoop]
  have hwloop : ∀ (ll : T) (w : WrapperState T σ),
      Filter.filterLoop f sched (first + 1) fuel first ll w = Run.done (first, ll) w := by
    intro ll w
    cases fuel <;> simp [Filter.filterLoop]
  refine ⟨?_, ?_, ?_⟩
  · unfold BridgeParticleFilter.filterBody BridgeParticleFilter.filterFrom
      BridgeParticleFilter.filterRest
    simp only [hloop]
    exact ⟨_, _, _, rfl⟩
  · intro X1
    unfold BridgeParticleFilter.filterBody BridgeParticleFilter.filterFrom
      BridgeParticleFilter.filterRest
    simp only [hloop]
    split
    · exact Or.inl ⟨_, rfl⟩
    · exact Or.inr ⟨_, _, _, rfl⟩
  · unfold Filter.filterBody
    simp only [hwloop]
    exact ⟨_, _, _, _, rfl⟩

/-- Witness of C29: the example schedule from position `2` with `last` at
position `3`. -/
theorem filter_single_point_witness :
    (∃ s2 c0 p, BridgeParticleFilter.filterBody exampleCollaborators exampleSchedule false none
        5 2 3 0 ({ rows := ["a", "b"], size := 2 } : State String) =
      Run.done c0
        { p := p,
          trace := [Event.init 2, Event.output0, Event.correct 2 s2 c0,
            Event.output 2 s2 false, Event.term, Event.outputT c0] }) ∧
    (∀ X1 : List String,
      (∃ p, BridgeParticleFilter.filterBody exampleCollaborators exampleSchedule false
          (some X1) 5 2 3 0 ({ rows := ["a", "b"], size := 2 } : State String) =
        Run.undefined { p := p, trace := [Event.init 2] }) ∨
      ∃ s2 c0 p, BridgeParticleFilter.filterBody exampleCollaborators exampleSchedule false
          (some X1) 5 2 3 0 ({ rows := ["a", "b"], size := 2 } : State String) =
        Run.done c0
          { p := p,
            trace := [Event.init 2, Event.write 2 0, Event.output0,
              Event.correct 2 s2 c0, Event.output 2 s2 false, Event.term,
              Event.outputT c0] }) ∧
    (∃ s2 c0 s3 s4, Filter.filterBody exampleBaseFilter exampleSchedule false 5 2 3 0 =
      Run.done c0
        { st := s4,
          trace := [Event.init 2, Event.output0, Event.correct 2 s2 c0,
            Event.output 2 s3 false, Event.term, Event.outputT c0] }) :=
  filter_single_point exampleCollaborators exampleBaseFilter exampleSchedule false 5 2 3 0
    { rows := ["a", "b"], size := 2 } 0 rfl

/-- C30 (counterexample): the conditional overload started at position `1` of the
example schedule, a point with output whose `indexOutput` is `1`, with the
reference path of columns `x0, x1, x2`: when `correct` and `output` are invoked
for that point, row `0` of the ensemble is `x0`, column `0` of `X`, not column
`1`. -/
theorem conditional_first_point_column_zero :
    (exampleSchedule 1).hasOutput = true ∧ (exampleSchedule 1).indexOutput = 1 ∧
    column ["x0", "x1", "x2"] (1 : Int) = some "x1" ∧
    BridgeParticleFilter.filterConditional exampleCollaborators exampleSchedule 4 1 3 0
        { rows := ["a", "b"], size := 2 } ["x0", "x1", "x2"] =
      Run.done 2
        { p := { rng := 1, s := { rows := ["x2", "b"], size := 2 }, lws := [1, 1],
                 blws := [0, 0], as := [0, 1] },
          trace := [Event.init 1, Event.write 1 0, Event.output0,
            Event.correct 1 { rows := ["x0", "b"], size := 2 } 2,
            Event.output 1 { rows := ["x0", "b"], size := 2 } false,
            Event.step 1, Event.bridge 1 0, Event.resample 1 false, Event.predict 2,
            Event.write 2 2,
            Event.correct 2 { rows := ["x2", "b"], size := 2 } 0,
            Event.output 2 { rows := ["x2", "b"], size := 2 } false,
            Event.term, Event.outputT 2] } :=
  ⟨rfl, rfl, rfl, rfl⟩

theorem BridgeParticleFilter.filterFrom_anchored {T R G : Type} [Ring T]
    (c : Collaborators T R G) (sched : Schedule) (X : Option (List R))
    (fuel first last : Nat) (p1 : Particles T R G) :
    ∀ e ∈ (BridgeParticleFilter.filterFrom c sched X fuel first last p1).state.trace,
      (∀ pos s1 ll, e = Event.correct pos s1 ll →
        (pos = first ∧ anchoredTo X 0 s1) ∨
          (first < pos ∧
            ((sched pos).hasOutput = true → anchoredTo X (sched pos).indexOutput s1))) ∧
      (∀ pos s1 r, e = Event.output pos s1 r →
        (pos = first ∧ anchoredTo X 0 s1) ∨
          (first < pos ∧
            ((sched pos).hasOutput = true → anchoredTo X (sched pos).indexOutput s1))) := by
  obtain ⟨evw, tail, htr, hevw, _, hcase⟩ :=
    BridgeParticleFilter.filterFrom_events c sched X fuel first last p1
  rw [htr]
  have hnot : ∀ e : Event T (State R),
      (e = Event.init first ∨ e ∈ evw ∨ e = Event.output0 ∨ e = Event.term ∨
        ∃ ll, e = Event.outputT ll) →
      (∀ pos s1 ll, e ≠ Event.correct pos s1 ll) ∧ (∀ pos s1 r, e ≠ Event.output pos s1 r) := by
    intro e he
    rcases he with h | h | h | h | ⟨ll, h⟩
    · subst h
      exact ⟨fun _ _ _ h1 => (by cases h1), fun _ _ _ h1 => (by cases h1)⟩
    · rcases hevw with h0 | h0
      · rw [h0] at h; cases h
      · rw [h0] at h
        simp only [List.mem_singleton] at h
        subst h
        exact ⟨fun _ _ _ h1 => (by cases h1), fun _ _ _ h1 => (by cases h1)⟩
    · subst h
      exact ⟨fun _ _ _ h1 => (by cases h1), fun _ _ _ h1 => (by cases h1)⟩
    · subst h
      exact ⟨fun _ _ _ h1 => (by cases h1), fun _ _ _ h1 => (by cases h1)⟩
    · subst h
      exact ⟨fun _ _ _ h1 => (by cases h1), fun _ _ _ h1 => (by cases h1)⟩
  have hskip : ∀ e : Event T (State R),
      ((∀ pos s1 ll, e ≠ Event.correct pos s1 ll) ∧
        (∀ pos s1 r, e ≠ Event.output pos s1 r)) →
      (∀ pos s1 ll, e = Event.correct pos s1 ll →
        (pos = first ∧ anchoredTo X 0 s1) ∨
          (first < pos ∧
            ((sched pos).hasOutput = true → anchoredTo X (sched pos).indexOutput s1))) ∧
      (∀ pos s1 r, e = Event.output pos s1 r →
        (pos = first ∧ anchoredTo X 0 s1) ∨
          (first < pos ∧
            ((sched pos).hasOutput = true → anchoredTo X (sched pos).indexOutput s1))) :=
    fun e h => ⟨fun pos s1 ll h1 => absurd h1 (h.1 pos s1 ll),
      fun pos s1 r h1 => absurd h1 (h.2 pos s1 r)⟩
  intro e he
  rcases hcase with ⟨htail, _, _⟩ | ⟨s2, c0, ev, fin, htail, hanch, hA, hfin⟩
  · rw [htail] at he
    simp only [List.append_nil, List.mem_cons] at he
    rcases he with h | h
    · exact hskip e (hnot e (Or.inl h))
    · exact hskip e (hnot e (Or.inr (Or.inl h)))
  · rw [htail] at he
    simp only [List.mem_cons, List.mem_append, List.mem_singleton, List.not_mem_nil,
      or_false] at he
    rcases he with h | h | ((h | h | h) | h) | h
    · exact hskip e (hnot e (Or.inl h))
    · exact hskip e (hnot e (Or.inr (Or.inl h)))
    · exact hskip e (hnot e (Or.inr (Or.inr (Or.inl h))))
    · subst h
      refine ⟨?_, fun _ _ _ h1 => (by cases h1)⟩
      intro pos s1 ll h1
      cases h1
      exact Or.inl ⟨rfl, hanch⟩
    · subst h
      refine ⟨fun _ _ _ h1 => (by cases h1), ?_⟩
      intro pos s1 r h1
      cases h1
      exact Or.inl ⟨rfl, hanch⟩
    · have := hA e h
      constructor
      · intro pos s1 ll h1
        subst h1
        exact Or.inr this
      · intro pos s1 r h1
        subst h1
        exact Or.inr this
    · rcases hfin with ⟨h0, _⟩ | ⟨h0, _⟩
      · rw [h0] at h; cases h
      · rw [h0] at h
        simp only [List.mem_cons, List.mem_singleton, List.not_mem_nil, or_false] at h
        rcases h with h | h
        · exact hskip e (hnot e (Or.inr (Or.inr (Or.inr (Or.inl h)))))
        · exact hskip e (hnot e (Or.inr (Or.inr (Or.inr (Or.inr ⟨_, h⟩)))))

/-- C30 (amended): in the filter overload taking a reference path `X`, for every
schedule, model and RNG outcome, when `correct` and `output` are invoked for a
schedule point `t` after the first that has output, row `0` of the ensemble equals
column `indexOutput(t)` of `X`; when they are invoked for the first point, row `0`
equals column `0` of `X`, which is column `indexOutput(first)` when that index is
`0`. -/
theorem conditional_anchor {T R G : Type} [Ring T] (c : Collaborators T R G)
    (sched : Schedule) (fuel first last : Nat) (rng : G) (s : State R) (X1 : List R) :
    (∀ pos s1 ll, Event.correct pos s1 ll ∈
        (BridgeParticleFilter.filterConditional c sched fuel first last rng s X1).state.trace →
      (pos = first ∧ ∃ x, column X1 0 = some x ∧ s1.getDyn[0]? = some x) ∨
        (first < pos ∧ ((sched pos).hasOutput = true →
          ∃ x, column X1 (sched pos).indexOutput = some x ∧ s1.getDyn[0]? = some x))) ∧
    (∀ pos s1 r, Event.output pos s1 r ∈
        (BridgeParticleFilter.filterConditional c sched fuel first last rng s X1).state.trace →
      (pos = first ∧ ∃ x, column X1 0 = some x ∧ s1.getDyn[0]? = some x) ∨
        (first < pos ∧ ((sched pos).hasOutput = true →
          ∃ x, column X1 (sched pos).indexOutput = some x ∧ s1.getDyn[0]? = some x))) ∧
    ((sched first).indexOutput = 0 → ∀ pos s1,
      ((∃ ll, Event.correct pos s1 ll ∈
          (BridgeParticleFilter.filterConditional c sched fuel first last rng s X1).state.trace) ∨
        (∃ r, Event.output pos s1 r ∈
          (BridgeParticleFilter.filterConditional c sched fuel first last rng s
            X1).state.trace)) →
      (sched pos).hasOutput = true →
      ∃ x, column X1 (sched pos).indexOutput = some x ∧ s1.getDyn[0]? = some x) := by
  have key : ∀ e ∈
      (BridgeParticleFilter.filterConditional c sched fuel first last rng s X1).state.trace,
      (∀ pos s1 ll, e = Event.correct pos s1 ll →
        (pos = first ∧ anchoredTo (some X1) 0 s1) ∨
          (first < pos ∧
            ((sched pos).hasOutput = true →
              anchoredTo (some X1) (sched pos).indexOutput s1))) ∧
      (∀ pos s1 r, e = Event.output pos s1 r →
        (pos = first ∧ anchoredTo (some X1) 0 s1) ∨
          (first < pos ∧
            ((sched pos).hasOutput = true →
              anchoredTo (some X1) (sched pos).indexOutput s1))) := by
    unfold BridgeParticleFilter.filterConditional BridgeParticleFilter.filterBody
    exact BridgeParticleFilter.filterFrom_anchored c sched (some X1) fuel first last _
  have hc : ∀ pos s1 ll, Event.correct pos s1 ll ∈
        (BridgeParticleFilter.filterConditional c sched fuel first last rng s X1).state.trace →
      (pos = first ∧ ∃ x, column X1 0 = some x ∧ s1.getDyn[0]? = some x) ∨
        (first < pos ∧ ((sched pos).hasOutput = true →
          ∃ x, column X1 (sched pos).indexOutput = some x ∧ s1.getDyn[0]? = some x)) := by
    intro pos s1 ll h
    rcases (key _ h).1 pos s1 ll rfl with ⟨h1, h2⟩ | ⟨h1, h2⟩
    · exact Or.inl ⟨h1, h2 X1 rfl⟩
    · exact Or.inr ⟨h1, fun ho => h2 ho X1 rfl⟩
  have ho : ∀ pos s1 r, Event.output pos s1 r ∈
        (BridgeParticleFilter.filterConditional c sched fuel first last rng s X1).state.trace →
      (pos = first ∧ ∃ x, column X1 0 = some x ∧ s1.getDyn[0]? = some x) ∨
        (first < pos ∧ ((sched pos).hasOutput = true →
          ∃ x, column X1 (sched pos).indexOutput = some x ∧ s1.getDyn[0]? = some x)) := by
    intro pos s1 r h
    rcases (key _ h).2 pos s1 r rfl with ⟨h1, h2⟩ | ⟨h1, h2⟩
    · exact Or.inl ⟨h1, h2 X1 rfl⟩
    · exact Or.inr ⟨h1, fun ho => h2 ho X1 rfl⟩
  refine ⟨hc, ho, ?_⟩
  intro h0 pos s1 hev hout
  have hcase : (pos = first ∧ ∃ x, column X1 0 = some x ∧ s1.getDyn[0]? = some x) ∨
      (first < pos ∧ ((sched pos).hasOutput = true →
        ∃ x, column X1 (sched pos).indexOutput = some x ∧ s1.getDyn[0]? = some x)) := by
    rcases hev with ⟨ll, h⟩ | ⟨r, h⟩
    · exact hc pos s1 ll h
    · exact ho pos s1 r h
  rcases hcase with ⟨h1, h2⟩ | ⟨_, h2⟩
  · rw [h1, h0]
    exact h2
  · exact h2 hout

/-! ## Stratified draw: expected offspring -/

theorem sum_clamp (n : Nat) (x : ℝ) :
    (∑ i ∈ Finset.range n, max 0 (min 1 (x - (i : ℝ)))) = max 0 (min (n : ℝ) x) := by
  induction n with
  | zero =>
    simp only [Finset.range_zero, Finset.sum_empty, Nat.cast_zero]
    rcases le_total x 0 with h | h
    · rw [min_eq_right h, max_eq_left h]
    · rw [min_eq_left h, max_self]
  | succ n ih =>
    rw [Finset.sum_range_succ, ih]
    have hn : (0 : ℝ) ≤ (n : ℝ) := Nat.cast_nonneg n
    push_cast
    simp only [max_def, min_def]
    split_ifs <;> linarith

theorem uniform_Iic (c : ℝ) :
    ((MeasureTheory.volume.restrict (Set.Ico (0 : ℝ) 1)) (Set.Iic c)).toReal =
      max 0 (min 1 c) := by
  rw [MeasureTheory.Measure.restrict_apply measurableSet_Iic]
  rcases lt_or_le c 0 with h | h
  · have : Set.Iic c ∩ Set.Ico (0 : ℝ) 1 = ∅ := by
      ext x
      simp only [Set.mem_inter_iff, Set.mem_Iic, Set.mem_Ico, Set.mem_empty_iff_false,
        iff_false, not_and]
      intro h1 h2
      linarith
    rw [this]
    simp only [MeasureTheory.measure_empty, ENNReal.zero_toReal]
    rw [min_eq_right (by linarith), max_eq_left (le_of_lt h)]
  · rcases lt_or_le c 1 with h1 | h1
    · have : Set.Iic c ∩ Set.Ico (0 : ℝ) 1 = Set.Icc 0 c := by
        ext x
        simp only [Set.mem_inter_iff, Set.mem_Iic, Set.mem_Ico, Set.mem_Icc]
        constructor
        · rintro ⟨h2, h3, _⟩
          exact ⟨h3, h2⟩
        · rintro ⟨h2, h3⟩
          exact ⟨h3, h2, by linarith⟩
      rw [this, Real.volume_Icc, sub_zero, ENNReal.toReal_ofReal h,
        min_eq_right (le_of_lt h1), max_eq_right h]
    · have : Set.Iic c ∩ Set.Ico (0 : ℝ) 1 = Set.Ico 0 1 := by
        ext x
        simp only [Set.mem_inter_iff, Set.mem_Iic, Set.mem_Ico, and_iff_right_iff_imp]
        rintro ⟨_, h3⟩
        linarith
      rw [this, Real.volume_Ico, sub_zero, ENNReal.ofReal_one, ENNReal.one_toReal,
        min_eq_left h1, max_eq_right zero_le_one]

theorem uniform_isProbabilityMeasure :
    MeasureTheory.IsProbabilityMeasure (MeasureTheory.volume.restrict (Set.Ico (0 : ℝ) 1)) :=
  ⟨by simp⟩

theorem pi_eval_preimage {n : Nat} (μ : MeasureTheory.Measure ℝ)
    [MeasureTheory.IsProbabilityMeasure μ] (i : Fin n) (s : Set ℝ) :
    (MeasureTheory.Measure.pi (fun _ : Fin n => μ)) (Set.preimage (fun u => u i) s) = μ s := by
  have h1 : Set.preimage (fun u : Fin n → ℝ => u i) s =
      Set.pi Set.univ (Function.update (fun _ : Fin n => (Set.univ : Set ℝ)) i s) := by
    ext u
    simp only [Set.mem_preimage, Set.mem_pi, Set.mem_univ, true_implies]
    constructor
    · intro h k
      by_cases hk : k = i
      · subst hk
        simpa using h
      · simp [Function.update_noteq hk]
    · intro h
      simpa using h i
  rw [h1, MeasureTheory.Measure.pi_pi]
  rw [Finset.prod_eq_single i]
  · simp
  · intro k _ hk
    simp [Function.update_noteq hk]
  · intro h
    exact absurd (Finset.mem_univ i) h

theorem countP_range_eq_sum (p : Nat → Bool) (n : Nat) :
    (((List.range n).countP p : Nat) : ℝ) =
      ∑ i ∈ Finset.range n, (if p i = true then (1 : ℝ) else 0) := by
  induction n with
  | zero => simp
  | succ n ih =>
    rw [List.range_succ, List.countP_append, Finset.sum_range_succ, Nat.cast_add, ih]
    congr 1
    by_cases h : p n = true <;> simp [List.countP_cons, h]

theorem expected_count (n : Nat) (hn : 1 ≤ n) (W w : ℝ) (hW : 0 < W) (h0 : 0 ≤ w)
    (h1 : w ≤ W) :
    MeasureTheory.Integrable
        (fun u : Fin n → ℝ => (((List.range n).countP
          (fun (i : Nat) => decide ((((i : ℝ) + (Random.ofDraws n u).uniforms
            ((Random.ofDraws n u).pos + i)) / (((n : Nat) : Int) : ℝ)) * W ≤ w)) : Nat) : ℝ))
        (MeasureTheory.Measure.pi
          (fun _ : Fin n => MeasureTheory.volume.restrict (Set.Ico (0 : ℝ) 1))) ∧
      ∫ u : Fin n → ℝ, (((List.range n).countP
          (fun (i : Nat) => decide ((((i : ℝ) + (Random.ofDraws n u).uniforms
            ((Random.ofDraws n u).pos + i)) / (((n : Nat) : Int) : ℝ)) * W ≤ w)) : Nat) : ℝ)
        ∂(MeasureTheory.Measure.pi
          (fun _ : Fin n => MeasureTheory.volume.restrict (Set.Ico (0 : ℝ) 1))) =
        (n : ℝ) * w / W := by
  haveI := uniform_isProbabilityMeasure
  have hnR : (0 : ℝ) < (n : ℝ) := Nat.cast_pos.2 (by omega)
  have hpt : ∀ u : Fin n → ℝ, (((List.range n).countP
      (fun (i : Nat) => decide ((((i : ℝ) + (Random.ofDraws n u).uniforms
        ((Random.ofDraws n u).pos + i)) / (((n : Nat) : Int) : ℝ)) * W ≤ w)) : Nat) : ℝ) =
      ∑ i : Fin n, (Set.preimage (fun v : Fin n → ℝ => v i)
        (Set.Iic ((n : ℝ) * w / W - ((i : Nat) : ℝ)))).indicator 1 u := by
    intro u
    rw [countP_range_eq_sum, Finset.sum_range]
    apply Finset.sum_congr rfl
    intro i _
    have hu : (Random.ofDraws n u).uniforms ((Random.ofDraws n u).pos + (i : Nat)) = u i := by
      simp [Random.ofDraws]
    rw [hu]
    simp only [decide_eq_true_eq, Set.indicator, Set.mem_preimage, Set.mem_Iic, Pi.one_apply,
      Int.cast_natCast]
    have hiff : (((i : Nat) : ℝ) + u i) / (n : ℝ) * W ≤ w ↔
        u i ≤ (n : ℝ) * w / W - ((i : Nat) : ℝ) := by
      rw [div_mul_eq_mul_div, div_le_iff₀ hnR, le_sub_iff_add_le, le_div_iff₀ hW]
      constructor <;> intro h <;> linarith
    by_cases h : (((i : Nat) : ℝ) + u i) / (n : ℝ) * W ≤ w
    · rw [if_pos h, if_pos (hiff.1 h)]
    · rw [if_neg h, if_neg (fun h2 => h (hiff.2 h2))]
  have hmeas : ∀ i : Fin n, MeasurableSet (Set.preimage (fun v : Fin n → ℝ => v i)
      (Set.Iic ((n : ℝ) * w / W - ((i : Nat) : ℝ)))) :=
    fun i => measurable_pi_apply i measurableSet_Iic
  have hint : ∀ i : Fin n, MeasureTheory.Integrable
      ((Set.preimage (fun v : Fin n → ℝ => v i)
        (Set.Iic ((n : ℝ) * w / W - ((i : Nat) : ℝ)))).indicator (1 : (Fin n → ℝ) → ℝ))
      (MeasureTheory.Measure.pi
        (fun _ : Fin n => MeasureTheory.volume.restrict (Set.Ico (0 : ℝ) 1))) :=
    fun i => (MeasureTheory.integrable_const (1 : ℝ)).indicator (hmeas i)
  have hfun : (fun u : Fin n → ℝ => (((List.range n).countP
      (fun (i : Nat) => decide ((((i : ℝ) + (Random.ofDraws n u).uniforms
        ((Random.ofDraws n u).pos + i)) / (((n : Nat) : Int) : ℝ)) * W ≤ w)) : Nat) : ℝ)) =
      fun u => ∑ i : Fin n, (Set.preimage (fun v : Fin n → ℝ => v i)
        (Set.Iic ((n : ℝ) * w / W - ((i : Nat) : ℝ)))).indicator 1 u :=
    funext hpt
  rw [hfun]
  constructor
  · exact MeasureTheory.integrable_finset_sum _ (fun i _ => hint i)
  · rw [MeasureTheory.integral_finset_sum _ (fun i _ => hint i)]
    have hterm : ∀ i : Fin n,
        ∫ u : Fin n → ℝ, (Set.preimage (fun v : Fin n → ℝ => v i)
          (Set.Iic ((n : ℝ) * w / W - ((i : Nat) : ℝ)))).indicator 1 u
          ∂(MeasureTheory.Measure.pi
            (fun _ : Fin n => MeasureTheory.volume.restrict (Set.Ico (0 : ℝ) 1))) =
        max 0 (min 1 ((n : ℝ) * w / W - ((i : Nat) : ℝ))) := by
      intro i
      rw [MeasureTheory.integral_indicator_one (hmeas i), pi_eval_preimage, uniform_Iic]
    rw [Finset.sum_congr rfl (fun i _ => hterm i)]
    rw [← Finset.sum_range (fun i => max 0 (min 1 ((n : ℝ) * w / W - (i : ℝ)))), sum_clamp]
    have hx0 : 0 ≤ (n : ℝ) * w / W := div_nonneg (mul_nonneg (le_of_lt hnR) h0) (le_of_lt hW)
    have hx1 : (n : ℝ) * w / W ≤ (n : ℝ) := by
      rw [div_le_iff₀ hW]
      exact mul_le_mul_of_nonneg_left h1 (le_of_lt hnR)
    rw [min_eq_right hx1, max_eq_right hx0]

theorem pairwise_le_getLast {K : Type} [Preorder K] :
    ∀ (Ws : List K) (W : K), Ws.Pairwise (fun a b => a ≤ b) → Ws.getLast? = some W →
      ∀ w ∈ Ws, w ≤ W := by
  intro Ws
  induction Ws with
  | nil => intro W _ h; cases h
  | cons x xs ih =>
    intro W hp hl w hw
    cases xs with
    | nil =>
      simp only [List.getLast?_singleton, Option.some.injEq] at hl
      simp only [List.mem_singleton] at hw
      rw [hw, hl]
    | cons y ys =>
      rw [List.getLast?_cons_cons] at hl
      rcases List.mem_cons.1 hw with h | h
      · rw [h]
        exact (List.pairwise_cons.1 hp).1 W (List.mem_of_getLast?_eq_some hl)
      · exact ih W (List.pairwise_cons.1 hp).2 hl w h

/-- C24: for every cumulative weight vector `Ws` (non-negative and monotone
non-decreasing) with `W = Ws[P-1] > 0` and every `n ≥ 1`, when the draws `U_i` are
independent and uniform on `[0, 1)`, the expected value of the offspring count
`Os[j] - Os[j-1]` of particle `j` (with `Os[-1] = 0`, `Ws[-1] = 0`) is exactly
`n · (Ws[j] - Ws[j-1]) / W`. -/
theorem op_unbiased (Ws : List ℝ) (n j : Nat) (W : ℝ) (hn : 1 ≤ n)
    (hlast : Ws.getLast? = some W) (hW : 0 < W) (hnn : ∀ w ∈ Ws, 0 ≤ w)
    (hmono : Ws.Pairwise (fun a b => a ≤ b)) (hj : j < Ws.length) :
    ∫ u : Fin n → ℝ,
        ((((adjacent_difference
          (StratifiedResamplerHost.op (Random.ofDraws n u) Ws (n : Int)).2)[j]?.getD 0 : Int) :
            ℝ))
      ∂(MeasureTheory.Measure.pi
        (fun _ : Fin n => MeasureTheory.volume.restrict (Set.Ico (0 : ℝ) 1))) =
      (n : ℝ) * ((Ws[j]?).getD 0 - (if j = 0 then 0 else (Ws[j - 1]?).getD 0)) / W := by
  have hle := pairwise_le_getLast Ws W hmono hlast
  have hwj : Ws[j]? = some Ws[j] := List.getElem?_eq_getElem hj
  have hmj : Ws[j] ∈ Ws := List.getElem_mem hj
  obtain ⟨hI1, hE1⟩ := expected_count n hn W Ws[j] hW (hnn _ hmj) (hle _ hmj)
  cases j with
  | zero =>
    have hpt : ∀ u : Fin n → ℝ,
        ((((adjacent_difference
          (StratifiedResamplerHost.op (Random.ofDraws n u) Ws (n : Int)).2)[0]?.getD 0 : Int) :
            ℝ)) =
        (((List.range n).countP
          (fun (i : Nat) => decide ((((i : ℝ) + (Random.ofDraws n u).uniforms
            ((Random.ofDraws n u).pos + i)) / (((n : Nat) : Int) : ℝ)) * W ≤ Ws[0])) : Nat) :
            ℝ) := by
      intro u
      have h1 := StratifiedResamplerHost.op_getElem? (Random.ofDraws n u) Ws (n : Int) 0
      rw [hwj, hlast] at h1
      simp only [Option.map_some', Option.getD_some, Int.toNat_ofNat] at h1
      have h2 := getElem?_adjacentDifferenceFrom _ 0 0 _ h1
      rw [adjacent_difference, h2]
      simp
    rw [funext hpt, hE1, hwj]
    simp
  | succ k =>
    have hk : k < Ws.length := by omega
    have hwk : Ws[k]? = some Ws[k] := List.getElem?_eq_getElem hk
    have hmk : Ws[k] ∈ Ws := List.getElem_mem hk
    obtain ⟨hI2, hE2⟩ := expected_count n hn W Ws[k] hW (hnn _ hmk) (hle _ hmk)
    have hpt : ∀ u : Fin n → ℝ,
        ((((adjacent_difference
          (StratifiedResamplerHost.op (Random.ofDraws n u) Ws (n : Int)).2)[k + 1]?.getD 0 :
            Int) : ℝ)) =
        (((List.range n).countP
          (fun (i : Nat) => decide ((((i : ℝ) + (Random.ofDraws n u).uniforms
            ((Random.ofDraws n u).pos + i)) / (((n : Nat) : Int) : ℝ)) * W ≤ Ws[k + 1])) :
            Nat) : ℝ) -
        (((List.range n).countP
          (fun (i : Nat) => decide ((((i : ℝ) + (Random.ofDraws n u).uniforms
            ((Random.ofDraws n u).pos + i)) / (((n : Nat) : Int) : ℝ)) * W ≤ Ws[k])) : Nat) :
            ℝ) := by
      intro u
      have h1 := StratifiedResamplerHost.op_getElem? (Random.ofDraws n u) Ws (n : Int) (k + 1)
      rw [hwj, hlast] at h1
      simp only [Option.map_some', Option.getD_some, Int.toNat_ofNat] at h1
      have h3 := StratifiedResamplerHost.op_getElem? (Random.ofDraws n u) Ws (n : Int) k
      rw [hwk, hlast] at h3
      simp only [Option.map_some', Option.getD_some, Int.toNat_ofNat] at h3
      have h2 := getElem?_adjacentDifferenceFrom _ 0 (k + 1) _ h1
      rw [adjacent_difference, h2]
      simp only [Nat.succ_ne_zero, if_false, Nat.add_sub_cancel, h3, Option.getD_some]
      push_cast
      rfl
    rw [funext hpt, MeasureTheory.integral_sub hI1 hI2, hE1, hE2, hwj]
    simp only [Nat.succ_ne_zero, if_false, Nat.add_sub_cancel, hwk, Option.getD_some]
    ring

/-- Witness of C24: the cumulative weights `[1, 3]` (`W = 3`), `n = 2` draws, and
particle `j = 1`, whose expected offspring count is `2 · (3 - 1) / 3`. -/
theorem op_unbiased_witness :
    ∫ u : Fin 2 → ℝ,
        ((((adjacent_difference
          (StratifiedResamplerHost.op (Random.ofDraws 2 u) ([1, 3] : List ℝ)
            ((2 : Nat) : Int)).2)[1]?.getD 0 : Int) : ℝ))
      ∂(MeasureTheory.Measure.pi
        (fun _ : Fin 2 => MeasureTheory.volume.restrict (Set.Ico (0 : ℝ) 1))) =
      ((2 : Nat) : ℝ) * ((([1, 3] : List ℝ)[1]?).getD 0 -
        (if 1 = 0 then 0 else (([1, 3] : List ℝ)[1 - 1]?).getD 0)) / 3 :=
  op_unbiased [1, 3] 2 1 3 (by decide) (by simp) (by norm_num)
    (by
      intro w hw
      simp only [List.mem_cons, List.mem_singleton, List.not_mem_nil, or_false] at hw
      rcases hw with h | h <;> rw [h] <;> norm_num)
    (by simp)
    (by simp)

/-! ## Mask: variables not named in a call -/

theorem Mask.addDenseMask_frame (m : Mask Location.ON_HOST) (id : Nat) (size : Int) (v : Nat)
    (hv : v ≠ id) :
    (∀ r, (m.addDenseMask id size).info.get r v = m.info.get r v) ∧
      (m.addDenseMask id size).ixs = m.ixs ∧
      (m.addDenseMask id size).isDense v = m.isDense v ∧
      (m.addDenseMask id size).isSparse v = m.isSparse v ∧
      (m.addDenseMask id size).getSize v = m.getSize v ∧
      (∀ i, (m.addDenseMask id size).getIndex v i = m.getIndex v i) ∧
      (m.addDenseMask id size).getIndices v = m.getIndices v := by
  have h : ∀ r, (m.addDenseMask id size).info.get r v = m.info.get r v := by
    intro r
    simp [Mask.addDenseMask, Matrix.set, Matrix.get, hv]
  refine ⟨h, rfl, ?_, ?_, ?_, ?_, ?_⟩
  · simp only [Mask.isDense, h]
  · simp only [Mask.isSparse, h]
  · simp only [Mask.getSize, Mask.isDense, Mask.isSparse, h]
  · intro i
    simp only [Mask.getIndex, Mask.isSparse, h]
    rfl
  · simp only [Mask.getIndices, h]
    rfl

/-- C37 (`addSparseMask(ids, indices)` leaves the variables outside `ids` as they
were), evaluated on a fresh mask with 2 variables and the call
`addSparseMask({1}, [7])`: variable 0 is not named in the call, yet its column of
`info` changes, and it goes from not sparse with size 0, `getIndex(0, 0) = 0` and
an empty `getIndices(0)` to sparse with size 1, `getIndex(0, 0) = 7` and
`getIndices(0) = [7]`. -/
theorem addSparseMask_disturbs_unnamed :
    (0 : Nat) ∉ [1] ∧
      ((Mask.mk0 Location.ON_HOST 2).info.get 1 0, (Mask.mk0 Location.ON_HOST 2).isSparse 0,
        (Mask.mk0 Location.ON_HOST 2).getSize 0, (Mask.mk0 Location.ON_HOST 2).getIndex 0 0,
        (Mask.mk0 Location.ON_HOST 2).getIndices 0) = (0, false, 0, some 0, some []) ∧
      (Mask.addSparseMask (Mask.mk0 Location.ON_HOST 2) [1] [7]).map
        (fun m => (m.info.get 1 0, m.isSparse 0, m.getSize 0, m.getIndex 0 0, m.getIndices 0)) =
          some (1, true, 1, some 7, some [7]) := by
  refine ⟨by decide, rfl, rfl⟩

/-! ## Stratified resampler: conditional resampling -/

theorem StratifiedResampler.offspringKaSortBranch_eq {T K : Type} [LinearOrder T]
    [LinearOrderedField K] (self : StratifiedResampler T K) (env : Env K) (lws : List T)
    (os : List Int) (n ka : Int) (lws1 : List T) (ps : List Int) (Ws : List K)
    (hne : lws ≠ []) :
    StratifiedResampler.offspringKaSortBranch self env lws os n ka false lws1 ps Ws =
      if lws1.length = lws.length ∧ ps.length = lws.length ∧ Ws.length = lws.length then
        if 0 < StratifiedResampler.totalWeight self lws then Outcome.assertion
        else Outcome.degenerated (env, os)
      else Outcome.undefined := by
  unfold StratifiedResampler.offspringKaSortBranch
  by_cases h : lws1.length = lws.length ∧ ps.length = lws.length ∧ Ws.length = lws.length
  · have hseq : (seq_elements ps 0).length = lws.length := by
      simp [seq_elements, h.2.1]
    obtain ⟨hk, _⟩ := sort_by_key_perm lws (seq_elements ps 0) hseq.symm
    have hne1 : (sort_by_key lws (seq_elements ps 0)).1.map self.expu ≠ [] := by
      intro h0
      have h1 := hk.length_eq
      have h2 : (sort_by_key lws (seq_elements ps 0)).1 = [] := by simpa using h0
      rw [h2] at h1
      exact hne (List.length_eq_zero.1 h1.symm)
    have hlast : (sumexpu_inclusive_scan self.expu
        (sort_by_key lws (seq_elements ps 0)).1).getLast? =
        some (StratifiedResampler.totalWeight self lws) := by
      have := Resampler.getLast?_inclusiveScanFrom_sum
        ((sort_by_key lws (seq_elements ps 0)).1.map self.expu) 0 hne1
      simp only [sumexpu_inclusive_scan, Resampler.sum_inclusive_scan,
        StratifiedResampler.totalWeight]
      rw [this, (hk.map self.expu).sum_eq]
      simp
    simp only [Bool.not_false, if_true, h, and_self, hlast, gt_iff_lt]
  · simp only [Bool.not_false, if_true, h, if_false]

theorem StratifiedResampler.cumulativeOffspringKa_eq {T K : Type} [LinearOrder T]
    [LinearOrderedField K] (self : StratifiedResampler T K) (env : Env K) (lws : List T)
    (Os : List Int) (n ka : Int) (lws1 : List T) (ps : List Int) (Ws : List K)
    (hOs : lws.length = Os.length) (hka : 0 ≤ ka ∧ ka < (lws.length : Int)) :
    StratifiedResampler.cumulativeOffspringKa self env lws Os n ka false lws1 ps Ws =
      if self.sort = true then
        if lws1.length = lws.length ∧ ps.length = lws.length ∧ Ws.length = lws.length then
          if 0 < StratifiedResampler.totalWeight self lws then Outcome.assertion
          else Outcome.degenerated (env, Os)
        else Outcome.undefined
      else if Ws.length ≠ lws.length then Outcome.undefined
      else if 0 < StratifiedResampler.totalWeight self lws then Outcome.assertion
      else Outcome.degenerated (env, Os) := by
  have hne : lws ≠ [] := by
    intro h
    rw [h] at hka
    simp at hka
    omega
  unfold StratifiedResampler.cumulativeOffspringKa
  rw [if_neg (by simpa using hOs), if_neg (by simpa using hka)]
  by_cases hs : self.sort = true
  · rw [if_pos hs, if_pos hs, StratifiedResampler.offspringKaSortBranch_eq _ _ _ _ _ _ _ _ _ hne]
    by_cases h : lws1.length = lws.length ∧ ps.length = lws.length ∧ Ws.length = lws.length
    · by_cases hW : 0 < StratifiedResampler.totalWeight self lws
      · simp only [h, and_self, if_true, hW]
      · simp only [h, and_self, if_true, hW, if_false]
    · simp only [h, if_false]
  · rw [if_neg hs, if_neg hs]
    split
    · rfl
    · have hne1 : lws.map self.expu ≠ [] := by simpa using hne
      have hlast : (sumexpu_inclusive_scan self.expu lws).getLast? =
          some (StratifiedResampler.totalWeight self lws) := by
        have := Resampler.getLast?_inclusiveScanFrom_sum (lws.map self.expu) 0 hne1
        simp only [sumexpu_inclusive_scan, Resampler.sum_inclusive_scan,
          StratifiedResampler.totalWeight]
        rw [this]
        simp
      simp only [hlast, gt_iff_lt]

theorem StratifiedResampler.cond_resample_triggered {T R K : Type} [LinearOrder T] [Sub T]
    [Zero T] [LinearOrderedField K] (self : StratifiedResampler T K) (st : ResampleState T R K)
    (hlen : st.lws.length = st.as.length) (hne : 0 < st.lws.length)
    (htrig : self.isTriggered st.lws = true) :
    StratifiedResampler.cond_resample self 0 0 st =
      if self.sort = true then
        if st.s.size = st.lws.length then
          if 0 < StratifiedResampler.totalWeight self st.lws then Outcome.assertion
          else Outcome.degenerated st
        else Outcome.undefined
      else Outcome.undefined := by
  have hka : (0 : Int) ≤ 0 ∧ (0 : Int) < (st.lws.length : Int) := ⟨le_refl _, by omega⟩
  have hk : (0 : Int) ≤ 0 ∧ (0 : Int) < (st.as.length : Int) := ⟨le_refl _, by omega⟩
  unfold StratifiedResampler.cond_resample
  rw [if_neg (by simpa using hlen), if_neg (not_not.2 hk), if_neg (not_not.2 hka),
    if_neg (by simp), if_pos htrig]
  simp only []
  rw [StratifiedResampler.cumulativeOffspringKa_eq self st.env st.lws _ _ 0 _ _ _ (by simp) hka]
  by_cases hs : self.sort = true
  · simp only [hs, Bool.not_true, Bool.false_eq_true, if_false, if_true, List.length_replicate,
      and_self]
    by_cases hsz : st.s.size = st.lws.length
    · by_cases hW : 0 < StratifiedResampler.totalWeight self st.lws
      · simp only [hsz, hW, if_true]
      · simp only [hsz, hW, if_true, if_false]
    · simp only [hsz, if_false]
  · have hs1 : self.sort = false := by simpa using hs
    have h0 : (0 : Nat) ≠ st.lws.length := by omega
    simp only [hs1, Bool.not_false, Bool.false_eq_true, if_false, if_true,
      List.length_replicate, ne_eq, h0, not_false_eq_true]

theorem StratifiedResampler.cond_resample_rejects {T R K : Type} [LinearOrder T] [Sub T]
    [Zero T] [LinearOrderedField K] (self : StratifiedResampler T K) (ka k : Int)
    (st : ResampleState T R K) (h : ¬ (ka = 0 ∧ k = 0)) :
    StratifiedResampler.cond_resample self ka k st = Outcome.assertion := by
  have h1 : ¬ (k = 0 ∧ ka = 0) := fun h2 => h ⟨h2.2, h2.1⟩
  unfold StratifiedResampler.cond_resample
  split
  · rfl
  · split
    · rfl
    · split
      · rfl
      · rfl

/-- C36 (`cond_resample` with `(ka, k) = (0, 0)`, trigger true and `W > 0` returns
true with an ancestry), evaluated on two particles with log-weights `[0, 0]`
(total weight `2 > 0`), all pre-conditions met, the assertions of the source
checked.  With `sort` the call stops at "Not yet implemented" in `offspring`;
without `sort` the scratch vector `Ws` handed to `cumulativeOffspring` has size
`P2 = 0` and the call does not return either.  Neither setting returns true with
an ancestry. -/
theorem cond_resample_zero_zero_not_implemented :
    0 < StratifiedResampler.totalWeight (exampleResampler true true) (exampleState [0, 0]).lws ∧
      StratifiedResampler.cond_resample (exampleResampler true true) 0 0 (exampleState [0, 0]) =
        Outcome.assertion ∧
      StratifiedResampler.cond_resample (exampleResampler false true) 0 0 (exampleState [0, 0]) =
        Outcome.undefined := by
  have hW : ∀ b : Bool, 0 < StratifiedResampler.totalWeight (exampleResampler b true)
      (exampleState [0, 0]).lws := by
    intro b
    norm_num [StratifiedResampler.totalWeight, exampleResampler, expu2, exampleState]
  refine ⟨hW true, ?_, ?_⟩
  · rw [StratifiedResampler.cond_resample_triggered _ _ rfl (by decide) rfl]
    have hs : (exampleResampler true true).sort = true := rfl
    have hsz : (exampleState [0, 0]).s.size = (exampleState [0, 0]).lws.length := rfl
    rw [if_pos hs, if_pos hsz, if_pos (hW true)]
  · rw [StratifiedResampler.cond_resample_triggered _ _ rfl (by decide) rfl]
    have hs : ¬ (exampleResampler false true).sort = true := by decide
    rw [if_neg hs]

/-! ## Resampler: the error of a resampling -/

theorem Resampler.sum_resample_error {L K : Type} [Sub L] [Field K] (exp : L → K) (lW : L)
    (P W : K) (hW : ∀ x, exp (x - lW) = exp x / W) :
    ∀ (lws : List (Option L)) (os : List Int),
      (∀ (i : Nat), lws[i]? = some none → ∀ o, os[i]? = some o → o = 0) →
      (List.zipWith (resample_error exp lW P) lws os).sum =
        (List.zipWith (fun lw (o : Int) => ((o : K) / P - weightOf exp lw / W) ^ 2) lws os).sum := by
  intro lws
  induction lws with
  | nil => intro os _; simp
  | cons lw lws ih =>
    intro os h0
    cases os with
    | nil => simp
    | cons o os =>
      have ht := ih os (fun i hi o1 ho => h0 (i + 1) (by simpa using hi) o1 (by simpa using ho))
      simp only [List.zipWith_cons_cons, List.sum_cons, ht]
      congr 1
      cases lw with
      | none =>
        have ho : o = 0 := h0 0 (by simp) o (by simp)
        simp [resample_error, weightOf, ho]
      | some x =>
        simp only [resample_error, weightOf, hW]
        ring

theorem Resampler.error_eq_documented {L K : Type} [Sub L] [Field K] (exp : L → K)
    (logsumexp_reduce : List (Option L) → L) (lws : List (Option L)) (os : List Int)
    (hlen : os.length = lws.length)
    (hexp : ∀ x, exp (x - logsumexp_reduce lws) = exp x / (lws.map (weightOf exp)).sum)
    (h0 : ∀ (i : Nat), lws[i]? = some none → ∀ o, os[i]? = some o → o = 0) :
    Resampler.error exp logsumexp_reduce lws os =
      some (Resampler.documentedError exp lws os) := by
  have hfold : ∀ (l : List K) (a : K), l.foldl (fun a b => a + b) a = a + l.sum := by
    intro l
    induction l with
    | nil => intro a; simp
    | cons x l ih => intro a; simp [ih, add_assoc]
  simp only [Resampler.error, Resampler.documentedError, hlen, le_refl, if_true, hfold,
    zero_add]
  rw [Resampler.sum_resample_error exp _ _ _ hexp lws os h0]

/-- C35 (`error(lws, os)` is the documented sum over all `i`), evaluated on
`lws = [0, -∞]` (weights `1` and `0`, `W = 1`, `logsumexp_reduce(lws) = 0` exact)
and `os = [1, 1]`, `P = 2`: the documented formula gives
`(1/2 - 1)^2 + (1/2 - 0)^2 = 1/2`, while `error` returns `1/4`, the term of the
particle with log-weight `-∞` being replaced by `0`. -/
theorem error_skips_non_finite_weight :
    exp2 (logsumexp2 [some 0, none]) = ([some 0, none].map (weightOf exp2)).sum ∧
      Resampler.documentedError exp2 [some 0, none] [1, 1] = 1 / 2 ∧
      Resampler.error exp2 logsumexp2 [some 0, none] [1, 1] = some (1 / 4) := by
  have hl : logsumexp2 [some 0, none] = 0 := by
    simp [logsumexp2, weightOf, exp2]
  refine ⟨?_, ?_, ?_⟩
  · rw [hl]
    simp [weightOf, exp2]
  · norm_num [Resampler.documentedError, weightOf, exp2]
  · simp only [Resampler.error, hl]
    norm_num [resample_error, exp2]

/-! ## Stratified resampler: resampling with a fixed ancestor -/

theorem StratifiedResampler.cumulativeOffspring_mono {T K : Type} [LinearOrder T]
    [LinearOrderedField K] (self : StratifiedResampler T K) (env : Env K) (lws : List T)
    (Os : List Int) (n : Int) (hne : lws ≠ []) (hOs : Os.length = lws.length)
    (hexp : ∀ x, 0 ≤ self.expu x)
    (hW : 0 < StratifiedResampler.totalWeight self lws) (hn : 0 ≤ n)
    (hU : ∀ k, 0 ≤ env.rng.uniforms k ∧ env.rng.uniforms k < 1) :
    ∃ env1 Os1, StratifiedResampler.cumulativeOffspring self env lws Os n =
        Outcome.ok () (env1, Os1) ∧
      Os1.length = lws.length ∧ (∀ O ∈ Os1, 0 ≤ O) ∧
      Os1.Pairwise (fun a b => a ≤ b) ∧ Os1.getLast? = some n := by
  cases hsort : self.sort with
  | false =>
    exact StratifiedResampler.cumulativeOffspring_plain self env lws Os n hsort hne hOs hexp hW
      hn hU
  | true =>
    obtain ⟨env1, os1, h, hl, hnn, hsum⟩ :=
      StratifiedResampler.offspringSortBranch_spec self env lws (List.replicate lws.length 0) n
        hne (by simp) hexp hW hn hU
    have hne1 : os1 ≠ [] := by
      intro h0
      rw [h0] at hl
      exact hne (List.length_eq_zero.1 hl.symm)
    have hm := Resampler.inclusiveScanFrom_monotone os1 0 hnn
    refine ⟨env1, Resampler.sum_inclusive_scan os1, ?_, ?_, hm.1, hm.2, ?_⟩
    · simp only [StratifiedResampler.cumulativeOffspring, hOs, ne_eq, not_true_eq_false,
        if_false, hsort, if_true, h]
    · rw [Resampler.sum_inclusive_scan, Resampler.length_inclusiveScanFrom, hl]
    · rw [Resampler.sum_inclusive_scan, Resampler.getLast?_inclusiveScanFrom_sum os1 0 hne1,
        hsum, zero_add]

theorem addscalTail_spec (Os : List Int) (a n : Int) (ha : 0 ≤ a ∧ a < (Os.length : Int))
    (hnn : ∀ O ∈ Os, 0 ≤ O) (hmono : Os.Pairwise (fun x y => x ≤ y))
    (hlast : Os.getLast? = some n) :
    ∃ Os1, addscalTail Os a = some Os1 ∧ Os1.length = Os.length ∧ (∀ O ∈ Os1, 0 ≤ O) ∧
      Os1.Pairwise (fun x y => x ≤ y) ∧ Os1.getLast? = some (n + 1) ∧
      ∃ d, (adjacent_difference Os1)[a.toNat]? = some d ∧ 1 ≤ d := by
  obtain ⟨ha0, ha1⟩ := ha
  have hk : a.toNat < Os.length := by omega
  refine ⟨Os.take a.toNat ++ (Os.drop a.toNat).map (fun O => O + 1), ?_, ?_, ?_, ?_, ?_, ?_⟩
  · simp only [addscalTail]
    rw [if_pos ⟨ha0, by omega⟩]
  · simp only [List.length_append, List.length_take, List.length_map, List.length_drop]
    omega
  · intro O hO
    rcases List.mem_append.1 hO with h | h
    · exact hnn O (List.mem_of_mem_take h)
    · obtain ⟨z, hz, rfl⟩ := List.mem_map.1 h
      have := hnn z (List.mem_of_mem_drop hz)
      omega
  · have hsplit : (Os.take a.toNat ++ Os.drop a.toNat).Pairwise (fun x y => x ≤ y) := by
      rw [List.take_append_drop]
      exact hmono
    obtain ⟨h1, h2, h3⟩ := List.pairwise_append.1 hsplit
    refine List.pairwise_append.2 ⟨h1, ?_, ?_⟩
    · exact List.Pairwise.map _ (fun x y hxy => by omega) h2
    · intro x hx y hy
      obtain ⟨z, hz, rfl⟩ := List.mem_map.1 hy
      have := h3 x hx z hz
      omega
  · rw [List.getLast?_append, List.getLast?_map, List.getLast?_drop]
    have h1 : ¬ Os.length ≤ a.toNat := by omega
    simp [h1, hlast]
  · have hget : (Os.take a.toNat ++ (Os.drop a.toNat).map (fun O => O + 1))[a.toNat]? =
        some (Os[a.toNat] + 1) := by
      rw [List.getElem?_append_right (by simp)]
      simp [List.length_take, Nat.min_eq_left (le_of_lt hk), hk]
    have hd := getElem?_adjacentDifferenceFrom _ 0 a.toNat _ hget
    refine ⟨_, hd, ?_⟩
    by_cases h0 : a.toNat = 0
    · rw [if_pos h0]
      have := hnn Os[a.toNat] (List.getElem_mem hk)
      omega
    · rw [if_neg h0]
      have hprev : (Os.take a.toNat ++ (Os.drop a.toNat).map (fun O => O + 1))[a.toNat - 1]? =
          some Os[a.toNat - 1] := by
        rw [List.getElem?_append_left (by simp; omega)]
        rw [List.getElem?_take_of_lt (by omega)]
        exact List.getElem?_eq_getElem (by omega)
      rw [hprev]
      have := List.pairwise_iff_getElem.1 hmono (a.toNat - 1) a.toNat (by omega) hk (by omega)
      simp only [Option.getD_some]
      omega

theorem Resampler.mem_cumulativeOffspringToAncestors_of_pos (Os : List Int) (k : Nat)
    (d : Int) (hnn : ∀ O ∈ Os, 0 ≤ O) (hmono : Os.Pairwise (fun x y => x ≤ y))
    (hd : (adjacent_difference Os)[k]? = some d) (hpos : 1 ≤ d) :
    (k : Int) ∈ Resampler.cumulativeOffspringToAncestors Os := by
  have hk : k < Os.length := by
    have := (List.getElem?_eq_some_iff.1 hd).1
    simpa [adjacent_difference, length_adjacentDifferenceFrom] using this
  have hd1 := getElem?_adjacentDifferenceFrom Os 0 k Os[k] (List.getElem?_eq_getElem hk)
  rw [adjacent_difference] at hd
  rw [hd1] at hd
  simp only [Option.some.injEq] at hd
  have hne : Os ≠ [] := by
    intro h
    rw [h] at hk
    simp at hk
  obtain ⟨L, hL⟩ : ∃ L, Os.getLast? = some L := by
    cases h : Os.getLast? with
    | none => exact absurd (List.getLast?_eq_none_iff.1 h) hne
    | some L => exact ⟨L, rfl⟩
  have hLge : Os[k] ≤ L := by
    have hLe : Os[Os.length - 1]? = some L := by
      rw [← hL, List.getLast?_eq_getElem?]
    have hLe1 : Os[Os.length - 1] = L := by
      rw [List.getElem?_eq_getElem (by omega)] at hLe
      exact Option.some.inj hLe
    by_cases hkl : k = Os.length - 1
    · subst hkl
      omega
    · have := List.pairwise_iff_getElem.1 hmono k (Os.length - 1) hk (by omega) (by omega)
      omega
  -- the slot whose ancestor is `k`
  let prev : Int := if k = 0 then 0 else (Os[k - 1]?).getD 0
  have hprev0 : 0 ≤ prev := by
    by_cases h0 : k = 0
    · simp [prev, h0]
    · simp only [prev, if_neg h0]
      rw [List.getElem?_eq_getElem (by omega)]
      exact hnn _ (List.getElem_mem _)
  have hprevlt : prev < Os[k] := by
    have : Os[k] - prev = d := hd
    omega
  simp only [Resampler.cumulativeOffspringToAncestors, hL, Option.getD_some, List.mem_map,
    List.mem_range]
  refine ⟨prev.toNat, by omega, ?_⟩
  congr 1
  rw [List.findIdx_eq hk]
  refine ⟨by simp; omega, ?_⟩
  intro j hj
  have hle : Os[j] ≤ prev := by
    have h0 : k ≠ 0 := by omega
    simp only [prev, if_neg h0]
    rw [List.getElem?_eq_getElem (by omega)]
    simp only [Option.getD_some]
    by_cases hjk : j = k - 1
    · subst hjk
      exact le_refl _
    · exact List.pairwise_iff_getElem.1 hmono j (k - 1) (by omega) (by omega) (by omega)
  simp
  omega

/-- C38: for every triggered call `resample(rng, a, qlws, lws, as, s)` with
`|qlws| = |lws| = P`, an ensemble of `P` particles, `0 ≤ a < P`, total proposal
weight `W > 0` and every outcome of the draws in `[0, 1)`: `cumulativeOffspring`
with target `P - 1` returns `Os`, the vector `Os1` obtained by adding `1` to every
entry from index `a` on is monotone non-decreasing with last entry `P`, particle
`a` has at least one offspring in it, and the call returns true with the ancestry
`as` converted from `Os1`, in which `a` occurs and which has length `P`. -/
theorem resample_fixed_keeps_ancestor {T R K : Type} [LinearOrder T] [Sub T]
    [LinearOrderedField K] (self : StratifiedResampler T K) (a : Int) (qlws : List T)
    (st : ResampleState T R K) (hq : qlws.length = st.lws.length)
    (hsize : st.s.size = st.lws.length) (hbuf : st.s.size ≤ st.s.rows.length)
    (htrig : self.isTriggered st.lws = true)
    (ha : 0 ≤ a ∧ a < (st.lws.length : Int))
    (hexp : ∀ x, 0 ≤ self.expu x)
    (hW : 0 < StratifiedResampler.totalWeight self qlws)
    (hU : ∀ k, 0 ≤ st.env.rng.uniforms k ∧ st.env.rng.uniforms k < 1) :
    ∃ env1 Os Os1 st1,
      StratifiedResampler.cumulativeOffspring self st.env qlws
          (List.replicate st.lws.length 0) ((st.lws.length : Int) - 1) =
        Outcome.ok () (env1, Os) ∧
      addscalTail Os a = some Os1 ∧
      Os1.Pairwise (fun x y => x ≤ y) ∧ Os1.getLast? = some (st.lws.length : Int) ∧
      (∃ d, (adjacent_difference Os1)[a.toNat]? = some d ∧ 1 ≤ d) ∧
      Resampler.cumulativeOffspringToAncestorsPermute Os1 = some st1.as ∧
      StratifiedResampler.resampleFixed self a qlws st = Outcome.ok true st1 ∧
      a ∈ st1.as ∧ st1.as.length = st.lws.length := by
  obtain ⟨ha0, ha1⟩ := ha
  have hne : qlws ≠ [] := by
    intro h
    rw [h] at hq
    simp only [List.length_nil] at hq
    omega
  obtain ⟨env1, Os, hco, hlen, hnn, hmono, hlast⟩ :=
    StratifiedResampler.cumulativeOffspring_mono self st.env qlws
      (List.replicate st.lws.length 0) ((st.lws.length : Int) - 1) hne (by simp [hq]) hexp hW
      (by omega) hU
  obtain ⟨Os1, hadd, hlen1, hnn1, hmono1, hlast1, d, hd, hd1⟩ :=
    addscalTail_spec Os a ((st.lws.length : Int) - 1) ⟨ha0, by omega⟩ hnn hmono hlast
  have hlast2 : Os1.getLast? = some (st.lws.length : Int) := by
    rw [hlast1]
    congr 1
    omega
  have hl0 : (Resampler.cumulativeOffspringToAncestors Os1).length = st.lws.length := by
    rw [Resampler.cumulativeOffspringToAncestors_length, hlast2]
    simp
  have hmem := Resampler.mem_cumulativeOffspringToAncestors Os1
  have hrange : ∀ b ∈ Resampler.cumulativeOffspringToAncestors Os1,
      0 ≤ b ∧ b < ((Resampler.cumulativeOffspringToAncestors Os1).length : Int) := by
    intro b hb
    obtain ⟨j, rfl, hj, _⟩ := hmem b hb
    rw [hl0]
    constructor
    · omega
    · omega
  have hain : a ∈ Resampler.cumulativeOffspringToAncestors Os1 := by
    have := Resampler.mem_cumulativeOffspringToAncestors_of_pos Os1 a.toNat d hnn1 hmono1 hd hd1
    rwa [Int.toNat_of_nonneg ha0] at this
  obtain ⟨as1, hp1, hperm, hslot⟩ :=
    Resampler.permutePlace_claims_spec (Resampler.cumulativeOffspringToAncestors Os1) hrange _
      (List.Perm.refl _)
  have hl1 : as1.length = st.lws.length := by rw [hperm.length_eq, hl0]
  have hin : ∀ b ∈ as1, 0 ≤ b ∧ b < (st.lws.length : Int) := by
    intro b hb
    have := hrange b (hperm.mem_iff.1 hb)
    rw [hl0] at this
    exact this
  have hself : ∀ (i : Nat) (b : Int), as1[i]? = some b → 0 ≤ b ∧ as1[b.toNat]? = some b := by
    intro i b hib
    have hb : b ∈ as1 := List.getElem?_mem hib
    obtain ⟨h0, h1⟩ := hin b hb
    refine ⟨h0, ?_⟩
    have h2 : b.toNat < (Resampler.cumulativeOffspringToAncestors Os1).length := by
      rw [hl0]
      omega
    rcases hslot b.toNat h2 with h3 | h3
    · rw [h3, Int.toNat_of_nonneg h0]
    · rw [Int.toNat_of_nonneg h0] at h3
      exact absurd hb h3
  obtain ⟨s1, hcopy, _, _, _⟩ := Resampler.copyState_spec as1 st.s (by omega) hbuf hself
  obtain ⟨lws1, hcorr1, _, _⟩ := Resampler.correct_own_spec as1 qlws st.lws hq hin
  have hperm1 : Resampler.cumulativeOffspringToAncestorsPermute Os1 = some as1 := hp1
  refine ⟨env1, Os, Os1,
    { env := env1, lws := StratifiedResampler.normalise self lws1, as := as1, s := s1 },
    hco, hadd, hmono1, hlast2, ⟨d, hd, hd1⟩, hperm1, ?_, hperm.mem_iff.2 hain, hl1⟩
  have hq' : ¬ qlws.length ≠ st.lws.length := by omega
  simp only [StratifiedResampler.resampleFixed, hq', if_false, htrig, if_true, hco, hadd,
    StratifiedResampler.resampleProposalTail, hperm1, hcorr1, hcopy]

/-- Witness of C38: the particles `a`, `b` with proposal log-weights `[0, 0]`,
log-weights `[-2000, 0]`, the fixed ancestor `a = 0`, trigger true, all draws
`1/2`. -/
theorem resample_fixed_keeps_ancestor_witness :
    ∃ env1 Os Os1 st1,
      StratifiedResampler.cumulativeOffspring (exampleResampler false true)
          (exampleState [-2000, 0]).env [0, 0]
          (List.replicate (exampleState [-2000, 0]).lws.length 0)
          (((exampleState [-2000, 0]).lws.length : Int) - 1) =
        Outcome.ok () (env1, Os) ∧
      addscalTail Os 0 = some Os1 ∧
      Os1.Pairwise (fun x y => x ≤ y) ∧
      Os1.getLast? = some ((exampleState [-2000, 0]).lws.length : Int) ∧
      (∃ d, (adjacent_difference Os1)[(0 : Int).toNat]? = some d ∧ 1 ≤ d) ∧
      Resampler.cumulativeOffspringToAncestorsPermute Os1 = some st1.as ∧
      StratifiedResampler.resampleFixed (exampleResampler false true) 0 [0, 0]
        (exampleState [-2000, 0]) = Outcome.ok true st1 ∧
      (0 : Int) ∈ st1.as ∧ st1.as.length = (exampleState [-2000, 0]).lws.length :=
  resample_fixed_keeps_ancestor (exampleResampler false true) 0 [0, 0]
    (exampleState [-2000, 0]) rfl rfl (by decide) rfl (by decide) expu2_nonneg
    (by norm_num [StratifiedResampler.totalWeight, exampleResampler, expu2])
    (fun k => by norm_num [exampleState, exampleEnv])

/-! ## Bridge particle filter: the passes of a step -/

theorem BridgeParticleFilter.bridge_shape {T R G : Type} [Ring T] (c : Collaborators T R G)
    (sched : Schedule) (iter last : Nat) (st : FilterState T R G) :
    (∃ ll st1, BridgeParticleFilter.bridge c sched iter last st = Run.done ll st1 ∧
        st1.p.s = st.p.s ∧ st1.p.rng = st.p.rng ∧ st1.p.as = st.p.as ∧
        ∀ lb : T, st1.trace ++ [Event.bridge iter lb] =
          st.trace ++ bridgeEvents sched last iter lb) ∨
      BridgeParticleFilter.bridge c sched iter last st = Run.assertion st ∨
      BridgeParticleFilter.bridge c sched iter last st = Run.undefined st := by
  unfold BridgeParticleFilter.bridge
  split
  · exact Or.inr (Or.inl rfl)
  · split
    · rename_i hg
      split
      · exact Or.inr (Or.inr rfl)
      · simp only
        split
        · exact Or.inr (Or.inr rfl)
        · refine Or.inl ⟨_, _, rfl, rfl, rfl, rfl, ?_⟩
          intro lb
          simp [bridgeEvents, hg]
    · rename_i hg
      refine Or.inl ⟨_, _, rfl, rfl, rfl, rfl, ?_⟩
      intro lb
      simp [bridgeEvents, hg]

theorem BridgeParticleFilter.conditionalWrite_shape {T R G : Type} (sched : Schedule)
    (X : Option (List R)) (iter : Nat) (st st1 : FilterState T R G)
    (h : BridgeParticleFilter.conditionalWrite sched X iter st = some st1) :
    st1.trace = st.trace ++
        (if X.isSome && (sched iter).hasOutput then
          [Event.write iter (sched iter).indexOutput]
        else []) ∧
      (X = none → st1.p.s = st.p.s) ∧
      (∀ X1, X = some X1 →
        if (sched iter).hasOutput then
          writeRow0 st.p.s X1 (sched iter).indexOutput = some st1.p.s
        else st1.p.s = st.p.s) := by
  unfold BridgeParticleFilter.conditionalWrite at h
  cases X with
  | none =>
    simp only [Option.some.injEq] at h
    subst h
    exact ⟨by simp, fun _ => rfl, fun X1 hX => by cases hX⟩
  | some X1 =>
    simp only at h
    split at h
    · rename_i ho
      cases hw : writeRow0 st.p.s X1 (sched iter).indexOutput with
      | none => rw [hw] at h; cases h
      | some s1 =>
        rw [hw] at h
        simp only [Option.some.injEq] at h
        subst h
        refine ⟨by simp [ho], fun hX => (by cases hX), ?_⟩
        intro X2 hX
        cases hX
        simp [ho, hw]
    · rename_i ho
      simp only [Option.some.injEq] at h
      subst h
      refine ⟨by simp [ho], fun hX => (by cases hX), ?_⟩
      intro X2 hX
      simp [ho]

theorem BridgeParticleFilter.stepBody_shape {T R G : Type} [Ring T]
    (c : Collaborators T R G) (sched : Schedule) (last : Nat) (X : Option (List R))
    (iter : Nat) (st : FilterState T R G) :
    (∃ r st1 rf, BridgeParticleFilter.stepBody c sched last X iter st = Run.done r st1 ∧
        st1.trace = st.trace ++ passEvents sched last X.isSome iter r.1 rf st1.p.s r.2) ∨
      (∃ rest, (∀ r st1, BridgeParticleFilter.stepBody c sched last X iter st ≠ Run.done r st1) ∧
        (∀ st1, BridgeParticleFilter.stepBody c sched last X iter st ≠ Run.outOfFuel st1) ∧
        (BridgeParticleFilter.stepBody c sched last X iter st).state.trace = st.trace ++ rest ∧
        IsPartialPass c sched last iter rest
          (BridgeParticleFilter.stepBody c sched last X iter st)) := by
  rcases BridgeParticleFilter.bridge_shape c sched iter last st with
    ⟨lb, st1, hb, _, _, _, htr⟩ | hb | hb
  · unfold BridgeParticleFilter.stepBody
    rw [hb]
    simp only
    cases hr : c.resample (sched iter) st1.p with
    | ok r p3 =>
      simp only
      cases hw : BridgeParticleFilter.conditionalWrite sched X (iter + 1)
          ({ p := { p3 with rng := (c.predict p3.rng (sched (iter + 1)) p3.s).1,
                            s := (c.predict p3.rng (sched (iter + 1)) p3.s).2 },
             trace := st1.trace ++ [Event.bridge iter lb] ++
              [Event.resample iter r, Event.predict (iter + 1)] } : FilterState T R G) with
      | none =>
        refine Or.inr ⟨bridgeEvents sched last iter lb ++
          [Event.resample iter r, Event.predict (iter + 1)],
          fun _ _ h => (by cases h), fun _ h => (by cases h), ?_, Or.inr (Or.inr ⟨lb, r, rfl, ?_⟩)⟩
        · simp only [Run.state]
          rw [htr lb, List.append_assoc]
        · intro st2 h
          cases h
      | some st5 =>
        obtain ⟨htw, _⟩ := BridgeParticleFilter.conditionalWrite_shape sched X (iter + 1) _ st5 hw
        refine Or.inl ⟨_, _, r, rfl, ?_⟩
        simp only [htw, htr lb, passEvents, List.append_assoc]
    | degenerated p3 =>
      refine Or.inr ⟨bridgeEvents sched last iter lb ++ [Event.resampleFailed iter],
        fun _ _ h => (by cases h), fun _ h => (by cases h), ?_,
        Or.inr (Or.inl ⟨lb, rfl, st1.p, Or.inl ⟨?_, rfl⟩⟩)⟩
      · simp only [Run.state]
        rw [htr lb, List.append_assoc]
      · simpa [Run.state] using hr
    | assertion =>
      refine Or.inr ⟨bridgeEvents sched last iter lb ++ [Event.resampleFailed iter],
        fun _ _ h => (by cases h), fun _ h => (by cases h), ?_,
        Or.inr (Or.inl ⟨lb, rfl, st1.p, Or.inr (Or.inl ⟨hr, rfl⟩)⟩)⟩
      simp only [Run.state]
      rw [htr lb, List.append_assoc]
    | undefined =>
      refine Or.inr ⟨bridgeEvents sched last iter lb ++ [Event.resampleFailed iter],
        fun _ _ h => (by cases h), fun _ h => (by cases h), ?_,
        Or.inr (Or.inl ⟨lb, rfl, st1.p, Or.inr (Or.inr ⟨hr, rfl⟩)⟩)⟩
      simp only [Run.state]
      rw [htr lb, List.append_assoc]
  · unfold BridgeParticleFilter.stepBody
    rw [hb]
    simp only
    exact Or.inr ⟨[], fun _ _ h => (by cases h), fun _ h => (by cases h), by simp [Run.state],
      Or.inl ⟨rfl, fun _ h => (by cases h)⟩⟩
  · unfold BridgeParticleFilter.stepBody
    rw [hb]
    simp only
    exact Or.inr ⟨[], fun _ _ h => (by cases h), fun _ h => (by cases h), by simp [Run.state],
      Or.inl ⟨rfl, fun _ h => (by cases h)⟩⟩

theorem ResampleFailure_transfer {T R G α β : Type} (c : Collaborators T R G)
    (sched : Schedule) (pos : Nat) (a : Run α (FilterState T R G))
    (b : Run β (FilterState T R G))
    (hab : (∃ st, a = Run.degenerated st ∧ b = Run.degenerated st) ∨
      (∃ st, a = Run.assertion st ∧ b = Run.assertion st) ∨
      (∃ st, a = Run.undefined st ∧ b = Run.undefined st))
    (h : ResampleFailure c sched pos a) : ResampleFailure c sched pos b := by
  rcases hab with ⟨st, rfl, rfl⟩ | ⟨st, rfl, rfl⟩ | ⟨st, rfl, rfl⟩
  · obtain ⟨p, h1 | h1 | h1⟩ := h
    · exact ⟨p, Or.inl ⟨h1.1, rfl⟩⟩
    · exact absurd h1.2 (by simp [Run.state])
    · exact absurd h1.2 (by simp [Run.state])
  · obtain ⟨p, h1 | h1 | h1⟩ := h
    · exact absurd h1.2 (by simp [Run.state])
    · exact ⟨p, Or.inr (Or.inl ⟨h1.1, rfl⟩)⟩
    · exact absurd h1.2 (by simp [Run.state])
  · obtain ⟨p, h1 | h1 | h1⟩ := h
    · exact absurd h1.2 (by simp [Run.state])
    · exact absurd h1.2 (by simp [Run.state])
    · exact ⟨p, Or.inr (Or.inr ⟨h1.1, rfl⟩)⟩

theorem ResampleFailure_not_done {T R G α : Type} (c : Collaborators T R G)
    (sched : Schedule) (pos : Nat) (res : Run α (FilterState T R G))
    (h : ResampleFailure c sched pos res) :
    (∀ r st, res ≠ Run.done r st) ∧ (∀ st, res ≠ Run.outOfFuel st) := by
  obtain ⟨p, h1 | h1 | h1⟩ := h
  · constructor
    · intro r st h2
      rw [h2] at h1
      exact absurd h1.2 (by simp [Run.state])
    · intro st h2
      rw [h2] at h1
      exact absurd h1.2 (by simp [Run.state])
  · constructor
    · intro r st h2
      rw [h2] at h1
      exact absurd h1.2 (by simp [Run.state])
    · intro st h2
      rw [h2] at h1
      exact absurd h1.2 (by simp [Run.state])
  · constructor
    · intro r st h2
      rw [h2] at h1
      exact absurd h1.2 (by simp [Run.state])
    · intro st h2
      rw [h2] at h1
      exact absurd h1.2 (by simp [Run.state])

theorem IsPartialPass_transfer {T R G α β : Type} (c : Collaborators T R G)
    (sched : Schedule) (last iter : Nat) (ev : List (Event T (State R)))
    (a : Run α (FilterState T R G)) (b : Run β (FilterState T R G))
    (hab : (∃ st, a = Run.degenerated st ∧ b = Run.degenerated st) ∨
      (∃ st, a = Run.assertion st ∧ b = Run.assertion st) ∨
      (∃ st, a = Run.undefined st ∧ b = Run.undefined st))
    (h : IsPartialPass c sched last iter ev a) : IsPartialPass c sched last iter ev b := by
  have hdeg : (∀ st, a ≠ Run.degenerated st) → ∀ st, b ≠ Run.degenerated st := by
    intro h1 st h2
    rcases hab with ⟨st1, h3, h4⟩ | ⟨st1, h3, h4⟩ | ⟨st1, h3, h4⟩
    · exact h1 st1 h3
    · rw [h4] at h2; cases h2
    · rw [h4] at h2; cases h2
  rcases h with ⟨h1, h2⟩ | ⟨lb, h1, h2⟩ | ⟨lb, r, h1, h2⟩
  · exact Or.inl ⟨h1, hdeg h2⟩
  · exact Or.inr (Or.inl ⟨lb, h1, ResampleFailure_transfer c sched iter a b hab h2⟩)
  · exact Or.inr (Or.inr ⟨lb, r, h1, hdeg h2⟩)

theorem BridgeParticleFilter.stepLoop_passes {T R G : Type} [Ring T]
    (c : Collaborators T R G) (sched : Schedule) (last : Nat) (X : Option (List R)) :
    ∀ (fuel iter : Nat) (ll : T) (st : FilterState T R G),
      ∃ n ev rest,
        (BridgeParticleFilter.stepLoop c sched last X fuel iter ll st).state.trace =
          st.trace ++ ev ++ rest ∧
        IsPasses sched last X.isSome iter n ev ∧
        ((∃ r st1, BridgeParticleFilter.stepLoop c sched last X fuel iter ll st = Run.done r st1 ∧
            rest = [] ∧ r.1 = iter + n ∧ 1 ≤ n) ∨
          (∃ st1, BridgeParticleFilter.stepLoop c sched last X fuel iter ll st =
              Run.outOfFuel st1 ∧ rest = [] ∧ n = fuel) ∨
          ((∀ r st1, BridgeParticleFilter.stepLoop c sched last X fuel iter ll st ≠
              Run.done r st1) ∧
            (∀ st1, BridgeParticleFilter.stepLoop c sched last X fuel iter ll st ≠
              Run.outOfFuel st1) ∧
            IsPartialPass c sched last (iter + n) rest
              (BridgeParticleFilter.stepLoop c sched last X fuel iter ll st))) := by
  intro fuel
  induction fuel with
  | zero =>
    intro iter ll st
    exact ⟨0, [], [], by simp [BridgeParticleFilter.stepLoop, Run.state], rfl,
      Or.inr (Or.inl ⟨st, rfl, rfl, rfl⟩)⟩
  | succ fuel ih =>
    intro iter ll st
    rcases BridgeParticleFilter.stepBody_shape c sched last X iter st with
      ⟨r, st1, rf, hsb, htr⟩ | ⟨rest, hnd, hnf, htr, hpp⟩
    · simp only [BridgeParticleFilter.stepLoop, hsb]
      split
      · obtain ⟨n, ev, rest, h1, h2, h3⟩ := ih (iter + 1) (ll + r.1 + r.2) st1
        refine ⟨n + 1, passEvents sched last X.isSome iter r.1 rf st1.p.s r.2 ++ ev, rest, ?_,
          ⟨r.1, rf, st1.p.s, r.2, ev, rfl, h2⟩, ?_⟩
        · rw [h1, htr]
          simp only [List.append_assoc]
        · rcases h3 with ⟨r1, st2, h4, h5, h6, h7⟩ | ⟨st2, h4, h5, h6⟩ | ⟨h4, h5, h6⟩
          · exact Or.inl ⟨r1, st2, h4, h5, by omega, by omega⟩
          · exact Or.inr (Or.inl ⟨st2, h4, h5, by omega⟩)
          · refine Or.inr (Or.inr ⟨h4, h5, ?_⟩)
            have : iter + (n + 1) = iter + 1 + n := by omega
            rw [this]
            exact h6
      · refine ⟨1, passEvents sched last X.isSome iter r.1 rf st1.p.s r.2, [], ?_,
          ⟨r.1, rf, st1.p.s, r.2, [], by simp, rfl⟩, Or.inl ⟨_, _, rfl, rfl, rfl, le_refl _⟩⟩
        simp [Run.state, htr]
    · cases hsb : BridgeParticleFilter.stepBody c sched last X iter st with
      | done r st1 => exact absurd hsb (hnd r st1)
      | outOfFuel st1 => exact absurd hsb (hnf st1)
      | degenerated st1 =>
        rw [hsb] at htr hpp
        simp only [BridgeParticleFilter.stepLoop, hsb]
        refine ⟨0, [], rest, by simpa [Run.state] using htr, rfl,
          Or.inr (Or.inr ⟨fun _ _ h => (by cases h), fun _ h => (by cases h), ?_⟩)⟩
        exact IsPartialPass_transfer c sched last iter rest _ _
          (Or.inl ⟨st1, rfl, rfl⟩) hpp
      | assertion st1 =>
        rw [hsb] at htr hpp
        simp only [BridgeParticleFilter.stepLoop, hsb]
        refine ⟨0, [], rest, by simpa [Run.state] using htr, rfl,
          Or.inr (Or.inr ⟨fun _ _ h => (by cases h), fun _ h => (by cases h), ?_⟩)⟩
        exact IsPartialPass_transfer c sched last iter rest _ _
          (Or.inr (Or.inl ⟨st1, rfl, rfl⟩)) hpp
      | undefined st1 =>
        rw [hsb] at htr hpp
        simp only [BridgeParticleFilter.stepLoop, hsb]
        refine ⟨0, [], rest, by simpa [Run.state] using htr, rfl,
          Or.inr (Or.inr ⟨fun _ _ h => (by cases h), fun _ h => (by cases h), ?_⟩)⟩
        exact IsPartialPass_transfer c sched last iter rest _ _
          (Or.inr (Or.inr ⟨st1, rfl, rfl⟩)) hpp

theorem bridgeEvents_facts {T S : Type} (sched : Schedule) (last iter : Nat) (lb : T) :
    (bridgeEvents sched last iter lb : List (Event T S)).filterMap Event.predictPos = [] ∧
      (bridgeEvents sched last iter lb : List (Event T S)).filterMap Event.outputPos = [] ∧
      ∀ pos, Event.resampleFailed pos ∉ (bridgeEvents sched last iter lb : List (Event T S)) := by
  unfold bridgeEvents
  split <;> simp [Event.predictPos, Event.outputPos]

theorem passEvents_facts {T S : Type} (sched : Schedule) (last : Nat) (conditional : Bool)
    (iter : Nat) (lb : T) (r : Bool) (s : S) (lc : T) :
    (passEvents sched last conditional iter lb r s lc).filterMap Event.predictPos = [iter + 1] ∧
      (passEvents sched last conditional iter lb r s lc).filterMap Event.outputPos =
        [iter + 1] ∧
      ∀ pos, Event.resampleFailed pos ∉ passEvents sched last conditional iter lb r s lc := by
  obtain ⟨h1, h2, h3⟩ := bridgeEvents_facts (S := S) sched last iter lb
  unfold passEvents
  refine ⟨?_, ?_, ?_⟩
  · simp only [List.filterMap_append, h1]
    split <;> simp [Event.predictPos]
  · simp only [List.filterMap_append, h2]
    split <;> simp [Event.outputPos]
  · intro pos
    simp only [List.mem_append, not_or]
    refine ⟨⟨⟨h3 pos, by simp⟩, ?_⟩, by simp⟩
    split <;> simp

theorem IsPasses_facts {T S : Type} (sched : Schedule) (last : Nat) (conditional : Bool) :
    ∀ (n iter : Nat) (ev : List (Event T S)), IsPasses sched last conditional iter n ev →
      ev.filterMap Event.predictPos = List.range' (iter + 1) n ∧
        ev.filterMap Event.outputPos = List.range' (iter + 1) n ∧
        ∀ pos, Event.resampleFailed pos ∉ ev := by
  intro n
  induction n with
  | zero =>
    intro iter ev h
    simp only [IsPasses] at h
    subst h
    simp
  | succ n ih =>
    intro iter ev h
    obtain ⟨lb, r, s, lc, rest, rfl, h1⟩ := h
    obtain ⟨h2, h3, h4⟩ := ih (iter + 1) rest h1
    obtain ⟨h5, h6, h7⟩ := passEvents_facts sched last conditional iter lb r s lc
    refine ⟨?_, ?_, ?_⟩
    · rw [List.filterMap_append, h5, h2, List.range'_succ]
      rfl
    · rw [List.filterMap_append, h6, h3, List.range'_succ]
      rfl
    · intro pos hmem
      rcases List.mem_append.1 hmem with h | h
      · exact h7 pos h
      · exact h4 pos h

theorem FailsLast_of_none {T R G α : Type} (c : Collaborators T R G) (sched : Schedule)
    (ev : List (Event T (State R))) (res : Run α (FilterState T R G))
    (h : ∀ pos, Event.resampleFailed pos ∉ ev) : FailsLast c sched ev res :=
  fun pos hmem => absurd hmem (h pos)

theorem FailsLast_prepend {T R G α : Type} (c : Collaborators T R G) (sched : Schedule)
    (ev1 ev2 : List (Event T (State R))) (res : Run α (FilterState T R G))
    (h1 : ∀ pos, Event.resampleFailed pos ∉ ev1) (h2 : FailsLast c sched ev2 res) :
    FailsLast c sched (ev1 ++ ev2) res := by
  intro pos hmem
  rcases List.mem_append.1 hmem with h | h
  · exact absurd h (h1 pos)
  · obtain ⟨⟨pre, hpre, hno⟩, hf⟩ := h2 pos h
    refine ⟨⟨ev1 ++ pre, by rw [hpre, List.append_assoc], ?_⟩, hf⟩
    intro pos1 hm
    rcases List.mem_append.1 hm with h3 | h3
    · exact h1 pos1 h3
    · exact hno pos1 h3

theorem FailsLast_none_of_done {T R G α : Type} (c : Collaborators T R G) (sched : Schedule)
    (ev : List (Event T (State R))) (res : Run α (FilterState T R G))
    (h : FailsLast c sched ev res) (r : α) (st : FilterState T R G) (hd : res = Run.done r st) :
    ∀ pos, Event.resampleFailed pos ∉ ev := by
  intro pos hmem
  exact (ResampleFailure_not_done c sched pos res (h pos hmem).2).1 r st hd

theorem FailsLast_transfer {T R G α β : Type} (c : Collaborators T R G) (sched : Schedule)
    (ev : List (Event T (State R))) (a : Run α (FilterState T R G))
    (b : Run β (FilterState T R G))
    (hab : (∃ st, a = Run.degenerated st ∧ b = Run.degenerated st) ∨
      (∃ st, a = Run.assertion st ∧ b = Run.assertion st) ∨
      (∃ st, a = Run.undefined st ∧ b = Run.undefined st))
    (h : FailsLast c sched ev a) : FailsLast c sched ev b :=
  fun pos hmem => ⟨(h pos hmem).1, ResampleFailure_transfer c sched pos a b hab (h pos hmem).2⟩

theorem IsPartialPass_failsLast {T R G α : Type} (c : Collaborators T R G) (sched : Schedule)
    (last iter : Nat) (ev : List (Event T (State R))) (res : Run α (FilterState T R G))
    (h : IsPartialPass c sched last iter ev res) : FailsLast c sched ev res := by
  rcases h with ⟨h1, _⟩ | ⟨lb, h1, h2⟩ | ⟨lb, r, h1, _⟩
  · subst h1
    exact FailsLast_of_none c sched [] res (by simp)
  · subst h1
    obtain ⟨_, _, h3⟩ := bridgeEvents_facts (S := State R) sched last iter lb
    intro pos hmem
    have hpos : pos = iter := by
      rcases List.mem_append.1 hmem with h | h
      · exact absurd h (h3 pos)
      · simpa using h
    subst hpos
    exact ⟨⟨_, rfl, h3⟩, h2⟩
  · subst h1
    obtain ⟨_, _, h3⟩ := bridgeEvents_facts (S := State R) sched last iter lb
    apply FailsLast_of_none
    intro pos hmem
    rcases List.mem_append.1 hmem with h | h
    · exact h3 pos h
    · simp at h

theorem BridgeParticleFilter.step_calls {T R G : Type} [Ring T]
    (c : Collaborators T R G) (sched : Schedule) (last : Nat) (X : Option (List R))
    (fuel iter : Nat) (st : FilterState T R G) :
    ∃ ev, (BridgeParticleFilter.step c sched X fuel iter last st).state.trace =
        st.trace ++ ev ∧
      FailsLast c sched ev (BridgeParticleFilter.step c sched X fuel iter last st) ∧
      (∀ st1, BridgeParticleFilter.step c sched X fuel iter last st ≠ Run.degenerated st1 ∨
        ∃ pos, Event.resampleFailed pos ∈ ev) ∧
      (∀ r st1, BridgeParticleFilter.step c sched X fuel iter last st = Run.done r st1 →
        iter < r.1 ∧
        ev.filterMap Event.predictPos = List.range' (iter + 1) (r.1 - iter) ∧
        ev.filterMap Event.outputPos = List.range' (iter + 1) (r.1 - iter)) := by
  obtain ⟨n, ev, rest, htr, hp, hcase⟩ := BridgeParticleFilter.stepLoop_passes c sched last X
    fuel iter 0 { st with trace := st.trace ++ [Event.step iter] }
  obtain ⟨hpp, hpo, hpf⟩ := IsPasses_facts sched last X.isSome n iter ev hp
  have hhead : ∀ pos, Event.resampleFailed pos ∉ ([Event.step iter] ++ ev :
      List (Event T (State R))) := by
    intro pos hmem
    rcases List.mem_append.1 hmem with h | h
    · simp at h
    · exact hpf pos h
  refine ⟨[Event.step iter] ++ ev ++ rest, ?_, ?_, ?_, ?_⟩
  · simp only [BridgeParticleFilter.step, htr, List.append_assoc]
  · apply FailsLast_prepend c sched _ _ _ hhead
    rcases hcase with ⟨r, st1, h1, h2, _, _⟩ | ⟨st1, h1, h2, _⟩ | ⟨_, _, h3⟩
    · subst h2
      exact FailsLast_of_none c sched [] _ (by simp)
    · subst h2
      exact FailsLast_of_none c sched [] _ (by simp)
    · exact IsPartialPass_failsLast c sched last (iter + n) rest _ h3
  · intro st1
    rcases hcase with ⟨r, st2, h1, _, _, _⟩ | ⟨st2, h1, _, _⟩ | ⟨_, _, h3⟩
    · left
      simp only [BridgeParticleFilter.step, h1]
      exact fun h => (by cases h)
    · left
      simp only [BridgeParticleFilter.step, h1]
      exact fun h => (by cases h)
    · rcases h3 with ⟨_, h4⟩ | ⟨lb, h4, _⟩ | ⟨lb, r, _, h4⟩
      · exact Or.inl (h4 st1)
      · right
        exact ⟨iter + n, by simp [h4]⟩
      · exact Or.inl (h4 st1)
  · intro r st1 hd
    rcases hcase with ⟨r1, st2, h1, h2, h3, h4⟩ | ⟨st2, h1, _, _⟩ | ⟨h1, _, _⟩
    · simp only [BridgeParticleFilter.step, h1, Run.done.injEq] at hd
      obtain ⟨rfl, _⟩ := hd
      subst h2
      have hn : r1.1 - iter = n := by omega
      simp only [List.filterMap_append, List.filterMap_nil, List.append_nil, hn]
      refine ⟨by omega, ?_, ?_⟩
      · rw [← hpp]
        simp [Event.predictPos]
      · rw [← hpo]
        simp [Event.outputPos]
    · simp only [BridgeParticleFilter.step, h1] at hd
      cases hd
    · exact absurd hd (h1 r st1)

theorem BridgeParticleFilter.filterLoop_calls {T R G : Type} [Ring T]
    (c : Collaborators T R G) (sched : Schedule) (last : Nat) (X : Option (List R))
    (n : Nat) :
    ∀ (fuel iter : Nat) (ll : T) (st : FilterState T R G),
      ∃ ev, (BridgeParticleFilter.filterLoop c sched last X n fuel iter ll st).state.trace =
          st.trace ++ ev ∧
        FailsLast c sched ev (BridgeParticleFilter.filterLoop c sched last X n fuel iter ll st) ∧
        (∀ st1, BridgeParticleFilter.filterLoop c sched last X n fuel iter ll st ≠
            Run.degenerated st1 ∨ ∃ pos, Event.resampleFailed pos ∈ ev) ∧
        (∀ r st1, BridgeParticleFilter.filterLoop c sched last X n fuel iter ll st =
            Run.done r st1 →
          iter ≤ r.1 ∧ r.1 + 1 = last ∧
          ev.filterMap Event.predictPos = List.range' (iter + 1) (r.1 - iter) ∧
          ev.filterMap Event.outputPos = List.range' (iter + 1) (r.1 - iter)) := by
  intro fuel
  induction fuel with
  | zero =>
    intro iter ll st
    refine ⟨[], ?_, FailsLast_of_none c sched [] _ (by simp), ?_, ?_⟩
    · simp only [BridgeParticleFilter.filterLoop]
      split <;> simp [Run.state]
    · intro st1
      left
      simp only [BridgeParticleFilter.filterLoop]
      split <;> exact fun h => (by cases h)
    · intro r st1 h
      simp only [BridgeParticleFilter.filterLoop] at h
      split at h
      · cases h
      · rename_i hl
        simp only [Run.done.injEq] at h
        obtain ⟨rfl, _⟩ := h
        simp only [ne_eq, not_not] at hl
        simp [hl]
  | succ fuel ih =>
    intro iter ll st
    by_cases hne : iter + 1 ≠ last
    · obtain ⟨ev1, h1, hF1, hD1, hS1⟩ :=
        BridgeParticleFilter.step_calls c sched last X n iter st
      cases hst : BridgeParticleFilter.step c sched X n iter last st with
      | done r st1 =>
        rw [hst] at h1
        simp only [Run.state] at h1
        obtain ⟨hlt, hp1, ho1⟩ := hS1 r st1 hst
        have hno1 := FailsLast_none_of_done c sched ev1 _ hF1 r st1 hst
        obtain ⟨ev2, h2, hF2, hD2, hS2⟩ := ih r.1 (ll + r.2) st1
        have heq : BridgeParticleFilter.filterLoop c sched last X n (fuel + 1) iter ll st =
            BridgeParticleFilter.filterLoop c sched last X n fuel r.1 (ll + r.2) st1 := by
          simp only [BridgeParticleFilter.filterLoop]
          rw [if_pos hne, hst]
        rw [heq]
        refine ⟨ev1 ++ ev2, ?_, FailsLast_prepend c sched ev1 ev2 _ hno1 hF2, ?_, ?_⟩
        · rw [h2, h1, List.append_assoc]
        · intro st2
          rcases hD2 st2 with h | ⟨pos, h⟩
          · exact Or.inl h
          · exact Or.inr ⟨pos, List.mem_append_right _ h⟩
        · intro r2 st2 hd
          obtain ⟨h3, h4, h5, h6⟩ := hS2 r2 st2 hd
          have hsplit : r2.1 - iter = (r.1 - iter) + (r2.1 - r.1) := by omega
          have hstart : iter + 1 + (r.1 - iter) = r.1 + 1 := by omega
          have hr : List.range' (iter + 1) (r.1 - iter) ++ List.range' (r.1 + 1) (r2.1 - r.1) =
              List.range' (iter + 1) (r2.1 - iter) := by
            have := List.range'_append_1 (iter + 1) (r.1 - iter) (r2.1 - r.1)
            rw [hstart] at this
            rw [this]
            congr 1
            omega
          refine ⟨by omega, h4, ?_, ?_⟩
          · rw [List.filterMap_append, hp1, h5, hr]
          · rw [List.filterMap_append, ho1, h6, hr]
      | degenerated st1 =>
        have heq : BridgeParticleFilter.filterLoop c sched last X n (fuel + 1) iter ll st =
            Run.degenerated st1 := by
          simp only [BridgeParticleFilter.filterLoop]
          rw [if_pos hne, hst]
        rw [heq]
        rw [hst] at h1 hF1
        refine ⟨ev1, h1, FailsLast_transfer c sched ev1 _ _ (Or.inl ⟨st1, rfl, rfl⟩) hF1, ?_,
          fun _ _ h => (by cases h)⟩
        intro st2
        rcases hD1 st1 with h | h
        · exact absurd hst h
        · exact Or.inr h
      | assertion st1 =>
        have heq : BridgeParticleFilter.filterLoop c sched last X n (fuel + 1) iter ll st =
            Run.assertion st1 := by
          simp only [BridgeParticleFilter.filterLoop]
          rw [if_pos hne, hst]
        rw [heq]
        rw [hst] at h1 hF1
        exact ⟨ev1, h1,
          FailsLast_transfer c sched ev1 _ _ (Or.inr (Or.inl ⟨st1, rfl, rfl⟩)) hF1,
          fun _ => Or.inl (fun h => (by cases h)), fun _ _ h => (by cases h)⟩
      | undefined st1 =>
        have heq : BridgeParticleFilter.filterLoop c sched last X n (fuel + 1) iter ll st =
            Run.undefined st1 := by
          simp only [BridgeParticleFilter.filterLoop]
          rw [if_pos hne, hst]
        rw [heq]
        rw [hst] at h1 hF1
        exact ⟨ev1, h1,
          FailsLast_transfer c sched ev1 _ _ (Or.inr (Or.inr ⟨st1, rfl, rfl⟩)) hF1,
          fun _ => Or.inl (fun h => (by cases h)), fun _ _ h => (by cases h)⟩
      | outOfFuel st1 =>
        have heq : BridgeParticleFilter.filterLoop c sched last X n (fuel + 1) iter ll st =
            Run.outOfFuel st1 := by
          simp only [BridgeParticleFilter.filterLoop]
          rw [if_pos hne, hst]
        rw [heq]
        rw [hst] at h1
        have hno : ∀ pos, Event.resampleFailed pos ∉ ev1 := by
          intro pos hmem
          have := (ResampleFailure_not_done c sched pos _ (hF1 pos hmem).2).2 st1
          exact this hst
        exact ⟨ev1, h1, FailsLast_of_none c sched ev1 _ hno,
          fun _ => Or.inl (fun h => (by cases h)), fun _ _ h => (by cases h)⟩
    · have heq : BridgeParticleFilter.filterLoop c sched last X n (fuel + 1) iter ll st =
          Run.done (iter, ll) st := by
        simp only [BridgeParticleFilter.filterLoop]
        rw [if_neg hne]
      rw [heq]
      refine ⟨[], by simp [Run.state], FailsLast_of_none c sched [] _ (by simp),
        fun _ => Or.inl (fun h => (by cases h)), ?_⟩
      intro r st1 h
      simp only [Run.done.injEq] at h
      obtain ⟨rfl, _⟩ := h
      simp only [ne_eq, not_not] at hne
      simp [hne]

theorem BridgeParticleFilter.filterRest_calls {T R G : Type} [Ring T]
    (c : Collaborators T R G) (sched : Schedule) (X : Option (List R))
    (fuel first last : Nat) (st2 : FilterState T R G) :
    ∃ ev, (BridgeParticleFilter.filterRest c sched X fuel first last st2).state.trace =
        st2.trace ++ ev ∧
      FailsLast c sched ev (BridgeParticleFilter.filterRest c sched X fuel first last st2) ∧
      (∀ st1, BridgeParticleFilter.filterRest c sched X fuel first last st2 ≠
          Run.degenerated st1 ∨ ∃ pos, Event.resampleFailed pos ∈ ev) ∧
      (∀ ll st1, BridgeParticleFilter.filterRest c sched X fuel first last st2 =
          Run.done ll st1 →
        first < last ∧
        ev.filterMap Event.predictPos = List.range' (first + 1) (last - 1 - first) ∧
        ev.filterMap Event.outputPos = List.range' first (last - first)) := by
  obtain ⟨ev, h1, hF, hD, hS⟩ := BridgeParticleFilter.filterLoop_calls c sched last X fuel
    fuel first (c.correct (sched first) st2.p.s st2.p.lws st2.p.blws).1
    { p := { st2.p with
             lws := (c.correct (sched first) st2.p.s st2.p.lws st2.p.blws).2.1
             blws := (c.correct (sched first) st2.p.s st2.p.lws st2.p.blws).2.2 },
      trace := st2.trace ++ [Event.output0,
        Event.correct first st2.p.s (c.correct (sched first) st2.p.s st2.p.lws st2.p.blws).1,
        Event.output first st2.p.s false] }
  have hhead : ∀ pos, Event.resampleFailed pos ∉ ([Event.output0,
      Event.correct first st2.p.s (c.correct (sched first) st2.p.s st2.p.lws st2.p.blws).1,
      Event.output first st2.p.s false] : List (Event T (State R))) := by
    intro pos
    simp
  unfold BridgeParticleFilter.filterRest
  simp only
  cases hfl : BridgeParticleFilter.filterLoop c sched last X fuel fuel first
      (c.correct (sched first) st2.p.s st2.p.lws st2.p.blws).1
      { p := { st2.p with
               lws := (c.correct (sched first) st2.p.s st2.p.lws st2.p.blws).2.1
               blws := (c.correct (sched first) st2.p.s st2.p.lws st2.p.blws).2.2 },
        trace := st2.trace ++ [Event.output0,
          Event.correct first st2.p.s (c.correct (sched first) st2.p.s st2.p.lws st2.p.blws).1,
          Event.output first st2.p.s false] } with
  | done res st4 =>
    rw [hfl] at h1
    simp only [Run.state] at h1
    have hno := FailsLast_none_of_done c sched ev _ hF res st4 hfl
    obtain ⟨h3, h4, h5, h6⟩ := hS res st4 hfl
    have hres : res.1 - first = last - 1 - first := by omega
    refine ⟨[Event.output0,
      Event.correct first st2.p.s (c.correct (sched first) st2.p.s st2.p.lws st2.p.blws).1,
      Event.output first st2.p.s false] ++ ev ++ [Event.term, Event.outputT res.2], ?_, ?_,
      fun _ => Or.inl (fun h => (by cases h)), ?_⟩
    · simp only [Run.state, h1, List.append_assoc]
    · apply FailsLast_of_none
      intro pos hmem
      rcases List.mem_append.1 hmem with h | h
      · rcases List.mem_append.1 h with h | h
        · exact hhead pos h
        · exact hno pos h
      · simp at h
    · intro ll st1 _
      refine ⟨by omega, ?_, ?_⟩
      · simp only [List.filterMap_append, h5, hres]
        simp [Event.predictPos]
      · simp only [List.filterMap_append, h6, hres]
        have hl : last - first = (last - 1 - first) + 1 := by omega
        rw [hl, List.range'_succ]
        simp [Event.outputPos]
  | degenerated st4 =>
    rw [hfl] at h1 hF
    refine ⟨[Event.output0,
      Event.correct first st2.p.s (c.correct (sched first) st2.p.s st2.p.lws st2.p.blws).1,
      Event.output first st2.p.s false] ++ ev, by simpa [Run.state] using h1,
      FailsLast_prepend c sched _ ev _ hhead
        (FailsLast_transfer c sched ev _ _ (Or.inl ⟨st4, rfl, rfl⟩) hF), ?_,
      fun _ _ h => (by cases h)⟩
    intro st1
    rcases hD st4 with h | ⟨pos, h⟩
    · exact absurd hfl h
    · exact Or.inr ⟨pos, List.mem_append_right _ h⟩
  | assertion st4 =>
    rw [hfl] at h1 hF
    exact ⟨[Event.output0,
      Event.correct first st2.p.s (c.correct (sched first) st2.p.s st2.p.lws st2.p.blws).1,
      Event.output first st2.p.s false] ++ ev, by simpa [Run.state] using h1,
      FailsLast_prepend c sched _ ev _ hhead
        (FailsLast_transfer c sched ev _ _ (Or.inr (Or.inl ⟨st4, rfl, rfl⟩)) hF),
      fun _ => Or.inl (fun h => (by cases h)), fun _ _ h => (by cases h)⟩
  | undefined st4 =>
    rw [hfl] at h1 hF
    exact ⟨[Event.output0,
      Event.correct first st2.p.s (c.correct (sched first) st2.p.s st2.p.lws st2.p.blws).1,
      Event.output first st2.p.s false] ++ ev, by simpa [Run.state] using h1,
      FailsLast_prepend c sched _ ev _ hhead
        (FailsLast_transfer c sched ev _ _ (Or.inr (Or.inr ⟨st4, rfl, rfl⟩)) hF),
      fun _ => Or.inl (fun h => (by cases h)), fun _ _ h => (by cases h)⟩
  | outOfFuel st4 =>
    rw [hfl] at h1
    have hno : ∀ pos, Event.resampleFailed pos ∉ ev := by
      intro pos hmem
      exact (ResampleFailure_not_done c sched pos _ (hF pos hmem).2).2 st4 hfl
    refine ⟨[Event.output0,
      Event.correct first st2.p.s (c.correct (sched first) st2.p.s st2.p.lws st2.p.blws).1,
      Event.output first st2.p.s false] ++ ev, by simpa [Run.state] using h1, ?_,
      fun _ => Or.inl (fun h => (by cases h)), fun _ _ h => (by cases h)⟩
    apply FailsLast_of_none
    intro pos hmem
    rcases List.mem_append.1 hmem with h | h
    · exact hhead pos h
    · exact hno pos h

theorem BridgeParticleFilter.filterFrom_calls {T R G : Type} [Ring T]
    (c : Collaborators T R G) (sched : Schedule) (X : Option (List R))
    (fuel first last : Nat) (p1 : Particles T R G) :
    FailsLast c sched (BridgeParticleFilter.filterFrom c sched X fuel first last p1).state.trace
        (BridgeParticleFilter.filterFrom c sched X fuel first last p1) ∧
      (∀ st1, BridgeParticleFilter.filterFrom c sched X fuel first last p1 ≠
          Run.degenerated st1 ∨
        ∃ pos, Event.resampleFailed pos ∈
          (BridgeParticleFilter.filterFrom c sched X fuel first last p1).state.trace) ∧
      (∀ ll st1, BridgeParticleFilter.filterFrom c sched X fuel first last p1 =
          Run.done ll st1 →
        first < last ∧
        st1.trace.filterMap Event.predictPos = List.range' (first + 1) (last - 1 - first) ∧
        st1.trace.filterMap Event.outputPos = List.range' first (last - first)) := by
  have key : ∀ st2 : FilterState T R G,
      (∀ pos, Event.resampleFailed pos ∉ st2.trace) →
      st2.trace.filterMap Event.predictPos = [] → st2.trace.filterMap Event.outputPos = [] →
      FailsLast c sched (BridgeParticleFilter.filterRest c sched X fuel first last st2).state.trace
          (BridgeParticleFilter.filterRest c sched X fuel first last st2) ∧
        (∀ st1, BridgeParticleFilter.filterRest c sched X fuel first last st2 ≠
            Run.degenerated st1 ∨
          ∃ pos, Event.resampleFailed pos ∈
            (BridgeParticleFilter.filterRest c sched X fuel first last st2).state.trace) ∧
        (∀ ll st1, BridgeParticleFilter.filterRest c sched X fuel first last st2 =
            Run.done ll st1 →
          first < last ∧
          st1.trace.filterMap Event.predictPos = List.range' (first + 1) (last - 1 - first) ∧
          st1.trace.filterMap Event.outputPos = List.range' first (last - first)) := by
    intro st2 hno hp ho
    obtain ⟨ev, h1, hF, hD, hS⟩ :=
      BridgeParticleFilter.filterRest_calls c sched X fuel first last st2
    rw [h1]
    refine ⟨FailsLast_prepend c sched _ ev _ hno hF, ?_, ?_⟩
    · intro st1
      rcases hD st1 with h | ⟨pos, h⟩
      · exact Or.inl h
      · exact Or.inr ⟨pos, List.mem_append_right _ h⟩
    · intro ll st1 hd
      obtain ⟨h2, h3, h4⟩ := hS ll st1 hd
      rw [hd] at h1
      simp only [Run.state] at h1
      rw [h1, List.filterMap_append, List.filterMap_append, hp, ho, h3, h4]
      exact ⟨h2, rfl, rfl⟩
  unfold BridgeParticleFilter.filterFrom
  cases X with
  | none =>
    exact key { p := p1, trace := [Event.init first] } (by simp) rfl rfl
  | some X1 =>
    simp only
    cases hw : writeRow0 p1.s X1 0 with
    | none =>
      simp only [Run.state]
      exact ⟨FailsLast_of_none c sched _ _ (by simp), fun _ => Or.inl (fun h => (by cases h)),
        fun _ _ h => (by cases h)⟩
    | some s1 =>
      exact key { p := { p1 with s := s1 }, trace := [Event.init first] ++ [Event.write first 0] }
        (by simp) rfl rfl

/-! ## Bridge particle filter: order of the calls, termination, degeneracy -/

/-- C32: every call of `step`, plain (`X = none`) or conditional (`X = some _`),
records after the call itself the calls of `n` complete passes through the body of
its loop, from the consecutive positions `iter`, `iter + 1`, ...; each pass is
exactly `bridge` (preceded by the call of the model when the guard of `bridge`
holds), `resample`, `predict`, the conditional write (only with a reference path,
at a point with output), `correct`, `output`, where `bridge` and `resample` are
for the point before the advance of `iter` and `predict`, `correct`, `output` for
the point after it, and `output` receives the flag returned by the `resample` of
the same pass.  When the call returns nothing else is recorded, `n ≥ 1` and `iter`
has advanced by `n`; when it fails, the calls end with an incomplete pass. -/
theorem step_phase_order {T R G : Type} [Ring T] (c : Collaborators T R G)
    (sched : Schedule) (X : Option (List R)) (fuel iter last : Nat)
    (st : FilterState T R G) :
    ∃ n ev rest,
      (BridgeParticleFilter.step c sched X fuel iter last st).state.trace =
        st.trace ++ Event.step iter :: (ev ++ rest) ∧
      IsPasses sched last X.isSome iter n ev ∧
      ((∃ r st1, BridgeParticleFilter.step c sched X fuel iter last st = Run.done r st1 ∧
          rest = [] ∧ r.1 = iter + n ∧ 1 ≤ n) ∨
        (∃ st1, BridgeParticleFilter.step c sched X fuel iter last st = Run.outOfFuel st1 ∧
          rest = [] ∧ n = fuel) ∨
        ((∀ r st1, BridgeParticleFilter.step c sched X fuel iter last st ≠ Run.done r st1) ∧
          (∀ st1, BridgeParticleFilter.step c sched X fuel iter last st ≠ Run.outOfFuel st1) ∧
          IsPartialPass c sched last (iter + n) rest
            (BridgeParticleFilter.step c sched X fuel iter last st))) := by
  obtain ⟨n, ev, rest, htr, hp, hcase⟩ := BridgeParticleFilter.stepLoop_passes c sched last X
    fuel iter 0 { st with trace := st.trace ++ [Event.step iter] }
  refine ⟨n, ev, rest, ?_, hp, hcase⟩
  simp only [BridgeParticleFilter.step, htr]
  simp

/-- C34: for every schedule with `k ≥ 1` points (`last = first + k`), every
behaviour of the collaborators and each overload of `filter`, run with at least
`k` steps allowed: the run does not use them up; each call of `step` made from a
position `iter` with `iter + 1 < last` does not use them up either and, when it
returns, has advanced `iter` by at least one position, to a position before
`last` that is observed or has `iter + 1 = last`; when the filter returns,
`predict` was called exactly `k - 1` times, for the positions `first + 1, ...,
last - 1` in this order, and `output` exactly `k` times, for the positions
`first, ..., last - 1` in this order; and the filter does return when the
collaborators do not fail. -/
theorem filter_visits_every_point {T R G : Type} [Ring T] (c : Collaborators T R G)
    (sched : Schedule) (theta : Bool) (X : Option (List R)) (fuel first k : Nat) (rng : G)
    (s : State R) (hk : 1 ≤ k) (hfuel : k ≤ fuel) :
    (∀ st, BridgeParticleFilter.filterBody c sched theta X fuel first (first + k) rng s ≠
        Run.outOfFuel st) ∧
    (∀ iter st, first ≤ iter → iter + 1 < first + k →
      (∀ st1, BridgeParticleFilter.step c sched X fuel iter (first + k) st ≠
        Run.outOfFuel st1) ∧
      ∀ r st1, BridgeParticleFilter.step c sched X fuel iter (first + k) st = Run.done r st1 →
        iter < r.1 ∧ r.1 < first + k ∧
          (r.1 + 1 = first + k ∨ (sched r.1).isObserved = true)) ∧
    (∀ ll st, BridgeParticleFilter.filterBody c sched theta X fuel first (first + k) rng s =
        Run.done ll st →
      st.trace.filterMap Event.predictPos = List.range' (first + 1) (k - 1) ∧
      st.trace.filterMap Event.outputPos = List.range' first k) ∧
    (Collaborators.Regular c sched X first (first + k) →
      (X ≠ none → 0 < s.size ∧ 0 < s.rows.length) →
      ∃ ll st, BridgeParticleFilter.filterBody c sched theta X fuel first (first + k) rng s =
        Run.done ll st) := by
  refine ⟨?_, ?_, ?_, ?_⟩
  · intro st
    unfold BridgeParticleFilter.filterBody
    exact BridgeParticleFilter.filterFrom_fuel c sched X fuel first k _ hk hfuel st
  · intro iter st h1 h2
    exact BridgeParticleFilter.stepLoop_fuel c sched (first + k) X fuel iter 0
      { st with trace := st.trace ++ [Event.step iter] } h2 (by omega)
  · intro ll st h
    unfold BridgeParticleFilter.filterBody at h
    obtain ⟨_, _, hS⟩ := BridgeParticleFilter.filterFrom_calls c sched X fuel first (first + k)
      (if theta then c.initTheta (sched first)
          { rng := rng, s := s, lws := List.replicate s.size 0,
            blws := List.replicate s.size 0, as := List.replicate s.size 0 }
        else c.init (sched first)
          { rng := rng, s := s, lws := List.replicate s.size 0,
            blws := List.replicate s.size 0, as := List.replicate s.size 0 })
    obtain ⟨_, h3, h4⟩ := hS ll st h
    have e1 : first + k - 1 - first = k - 1 := by omega
    have e2 : first + k - first = k := by omega
    rw [e1] at h3
    rw [e2] at h4
    exact ⟨h3, h4⟩
  · intro hreg hs
    exact BridgeParticleFilter.filterBody_ok c sched theta X fuel first k rng s hk hfuel hreg hs

/-- Witness of C34: the example collaborators on the example schedule, three
points from position `0`, two particles. -/
theorem filter_visits_every_point_witness :
    (∀ st, BridgeParticleFilter.filterBody exampleCollaborators exampleSchedule false none 3 0
        (0 + 3) 0 { rows := ["a", "b"], size := 2 } ≠ Run.outOfFuel st) ∧
    (∀ iter st, 0 ≤ iter → iter + 1 < 0 + 3 →
      (∀ st1, BridgeParticleFilter.step exampleCollaborators exampleSchedule none 3 iter (0 + 3)
        st ≠ Run.outOfFuel st1) ∧
      ∀ r st1, BridgeParticleFilter.step exampleCollaborators exampleSchedule none 3 iter
          (0 + 3) st = Run.done r st1 →
        iter < r.1 ∧ r.1 < 0 + 3 ∧
          (r.1 + 1 = 0 + 3 ∨ (exampleSchedule r.1).isObserved = true)) ∧
    (∀ ll st, BridgeParticleFilter.filterBody exampleCollaborators exampleSchedule false none 3
        0 (0 + 3) 0 { rows := ["a", "b"], size := 2 } = Run.done ll st →
      st.trace.filterMap Event.predictPos = List.range' (0 + 1) (3 - 1) ∧
      st.trace.filterMap Event.outputPos = List.range' 0 3) ∧
    (Collaborators.Regular exampleCollaborators exampleSchedule (none : Option (List String)) 0
        (0 + 3) →
      ((none : Option (List String)) ≠ none →
        0 < ({ rows := ["a", "b"], size := 2 } : State String).size ∧
          0 < ({ rows := ["a", "b"], size := 2 } : State String).rows.length) →
      ∃ ll st, BridgeParticleFilter.filterBody exampleCollaborators exampleSchedule false none 3
        0 (0 + 3) 0 { rows := ["a", "b"], size := 2 } = Run.done ll st) :=
  filter_visits_every_point exampleCollaborators exampleSchedule false none 3 0 3 0
    { rows := ["a", "b"], size := 2 } (by decide) (by decide)

/-- C31: in every run of `filter` (each overload) in which a call of `resample`
fails, for the schedule point at `pos`: that failed call is the last call of the
run (no `predict`, `correct`, `output`, `term` or `outputT` follows it) and the
only failed `resample`, the run returns no log-likelihood, and the run ends with
the failure of that call: when `resample` threw
`ParticleFilterDegeneratedException` the run ends with that exception, carrying
the particles the call left. -/
theorem degeneracy_aborts {T R G : Type} [Ring T] (c : Collaborators T R G)
    (sched : Schedule) (theta : Bool) (X : Option (List R)) (fuel first last : Nat) (rng : G)
    (s : State R) (pos : Nat)
    (h : Event.resampleFailed pos ∈
      (BridgeParticleFilter.filterBody c sched theta X fuel first last rng s).state.trace) :
    (∃ pre, (BridgeParticleFilter.filterBody c sched theta X fuel first last rng s).state.trace =
        pre ++ [Event.resampleFailed pos] ∧ ∀ pos1, Event.resampleFailed pos1 ∉ pre) ∧
    (∀ ll st, BridgeParticleFilter.filterBody c sched theta X fuel first last rng s ≠
      Run.done ll st) ∧
    ∃ p,
      (c.resample (sched pos) p = Outcome.degenerated
          (BridgeParticleFilter.filterBody c sched theta X fuel first last rng s).state.p ∧
        BridgeParticleFilter.filterBody c sched theta X fuel first last rng s =
          Run.degenerated
            (BridgeParticleFilter.filterBody c sched theta X fuel first last rng s).state) ∨
      (c.resample (sched pos) p = Outcome.assertion ∧
        BridgeParticleFilter.filterBody c sched theta X fuel first last rng s =
          Run.assertion
            (BridgeParticleFilter.filterBody c sched theta X fuel first last rng s).state) ∨
      (c.resample (sched pos) p = Outcome.undefined ∧
        BridgeParticleFilter.filterBody c sched theta X fuel first last rng s =
          Run.undefined
            (BridgeParticleFilter.filterBody c sched theta X fuel first last rng s).state) := by
  unfold BridgeParticleFilter.filterBody at h ⊢
  obtain ⟨hF, _, _⟩ := BridgeParticleFilter.filterFrom_calls c sched X fuel first last
    (if theta then c.initTheta (sched first)
        { rng := rng, s := s, lws := List.replicate s.size 0,
          blws := List.replicate s.size 0, as := List.replicate s.size 0 }
      else c.init (sched first)
        { rng := rng, s := s, lws := List.replicate s.size 0,
          blws := List.replicate s.size 0, as := List.replicate s.size 0 })
  obtain ⟨h1, h2⟩ := hF pos h
  exact ⟨h1, fun ll st => (ResampleFailure_not_done c sched pos _ h2).1 ll st, h2⟩

/-- Witness of C31: the resampling example collaborators on the example schedule,
three points from position `0`, two particles: `correct` at the observed point `1`
lets every weight underflow, and the `resample` for that point throws. -/
theorem degeneracy_aborts_witness :
    (∃ pre, (BridgeParticleFilter.filterBody resamplingCollaborators exampleSchedule false none
          3 0 3 0 { rows := ["a", "b"], size := 2 }).state.trace =
        pre ++ [Event.resampleFailed 1] ∧ ∀ pos1, Event.resampleFailed pos1 ∉ pre) ∧
    (∀ ll st, BridgeParticleFilter.filterBody resamplingCollaborators exampleSchedule false none
        3 0 3 0 { rows := ["a", "b"], size := 2 } ≠ Run.done ll st) ∧
    ∃ p,
      (resamplingCollaborators.resample (exampleSchedule 1) p = Outcome.degenerated
          (BridgeParticleFilter.filterBody resamplingCollaborators exampleSchedule false none
            3 0 3 0 { rows := ["a", "b"], size := 2 }).state.p ∧
        BridgeParticleFilter.filterBody resamplingCollaborators exampleSchedule false none
            3 0 3 0 { rows := ["a", "b"], size := 2 } =
          Run.degenerated
            (BridgeParticleFilter.filterBody resamplingCollaborators exampleSchedule false none
              3 0 3 0 { rows := ["a", "b"], size := 2 }).state) ∨
      (resamplingCollaborators.resample (exampleSchedule 1) p = Outcome.assertion ∧
        BridgeParticleFilter.filterBody resamplingCollaborators exampleSchedule false none
            3 0 3 0 { rows := ["a", "b"], size := 2 } =
          Run.assertion
            (BridgeParticleFilter.filterBody resamplingCollaborators exampleSchedule false none
              3 0 3 0 { rows := ["a", "b"], size := 2 }).state) ∨
      (resamplingCollaborators.resample (exampleSchedule 1) p = Outcome.undefined ∧
        BridgeParticleFilter.filterBody resamplingCollaborators exampleSchedule false none
            3 0 3 0 { rows := ["a", "b"], size := 2 } =
          Run.undefined
            (BridgeParticleFilter.filterBody resamplingCollaborators exampleSchedule false none
              3 0 3 0 { rows := ["a", "b"], size := 2 }).state) :=
  degeneracy_aborts resamplingCollaborators exampleSchedule false none 3 0 3 0
    { rows := ["a", "b"], size := 2 } 1
    (by
      have ht : (BridgeParticleFilter.filterBody resamplingCollaborators exampleSchedule false
          none 3 0 3 0 { rows := ["a", "b"], size := 2 }).state.trace =
          [Event.init 0, Event.output0, Event.correct 0 { rows := ["a", "b"], size := 2 } 0,
            Event.output 0 { rows := ["a", "b"], size := 2 } false, Event.step 0,
            Event.bridgeLogDensities 0, Event.bridge 0 1, Event.resample 0 true,
            Event.predict 1, Event.correct 1 { rows := ["b+", "b+"], size := 2 } 2,
            Event.output 1 { rows := ["b+", "b+"], size := 2 } true, Event.step 1,
            Event.bridge 1 0, Event.resampleFailed 1] := rfl
      rw [ht]
      simp)

/-- C33 (counterexample): one pass through the body of the loop of the
conditional `step` from position `0`, on two particles `a`, `b`, with the
reference path `[x0, x1, x2]` and collaborators whose `resample` gives every
offspring to particle `1` and whose `predict` appends `+`.  The calls are recorded
in the order `resample`, `predict`, write, and the pass leaves the ensemble
`[x1, b+]`: the in-place copy (to `[b, b]`) comes first, then `predict`, then the
write of row `0`.  In the order `predict`, write, in-place copy the ensemble would
be `[b+, b+]`. -/
theorem step_copies_before_predict :
    (∃ r st1, BridgeParticleFilter.stepBody resamplingCollaborators exampleSchedule 3
          (some ["x0", "x1", "x2"]) 0 (exampleFilterState [0, 0]) = Run.done r st1 ∧
        st1.p.s = { rows := ["x1", "b+"], size := 2 } ∧
        st1.trace = [Event.bridgeLogDensities 0, Event.bridge 0 8, Event.resample 0 true,
          Event.predict 1, Event.write 1 1,
          Event.correct 1 { rows := ["x1", "b+"], size := 2 } 2,
          Event.output 1 { rows := ["x1", "b+"], size := 2 } true]) ∧
      ensembleInClaimedOrder resamplingCollaborators exampleSchedule ["x0", "x1", "x2"] 0
        (exampleFilterState [0, 0]).p = some { rows := ["b+", "b+"], size := 2 } :=
  ⟨⟨_, _, rfl, rfl, rfl⟩, rfl⟩

/-- C33 (amended): in every completed pass through the body of the loop of `step`
the ensemble is mutated only by the in-place copy of `resample`, by `predict` and
by the conditional-row write, in this order: `bridge` returns with the ensemble
unchanged, `resample` is invoked on it, `predict` on the ensemble `resample` left,
the conditional write (with a reference path, at a point with output) on the
ensemble `predict` left, and `correct` and `output`, the last calls of the pass,
on the resulting ensemble, which is the one the pass leaves.  A call of
`StratifiedResampler::resample` that returns false leaves the ensemble unchanged,
and one that returns true leaves the in-place copy of it along the new ancestry. -/
theorem step_mutation_order {T R G U K : Type} [Ring T] [LinearOrder U] [Sub U] [Zero U]
    [LinearOrderedField K] (c : Collaborators T R G) (sched : Schedule) (last : Nat)
    (X : Option (List R)) (iter : Nat) (st : FilterState T R G) (r : T × T)
    (st1 : FilterState T R G)
    (h : BridgeParticleFilter.stepBody c sched last X iter st = Run.done r st1) :
    (∃ lb stb rf p3, BridgeParticleFilter.bridge c sched iter last st = Run.done lb stb ∧
      stb.p.s = st.p.s ∧
      c.resample (sched iter) stb.p = Outcome.ok rf p3 ∧
      (X = none → st1.p.s = (c.predict p3.rng (sched (iter + 1)) p3.s).2) ∧
      (∀ X1, X = some X1 →
        if (sched (iter + 1)).hasOutput then
          writeRow0 (c.predict p3.rng (sched (iter + 1)) p3.s).2 X1
            (sched (iter + 1)).indexOutput = some st1.p.s
        else st1.p.s = (c.predict p3.rng (sched (iter + 1)) p3.s).2) ∧
      ∃ pre, st1.trace = pre ++
        [Event.correct (iter + 1) st1.p.s r.2, Event.output (iter + 1) st1.p.s rf]) ∧
    ∀ (self : StratifiedResampler U K) (rst rst1 : ResampleState U R K) (rr : Bool),
      StratifiedResampler.resample self rst = Outcome.ok rr rst1 →
        (rr = false ∧ rst1.s = rst.s) ∨
        (rr = true ∧ Resampler.copyState rst1.as rst.s = some rst1.s) := by
  constructor
  · rcases BridgeParticleFilter.bridge_shape c sched iter last st with
      ⟨lb, stb, hb, hs, _, _, _⟩ | hb | hb
    · unfold BridgeParticleFilter.stepBody at h
      rw [hb] at h
      simp only at h
      cases hr : c.resample (sched iter) stb.p with
      | ok rf p3 =>
        rw [hr] at h
        simp only at h
        cases hw : BridgeParticleFilter.conditionalWrite sched X (iter + 1)
            ({ p := { p3 with rng := (c.predict p3.rng (sched (iter + 1)) p3.s).1,
                              s := (c.predict p3.rng (sched (iter + 1)) p3.s).2 },
               trace := stb.trace ++ [Event.bridge iter lb] ++
                [Event.resample iter rf, Event.predict (iter + 1)] } : FilterState T R G) with
        | none => rw [hw] at h; cases h
        | some st5 =>
          rw [hw] at h
          simp only [Run.done.injEq] at h
          obtain ⟨rfl, rfl⟩ := h
          obtain ⟨_, hsn, hsw⟩ :=
            BridgeParticleFilter.conditionalWrite_shape sched X (iter + 1) _ st5 hw
          exact ⟨lb, stb, rf, p3, hb, hs, hr, hsn, hsw, st5.trace, rfl⟩
      | degenerated p3 => rw [hr] at h; cases h
      | assertion => rw [hr] at h; cases h
      | undefined => rw [hr] at h; cases h
    · unfold BridgeParticleFilter.stepBody at h
      rw [hb] at h
      cases h
    · unfold BridgeParticleFilter.stepBody at h
      rw [hb] at h
      cases h
  · intro self rst rst1 rr hres
    unfold StratifiedResampler.resample at hres
    split at hres
    · cases hres
    · split at hres
      · cases hco : StratifiedResampler.cumulativeOffspring self rst.env rst.lws
            (List.replicate rst.lws.length 0) (rst.lws.length : Int) with
        | ok u res =>
          obtain ⟨env1, Os⟩ := res
          rw [hco] at hres
          simp only at hres
          cases hp : Resampler.cumulativeOffspringToAncestorsPermute Os with
          | none => rw [hp] at hres; cases hres
          | some as1 =>
            rw [hp] at hres
            simp only at hres
            cases hc : Resampler.copyState as1 rst.s with
            | none => rw [hc] at hres; cases hres
            | some s1 =>
              rw [hc] at hres
              simp only [Outcome.ok.injEq] at hres
              obtain ⟨rfl, rfl⟩ := hres
              exact Or.inr ⟨rfl, hc⟩
        | degenerated res =>
          obtain ⟨env1, Os⟩ := res
          rw [hco] at hres
          cases hres
        | assertion => rw [hco] at hres; cases hres
        | undefined => rw [hco] at hres; cases hres
      · simp only [Outcome.ok.injEq] at hres
        obtain ⟨rfl, rfl⟩ := hres
        exact Or.inl ⟨rfl, rfl⟩

/-- Witness of C33 (amended): the pass of the counterexample, with the stratified
resampler over integer log-weights and rational weights. -/
theorem step_mutation_order_witness :
    (∃ lb stb rf p3,
      BridgeParticleFilter.bridge resamplingCollaborators exampleSchedule 0 3
        (exampleFilterState [0, 0]) = Run.done lb stb ∧
      stb.p.s = (exampleFilterState [0, 0]).p.s ∧
      resamplingCollaborators.resample (exampleSchedule 0) stb.p = Outcome.ok rf p3 ∧
      ((some ["x0", "x1", "x2"] : Option (List String)) = none →
        ({ rows := ["x1", "b+"], size := 2 } : State String) =
          (resamplingCollaborators.predict p3.rng (exampleSchedule (0 + 1)) p3.s).2) ∧
      (∀ X1, (some ["x0", "x1", "x2"] : Option (List String)) = some X1 →
        if (exampleSchedule (0 + 1)).hasOutput then
          writeRow0 (resamplingCollaborators.predict p3.rng (exampleSchedule (0 + 1)) p3.s).2 X1
            (exampleSchedule (0 + 1)).indexOutput = some { rows := ["x1", "b+"], size := 2 }
        else ({ rows := ["x1", "b+"], size := 2 } : State String) =
          (resamplingCollaborators.predict p3.rng (exampleSchedule (0 + 1)) p3.s).2) ∧
      ∃ pre, [Event.bridgeLogDensities 0, Event.bridge 0 8, Event.resample 0 true,
          Event.predict 1, Event.write 1 1,
          Event.correct 1 { rows := ["x1", "b+"], size := 2 } 2,
          Event.output 1 { rows := ["x1", "b+"], size := 2 } true] = pre ++
        [Event.correct (0 + 1) ({ rows := ["x1", "b+"], size := 2 } : State String) (2 : Int),
          Event.output (0 + 1) { rows := ["x1", "b+"], size := 2 } rf]) ∧
    ∀ (self : StratifiedResampler Int ℚ) (rst rst1 : ResampleState Int String ℚ) (rr : Bool),
      StratifiedResampler.resample self rst = Outcome.ok rr rst1 →
        (rr = false ∧ rst1.s = rst.s) ∨
        (rr = true ∧ Resampler.copyState rst1.as rst.s = some rst1.s) :=
  @step_mutation_order Int String Nat Int ℚ _ _ _ _ _ resamplingCollaborators exampleSchedule 3
    (some ["x0", "x1", "x2"]) 0 (exampleFilterState [0, 0]) (8, 2)
    { p := { rng := 1, s := { rows := ["x1", "b+"], size := 2 }, lws := [-2000, -2000],
             blws := [3, 3], as := [1, 1] },
      trace := [Event.bridgeLogDensities 0, Event.bridge 0 8, Event.resample 0 true,
          Event.predict 1, Event.write 1 1,
          Event.correct 1 { rows := ["x1", "b+"], size := 2 } 2,
          Event.output 1 { rows := ["x1", "b+"], size := 2 } true] }
    rfl

end bi
